import Mathlib

/-!
# Unscented Kalman filter (cartographer/kalman_filter/unscented_kalman_filter.h)

A shallow embedding of the generic filter
`template <typename FloatType, int N> class UnscentedKalmanFilter` and of the
free functions in front of it (`sqr`, `OuterProduct`, `CheckSymmetric`,
`MatrixSqrt`).

* The scalar type `FloatType` is a type parameter `F` carrying an ordered field
  structure.  The two scalar operations that are not field operations,
  `std::sqrt` and `std::isnan`, are passed in a record `FloatOps F`.  The
  theorems about exact arithmetic instantiate `F` with the real numbers,
  `sqrt` with `Real.sqrt` and `isnan` with the constant `false`.
* `Eigen::Matrix<FloatType, N, 1>` is `Fin N → F`,
  `Eigen::Matrix<FloatType, N, K>` is `Matrix (Fin N) (Fin K) F`.
* `std::vector<StateType>` is `List (Fin N → F)`; `v[i]` is `v.getD i 0`.
* A failing `CHECK` aborts the process: every function with a `CHECK` returns
  `Except Failure _`, and a failed call produces no new filter state.
* `Eigen::SelfAdjointEigenSolver` belongs to the Eigen library; it is a
  parameter `solver` of the functions that construct one, and the theorems
  state what they assume of its result (`IsEigenDecomposition`,
  `SolverCorrectAt`); `exists_solverCorrectAt` shows that the assumption can
  be met at every real matrix.
* `S.inverse()` is the inverse over the field, and `none` for a singular
  matrix, where IEEE arithmetic yields no finite coefficient (`inverse`).
* The two loops of `ComputeMean` are recursions on a counter that starts at
  the number of rounds the checks of the loops allow (`lineSearch`,
  `meanLoop`); `lineSearch_ten` and `meanLoop_twenty` show that a larger
  counter gives the same result.
-/

namespace cartographer
namespace kalman_filter

open Matrix

/-! ## Scalars, vectors and failures -/

/-- Operations of `FloatType` used by the filter besides field arithmetic and
comparison: `std::sqrt` and `std::isnan`. -/
structure FloatOps (F : Type) where
  /-- The function std::sqrt. -/
  sqrt : F → F
  /-- The function std::isnan. -/
  isnan : F → Bool

/-- The fatal checks of the header, one constructor for each `CHECK`. -/
inductive Failure where
  /-- The check in CheckSymmetric, "Symmetry check failed with norm". -/
  | SymmetryCheckFailed
  /-- The check in MatrixSqrt, "MatrixSqrt failed with negative eigenvalues". -/
  | NegativeEigenvalues
  /-- The check CHECK_NEAR(delta.GetMean().norm(), 0., 1e-9) in Observe. -/
  | NonZeroMeanDelta
  /-- The check CHECK_EQ(states.size(), 2 * N + 1) in ComputeMean. -/
  | WrongNumberOfStates
  /-- The check in ComputeMean, "Step size too small, line search failed." -/
  | StepSizeTooSmall
  /-- The check in ComputeMean, "Too many iterations." -/
  | TooManyIterations
  deriving DecidableEq

variable {F : Type} [LinearOrderedField F] {N K : ℕ}

/-- The function `sqr`: `a * a`. -/
def sqr (a : F) : F := a * a

/-- The function `OuterProduct`: `v * v.transpose()`. -/
def OuterProduct (v : Fin N → F) : Matrix (Fin N) (Fin N) F :=
  Matrix.of fun i j => v i * v j

/-- Eigen's `norm()` of a vector: the square root of the sum of the squared
coefficients. -/
def vecNorm (ops : FloatOps F) (v : Fin N → F) : F :=
  ops.sqrt (∑ i, v i * v i)

/-- Eigen's `norm()` of a matrix: the Frobenius norm, the square root of the
sum of the squared coefficients. -/
def matNorm (ops : FloatOps F) (A : Matrix (Fin N) (Fin K) F) : F :=
  ops.sqrt (∑ i, ∑ j, A i j * A i j)

/-- Eigen's `minCoeff()` of a vector with at least one coefficient (for the
empty vector, which Eigen rejects, the value is 0). -/
def minCoeff (v : Fin N → F) : F :=
  match List.ofFn v with
  | [] => 0
  | x :: xs => xs.foldl min x

/-- Eigen's `inverse()` of a square matrix over the field `F`, by the adjugate
formula.  The result is `none` for a singular matrix, which has no inverse in
the field; what `inverse()` returns for it in floating point is not modelled
here. -/
def inverse (S : Matrix (Fin K) (Fin K) F) : Option (Matrix (Fin K) (Fin K) F) :=
  if S.det = 0 then none else some ((S.det)⁻¹ • S.adjugate)

/-! ## GaussianDistribution -/

/-- Modelled from the spec: the class GaussianDistribution of
gaussian_distribution.h, which is not among the sources; "an immutable value
holding a mean vector (size N) and a covariance matrix (N×N)". -/
structure GaussianDistribution (F : Type) (N : ℕ) where
  /-- The value returned by GetMean(). -/
  GetMean : Fin N → F
  /-- The value returned by GetCovariance(). -/
  GetCovariance : Matrix (Fin N) (Fin N) F

/-- Modelled from the spec: operator+ of GaussianDistribution, which is not
among the sources; "means add, covariances add". -/
def GaussianDistribution.add (lhs rhs : GaussianDistribution F N) :
    GaussianDistribution F N :=
  ⟨lhs.GetMean + rhs.GetMean, lhs.GetCovariance + rhs.GetCovariance⟩

/-! ## CheckSymmetric and MatrixSqrt -/

/-- The function `CheckSymmetric`:
`CHECK(!std::isnan(norm) && std::abs(norm) < 1e-5)` for
`norm = (A - A.transpose()).norm()`. -/
def CheckSymmetric (ops : FloatOps F) (A : Matrix (Fin N) (Fin N) F) :
    Except Failure Unit :=
  let norm := matNorm ops (A - Aᵀ)
  if ops.isnan norm = false ∧ |norm| < 1e-5 then .ok ()
  else .error Failure.SymmetryCheckFailed

/-- The part of `Eigen::SelfAdjointEigenSolver` the filter reads: the vector
`eigenvalues()` and the matrix `eigenvectors()`. -/
structure SelfAdjointEigenSolver (F : Type) (N : ℕ) where
  /-- The vector eigenvalues(). -/
  eigenvalues : Fin N → F
  /-- The matrix eigenvectors(), one eigenvector in each column. -/
  eigenvectors : Matrix (Fin N) (Fin N) F

/-- The function `MatrixSqrt`.  `solver` is the constructor of
`Eigen::SelfAdjointEigenSolver`. -/
def MatrixSqrt (ops : FloatOps F)
    (solver : Matrix (Fin N) (Fin N) F → SelfAdjointEigenSolver F N)
    (A : Matrix (Fin N) (Fin N) F) : Except Failure (Matrix (Fin N) (Fin N) F) :=
  match CheckSymmetric ops A with
  | .error e => .error e
  | .ok _ =>
    let adjoint_eigen_solver := solver ((A + Aᵀ).map fun x => x / 2)
    let eigenvalues := adjoint_eigen_solver.eigenvalues
    if minCoeff eigenvalues > -1e-5 then
      .ok (adjoint_eigen_solver.eigenvectors *
            Matrix.diagonal (fun i => ops.sqrt (max (eigenvalues i) 0)) *
            adjoint_eigen_solver.eigenvectorsᵀ)
    else .error Failure.NegativeEigenvalues

/-! ## The constants of the filter -/

/-- The constant `kAlpha`. -/
def kAlpha : F := 1e-3

/-- The constant `kKappa`. -/
def kKappa : F := 0

/-- The constant `kBeta`. -/
def kBeta : F := 2

/-- The constant `kLambda = sqr(kAlpha) * (N + kKappa) - N`. -/
def kLambda (N : ℕ) : F := sqr kAlpha * ((N : F) + kKappa) - (N : F)

/-- The constant `kMeanWeight0 = kLambda / (N + kLambda)`. -/
def kMeanWeight0 (N : ℕ) : F := kLambda N / ((N : F) + kLambda N)

/-- The constant
`kCovWeight0 = kLambda / (N + kLambda) + (1. - sqr(kAlpha) + kBeta)`. -/
def kCovWeight0 (N : ℕ) : F :=
  kLambda N / ((N : F) + kLambda N) + (1 - sqr kAlpha + kBeta)

/-- The constant `kMeanWeightI = 1. / (2. * (N + kLambda))`. -/
def kMeanWeightI (N : ℕ) : F := 1 / (2 * ((N : F) + kLambda N))

/-- The constant `kCovWeightI = kMeanWeightI`. -/
def kCovWeightI (N : ℕ) : F := kMeanWeightI N

/-! ## The filter -/

/-- The data members of `UnscentedKalmanFilter<FloatType, N>`. -/
structure UnscentedKalmanFilter (F : Type) (N : ℕ) where
  /-- The member belief_. -/
  belief_ : GaussianDistribution F N
  /-- The member add_delta_. -/
  add_delta_ : (Fin N → F) → (Fin N → F) → (Fin N → F)
  /-- The member compute_delta_. -/
  compute_delta_ : (Fin N → F) → (Fin N → F) → (Fin N → F)

namespace UnscentedKalmanFilter

/-- The constructor with its two default arguments:
`add_delta = state + delta` and `compute_delta = target - origin`. -/
def create (initial_belief : GaussianDistribution F N) :
    UnscentedKalmanFilter F N :=
  ⟨initial_belief, fun state delta => state + delta,
    fun origin target => target - origin⟩

/-- The accessor `GetBelief`. -/
def GetBelief (self : UnscentedKalmanFilter F N) : GaussianDistribution F N :=
  self.belief_

/-- The member function `ComputeWeightedError`. -/
def ComputeWeightedError (self : UnscentedKalmanFilter F N)
    (mean_estimate : Fin N → F) (states : List (Fin N → F)) : Fin N → F :=
  ((List.range (2 * N + 1)).tail).foldl
    (fun weighted_error i =>
      weighted_error +
        (kMeanWeightI N : F) • self.compute_delta_ mean_estimate (states.getD i 0))
    ((kMeanWeight0 N : F) • self.compute_delta_ mean_estimate (states.getD 0 0))

/-- The inner loop `while (true)` of `ComputeMean`, entered with the given
`step_size`.  It returns the accepted `next_estimate` and `next_error`.
`fuel` bounds the number of candidates; ten are enough, because the eleventh
step size, `2⁻¹⁰`, is not above `1e-3`. -/
def lineSearch (ops : FloatOps F) (self : UnscentedKalmanFilter F N)
    (states : List (Fin N → F)) (current_estimate weighted_error : Fin N → F) :
    ℕ → F → Except Failure ((Fin N → F) × (Fin N → F))
  | 0, _ => .error Failure.StepSizeTooSmall
  | fuel + 1, step_size =>
    let next_estimate :=
      self.add_delta_ current_estimate (step_size • weighted_error)
    let next_error := self.ComputeWeightedError next_estimate states
    if vecNorm ops next_error < vecNorm ops weighted_error then
      .ok (next_estimate, next_error)
    else
      let step_size := step_size * 0.5
      if step_size > 1e-3 then
        lineSearch ops self states current_estimate weighted_error fuel step_size
      else .error Failure.StepSizeTooSmall

/-- The outer loop `while (weighted_error.norm() > 1e-9)` of `ComputeMean`,
entered with the given `iterations`.  `fuel` bounds the number of rounds;
twenty are enough, because the twentieth round fails `CHECK_LT(iterations,
20)`. -/
def meanLoop (ops : FloatOps F) (self : UnscentedKalmanFilter F N)
    (states : List (Fin N → F)) :
    ℕ → ℕ → (Fin N → F) → (Fin N → F) → Except Failure (Fin N → F)
  | 0, _, _, _ => .error Failure.TooManyIterations
  | fuel + 1, iterations, current_estimate, weighted_error =>
    if vecNorm ops weighted_error > 1e-9 then
      match lineSearch ops self states current_estimate weighted_error 10 1 with
      | .error e => .error e
      | .ok (next_estimate, next_error) =>
        let iterations := iterations + 1
        if iterations < 20 then
          meanLoop ops self states fuel iterations next_estimate next_error
        else .error Failure.TooManyIterations
    else .ok current_estimate

/-- The member function `ComputeMean`. -/
def ComputeMean (ops : FloatOps F) (self : UnscentedKalmanFilter F N)
    (states : List (Fin N → F)) : Except Failure (Fin N → F) :=
  if states.length = 2 * N + 1 then
    let current_estimate := states.getD 0 0
    let weighted_error := self.ComputeWeightedError current_estimate states
    meanLoop ops self states 20 0 current_estimate weighted_error
  else .error Failure.WrongNumberOfStates

/-- The sigma points of `Predict` after the transition: the vector `Y` at
the end of the first loop, `Y[0] = g(mu)`,
`Y[2i+1] = g(add_delta_(mu, kSqrtNPlusLambda * sqrt_sigma.col(i)))` and
`Y[2i+2] = g(add_delta_(mu, -kSqrtNPlusLambda * sqrt_sigma.col(i)))`. -/
def PredictY (ops : FloatOps F) (self : UnscentedKalmanFilter F N)
    (g : (Fin N → F) → (Fin N → F)) (mu : Fin N → F)
    (sqrt_sigma : Matrix (Fin N) (Fin N) F) : List (Fin N → F) :=
  let kSqrtNPlusLambda := ops.sqrt ((N : F) + kLambda N)
  (List.finRange N).foldl
    (fun Y i =>
      Y ++ [g (self.add_delta_ mu (kSqrtNPlusLambda • fun r => sqrt_sigma r i)),
            g (self.add_delta_ mu (-kSqrtNPlusLambda • fun r => sqrt_sigma r i))])
    [g mu]

/-- The covariance `new_sigma` of `Predict` at the end of the second loop. -/
def PredictSigma (self : UnscentedKalmanFilter F N) (new_mu : Fin N → F)
    (Y : List (Fin N → F)) : Matrix (Fin N) (Fin N) F :=
  (List.finRange N).foldl
    (fun new_sigma i =>
      new_sigma +
        (kCovWeightI N : F) •
          OuterProduct (self.compute_delta_ new_mu (Y.getD (2 * i.val + 1) 0)) +
        (kCovWeightI N : F) •
          OuterProduct (self.compute_delta_ new_mu (Y.getD (2 * i.val + 2) 0)))
    ((kCovWeight0 N : F) • OuterProduct (self.compute_delta_ new_mu (Y.getD 0 0)))

/-- The member function `Predict`.  The result is the filter after the call. -/
def Predict (ops : FloatOps F)
    (solver : Matrix (Fin N) (Fin N) F → SelfAdjointEigenSolver F N)
    (self : UnscentedKalmanFilter F N) (g : (Fin N → F) → (Fin N → F))
    (epsilon : GaussianDistribution F N) :
    Except Failure (UnscentedKalmanFilter F N) :=
  match CheckSymmetric ops epsilon.GetCovariance with
  | .error e => .error e
  | .ok _ =>
    let mu := self.belief_.GetMean
    match MatrixSqrt ops solver self.belief_.GetCovariance with
    | .error e => .error e
    | .ok sqrt_sigma =>
      let Y := self.PredictY ops g mu sqrt_sigma
      match self.ComputeMean ops Y with
      | .error e => .error e
      | .ok new_mu =>
        let new_sigma := self.PredictSigma new_mu Y
        match CheckSymmetric ops new_sigma with
        | .error e => .error e
        | .ok _ =>
          .ok { self with
                belief_ := (GaussianDistribution.mk new_mu new_sigma).add epsilon }

/-- The state of the first loop of `Observe`: the vectors `W` and `Z` and the
accumulator `z_hat`. -/
structure ObserveLoop (F : Type) (N K : ℕ) where
  /-- The vector W of zero-mean sigma points. -/
  W : List (Fin N → F)
  /-- The vector Z of observed sigma points. -/
  Z : List (Fin K → F)
  /-- The accumulator z_hat. -/
  z_hat : Fin K → F

/-- The first loop of `Observe`, from the initial `W = [0]`, `Z = [h(mu)]` and
`z_hat = kMeanWeight0 * Z[0]`. -/
def ObserveSigma (ops : FloatOps F) (self : UnscentedKalmanFilter F N)
    (h : (Fin N → F) → (Fin K → F)) (mu : Fin N → F)
    (sqrt_sigma : Matrix (Fin N) (Fin N) F) : ObserveLoop F N K :=
  let kSqrtNPlusLambda := ops.sqrt ((N : F) + kLambda N)
  (List.finRange N).foldl
    (fun s i =>
      let w1 : Fin N → F := kSqrtNPlusLambda • fun r => sqrt_sigma r i
      let W := s.W ++ [w1]
      let Z := s.Z ++ [h (self.add_delta_ mu w1)]
      let w2 : Fin N → F := -kSqrtNPlusLambda • fun r => sqrt_sigma r i
      let W := W ++ [w2]
      let Z := Z ++ [h (self.add_delta_ mu w2)]
      let z_hat := s.z_hat + (kMeanWeightI N : F) • Z.getD (2 * i.val + 1) 0
      let z_hat := z_hat + (kMeanWeightI N : F) • Z.getD (2 * i.val + 2) 0
      ⟨W, Z, z_hat⟩)
    ⟨[0], [h mu], (kMeanWeight0 N : F) • h mu⟩

/-- The innovation covariance `S` of `Observe` at the end of the second loop,
before the covariance of `delta` is added. -/
def ObserveS (N : ℕ) (Z : List (Fin K → F)) (z_hat : Fin K → F) :
    Matrix (Fin K) (Fin K) F :=
  (List.finRange N).foldl
    (fun S i =>
      S + (kCovWeightI N : F) • OuterProduct (Z.getD (2 * i.val + 1) 0 - z_hat) +
        (kCovWeightI N : F) • OuterProduct (Z.getD (2 * i.val + 2) 0 - z_hat))
    ((kCovWeight0 N : F) • OuterProduct (Z.getD 0 0 - z_hat))

/-- The cross covariance `sigma_bar_xz` of `Observe` at the end of the third
loop. -/
def ObserveSigmaBarXZ (W : List (Fin N → F)) (Z : List (Fin K → F))
    (z_hat : Fin K → F) : Matrix (Fin N) (Fin K) F :=
  (List.finRange N).foldl
    (fun sigma_bar_xz i =>
      sigma_bar_xz +
        (kCovWeightI N : F) •
          Matrix.vecMulVec (W.getD (2 * i.val + 1) 0)
            (Z.getD (2 * i.val + 1) 0 - z_hat) +
        (kCovWeightI N : F) •
          Matrix.vecMulVec (W.getD (2 * i.val + 2) 0)
            (Z.getD (2 * i.val + 2) 0 - z_hat))
    ((kCovWeight0 N : F) • Matrix.vecMulVec (W.getD 0 0) (Z.getD 0 0 - z_hat))

/-- The member function `Observe<K>`.  The result is the filter after the
call.  The source inverts `S` without a test.  For a singular `S`, which has
no inverse in the field, the model reports the failure of
`CheckSymmetric(new_sigma)`: this is what `double` does for `K = 1`, where
`1 / 0` is infinite and `new_sigma` is NaN (see `binary64`); for a larger `K`
it depends on Eigen's `inverse()`. -/
def Observe (ops : FloatOps F)
    (solver : Matrix (Fin N) (Fin N) F → SelfAdjointEigenSolver F N)
    (self : UnscentedKalmanFilter F N) (h : (Fin N → F) → (Fin K → F))
    (delta : GaussianDistribution F K) :
    Except Failure (UnscentedKalmanFilter F N) :=
  match CheckSymmetric ops delta.GetCovariance with
  | .error e => .error e
  | .ok _ =>
    if vecNorm ops delta.GetMean ≤ 0 + 1e-9 ∧ 0 - 1e-9 ≤ vecNorm ops delta.GetMean then
      let mu := self.belief_.GetMean
      match MatrixSqrt ops solver self.belief_.GetCovariance with
      | .error e => .error e
      | .ok sqrt_sigma =>
        let s := self.ObserveSigma ops h mu sqrt_sigma
        let S : Matrix (Fin K) (Fin K) F := ObserveS N s.Z s.z_hat
        match CheckSymmetric ops S with
        | .error e => .error e
        | .ok _ =>
          let S := S + delta.GetCovariance
          let sigma_bar_xz := ObserveSigmaBarXZ s.W s.Z s.z_hat
          match inverse S with
          | none => .error Failure.SymmetryCheckFailed
          | some S_inverse =>
            let kalman_gain := sigma_bar_xz * S_inverse
            let new_sigma :=
              self.belief_.GetCovariance - kalman_gain * S * kalman_gainᵀ
            match CheckSymmetric ops new_sigma with
            | .error e => .error e
            | .ok _ =>
              .ok { self with
                    belief_ :=
                      ⟨self.add_delta_ mu (kalman_gain *ᵥ (-s.z_hat)), new_sigma⟩ }
    else .error Failure.NonZeroMeanDelta

end UnscentedKalmanFilter

/-! ## The assumptions of the theorems -/

/-- Exact arithmetic over the real numbers: `std::sqrt` is the real square
root and no value is NaN. -/
def ExactArithmetic (ops : FloatOps ℝ) : Prop :=
  ops.sqrt = Real.sqrt ∧ ∀ x, ops.isnan x = false

/-- What Eigen documents of a `SelfAdjointEigenSolver` constructed from the
matrix `M`: the columns of `eigenvectors()` are orthonormal and
`M = V * D * Vᵀ`, with `V` the matrix of eigenvectors and `D` the diagonal
matrix of `eigenvalues()`. -/
def IsEigenDecomposition {F : Type} [LinearOrderedField F] {N : ℕ}
    (M : Matrix (Fin N) (Fin N) F) (d : SelfAdjointEigenSolver F N) : Prop :=
  d.eigenvectorsᵀ * d.eigenvectors = 1 ∧
    M = d.eigenvectors * Matrix.diagonal d.eigenvalues * d.eigenvectorsᵀ

/-- The solver constructed by `MatrixSqrt(A)`, from the symmetrised matrix
`(A + A.transpose()) / 2.`, is an eigendecomposition of that matrix. -/
def SolverCorrectAt {F : Type} [LinearOrderedField F] {N : ℕ}
    (solver : Matrix (Fin N) (Fin N) F → SelfAdjointEigenSolver F N)
    (A : Matrix (Fin N) (Fin N) F) : Prop :=
  IsEigenDecomposition ((A + Aᵀ).map fun x => x / 2)
    (solver ((A + Aᵀ).map fun x => x / 2))

/-- A solver for diagonal matrices: the eigenvalues are the diagonal coefficients and
the eigenvectors are the unit vectors.  It instantiates the parameter `solver` on
concrete diagonal inputs. -/
def diagonalSolver {F : Type} [LinearOrderedField F] {N : ℕ}
    (M : Matrix (Fin N) (Fin N) F) : SelfAdjointEigenSolver F N :=
  ⟨fun i => M i i, 1⟩

/-- The outer loop of `ComputeMean` on `states` completes `k` iterations through the
estimates `xs 0, …, xs k` with the weighted errors `es 0, …, es k`: `xs 0 = states[0]`
and `es 0` is its weighted error, and for each `j < k` the loop condition
`es j.norm() > 1e-9` holds and the line search from `(xs j, es j)` accepts
`(xs (j + 1), es (j + 1))`. -/
def UnscentedKalmanFilter.ComputeMeanRun {F : Type} [LinearOrderedField F] {N : ℕ}
    (ops : FloatOps F) (self : UnscentedKalmanFilter F N) (states : List (Fin N → F))
    (xs es : ℕ → (Fin N → F)) (k : ℕ) : Prop :=
  xs 0 = states.getD 0 0 ∧ es 0 = self.ComputeWeightedError (xs 0) states ∧
    ∀ j, j < k →
      vecNorm ops (es j) > 1e-9 ∧
        self.lineSearch ops states (xs j) (es j) 10 1 = .ok (xs (j + 1), es (j + 1))

end kalman_filter

/-! ## Rigid transforms (`transform/rigid_transform.h`) -/

namespace transform

/-- The functions of `<cmath>` that the transforms call. -/
structure MathOps (F : Type) where
  /-- The function `std::sqrt`. -/
  sqrt : F → F
  /-- The function `std::cos`. -/
  cos : F → F
  /-- The function `std::sin`. -/
  sin : F → F
  /-- The function `std::atan2`, applied as `atan2 y x`. -/
  atan2 : F → F → F

/-- Eigen's `Rotation2D`: it stores the angle `m_angle`. -/
structure Rotation2D (F : Type) where
  /-- The member m_angle. -/
  angle : F

namespace Rotation2D

variable {F : Type} [LinearOrderedField F]

/-- Eigen's `Rotation2D::Identity()`, the rotation of angle 0. -/
def Identity : Rotation2D F := ⟨0⟩

/-- Eigen's `Rotation2D::inverse()`: `Rotation2D(-m_angle)`. -/
def inverse (self : Rotation2D F) : Rotation2D F := ⟨-self.angle⟩

/-- Eigen's `operator*(const Rotation2D&)`: `Rotation2D(m_angle + other.m_angle)`. -/
def mul (self other : Rotation2D F) : Rotation2D F := ⟨self.angle + other.angle⟩

/-- Eigen's `Rotation2D::toRotationMatrix()`: `[cos, -sin; sin, cos]` of the angle. -/
def toRotationMatrix (m : MathOps F) (self : Rotation2D F) : Matrix (Fin 2) (Fin 2) F :=
  let sinA := m.sin self.angle
  let cosA := m.cos self.angle
  !![cosA, -sinA; sinA, cosA]

/-- Eigen's `operator*(const Vector2&)`: `toRotationMatrix() * vec`. -/
def mulVec (m : MathOps F) (self : Rotation2D F) (vec : Fin 2 → F) : Fin 2 → F :=
  Matrix.mulVec (self.toRotationMatrix m) vec

end Rotation2D

/-- The class `Rigid2`. -/
structure Rigid2 (F : Type) where
  /-- The member translation_. -/
  translation_ : Fin 2 → F
  /-- The member rotation_. -/
  rotation_ : Rotation2D F

namespace Rigid2

variable {F : Type} [LinearOrderedField F]

/-- The static member function `Rigid2::Identity`. -/
def Identity : Rigid2 F := ⟨0, Rotation2D.Identity⟩

/-- The member function `Rigid2::inverse`. -/
def inverse (m : MathOps F) (self : Rigid2 F) : Rigid2 F :=
  let rotation := self.rotation_.inverse
  let translation := -(rotation.mulVec m self.translation_)
  ⟨translation, rotation⟩

/-- The function `operator*(const Rigid2&, const Rigid2&)`. -/
def mul (m : MathOps F) (lhs rhs : Rigid2 F) : Rigid2 F :=
  ⟨lhs.rotation_.mulVec m rhs.translation_ + lhs.translation_,
    lhs.rotation_.mul rhs.rotation_⟩

end Rigid2

/-- Eigen's `Quaternion`: the coefficients `w`, `x`, `y`, `z`. -/
structure Quaternion (F : Type) where
  /-- The coefficient w. -/
  w : F
  /-- The coefficient x. -/
  x : F
  /-- The coefficient y. -/
  y : F
  /-- The coefficient z. -/
  z : F

/-- Eigen's `cross` of two vectors of dimension 3. -/
def cross {F : Type} [LinearOrderedField F] (a b : Fin 3 → F) : Fin 3 → F :=
  ![a 1 * b 2 - a 2 * b 1, a 2 * b 0 - a 0 * b 2, a 0 * b 1 - a 1 * b 0]

namespace Quaternion

variable {F : Type} [LinearOrderedField F]

/-- Eigen's `Quaternion::Identity()`: `w = 1` and `x = y = z = 0`. -/
def Identity : Quaternion F := ⟨1, 0, 0, 0⟩

/-- Eigen's `conjugate()`: `Quaternion(w, -x, -y, -z)`. -/
def conjugate (self : Quaternion F) : Quaternion F :=
  ⟨self.w, -self.x, -self.y, -self.z⟩

/-- Eigen's `vec()`: the vector `(x, y, z)`. -/
def vec (self : Quaternion F) : Fin 3 → F := ![self.x, self.y, self.z]

/-- Eigen's `squaredNorm()` of the coefficients. -/
def squaredNorm (self : Quaternion F) : F :=
  self.x * self.x + self.y * self.y + self.z * self.z + self.w * self.w

/-- Eigen's `operator*(const Quaternion&)`, the product of two quaternions. -/
def mul (a b : Quaternion F) : Quaternion F :=
  ⟨a.w * b.w - a.x * b.x - a.y * b.y - a.z * b.z,
    a.w * b.x + a.x * b.w + a.y * b.z - a.z * b.y,
    a.w * b.y + a.y * b.w + a.z * b.x - a.x * b.z,
    a.w * b.z + a.z * b.w + a.x * b.y - a.y * b.x⟩

/-- Eigen's `normalized()`: the coefficients divided by their norm when the squared norm
is positive, and the quaternion itself otherwise. -/
def normalized (m : MathOps F) (self : Quaternion F) : Quaternion F :=
  let z := self.squaredNorm
  if z > 0 then
    ⟨self.w / m.sqrt z, self.x / m.sqrt z, self.y / m.sqrt z, self.z / m.sqrt z⟩
  else self

/-- Eigen's `operator*(const Vector3&)`, the member `_transformVector`:
`uv = vec().cross(v); uv += uv; return v + w() * uv + vec().cross(uv)`. -/
def transformVector (self : Quaternion F) (v : Fin 3 → F) : Fin 3 → F :=
  let uv := cross self.vec v
  let uv := uv + uv
  v + self.w • uv + cross self.vec uv

end Quaternion

/-- The class `Rigid3`. -/
structure Rigid3 (F : Type) where
  /-- The member translation_. -/
  translation_ : Fin 3 → F
  /-- The member rotation_. -/
  rotation_ : Quaternion F

namespace Rigid3

variable {F : Type} [LinearOrderedField F]

/-- The static member function `Rigid3::Identity`. -/
def Identity : Rigid3 F := ⟨0, Quaternion.Identity⟩

/-- The member function `Rigid3::inverse`. -/
def inverse (self : Rigid3 F) : Rigid3 F :=
  let rotation := self.rotation_.conjugate
  let translation := -(rotation.transformVector self.translation_)
  ⟨translation, rotation⟩

/-- The function `operator*(const Rigid3&, const Rigid3&)`. -/
def mul (m : MathOps F) (lhs rhs : Rigid3 F) : Rigid3 F :=
  ⟨lhs.rotation_.transformVector rhs.translation_ + lhs.translation_,
    (lhs.rotation_.mul rhs.rotation_).normalized m⟩

end Rigid3

/-- Exact arithmetic over the real numbers: the functions of `<cmath>` are the real
square root, cosine, sine and two-argument arctangent. -/
def ExactMath (m : MathOps ℝ) : Prop :=
  m.sqrt = Real.sqrt ∧ m.cos = Real.cos ∧ m.sin = Real.sin ∧
    m.atan2 = fun y x => Complex.arg ⟨x, y⟩

/-! ## Angles of rotations (`transform/transform.h`) -/

/-- Eigen's `AngleAxis`: the angle `m_angle` and the axis `m_axis`. -/
structure AngleAxis (F : Type) where
  /-- The member m_angle. -/
  angle : F
  /-- The member m_axis. -/
  axis : Fin 3 → F

/-- Eigen's `Quaternion(const AngleAxis&)`: `ha = 0.5 * aa.angle()`, `w = cos(ha)` and
`vec = sin(ha) * aa.axis()`. -/
def Quaternion.ofAngleAxis {F : Type} [LinearOrderedField F] (m : MathOps F)
    (aa : AngleAxis F) : Quaternion F :=
  let ha := 0.5 * aa.angle
  ⟨m.cos ha, m.sin ha * aa.axis 0, m.sin ha * aa.axis 1, m.sin ha * aa.axis 2⟩

/-- Eigen's `UnitX()`. -/
def UnitX {F : Type} [LinearOrderedField F] : Fin 3 → F := ![1, 0, 0]

/-- Eigen's `UnitZ()`. -/
def UnitZ {F : Type} [LinearOrderedField F] : Fin 3 → F := ![0, 0, 1]

/-- Eigen's `squaredNorm()` of a vector of dimension 3. -/
def squaredNorm {F : Type} [LinearOrderedField F] (v : Fin 3 → F) : F :=
  v 0 * v 0 + v 1 * v 1 + v 2 * v 2

/-- Eigen's `norm()` of a vector of dimension 3: the square root of `squaredNorm()`. -/
def norm {F : Type} [LinearOrderedField F] (m : MathOps F) (v : Fin 3 → F) : F :=
  m.sqrt (squaredNorm v)

/-- The static member function `Rigid3::Rotation(const Quaternion&)`. -/
def Rigid3.Rotation {F : Type} [LinearOrderedField F] (rotation : Quaternion F) : Rigid3 F :=
  ⟨0, rotation⟩

/-- The static member function `Rigid3::Translation`. -/
def Rigid3.Translation {F : Type} [LinearOrderedField F] (vector : Fin 3 → F) : Rigid3 F :=
  ⟨vector, Quaternion.Identity⟩

/-- The function `GetAngle`. -/
def GetAngle {F : Type} [LinearOrderedField F] (m : MathOps F) (transform : Rigid3 F) : F :=
  2 * m.atan2 (norm m transform.rotation_.vec) |transform.rotation_.w|

/-- The function `GetYaw(const Eigen::Quaternion&)`. -/
def GetYaw {F : Type} [LinearOrderedField F] (m : MathOps F) (rotation : Quaternion F) : F :=
  let direction := rotation.transformVector UnitX
  m.atan2 (direction 1) (direction 0)

/-- The function `GetYaw(const Rigid3&)`. -/
def GetYawRigid3 {F : Type} [LinearOrderedField F] (m : MathOps F) (transform : Rigid3 F) : F :=
  GetYaw m transform.rotation_

/-- The function `AngleAxisVectorToRotationQuaternion`. -/
def AngleAxisVectorToRotationQuaternion {F : Type} [LinearOrderedField F] (m : MathOps F)
    (angle_axis : Fin 3 → F) : Quaternion F :=
  let kCutoffAngle : F := 1e-8
  let sw : F × F :=
    if squaredNorm angle_axis > kCutoffAngle then
      let norm := norm m angle_axis
      (m.sin (norm / 2) / norm, m.cos (norm / 2))
    else (0.5, 1)
  let scale := sw.1
  let w := sw.2
  let quaternion_xyz : Fin 3 → F := scale • angle_axis
  ⟨w, quaternion_xyz 0, quaternion_xyz 1, quaternion_xyz 2⟩

/-- The function `Project2D`. -/
def Project2D {F : Type} [LinearOrderedField F] (m : MathOps F) (transform : Rigid3 F) :
    Rigid2 F :=
  ⟨![transform.translation_ 0, transform.translation_ 1], ⟨GetYawRigid3 m transform⟩⟩

/-- The function `Embed3D`. -/
def Embed3D {F : Type} [LinearOrderedField F] (m : MathOps F) (transform : Rigid2 F) :
    Rigid3 F :=
  ⟨![transform.translation_ 0, transform.translation_ 1, 0],
    Quaternion.ofAngleAxis m ⟨transform.rotation_.angle, UnitZ⟩⟩

end transform

/-! ## Voxel filters (`sensor/voxel_filter.cc`) -/

namespace sensor

/-- The type `PointCloud`: a vector of points of dimension 3. -/
abbrev PointCloud (F : Type) : Type := List (Fin 3 → F)

/-- The class `VoxelFilter`.  The grid `voxels_` is used through `GetCellIndex` and
`mutable_value` only: it is a store of one value per cell index, every cell holding the
default value 0 at first; `size` is the resolution that the grid was constructed with. -/
structure VoxelFilter (F : Type) where
  /-- The resolution of the member voxels_. -/
  size : F
  /-- The values of the member voxels_. -/
  voxels_ : (Fin 3 → ℤ) → ℕ
  /-- The member point_cloud_. -/
  point_cloud_ : PointCloud F

/-- The options `proto::AdaptiveVoxelFilterOptions`. -/
structure AdaptiveVoxelFilterOptions (F : Type) where
  /-- The field max_length. -/
  max_length : F
  /-- The field min_num_points, set from a non-negative integer. -/
  min_num_points : ℕ
  /-- The field max_range. -/
  max_range : F

section VoxelFilters

variable {F : Type} [LinearOrderedField F]

/-- Eigen's `norm()` of a point, with `sqrt` for `std::sqrt`. -/
def norm (sqrt : F → F) (point : Fin 3 → F) : F :=
  sqrt (point 0 * point 0 + point 1 * point 1 + point 2 * point 2)

/-- The function `FilterByMaxRange`. -/
def FilterByMaxRange (sqrt : F → F) (point_cloud : PointCloud F) (max_range : F) :
    PointCloud F :=
  point_cloud.foldl
    (fun result point => if norm sqrt point ≤ max_range then result ++ [point] else result) []

/-- The constructor `VoxelFilter::VoxelFilter`. -/
def VoxelFilter.create (size : F) : VoxelFilter F :=
  ⟨size, fun _ => 0, []⟩

/-- The member function `VoxelFilter::InsertPointCloud`.  The parameter `GetCellIndex`
is the member function of the grid that maps a resolution and a point to the index of
the cell of the point. -/
def VoxelFilter.InsertPointCloud (GetCellIndex : F → (Fin 3 → F) → (Fin 3 → ℤ))
    (self : VoxelFilter F) (point_cloud : PointCloud F) : VoxelFilter F :=
  point_cloud.foldl
    (fun self point =>
      let index := GetCellIndex self.size point
      if self.voxels_ index = 0 then
        { self with
          point_cloud_ := self.point_cloud_ ++ [point]
          voxels_ := Function.update self.voxels_ index 1 }
      else self)
    self

/-- The function `VoxelFiltered`. -/
def VoxelFiltered (GetCellIndex : F → (Fin 3 → F) → (Fin 3 → ℤ))
    (point_cloud : PointCloud F) (size : F) : PointCloud F :=
  let voxel_filter := VoxelFilter.create size
  let voxel_filter := voxel_filter.InsertPointCloud GetCellIndex point_cloud
  voxel_filter.point_cloud_

/-- The binary search `while ((high_length - low_length) / low_length > 1e-1f)` of
`AdaptivelyVoxelFiltered`.  `fuel` bounds the number of rounds; four are enough from
`low_length = high_length / 2`, because each round halves the difference. -/
def AdaptivelyVoxelFiltered.binarySearch (GetCellIndex : F → (Fin 3 → F) → (Fin 3 → ℤ))
    (options : AdaptiveVoxelFilterOptions F) (point_cloud : PointCloud F) :
    ℕ → F → F → PointCloud F → PointCloud F
  | 0, _, _, result => result
  | fuel + 1, low_length, high_length, result =>
    if (high_length - low_length) / low_length > 1e-1 then
      let mid_length := (low_length + high_length) / 2
      let candidate := VoxelFiltered GetCellIndex point_cloud mid_length
      if candidate.length ≥ options.min_num_points then
        binarySearch GetCellIndex options point_cloud fuel mid_length high_length candidate
      else
        binarySearch GetCellIndex options point_cloud fuel low_length mid_length result
    else result

/-- The loop `for (float high_length = options.max_length();
high_length > 1e-2f * options.max_length(); high_length /= 2.f)` of
`AdaptivelyVoxelFiltered`, entered with the given `high_length` and `result`.  `fuel`
bounds the number of rounds; seven are enough, because `2⁻⁷` is below `1e-2`. -/
def AdaptivelyVoxelFiltered.search (GetCellIndex : F → (Fin 3 → F) → (Fin 3 → ℤ))
    (options : AdaptiveVoxelFilterOptions F) (point_cloud : PointCloud F) :
    ℕ → F → PointCloud F → PointCloud F
  | 0, _, result => result
  | fuel + 1, high_length, result =>
    if high_length > 1e-2 * options.max_length then
      let low_length := high_length / 2
      let result := VoxelFiltered GetCellIndex point_cloud low_length
      if result.length ≥ options.min_num_points then
        AdaptivelyVoxelFiltered.binarySearch GetCellIndex options point_cloud 4 low_length
          high_length result
      else search GetCellIndex options point_cloud fuel (high_length / 2) result
    else result

/-- The function `AdaptivelyVoxelFiltered`. -/
def AdaptivelyVoxelFiltered (GetCellIndex : F → (Fin 3 → F) → (Fin 3 → ℤ))
    (options : AdaptiveVoxelFilterOptions F) (point_cloud : PointCloud F) : PointCloud F :=
  if point_cloud.length ≤ options.min_num_points then point_cloud
  else
    let result := VoxelFiltered GetCellIndex point_cloud options.max_length
    if result.length ≥ options.min_num_points then result
    else
      AdaptivelyVoxelFiltered.search GetCellIndex options point_cloud 7 options.max_length
        result

/-- The member function `AdaptiveVoxelFilter::Filter` of the filter constructed from
`options`. -/
def AdaptiveVoxelFilter.Filter (sqrt : F → F)
    (GetCellIndex : F → (Fin 3 → F) → (Fin 3 → ℤ)) (options_ : AdaptiveVoxelFilterOptions F)
    (point_cloud : PointCloud F) : PointCloud F :=
  AdaptivelyVoxelFiltered GetCellIndex options_
    (FilterByMaxRange sqrt point_cloud options_.max_range)

end VoxelFilters

end sensor

/-! ## Compressed point clouds (`sensor/compressed_point_cloud.cc`) -/

namespace sensor

/-- The arithmetic of `float` in the constructor and in the iterator: the constant
`kPrecision` and the three operations that round.  The parameter stands for IEEE 754
binary32, where `kPrecision = 0.001f` is `8589935 · 2⁻³³`; taking the absolute value, the
maximum and the comparison do not round. -/
structure FloatArithmetic (F : Type) where
  /-- The constant `kPrecision = 0.001f`, in meters. -/
  kPrecision : F
  /-- The division of two `float`. -/
  div : F → F → F
  /-- The multiplication of two `float`. -/
  mul : F → F → F
  /-- The conversion of an `int` to `float`. -/
  ofInt : ℤ → F

/-- The arithmetic without rounding, with `kPrecision = 0.001`. -/
def FloatArithmetic.unrounded {F : Type} [LinearOrderedField F] : FloatArithmetic F :=
  ⟨0.001, fun a b => a / b, fun a b => a * b, fun n => (n : F)⟩

/-- The constant `kBitsPerCoordinate`. -/
def kBitsPerCoordinate : ℕ := 10

/-- The constant `kCoordinateMask = (1 << kBitsPerCoordinate) - 1`. -/
def kCoordinateMask : ℤ := 2 ^ kBitsPerCoordinate - 1

/-- The constant `kMaxBitsPerDirection`. -/
def kMaxBitsPerDirection : ℕ := 23

/-- The checks of the constructor of `CompressedPointCloud` that can fail. -/
inductive CompressionFailure where
  /-- The check `CHECK_LE(point_cloud.size(), std::numeric_limits<int>::max())`. -/
  | TooManyPoints
  /-- The check `CHECK_LT(point.cwiseAbs().maxCoeff() / kPrecision,
  1 << kMaxBitsPerDirection)`, "Point out of bounds". -/
  | PointOutOfBounds
  /-- The check `CHECK_LE(raster_points.size(), std::numeric_limits<int32>::max())`. -/
  | TooManyPointsInBlock
  /-- The check `CHECK_EQ(num_blocks, 0)`. -/
  | BlockCountMismatch
  deriving DecidableEq

/-- The struct `RasterPoint` of the constructor. -/
structure RasterPoint where
  /-- The member point. -/
  point : Fin 3 → ℤ
  /-- The member index. -/
  index : ℤ

/-- The local variables `blocks` and `num_blocks` of the constructor.  The grid `blocks`
is used through `mutable_value` and its iterator only: it is a store of one vector of
raster points per cell index, every cell holding the empty vector at first. -/
structure Distribution where
  /-- The values of the grid blocks. -/
  blocks : (Fin 3 → ℤ) → List RasterPoint
  /-- The counter num_blocks. -/
  num_blocks : ℤ

/-- The class `CompressedPointCloud`. -/
structure CompressedPointCloud where
  /-- The member point_data_. -/
  point_data_ : List ℤ
  /-- The member num_points_. -/
  num_points_ : ℕ

/-- The class `CompressedPointCloud::ConstIterator`; its member `remaining_points_` is
the first argument of the loop of `Decompress`. -/
structure ConstIterator (F : Type) where
  /-- The member remaining_points_in_current_block_. -/
  remaining_points_in_current_block_ : ℤ
  /-- The member current_point_. -/
  current_point_ : Fin 3 → F
  /-- The member current_block_coordinates_. -/
  current_block_coordinates_ : Fin 3 → ℤ
  /-- The rest of `point_data_` from the member input_ on. -/
  input_ : List ℤ

section Compression

variable {F : Type} [LinearOrderedField F]

/-- The condition of the check `CHECK_LT(point.cwiseAbs().maxCoeff() / kPrecision,
1 << kMaxBitsPerDirection)` of the constructor. -/
def CompressedPointCloud.InBounds (fl : FloatArithmetic F) (point : Fin 3 → F) : Prop :=
  fl.div (max (max |point 0| |point 1|) |point 2|) fl.kPrecision < 2 ^ kMaxBitsPerDirection

instance CompressedPointCloud.instDecidableInBounds (fl : FloatArithmetic F)
    (point : Fin 3 → F) : Decidable (CompressedPointCloud.InBounds fl point) :=
  inferInstanceAs
    (Decidable
      (fl.div (max (max |point 0| |point 1|) |point 2|) fl.kPrecision <
        2 ^ kMaxBitsPerDirection))

/-- The coordinates `common::RoundToInt(point[i] / kPrecision)` of a point on the grid,
the value of `raster_point[i]` before the shift and the mask.  The parameter `RoundToInt`
is the function `common::RoundToInt`. -/
def CompressedPointCloud.raster (fl : FloatArithmetic F) (RoundToInt : F → ℤ)
    (point : Fin 3 → F) : Fin 3 → ℤ :=
  fun i => RoundToInt (fl.div (point i) fl.kPrecision)

/-- The local variable `block_coordinate` of the constructor:
`raster_point[i] >> kBitsPerCoordinate`.  The shift of a two's-complement `int` is the
floor division by `2 ^ kBitsPerCoordinate`. -/
def CompressedPointCloud.block_coordinate (fl : FloatArithmetic F) (RoundToInt : F → ℤ)
    (point : Fin 3 → F) : Fin 3 → ℤ :=
  fun i => CompressedPointCloud.raster fl RoundToInt point i / 2 ^ kBitsPerCoordinate

/-- The local variable `raster_point` of the constructor after
`raster_point[i] &= kCoordinateMask`.  The mask of a two's-complement `int` is the
remainder modulo `kCoordinateMask + 1`. -/
def CompressedPointCloud.raster_point (fl : FloatArithmetic F) (RoundToInt : F → ℤ)
    (point : Fin 3 → F) : Fin 3 → ℤ :=
  fun i => CompressedPointCloud.raster fl RoundToInt point i % (kCoordinateMask + 1)

/-- The first loop of the constructor, "Distribute points into blocks", from the point
with index `point_index` on. -/
def CompressedPointCloud.distribute (fl : FloatArithmetic F) (RoundToInt : F → ℤ) :
    PointCloud F → ℤ → Distribution → Except CompressionFailure Distribution
  | [], _, s => .ok s
  | point :: rest, point_index, s =>
    if CompressedPointCloud.InBounds fl point then
      let raster_point := CompressedPointCloud.raster_point fl RoundToInt point
      let block_coordinate := CompressedPointCloud.block_coordinate fl RoundToInt point
      let block := s.blocks block_coordinate
      distribute fl RoundToInt rest (point_index + 1)
        ⟨Function.update s.blocks block_coordinate (block ++ [⟨raster_point, point_index⟩]),
          s.num_blocks + if block.isEmpty then 1 else 0⟩
    else .error CompressionFailure.PointOutOfBounds

/-- The value that the constructor stores for a raster point:
`(((z << kBitsPerCoordinate) + y) << kBitsPerCoordinate) + x`.  The shift is the
multiplication by `2 ^ kBitsPerCoordinate`. -/
def CompressedPointCloud.pack (raster_point : RasterPoint) : ℤ :=
  (raster_point.point 2 * 2 ^ kBitsPerCoordinate + raster_point.point 1) *
      2 ^ kBitsPerCoordinate +
    raster_point.point 0

/-- The second loop of the constructor, "Encode blocks", over the cell indices that the
iterator of the grid still has to visit. -/
def CompressedPointCloud.encode (blocks : (Fin 3 → ℤ) → List RasterPoint) :
    List (Fin 3 → ℤ) → List ℤ → ℤ → Except CompressionFailure (List ℤ × ℤ)
  | [], point_data_, num_blocks => .ok (point_data_, num_blocks)
  | block_coordinate :: rest, point_data_, num_blocks =>
    let raster_points := blocks block_coordinate
    if raster_points.length ≤ 2147483647 then
      let point_data_ :=
        point_data_ ++
          [(raster_points.length : ℤ), block_coordinate 0, block_coordinate 1,
            block_coordinate 2]
      let point_data_ :=
        raster_points.foldl
          (fun point_data_ raster_point =>
            point_data_ ++ [CompressedPointCloud.pack raster_point])
          point_data_
      encode blocks rest point_data_ (num_blocks - 1)
    else .error CompressionFailure.TooManyPointsInBlock

/-- The constructor `CompressedPointCloud::CompressedPointCloud(const PointCloud&)`.
The parameter `iterate` is the iterator of the grid: the cell indices that
`Blocks::Iterator` visits, in its order. -/
def CompressedPointCloud.create (fl : FloatArithmetic F) (RoundToInt : F → ℤ)
    (iterate : ((Fin 3 → ℤ) → List RasterPoint) → List (Fin 3 → ℤ))
    (point_cloud : PointCloud F) : Except CompressionFailure CompressedPointCloud :=
  let num_points_ := point_cloud.length
  if point_cloud.length ≤ 2147483647 then
    match CompressedPointCloud.distribute fl RoundToInt point_cloud 0 ⟨fun _ => [], 0⟩ with
    | .error e => .error e
    | .ok s =>
      match CompressedPointCloud.encode s.blocks (iterate s.blocks) [] s.num_blocks with
      | .error e => .error e
      | .ok (point_data_, num_blocks) =>
        if num_blocks = 0 then .ok ⟨point_data_, num_points_⟩
        else .error CompressionFailure.BlockCountMismatch
  else .error CompressionFailure.TooManyPoints

/-- The member function `CompressedPointCloud::size`. -/
def CompressedPointCloud.size (self : CompressedPointCloud) : ℕ := self.num_points_

/-- The member function `ConstIterator::ReadNextPoint`; it has no value when it reads
past the end of `point_data_`.  The shifts and the mask `& kMask` are as in the
constructor. -/
def ConstIterator.ReadNextPoint (fl : FloatArithmetic F) (self : ConstIterator F) :
    Option (ConstIterator F) :=
  let header : Option (ConstIterator F) :=
    if self.remaining_points_in_current_block_ = 0 then
      match self.input_ with
      | n :: x :: y :: z :: input_ =>
        some { self with
          remaining_points_in_current_block_ := n
          current_block_coordinates_ :=
            ![x * 2 ^ kBitsPerCoordinate, y * 2 ^ kBitsPerCoordinate,
              z * 2 ^ kBitsPerCoordinate]
          input_ := input_ }
      | _ => none
    else some self
  match header with
  | none => none
  | some self =>
    match self.input_ with
    | [] => none
    | point :: input_ =>
      let kMask : ℤ := 2 ^ kBitsPerCoordinate - 1
      some { self with
        remaining_points_in_current_block_ := self.remaining_points_in_current_block_ - 1
        input_ := input_
        current_point_ :=
          ![fl.mul (fl.ofInt (self.current_block_coordinates_ 0 + point % (kMask + 1)))
              fl.kPrecision,
            fl.mul
              (fl.ofInt
                (self.current_block_coordinates_ 1 +
                  point / 2 ^ kBitsPerCoordinate % (kMask + 1)))
              fl.kPrecision,
            fl.mul
              (fl.ofInt
                (self.current_block_coordinates_ 2 + point / 2 ^ (2 * kBitsPerCoordinate)))
              fl.kPrecision] }

/-- The member function `CompressedPointCloud::begin`, the constructor of
`ConstIterator`. -/
def CompressedPointCloud.begin (fl : FloatArithmetic F) (self : CompressedPointCloud) :
    Option (ConstIterator F) :=
  let it : ConstIterator F := ⟨0, 0, 0, self.point_data_⟩
  if self.num_points_ > 0 then it.ReadNextPoint fl else some it

/-- The loop `for (const Eigen::Vector3f& point : *this)` of `Decompress`, with
`remaining_points_` points left: `operator*`, `push_back` and `operator++`. -/
def CompressedPointCloud.Decompress.loop (fl : FloatArithmetic F) :
    ℕ → ConstIterator F → PointCloud F → Option (PointCloud F)
  | 0, _, decompressed => some decompressed
  | remaining_points_ + 1, it, decompressed =>
    let decompressed := decompressed ++ [it.current_point_]
    if remaining_points_ > 0 then
      match it.ReadNextPoint fl with
      | none => none
      | some it => loop fl remaining_points_ it decompressed
    else loop fl remaining_points_ it decompressed

/-- The member function `CompressedPointCloud::Decompress`. -/
def CompressedPointCloud.Decompress (fl : FloatArithmetic F) (self : CompressedPointCloud) :
    Option (PointCloud F) :=
  match self.begin fl with
  | none => none
  | some it => CompressedPointCloud.Decompress.loop fl self.num_points_ it []

end Compression

/-- What the iterator of the grid does on the grid `blocks`: it visits each cell that
holds a non-empty vector exactly once, and no other cell. -/
def IteratorCorrectAt (iterate : ((Fin 3 → ℤ) → List RasterPoint) → List (Fin 3 → ℤ))
    (blocks : (Fin 3 → ℤ) → List RasterPoint) : Prop :=
  (iterate blocks).Nodup ∧ ∀ c, c ∈ iterate blocks ↔ blocks c ≠ []

end sensor

namespace kalman_filter

/-! ## The filter in IEEE 754 binary64 arithmetic

The definitions above compute in an ordered field.  The namespace `binary64` holds the
same header instantiated at `FloatType = double`, `N = 1` and `K = 1`, with the rounding,
the overflow and the NaN of `double`: vectors and matrices have one coefficient, and each
operation of Eigen on them is the one operation on that coefficient. -/

namespace binary64

/-- The values of a `double`, IEEE 754 binary64.  The finite value `finite s n` is
`(-1)^s · n · 2⁻¹⁰⁷⁴`: every finite `double` is a multiple of the least subnormal number
`2⁻¹⁰⁷⁴`, its magnitude has at most 53 significant bits and is below `2¹⁰²⁴`, so that
`n < 2 ^ 2098`. -/
inductive Double where
  /-- A finite value, with its sign and its magnitude in units of `2⁻¹⁰⁷⁴`. -/
  | finite (negative : Bool) (n : ℕ)
  /-- An infinity, with its sign. -/
  | infinite (negative : Bool)
  /-- A NaN. -/
  | nan
  deriving DecidableEq

/-- The position of the leading bit of `n ≠ 0`, that is `Nat.log2 n`, found by bisection
of the exponent for `n < 2 ^ 16384`. -/
def leadingBit (n : ℕ) : ℕ :=
  let k := [8192, 4096, 2048, 1024, 512, 256, 128, 64, 32, 16, 8, 4, 2, 1].foldl
    (fun k step => if 2 ^ (k + step) ≤ n then k + step else k) 0
  if 2 ^ k ≤ n ∧ n < 2 ^ (k + 1) then k else Nat.log2 n

/-- Newton's iteration for the integer square root of `n`, from a start `x` above it. -/
def sqrtIter (n : ℕ) : ℕ → ℕ → ℕ
  | 0, x => x
  | fuel + 1, x =>
    let y := (x + n / x) / 2
    if y < x then sqrtIter n fuel y else x

/-- The integer square root of `n`, that is `Nat.sqrt n`, by Newton's iteration. -/
def isqrt (n : ℕ) : ℕ :=
  let r := sqrtIter n 64 (2 ^ (leadingBit n / 2 + 1))
  if r * r ≤ n ∧ n < (r + 1) * (r + 1) then r else Nat.sqrt n

namespace Double

/-- Rounding to nearest, ties to even, with overflow to infinity.  The magnitude to round
is `(num + d) · 2^(-1074 - shift)`, with `0 < d < 1` if `sticky` and `d = 0` otherwise.
The low `drop` bits of `num` are rounded away: the `shift` bits below `2⁻¹⁰⁷⁴`, and more
when `num` has more than 53 bits above them. -/
def round (negative : Bool) (num shift : ℕ) (sticky : Bool) : Double :=
  let drop := max shift (leadingBit num + 1 - 53)
  let q := num / 2 ^ drop
  let r := num % 2 ^ drop
  let up : Bool :=
    drop != 0 &&
      (decide (2 ^ (drop - 1) < r) || (r == 2 ^ (drop - 1) && (sticky || q % 2 == 1)))
  let n := (if up then q + 1 else q) * 2 ^ (drop - shift)
  if n < 2 ^ 2098 then finite negative n else infinite negative

/-- The conversion of a non-negative integer to `double`. -/
def ofNat (n : ℕ) : Double := round false (n * 2 ^ 1074) 0 false

/-- The `double` nearest to the fraction `num / den`, for `den ≠ 0`. -/
def ofFraction (negative : Bool) (num den : ℕ) : Double :=
  round negative (num * 2 ^ 1075 / den) 1 (num * 2 ^ 1075 % den != 0)

/-- The value of the decimal literal `mantissa · 10^(∓decimalExponent)`. -/
def ofScientific (mantissa : ℕ) (exponentSign : Bool) (decimalExponent : ℕ) : Double :=
  if exponentSign then ofFraction false mantissa (10 ^ decimalExponent)
  else ofNat (mantissa * 10 ^ decimalExponent)

/-- The unary minus. -/
def neg : Double → Double
  | finite s n => finite (!s) n
  | infinite s => infinite (!s)
  | nan => nan

/-- The addition.  The sum of two finite values is a multiple of `2⁻¹⁰⁷⁴`; an exact sum
zero of opposite signs is `+0`. -/
def add : Double → Double → Double
  | nan, _ => nan
  | _, nan => nan
  | infinite s, infinite t => if s = t then infinite s else nan
  | infinite s, finite _ _ => infinite s
  | finite _ _, infinite t => infinite t
  | finite s m, finite t n =>
    if s = t then round s (m + n) 0 false
    else if n < m then round s (m - n) 0 false
    else if m < n then round t (n - m) 0 false
    else finite false 0

/-- The subtraction. -/
def sub (a b : Double) : Double := add a (neg b)

/-- The multiplication.  The product of two finite values is a multiple of `2⁻²¹⁴⁸`. -/
def mul : Double → Double → Double
  | nan, _ => nan
  | _, nan => nan
  | infinite s, infinite t => infinite (xor s t)
  | infinite s, finite t n => if n = 0 then nan else infinite (xor s t)
  | finite s m, infinite t => if m = 0 then nan else infinite (xor s t)
  | finite s m, finite t n => round (xor s t) (m * n) 1074 false

/-- The division.  The quotient of two finite values is rounded from its integer part
in units of `2⁻¹⁰⁷⁵` and the sticky bit of the remainder. -/
def div : Double → Double → Double
  | nan, _ => nan
  | _, nan => nan
  | infinite _, infinite _ => nan
  | infinite s, finite t _ => infinite (xor s t)
  | finite s _, infinite t => finite (xor s t) 0
  | finite s m, finite t n =>
    if n = 0 then (if m = 0 then nan else infinite (xor s t))
    else round (xor s t) (m * 2 ^ 1075 / n) 1 (m * 2 ^ 1075 % n != 0)

/-- The function `std::sqrt`.  The root of `n · 2⁻¹⁰⁷⁴` is rounded from the integer
square root of `n · 2¹⁰⁷⁶`, which is its integer part in units of `2⁻¹⁰⁷⁵`. -/
def sqrt : Double → Double
  | nan => nan
  | infinite s => if s then nan else infinite false
  | finite s n =>
    if n = 0 then finite s 0
    else if s then nan
    else
      round false (isqrt (n * 2 ^ 1076)) 1
        (isqrt (n * 2 ^ 1076) * isqrt (n * 2 ^ 1076) != n * 2 ^ 1076)

/-- The comparison `<`, false when an operand is NaN. -/
def lt : Double → Double → Bool
  | nan, _ => false
  | _, nan => false
  | infinite s, infinite t => s && !t
  | infinite s, finite _ _ => s
  | finite _ _, infinite t => !t
  | finite false m, finite false n => decide (m < n)
  | finite false _, finite true _ => false
  | finite true m, finite false n => decide (0 < m) || decide (0 < n)
  | finite true m, finite true n => decide (n < m)

/-- The function `std::isnan`. -/
def isnan : Double → Bool
  | nan => true
  | _ => false

/-- The comparison `<=`, false when an operand is NaN. -/
def le (a b : Double) : Bool := lt a b || (!isnan a && !isnan b && !lt b a)

/-- The function `std::abs`. -/
def abs : Double → Double
  | finite _ n => finite false n
  | infinite _ => infinite false
  | nan => nan

instance : Add Double := ⟨add⟩

instance : Sub Double := ⟨sub⟩

instance : Mul Double := ⟨mul⟩

instance : Div Double := ⟨div⟩

instance : Neg Double := ⟨neg⟩

instance (n : ℕ) : OfNat Double n := ⟨ofNat n⟩

instance : OfScientific Double := ⟨ofScientific⟩

instance : LT Double := ⟨fun a b => lt a b = true⟩

instance : LE Double := ⟨fun a b => le a b = true⟩

instance (a b : Double) : Decidable (a < b) := inferInstanceAs (Decidable (lt a b = true))

instance (a b : Double) : Decidable (a ≤ b) := inferInstanceAs (Decidable (le a b = true))

end Double

/-- The class `GaussianDistribution<double, 1>`. -/
structure GaussianDistribution where
  /-- The value returned by GetMean(). -/
  GetMean : Double
  /-- The value returned by GetCovariance(). -/
  GetCovariance : Double
  deriving DecidableEq

/-- Modelled from the spec: operator+ of GaussianDistribution, which is not
among the sources; "means add, covariances add". -/
def GaussianDistribution.add (lhs rhs : GaussianDistribution) : GaussianDistribution :=
  ⟨lhs.GetMean + rhs.GetMean, lhs.GetCovariance + rhs.GetCovariance⟩

/-- The function `sqr`: `a * a`. -/
def sqr (a : Double) : Double := a * a

/-- The function `OuterProduct`: `v * v.transpose()`, one product for `N = 1`. -/
def OuterProduct (v : Double) : Double := v * v

/-- Eigen's `norm()` of a vector or a matrix with one coefficient: the square root of
the squared coefficient. -/
def norm (v : Double) : Double := Double.sqrt (v * v)

/-- The function `CheckSymmetric`:
`CHECK(!std::isnan(norm) && std::abs(norm) < 1e-5)` for
`norm = (A - A.transpose()).norm()`; a 1×1 matrix is its own transpose. -/
def CheckSymmetric (A : Double) : Except Failure Unit :=
  let norm := norm (A - A)
  if Double.isnan norm = false ∧ Double.abs norm < 1e-5 then .ok ()
  else .error Failure.SymmetryCheckFailed

/-- The part of `Eigen::SelfAdjointEigenSolver` that `MatrixSqrt` reads, for a 1×1
matrix. -/
structure SelfAdjointEigenSolver where
  /-- The value returned by eigenvalues(). -/
  eigenvalues : Double
  /-- The value returned by eigenvectors(). -/
  eigenvectors : Double

/-- Eigen's solver on a 1×1 matrix: the eigenvalue is the coefficient and the
eigenvector is `(1)`.  It instantiates the parameter `solver`. -/
def oneByOneSolver (M : Double) : SelfAdjointEigenSolver := ⟨M, 1⟩

/-- The function `MatrixSqrt`.  The parameter `solver` is the constructor of
`Eigen::SelfAdjointEigenSolver`; `cwiseMax` is `std::max`, `(a < b) ? b : a`. -/
def MatrixSqrt (solver : Double → SelfAdjointEigenSolver) (A : Double) :
    Except Failure Double :=
  match CheckSymmetric A with
  | .error e => .error e
  | .ok _ =>
    let adjoint_eigen_solver := solver ((A + A) / 2)
    let eigenvalues := adjoint_eigen_solver.eigenvalues
    if eigenvalues > -1e-5 then
      .ok (adjoint_eigen_solver.eigenvectors *
            Double.sqrt (if eigenvalues < 0 then 0 else eigenvalues) *
            adjoint_eigen_solver.eigenvectors)
    else .error Failure.NegativeEigenvalues

/-- The constant `kAlpha`. -/
def kAlpha : Double := 1e-3

/-- The constant `kKappa`. -/
def kKappa : Double := 0

/-- The constant `kBeta`. -/
def kBeta : Double := 2

/-- The constant `kLambda = sqr(kAlpha) * (N + kKappa) - N`. -/
def kLambda : Double := sqr kAlpha * (1 + kKappa) - 1

/-- The constant `kMeanWeight0 = kLambda / (N + kLambda)`. -/
def kMeanWeight0 : Double := kLambda / (1 + kLambda)

/-- The constant
`kCovWeight0 = kLambda / (N + kLambda) + (1. - sqr(kAlpha) + kBeta)`. -/
def kCovWeight0 : Double := kLambda / (1 + kLambda) + (1 - sqr kAlpha + kBeta)

/-- The constant `kMeanWeightI = 1. / (2. * (N + kLambda))`. -/
def kMeanWeightI : Double := 1 / (2 * (1 + kLambda))

/-- The constant `kCovWeightI = kMeanWeightI`. -/
def kCovWeightI : Double := kMeanWeightI

/-- The data members of `UnscentedKalmanFilter<double, 1>`. -/
structure UnscentedKalmanFilter where
  /-- The member belief_. -/
  belief_ : GaussianDistribution
  /-- The member add_delta_. -/
  add_delta_ : Double → Double → Double
  /-- The member compute_delta_. -/
  compute_delta_ : Double → Double → Double

namespace UnscentedKalmanFilter

/-- The constructor with its two default arguments:
`add_delta = state + delta` and `compute_delta = target - origin`. -/
def create (initial_belief : GaussianDistribution) : UnscentedKalmanFilter :=
  ⟨initial_belief, fun state delta => state + delta, fun origin target => target - origin⟩

/-- The accessor `GetBelief`. -/
def GetBelief (self : UnscentedKalmanFilter) : GaussianDistribution := self.belief_

/-- The member function `ComputeWeightedError`. -/
def ComputeWeightedError (self : UnscentedKalmanFilter) (mean_estimate : Double)
    (states : List Double) : Double :=
  ((List.range (2 * 1 + 1)).tail).foldl
    (fun weighted_error i =>
      weighted_error + kMeanWeightI * self.compute_delta_ mean_estimate (states.getD i 0))
    (kMeanWeight0 * self.compute_delta_ mean_estimate (states.getD 0 0))

/-- The inner loop `while (true)` of `ComputeMean`, entered with the given `step_size`;
`fuel` bounds the number of candidates, and the eleventh step size is not above
`1e-3`. -/
def lineSearch (self : UnscentedKalmanFilter) (states : List Double)
    (current_estimate weighted_error : Double) :
    ℕ → Double → Except Failure (Double × Double)
  | 0, _ => .error Failure.StepSizeTooSmall
  | fuel + 1, step_size =>
    let next_estimate := self.add_delta_ current_estimate (step_size * weighted_error)
    let next_error := self.ComputeWeightedError next_estimate states
    if norm next_error < norm weighted_error then .ok (next_estimate, next_error)
    else
      let step_size := step_size * 0.5
      if step_size > 1e-3 then
        lineSearch self states current_estimate weighted_error fuel step_size
      else .error Failure.StepSizeTooSmall

/-- The outer loop `while (weighted_error.norm() > 1e-9)` of `ComputeMean`, entered with
the given `iterations`; `fuel` bounds the number of rounds, and the twentieth round fails
`CHECK_LT(iterations, 20)`. -/
def meanLoop (self : UnscentedKalmanFilter) (states : List Double) :
    ℕ → ℕ → Double → Double → Except Failure Double
  | 0, _, _, _ => .error Failure.TooManyIterations
  | fuel + 1, iterations, current_estimate, weighted_error =>
    if norm weighted_error > 1e-9 then
      match lineSearch self states current_estimate weighted_error 10 1 with
      | .error e => .error e
      | .ok (next_estimate, next_error) =>
        let iterations := iterations + 1
        if iterations < 20 then
          meanLoop self states fuel iterations next_estimate next_error
        else .error Failure.TooManyIterations
    else .ok current_estimate

/-- The member function `ComputeMean`. -/
def ComputeMean (self : UnscentedKalmanFilter) (states : List Double) :
    Except Failure Double :=
  if states.length = 2 * 1 + 1 then
    let current_estimate := states.getD 0 0
    let weighted_error := self.ComputeWeightedError current_estimate states
    meanLoop self states 20 0 current_estimate weighted_error
  else .error Failure.WrongNumberOfStates

/-- The sigma points of `Predict` after the transition: the vector `Y` at the end of the
first loop, `Y[0] = g(mu)`, `Y[1] = g(add_delta_(mu, kSqrtNPlusLambda * sqrt_sigma.col(0)))`
and `Y[2] = g(add_delta_(mu, -kSqrtNPlusLambda * sqrt_sigma.col(0)))`. -/
def PredictY (self : UnscentedKalmanFilter) (g : Double → Double) (mu sqrt_sigma : Double) :
    List Double :=
  let kSqrtNPlusLambda := Double.sqrt (1 + kLambda)
  [g mu, g (self.add_delta_ mu (kSqrtNPlusLambda * sqrt_sigma)),
    g (self.add_delta_ mu (-kSqrtNPlusLambda * sqrt_sigma))]

/-- The covariance `new_sigma` of `Predict` at the end of the second loop. -/
def PredictSigma (self : UnscentedKalmanFilter) (new_mu : Double) (Y : List Double) :
    Double :=
  let new_sigma := kCovWeight0 * OuterProduct (self.compute_delta_ new_mu (Y.getD 0 0))
  let new_sigma :=
    new_sigma + kCovWeightI * OuterProduct (self.compute_delta_ new_mu (Y.getD 1 0))
  new_sigma + kCovWeightI * OuterProduct (self.compute_delta_ new_mu (Y.getD 2 0))

/-- The member function `Predict`.  The result is the filter after the call. -/
def Predict (solver : Double → SelfAdjointEigenSolver) (self : UnscentedKalmanFilter)
    (g : Double → Double) (epsilon : GaussianDistribution) :
    Except Failure UnscentedKalmanFilter :=
  match CheckSymmetric epsilon.GetCovariance with
  | .error e => .error e
  | .ok _ =>
    let mu := self.belief_.GetMean
    match MatrixSqrt solver self.belief_.GetCovariance with
    | .error e => .error e
    | .ok sqrt_sigma =>
      let Y := self.PredictY g mu sqrt_sigma
      match self.ComputeMean Y with
      | .error e => .error e
      | .ok new_mu =>
        let new_sigma := self.PredictSigma new_mu Y
        match CheckSymmetric new_sigma with
        | .error e => .error e
        | .ok _ =>
          .ok { self with
                belief_ := (GaussianDistribution.mk new_mu new_sigma).add epsilon }

/-- The member function `Observe<1>`.  The result is the filter after the call.  The
three loops run once; the inverse of the 1×1 matrix `S` is `1 / S`. -/
def Observe (solver : Double → SelfAdjointEigenSolver) (self : UnscentedKalmanFilter)
    (h : Double → Double) (delta : GaussianDistribution) :
    Except Failure UnscentedKalmanFilter :=
  match CheckSymmetric delta.GetCovariance with
  | .error e => .error e
  | .ok _ =>
    if norm delta.GetMean ≤ 0 + 1e-9 ∧ norm delta.GetMean ≥ 0 - 1e-9 then
      let mu := self.belief_.GetMean
      match MatrixSqrt solver self.belief_.GetCovariance with
      | .error e => .error e
      | .ok sqrt_sigma =>
        let W0 : Double := 0
        let Z0 := h mu
        let z_hat := kMeanWeight0 * Z0
        let kSqrtNPlusLambda := Double.sqrt (1 + kLambda)
        let W1 := kSqrtNPlusLambda * sqrt_sigma
        let Z1 := h (self.add_delta_ mu W1)
        let W2 := -kSqrtNPlusLambda * sqrt_sigma
        let Z2 := h (self.add_delta_ mu W2)
        let z_hat := z_hat + kMeanWeightI * Z1
        let z_hat := z_hat + kMeanWeightI * Z2
        let S := kCovWeight0 * OuterProduct (Z0 - z_hat)
        let S := S + kCovWeightI * OuterProduct (Z1 - z_hat)
        let S := S + kCovWeightI * OuterProduct (Z2 - z_hat)
        match CheckSymmetric S with
        | .error e => .error e
        | .ok _ =>
          let S := S + delta.GetCovariance
          let sigma_bar_xz := kCovWeight0 * W0 * (Z0 - z_hat)
          let sigma_bar_xz := sigma_bar_xz + kCovWeightI * W1 * (Z1 - z_hat)
          let sigma_bar_xz := sigma_bar_xz + kCovWeightI * W2 * (Z2 - z_hat)
          let kalman_gain := sigma_bar_xz * (1 / S)
          let new_sigma := self.belief_.GetCovariance - kalman_gain * S * kalman_gain
          match CheckSymmetric new_sigma with
          | .error e => .error e
          | .ok _ =>
            .ok { self with
                  belief_ := ⟨self.add_delta_ mu (kalman_gain * -z_hat), new_sigma⟩ }
    else .error Failure.NonZeroMeanDelta

end UnscentedKalmanFilter

end binary64

deriving instance DecidableEq for Except

end kalman_filter

namespace kalman_filter

open Matrix

variable {F : Type} [LinearOrderedField F] {N K : ℕ}

/-! ## Loops as sums -/

section Loops

variable {M : Type} [AddCommMonoid M]

theorem foldl_add_eq_sum_list {ι : Type} (f : ι → M) (l : List ι) (a : M) :
    l.foldl (fun acc i => acc + f i) a = a + (l.map f).sum := by
  induction l generalizing a with
  | nil => simp
  | cons x xs ih => simp [ih, add_assoc]

theorem foldl_finRange_add (f : Fin N → M) (a : M) :
    (List.finRange N).foldl (fun acc i => acc + f i) a = a + ∑ i, f i := by
  rw [foldl_add_eq_sum_list, Fin.sum_univ_def]

theorem foldl_finRange_add_add (f g : Fin N → M) (a : M) :
    (List.finRange N).foldl (fun acc i => acc + f i + g i) a =
      a + ∑ i, (f i + g i) := by
  rw [← foldl_finRange_add]
  congr 1
  funext acc i
  rw [add_assoc]

theorem sum_range_two_mul (f : ℕ → M) (n : ℕ) :
    ∑ k ∈ Finset.range (2 * n), f (k + 1) =
      ∑ i ∈ Finset.range n, (f (2 * i + 1) + f (2 * i + 2)) := by
  induction n with
  | zero => simp
  | succ n ih =>
    rw [show 2 * (n + 1) = 2 * n + 1 + 1 by ring, Finset.sum_range_succ,
      Finset.sum_range_succ, ih, Finset.sum_range_succ, add_assoc]

theorem sum_map_range (g : ℕ → M) (m : ℕ) :
    ((List.range m).map g).sum = ∑ k ∈ Finset.range m, g k := by
  induction m with
  | zero => simp
  | succ m ih => simp [List.range_succ, Finset.sum_range_succ, ih]

theorem foldl_range_tail (f : ℕ → M) (a : M) (n : ℕ) :
    ((List.range (2 * n + 1)).tail).foldl (fun acc i => acc + f i) a =
      a + ∑ i : Fin n, (f (2 * i.val + 1) + f (2 * i.val + 2)) := by
  rw [foldl_add_eq_sum_list, List.range_succ_eq_map, List.tail_cons, List.map_map,
    ← Finset.sum_range (fun i => f (2 * i + 1) + f (2 * i + 2)), ← sum_range_two_mul,
    sum_map_range]
  rfl

end Loops

/-! ## The vectors built by `emplace_back` -/

section Vectors

variable {α : Type}

theorem foldl_append_pair {ι : Type} (a b : ι → α) (l : List ι) (Y : List α) :
    l.foldl (fun Y i => Y ++ [a i, b i]) Y = Y ++ l.flatMap fun i => [a i, b i] := by
  induction l generalizing Y with
  | nil => simp
  | cons x xs ih => simp [ih]

theorem length_flatMap_pair {ι : Type} (a b : ι → α) (l : List ι) :
    (l.flatMap fun i => [a i, b i]).length = 2 * l.length := by
  induction l with
  | nil => simp
  | cons x xs ih => simp [ih]; ring

theorem getD_flatMap_pair (n : ℕ) (a b : Fin n → α) (d : α) (i : Fin n) :
    ((List.finRange n).flatMap fun i => [a i, b i]).getD (2 * i.val) d = a i ∧
      ((List.finRange n).flatMap fun i => [a i, b i]).getD (2 * i.val + 1) d = b i := by
  induction n with
  | zero => exact i.elim0
  | succ n ih =>
    rw [List.finRange_succ]
    refine Fin.cases ?_ (fun j => ?_) i
    · simp
    · have h := ih (fun j => a j.succ) (fun j => b j.succ) j
      simp only [List.flatMap_cons, List.flatMap_map, Fin.val_succ]
      rw [show 2 * (j.val + 1) = 2 * j.val + 1 + 1 by ring]
      simpa [Function.comp_def] using h

/-- The vector `x, a 0, b 0, a 1, b 1, ...`. -/
theorem getD_cons_flatMap_pair (n : ℕ) (x : α) (a b : Fin n → α) (d : α) (i : Fin n) :
    (x :: (List.finRange n).flatMap fun i => [a i, b i]).getD (2 * i.val + 1) d = a i ∧
      (x :: (List.finRange n).flatMap fun i => [a i, b i]).getD (2 * i.val + 2) d = b i := by
  have h := getD_flatMap_pair n a b d i
  exact ⟨by simpa using h.1, by simpa using h.2⟩

end Vectors

namespace UnscentedKalmanFilter

theorem PredictY_eq (ops : FloatOps F) (self : UnscentedKalmanFilter F N)
    (g : (Fin N → F) → (Fin N → F)) (mu : Fin N → F)
    (sqrt_sigma : Matrix (Fin N) (Fin N) F) :
    self.PredictY ops g mu sqrt_sigma =
      g mu :: (List.finRange N).flatMap fun i =>
        [g (self.add_delta_ mu (ops.sqrt ((N : F) + kLambda N) • fun r => sqrt_sigma r i)),
         g (self.add_delta_ mu (-ops.sqrt ((N : F) + kLambda N) • fun r => sqrt_sigma r i))] := by
  unfold PredictY
  simp only []
  rw [foldl_append_pair]
  rfl

theorem PredictY_length (ops : FloatOps F) (self : UnscentedKalmanFilter F N)
    (g : (Fin N → F) → (Fin N → F)) (mu : Fin N → F)
    (sqrt_sigma : Matrix (Fin N) (Fin N) F) :
    (self.PredictY ops g mu sqrt_sigma).length = 2 * N + 1 := by
  rw [PredictY_eq, List.length_cons, length_flatMap_pair, List.length_finRange]

theorem ComputeWeightedError_eq (self : UnscentedKalmanFilter F N)
    (mean_estimate : Fin N → F) (states : List (Fin N → F)) :
    self.ComputeWeightedError mean_estimate states =
      (kMeanWeight0 N : F) • self.compute_delta_ mean_estimate (states.getD 0 0) +
        ∑ i : Fin N,
          ((kMeanWeightI N : F) •
              self.compute_delta_ mean_estimate (states.getD (2 * i.val + 1) 0) +
            (kMeanWeightI N : F) •
              self.compute_delta_ mean_estimate (states.getD (2 * i.val + 2) 0)) := by
  unfold ComputeWeightedError
  exact foldl_range_tail
    (fun i => (kMeanWeightI N : F) • self.compute_delta_ mean_estimate (states.getD i 0)) _ N

theorem PredictSigma_eq (self : UnscentedKalmanFilter F N) (new_mu : Fin N → F)
    (Y : List (Fin N → F)) :
    self.PredictSigma new_mu Y =
      (kCovWeight0 N : F) • OuterProduct (self.compute_delta_ new_mu (Y.getD 0 0)) +
        ∑ i : Fin N,
          ((kCovWeightI N : F) •
              OuterProduct (self.compute_delta_ new_mu (Y.getD (2 * i.val + 1) 0)) +
            (kCovWeightI N : F) •
              OuterProduct (self.compute_delta_ new_mu (Y.getD (2 * i.val + 2) 0))) := by
  unfold PredictSigma
  exact foldl_finRange_add_add _ _ _

theorem ObserveS_eq (Z : List (Fin K → F)) (z_hat : Fin K → F) :
    ObserveS N Z z_hat =
      (kCovWeight0 N : F) • OuterProduct (Z.getD 0 0 - z_hat) +
        ∑ i : Fin N,
          ((kCovWeightI N : F) • OuterProduct (Z.getD (2 * i.val + 1) 0 - z_hat) +
            (kCovWeightI N : F) • OuterProduct (Z.getD (2 * i.val + 2) 0 - z_hat)) := by
  unfold ObserveS
  exact foldl_finRange_add_add _ _ _

theorem ObserveSigmaBarXZ_eq (W : List (Fin N → F)) (Z : List (Fin K → F))
    (z_hat : Fin K → F) :
    ObserveSigmaBarXZ W Z z_hat =
      (kCovWeight0 N : F) • Matrix.vecMulVec (W.getD 0 0) (Z.getD 0 0 - z_hat) +
        ∑ i : Fin N,
          ((kCovWeightI N : F) •
              Matrix.vecMulVec (W.getD (2 * i.val + 1) 0) (Z.getD (2 * i.val + 1) 0 - z_hat) +
            (kCovWeightI N : F) •
              Matrix.vecMulVec (W.getD (2 * i.val + 2) 0)
                (Z.getD (2 * i.val + 2) 0 - z_hat)) := by
  unfold ObserveSigmaBarXZ
  exact foldl_finRange_add_add _ _ _

theorem observe_loop_aux (c : F) (n k : ℕ) (wa wb : Fin n → (Fin N → F))
    (za zb : Fin n → (Fin K → F)) (s : ObserveLoop F N K) (hZ : s.Z.length = 2 * k + 1) :
    (List.finRange n).foldl
        (fun (s : ObserveLoop F N K) i =>
          let W := s.W ++ [wa i]
          let Z := s.Z ++ [za i]
          let W := W ++ [wb i]
          let Z := Z ++ [zb i]
          let z_hat := s.z_hat + c • Z.getD (2 * (i.val + k) + 1) 0
          let z_hat := z_hat + c • Z.getD (2 * (i.val + k) + 2) 0
          (⟨W, Z, z_hat⟩ : ObserveLoop F N K)) s =
      ⟨s.W ++ (List.finRange n).flatMap fun i => [wa i, wb i],
        s.Z ++ (List.finRange n).flatMap fun i => [za i, zb i],
        s.z_hat + ∑ i, (c • za i + c • zb i)⟩ := by
  induction n generalizing k s with
  | zero => simp
  | succ n ih =>
    rw [List.finRange_succ, List.foldl_cons, List.foldl_map]
    have h1 : (s.Z ++ [za 0] ++ [zb 0]).getD (2 * ((0 : Fin (n + 1)).val + k) + 1) 0 = za 0 := by
      rw [List.append_assoc, List.getD_append_right _ _ _ _ (by simp [hZ])]
      simp [hZ]
    have h2 : (s.Z ++ [za 0] ++ [zb 0]).getD (2 * ((0 : Fin (n + 1)).val + k) + 2) 0 = zb 0 := by
      rw [List.append_assoc, List.getD_append_right _ _ _ _ (by simp [hZ])]
      simp [hZ]
    simp only [h1, h2]
    have h3 := ih (k + 1) (fun j => wa j.succ) (fun j => wb j.succ) (fun j => za j.succ)
      (fun j => zb j.succ)
      ⟨s.W ++ [wa 0] ++ [wb 0], s.Z ++ [za 0] ++ [zb 0], s.z_hat + c • za 0 + c • zb 0⟩
      (by simp [hZ]; ring)
    simp only [Fin.val_succ, add_assoc, add_comm 1 k] at h3 ⊢
    rw [h3]
    simp [List.flatMap_map, Function.comp_def, Fin.sum_univ_succ, add_assoc]

theorem ObserveSigma_eq (ops : FloatOps F) (self : UnscentedKalmanFilter F N)
    (h : (Fin N → F) → (Fin K → F)) (mu : Fin N → F)
    (sqrt_sigma : Matrix (Fin N) (Fin N) F) :
    self.ObserveSigma ops h mu sqrt_sigma =
      ⟨0 :: (List.finRange N).flatMap fun i =>
          [ops.sqrt ((N : F) + kLambda N) • fun r => sqrt_sigma r i,
           -ops.sqrt ((N : F) + kLambda N) • fun r => sqrt_sigma r i],
        h mu :: (List.finRange N).flatMap fun i =>
          [h (self.add_delta_ mu (ops.sqrt ((N : F) + kLambda N) • fun r => sqrt_sigma r i)),
           h (self.add_delta_ mu (-ops.sqrt ((N : F) + kLambda N) • fun r => sqrt_sigma r i))],
        (kMeanWeight0 N : F) • h mu +
          ∑ i : Fin N,
            ((kMeanWeightI N : F) •
                h (self.add_delta_ mu
                  (ops.sqrt ((N : F) + kLambda N) • fun r => sqrt_sigma r i)) +
              (kMeanWeightI N : F) •
                h (self.add_delta_ mu
                  (-ops.sqrt ((N : F) + kLambda N) • fun r => sqrt_sigma r i)))⟩ := by
  unfold ObserveSigma
  exact observe_loop_aux (kMeanWeightI N : F) N 0 _ _ _ _ ⟨[0], [h mu], _⟩ rfl

end UnscentedKalmanFilter

/-! ## `minCoeff` -/

theorem lt_foldl_min_iff (c x : F) (xs : List F) :
    c < xs.foldl min x ↔ c < x ∧ ∀ y ∈ xs, c < y := by
  induction xs generalizing x with
  | nil => simp
  | cons y ys ih => simp [ih, lt_min_iff, and_assoc]

theorem lt_minCoeff_iff (hN : 0 < N) (v : Fin N → F) (c : F) :
    c < minCoeff v ↔ ∀ i, c < v i := by
  obtain ⟨n, rfl⟩ : ∃ n, N = n + 1 := ⟨N - 1, by omega⟩
  simp only [minCoeff, List.ofFn_succ, lt_foldl_min_iff, List.mem_ofFn, Fin.forall_fin_succ]
  constructor
  · rintro ⟨h0, h⟩
    exact ⟨h0, fun i => h _ ⟨i, rfl⟩⟩
  · rintro ⟨h0, h⟩
    refine ⟨h0, ?_⟩
    rintro y ⟨i, rfl⟩
    exact h i

theorem minCoeff_le (v : Fin N → F) (i : Fin N) : minCoeff v ≤ v i := by
  by_contra hlt
  have h := (lt_minCoeff_iff (Fin.pos i) v (v i)).mp (not_le.mp hlt) i
  exact lt_irrefl _ h

theorem exists_minCoeff_eq (hN : 0 < N) (v : Fin N → F) : ∃ i, minCoeff v = v i := by
  by_contra hne
  have h : ∀ i, minCoeff v < v i := fun i =>
    lt_of_le_of_ne (minCoeff_le v i) (fun e => hne ⟨i, e⟩)
  exact lt_irrefl _ ((lt_minCoeff_iff hN v (minCoeff v)).mpr h)

/-! ## `CheckSymmetric` -/

theorem CheckSymmetric_eq_ok_iff (ops : FloatOps F) (A : Matrix (Fin N) (Fin N) F) :
    CheckSymmetric ops A = .ok () ↔
      ops.isnan (matNorm ops (A - Aᵀ)) = false ∧ |matNorm ops (A - Aᵀ)| < 1e-5 := by
  unfold CheckSymmetric
  simp only []
  split_ifs with h
  · simp [h]
  · simp [h]

theorem CheckSymmetric_ne_ok (ops : FloatOps F) (A : Matrix (Fin N) (Fin N) F)
    (h : CheckSymmetric ops A ≠ .ok ()) :
    CheckSymmetric ops A = .error Failure.SymmetryCheckFailed := by
  unfold CheckSymmetric at h ⊢
  simp only [] at h ⊢
  split_ifs with hc
  · simp [hc] at h
  · rfl

theorem matNorm_zero (ops : FloatOps ℝ) (hx : ExactArithmetic ops) :
    matNorm ops (0 : Matrix (Fin N) (Fin K) ℝ) = 0 := by
  simp [matNorm, hx.1]

theorem vecNorm_zero (ops : FloatOps ℝ) (hx : ExactArithmetic ops) :
    vecNorm ops (0 : Fin N → ℝ) = 0 := by
  simp [vecNorm, hx.1]

theorem CheckSymmetric_of_isSymm (ops : FloatOps ℝ) (hx : ExactArithmetic ops)
    (A : Matrix (Fin N) (Fin N) ℝ) (hA : A.IsSymm) : CheckSymmetric ops A = .ok () := by
  rw [CheckSymmetric_eq_ok_iff, hA.eq, sub_self, matNorm_zero ops hx]
  exact ⟨hx.2 _, by norm_num⟩

theorem symmetrize_of_isSymm (A : Matrix (Fin N) (Fin N) F) (hA : A.IsSymm) :
    ((A + Aᵀ).map fun x => x / 2) = A := by
  ext i j
  simp [hA.eq]

theorem OuterProduct_isSymm (v : Fin N → F) : (OuterProduct v).IsSymm := by
  ext i j
  simp [OuterProduct, mul_comm]

theorem OuterProduct_eq_vecMulVec (v : Fin N → F) : OuterProduct v = Matrix.vecMulVec v v := by
  ext i j
  simp [OuterProduct, Matrix.vecMulVec]

/-! ## `MatrixSqrt` -/

theorem IsEigenDecomposition.mul_transpose {M : Matrix (Fin N) (Fin N) F}
    {d : SelfAdjointEigenSolver F N} (hd : IsEigenDecomposition M d) :
    d.eigenvectors * d.eigenvectorsᵀ = 1 :=
  Matrix.mul_eq_one_comm.mp hd.1

theorem IsEigenDecomposition.diagonal_eq {M : Matrix (Fin N) (Fin N) F}
    {d : SelfAdjointEigenSolver F N} (hd : IsEigenDecomposition M d) :
    Matrix.diagonal d.eigenvalues = d.eigenvectorsᵀ * M * d.eigenvectors := by
  have h := hd.1
  calc Matrix.diagonal d.eigenvalues
      = (d.eigenvectorsᵀ * d.eigenvectors) * Matrix.diagonal d.eigenvalues *
          (d.eigenvectorsᵀ * d.eigenvectors) := by rw [h]; simp
    _ = d.eigenvectorsᵀ *
          (d.eigenvectors * Matrix.diagonal d.eigenvalues * d.eigenvectorsᵀ) *
          d.eigenvectors := by simp only [Matrix.mul_assoc]
    _ = d.eigenvectorsᵀ * M * d.eigenvectors := by rw [← hd.2]

theorem IsEigenDecomposition.eigenvalues_nonneg {M : Matrix (Fin N) (Fin N) ℝ}
    {d : SelfAdjointEigenSolver ℝ N} (hd : IsEigenDecomposition M d) (hM : M.PosSemidef)
    (i : Fin N) : 0 ≤ d.eigenvalues i := by
  have h := hM.conjTranspose_mul_mul_same d.eigenvectors
  rw [Matrix.conjTranspose_eq_transpose_of_trivial, ← hd.diagonal_eq] at h
  exact Matrix.posSemidef_diagonal_iff.mp h i

/-- The value returned by `MatrixSqrt` from the result `d` of the solver. -/
theorem MatrixSqrt_eq_ok (ops : FloatOps F)
    (solver : Matrix (Fin N) (Fin N) F → SelfAdjointEigenSolver F N)
    (A : Matrix (Fin N) (Fin N) F) (hc : CheckSymmetric ops A = .ok ())
    (hmin : -1e-5 < minCoeff (solver ((A + Aᵀ).map fun x => x / 2)).eigenvalues) :
    MatrixSqrt ops solver A =
      .ok ((solver ((A + Aᵀ).map fun x => x / 2)).eigenvectors *
        Matrix.diagonal (fun i => ops.sqrt
          (max ((solver ((A + Aᵀ).map fun x => x / 2)).eigenvalues i) 0)) *
        (solver ((A + Aᵀ).map fun x => x / 2)).eigenvectorsᵀ) := by
  unfold MatrixSqrt
  rw [hc]
  simp only []
  rw [if_pos hmin]

/-- The square root of the diagonal factor: `B = V * diag(√max(λ, 0)) * Vᵀ` is symmetric
positive semidefinite and `B * Bᵀ = V * diag(max(λ, 0)) * Vᵀ`. -/
theorem sqrt_factor_spec (V : Matrix (Fin N) (Fin N) ℝ) (ev : Fin N → ℝ) (hV : Vᵀ * V = 1) :
    (V * Matrix.diagonal (fun i => Real.sqrt (max (ev i) 0)) * Vᵀ).PosSemidef ∧
      (V * Matrix.diagonal (fun i => Real.sqrt (max (ev i) 0)) * Vᵀ) *
          (V * Matrix.diagonal (fun i => Real.sqrt (max (ev i) 0)) * Vᵀ)ᵀ =
        V * Matrix.diagonal (fun i => max (ev i) 0) * Vᵀ := by
  constructor
  · have h := (Matrix.PosSemidef.diagonal
      (show (0 : Fin N → ℝ) ≤ fun i => Real.sqrt (max (ev i) 0) from
        fun i => Real.sqrt_nonneg _)).mul_mul_conjTranspose_same V
    rwa [Matrix.conjTranspose_eq_transpose_of_trivial] at h
  · simp only [Matrix.transpose_mul, Matrix.transpose_transpose, Matrix.diagonal_transpose]
    calc V * Matrix.diagonal (fun i => Real.sqrt (max (ev i) 0)) * Vᵀ *
          (V * (Matrix.diagonal (fun i => Real.sqrt (max (ev i) 0)) * Vᵀ))
        = V * (Matrix.diagonal (fun i => Real.sqrt (max (ev i) 0)) * (Vᵀ * V) *
            Matrix.diagonal (fun i => Real.sqrt (max (ev i) 0))) * Vᵀ := by
          simp only [Matrix.mul_assoc]
      _ = V * Matrix.diagonal (fun i => max (ev i) 0) * Vᵀ := by
          rw [hV, Matrix.mul_one, Matrix.diagonal_mul_diagonal]
          have e : (fun i => Real.sqrt (max (ev i) 0) * Real.sqrt (max (ev i) 0)) =
              fun i => max (ev i) 0 :=
            funext fun i => Real.mul_self_sqrt (le_max_right _ _)
          rw [e]

/-- On a symmetric positive semidefinite matrix `MatrixSqrt` succeeds, and its result
`B` is symmetric positive semidefinite with `B * Bᵀ = A`. -/
theorem MatrixSqrt_of_posSemidef (hN : 0 < N) (ops : FloatOps ℝ) (hx : ExactArithmetic ops)
    (solver : Matrix (Fin N) (Fin N) ℝ → SelfAdjointEigenSolver ℝ N)
    (A : Matrix (Fin N) (Fin N) ℝ) (hA : A.PosSemidef) (hs : SolverCorrectAt solver A) :
    ∃ B, MatrixSqrt ops solver A = .ok B ∧ B.PosSemidef ∧ B * Bᵀ = A := by
  have hsym : A.IsSymm := by
    have h := hA.1
    rwa [Matrix.IsHermitian, Matrix.conjTranspose_eq_transpose_of_trivial] at h
  have hd : IsEigenDecomposition A (solver ((A + Aᵀ).map fun x => x / 2)) := by
    have h := hs
    unfold SolverCorrectAt at h
    rwa [symmetrize_of_isSymm A hsym] at h ⊢
  have hnn := hd.eigenvalues_nonneg hA
  have hmin : (-1e-5 : ℝ) < minCoeff (solver ((A + Aᵀ).map fun x => x / 2)).eigenvalues :=
    (lt_minCoeff_iff hN _ _).mpr fun i => lt_of_lt_of_le (by norm_num) (hnn i)
  refine ⟨_, MatrixSqrt_eq_ok ops solver A (CheckSymmetric_of_isSymm ops hx A hsym) hmin, ?_⟩
  rw [hx.1]
  obtain ⟨h1, h2⟩ := sqrt_factor_spec (solver ((A + Aᵀ).map fun x => x / 2)).eigenvectors
    (solver ((A + Aᵀ).map fun x => x / 2)).eigenvalues hd.1
  refine ⟨h1, h2.trans ?_⟩
  have e : (fun i => max ((solver ((A + Aᵀ).map fun x => x / 2)).eigenvalues i) 0) =
      (solver ((A + Aᵀ).map fun x => x / 2)).eigenvalues :=
    funext fun i => max_eq_left (hnn i)
  rw [e]
  exact hd.2.symm

/-! ## Existence of eigendecompositions -/

/-- Every symmetric real matrix has an eigendecomposition: the assumption
`SolverCorrectAt` can be met on every input of `MatrixSqrt`. -/
theorem exists_isEigenDecomposition (A : Matrix (Fin N) (Fin N) ℝ) (hA : A.IsSymm) :
    ∃ d : SelfAdjointEigenSolver ℝ N, IsEigenDecomposition A d := by
  have hH : A.IsHermitian := by
    rw [Matrix.IsHermitian, Matrix.conjTranspose_eq_transpose_of_trivial]
    exact hA
  refine ⟨⟨hH.eigenvalues, (hH.eigenvectorUnitary : Matrix (Fin N) (Fin N) ℝ)⟩, ?_, ?_⟩
  · have h := (Matrix.mem_unitaryGroup_iff').mp hH.eigenvectorUnitary.2
    rw [Matrix.star_eq_conjTranspose, Matrix.conjTranspose_eq_transpose_of_trivial] at h
    exact h
  · have h := hH.spectral_theorem
    rw [Matrix.star_eq_conjTranspose, Matrix.conjTranspose_eq_transpose_of_trivial] at h
    exact h

/-- For every real matrix there is a solver that is correct at it. -/
theorem exists_solverCorrectAt (A : Matrix (Fin N) (Fin N) ℝ) :
    ∃ solver : Matrix (Fin N) (Fin N) ℝ → SelfAdjointEigenSolver ℝ N,
      SolverCorrectAt solver A := by
  have hsym : ((A + Aᵀ).map fun x => x / 2).IsSymm := by
    ext i j
    simp [add_comm]
  obtain ⟨d, hd⟩ := exists_isEigenDecomposition _ hsym
  exact ⟨fun _ => d, hd⟩

/-! ## The constants -/

theorem n_add_kLambda (N : ℕ) : (N : F) + kLambda N = 1e-6 * N := by
  simp only [kLambda, sqr, kAlpha, kKappa]
  norm_num

theorem n_add_kLambda_pos (hN : 0 < N) : (0 : F) < (N : F) + kLambda N := by
  rw [n_add_kLambda]
  have : (0 : F) < N := by exact_mod_cast hN
  have h6 : (0 : F) < 1e-6 := by norm_num
  positivity

theorem kMeanWeight0_eq (hN : 0 < N) : (kMeanWeight0 N : F) = 1 - 1e6 := by
  have hN0 : (N : F) ≠ 0 := by exact_mod_cast hN.ne'
  have h : (N : F) + kLambda N ≠ 0 := (n_add_kLambda_pos hN).ne'
  rw [kMeanWeight0, div_eq_iff h, n_add_kLambda]
  simp only [kLambda, sqr, kAlpha, kKappa]
  norm_num
  ring

theorem kMeanWeightI_eq (hN : 0 < N) : (kMeanWeightI N : F) = 1e6 / (2 * N) := by
  have hN0 : (N : F) ≠ 0 := by exact_mod_cast hN.ne'
  rw [kMeanWeightI, n_add_kLambda]
  field_simp
  norm_num
  ring

theorem kCovWeight0_eq (hN : 0 < N) : (kCovWeight0 N : F) = 4 - 1e6 - 1e-6 := by
  have h := kMeanWeight0_eq (F := F) hN
  unfold kMeanWeight0 at h
  rw [kCovWeight0, h]
  simp only [sqr, kAlpha, kBeta]
  norm_num

theorem mean_weights_sum (hN : 0 < N) :
    (kMeanWeight0 N : F) + 2 * N * kMeanWeightI N = 1 := by
  have hN0 : (N : F) ≠ 0 := by exact_mod_cast hN.ne'
  rw [kMeanWeight0_eq hN, kMeanWeightI_eq hN]
  field_simp

theorem two_mul_kCovWeightI_mul (hN : 0 < N) :
    2 * (kCovWeightI N : F) * ((N : F) + kLambda N) = 1 := by
  have h : (N : F) + kLambda N ≠ 0 := (n_add_kLambda_pos hN).ne'
  rw [kCovWeightI, kMeanWeightI]
  field_simp

/-! ## Sums of outer products -/

theorem vecMulVec_smul_smul (c : F) (u : Fin N → F) (v : Fin K → F) :
    Matrix.vecMulVec (c • u) (c • v) = (c * c) • Matrix.vecMulVec u v := by
  ext i j
  simp [Matrix.vecMulVec]
  ring

theorem vecMulVec_neg_neg (u : Fin N → F) (v : Fin K → F) :
    Matrix.vecMulVec (-u) (-v) = Matrix.vecMulVec u v := by
  ext i j
  simp [Matrix.vecMulVec]

theorem sum_vecMulVec_col {L : ℕ} (P : Matrix (Fin N) (Fin L) F) (Q : Matrix (Fin K) (Fin L) F) :
    ∑ i, Matrix.vecMulVec (fun r => P r i) (fun r => Q r i) = P * Qᵀ := by
  ext r s
  simp [Matrix.vecMulVec, Matrix.mul_apply, Matrix.sum_apply]

theorem mulVec_col {L : ℕ} (H : Matrix (Fin K) (Fin N) F) (B : Matrix (Fin N) (Fin L) F)
    (i : Fin L) : (H *ᵥ fun r => B r i) = fun r => (H * B) r i := by
  ext r
  simp [Matrix.mulVec, Matrix.dotProduct, Matrix.mul_apply]

namespace UnscentedKalmanFilter

/-! ## The sigma points -/

theorem PredictY_getD_zero (ops : FloatOps F) (self : UnscentedKalmanFilter F N)
    (g : (Fin N → F) → (Fin N → F)) (mu : Fin N → F)
    (sqrt_sigma : Matrix (Fin N) (Fin N) F) :
    (self.PredictY ops g mu sqrt_sigma).getD 0 0 = g mu := by
  rw [PredictY_eq]
  rfl

theorem PredictY_getD_odd (ops : FloatOps F) (self : UnscentedKalmanFilter F N)
    (g : (Fin N → F) → (Fin N → F)) (mu : Fin N → F)
    (sqrt_sigma : Matrix (Fin N) (Fin N) F) (i : Fin N) :
    (self.PredictY ops g mu sqrt_sigma).getD (2 * i.val + 1) 0 =
      g (self.add_delta_ mu (ops.sqrt ((N : F) + kLambda N) • fun r => sqrt_sigma r i)) := by
  rw [PredictY_eq]
  exact (getD_cons_flatMap_pair N _ _ _ 0 i).1

theorem PredictY_getD_even (ops : FloatOps F) (self : UnscentedKalmanFilter F N)
    (g : (Fin N → F) → (Fin N → F)) (mu : Fin N → F)
    (sqrt_sigma : Matrix (Fin N) (Fin N) F) (i : Fin N) :
    (self.PredictY ops g mu sqrt_sigma).getD (2 * i.val + 2) 0 =
      g (self.add_delta_ mu (-ops.sqrt ((N : F) + kLambda N) • fun r => sqrt_sigma r i)) := by
  rw [PredictY_eq]
  exact (getD_cons_flatMap_pair N _ _ _ 0 i).2

/-! ## `ComputeMean` -/

theorem ComputeMean_of_error_le (ops : FloatOps F) (self : UnscentedKalmanFilter F N)
    (states : List (Fin N → F)) (hlen : states.length = 2 * N + 1)
    (h : vecNorm ops (self.ComputeWeightedError (states.getD 0 0) states) ≤ 1e-9) :
    self.ComputeMean ops states = .ok (states.getD 0 0) := by
  unfold ComputeMean
  rw [if_pos hlen]
  simp only [meanLoop]
  rw [if_neg (not_lt.mpr h)]

theorem PredictSigma_isSymm (self : UnscentedKalmanFilter F N) (new_mu : Fin N → F)
    (Y : List (Fin N → F)) : (self.PredictSigma new_mu Y).IsSymm := by
  rw [PredictSigma_eq]
  unfold Matrix.IsSymm
  simp only [Matrix.transpose_add, Matrix.transpose_smul, Matrix.transpose_sum,
    (OuterProduct_isSymm _).eq]

/-! ## The bounds of the loops of `ComputeMean` -/

/-- More candidates than the step sizes above `1e-3` allow are never tried: when
`step_size * 0.5 ^ fuel` is not above `1e-3`, further fuel does not change the result of
the inner loop. -/
theorem lineSearch_add_fuel (ops : FloatOps F) (self : UnscentedKalmanFilter F N)
    (states : List (Fin N → F)) (current_estimate weighted_error : Fin N → F)
    (fuel extra : ℕ) (step_size : F) (hstep : step_size * 0.5 ^ (fuel + 1) ≤ 1e-3) :
    lineSearch ops self states current_estimate weighted_error (fuel + 1 + extra) step_size =
      lineSearch ops self states current_estimate weighted_error (fuel + 1) step_size := by
  induction fuel generalizing step_size with
  | zero =>
    rw [show 0 + 1 + extra = extra + 1 by omega]
    conv_lhs => rw [lineSearch]
    conv_rhs => rw [lineSearch]
    simp only [zero_add] at hstep ⊢
    split_ifs with h1 h2
    · rfl
    · exact absurd h2 (not_lt.mpr (by simpa using hstep))
    · rfl
  | succ fuel ih =>
    rw [show fuel + 1 + 1 + extra = (fuel + 1 + extra) + 1 by omega]
    conv_lhs => rw [lineSearch]
    conv_rhs => rw [lineSearch]
    simp only []
    split_ifs with h1 h2
    · rfl
    · exact ih (step_size * 0.5) (by
        rw [pow_succ] at hstep
        calc step_size * 0.5 * 0.5 ^ (fuel + 1) = step_size * (0.5 ^ (fuel + 1) * 0.5) := by ring
          _ ≤ 1e-3 := hstep)
    · rfl

/-- The ten candidates of the inner loop of `ComputeMean` exhaust the step sizes above
`1e-3`. -/
theorem lineSearch_ten (ops : FloatOps F) (self : UnscentedKalmanFilter F N)
    (states : List (Fin N → F)) (current_estimate weighted_error : Fin N → F) (extra : ℕ) :
    lineSearch ops self states current_estimate weighted_error (10 + extra) 1 =
      lineSearch ops self states current_estimate weighted_error 10 1 :=
  lineSearch_add_fuel ops self states current_estimate weighted_error 9 extra 1 (by norm_num)

/-- More rounds than `CHECK_LT(iterations, 20)` allows are never run: when
`iterations + fuel` reaches 20, further fuel does not change the result of the outer
loop. -/
theorem meanLoop_add_fuel (ops : FloatOps F) (self : UnscentedKalmanFilter F N)
    (states : List (Fin N → F)) (fuel extra iterations : ℕ)
    (current_estimate weighted_error : Fin N → F) (hfuel : 20 ≤ iterations + (fuel + 1)) :
    meanLoop ops self states (fuel + 1 + extra) iterations current_estimate weighted_error =
      meanLoop ops self states (fuel + 1) iterations current_estimate weighted_error := by
  induction fuel generalizing iterations current_estimate weighted_error with
  | zero =>
    rw [show 0 + 1 + extra = extra + 1 by omega]
    conv_lhs => rw [meanLoop]
    conv_rhs => rw [meanLoop]
    simp only []
    split_ifs with h1 h2
    · exact absurd h2 (by omega)
    · rfl
    · rfl
  | succ fuel ih =>
    rw [show fuel + 1 + 1 + extra = (fuel + 1 + extra) + 1 by omega]
    conv_lhs => rw [meanLoop]
    conv_rhs => rw [meanLoop]
    simp only []
    split_ifs with h1 h2
    · split
      · rfl
      · exact ih _ _ _ (by omega)
    · rfl
    · rfl

/-- The twenty rounds of the outer loop of `ComputeMean` started with `iterations = 0`
exhaust the rounds that `CHECK_LT(iterations, 20)` allows. -/
theorem meanLoop_twenty (ops : FloatOps F) (self : UnscentedKalmanFilter F N)
    (states : List (Fin N → F)) (extra : ℕ) (current_estimate weighted_error : Fin N → F) :
    meanLoop ops self states (20 + extra) 0 current_estimate weighted_error =
      meanLoop ops self states 20 0 current_estimate weighted_error :=
  meanLoop_add_fuel ops self states 19 extra 0 current_estimate weighted_error (by omega)

/-! ## `Predict` with an affine transition -/

theorem sqrt_mul_self_n_add_kLambda (hN : 0 < N) (ops : FloatOps ℝ) (hx : ExactArithmetic ops) :
    ops.sqrt ((N : ℝ) + kLambda N) * ops.sqrt ((N : ℝ) + kLambda N) = (N : ℝ) + kLambda N := by
  rw [hx.1]
  exact Real.mul_self_sqrt (n_add_kLambda_pos hN).le

/-- The weighted sum over the symmetric pairs of sigma points. -/
theorem sum_pair_outer {L : ℕ} (hN : 0 < N) (ops : FloatOps ℝ) (hx : ExactArithmetic ops)
    (P : Matrix (Fin L) (Fin N) ℝ) (Q : Matrix (Fin K) (Fin N) ℝ) :
    ∑ i : Fin N,
        ((kCovWeightI N : ℝ) •
            Matrix.vecMulVec (ops.sqrt ((N : ℝ) + kLambda N) • fun r => P r i)
              (ops.sqrt ((N : ℝ) + kLambda N) • fun r => Q r i) +
          (kCovWeightI N : ℝ) •
            Matrix.vecMulVec (-ops.sqrt ((N : ℝ) + kLambda N) • fun r => P r i)
              (-ops.sqrt ((N : ℝ) + kLambda N) • fun r => Q r i)) =
      P * Qᵀ := by
  have h1 := sqrt_mul_self_n_add_kLambda hN ops hx
  have h2 := two_mul_kCovWeightI_mul (F := ℝ) hN
  simp only [vecMulVec_smul_smul, neg_mul_neg, h1, smul_smul, ← two_smul ℝ, ← Finset.smul_sum,
    sum_vecMulVec_col]
  rw [← mul_assoc, h2, one_smul]

section Affine

variable (ops : FloatOps F) (belief : GaussianDistribution F N)
  (A : Matrix (Fin K) (Fin N) F) (b : Fin K → F) (mu : Fin N → F)
  (B : Matrix (Fin N) (Fin N) F)

theorem affine_sub_odd (i : Fin N) :
    A *ᵥ (mu + ops.sqrt ((N : F) + kLambda N) • fun r => B r i) + b - (A *ᵥ mu + b) =
      ops.sqrt ((N : F) + kLambda N) • fun r => (A * B) r i := by
  rw [Matrix.mulVec_add, Matrix.mulVec_smul, mulVec_col]
  abel

theorem affine_sub_even (i : Fin N) :
    A *ᵥ (mu + -ops.sqrt ((N : F) + kLambda N) • fun r => B r i) + b - (A *ᵥ mu + b) =
      -ops.sqrt ((N : F) + kLambda N) • fun r => (A * B) r i := by
  rw [Matrix.mulVec_add, Matrix.mulVec_smul, mulVec_col]
  abel

end Affine

/-- With the default delta operators and an affine transition the weighted error of the
transformed sigma points vanishes at the image of the mean. -/
theorem affine_weighted_error (ops : FloatOps F) (belief : GaussianDistribution F N)
    (A : Matrix (Fin N) (Fin N) F) (b mu : Fin N → F) (B : Matrix (Fin N) (Fin N) F) :
    (create belief).ComputeWeightedError (A *ᵥ mu + b)
      ((create belief).PredictY ops (fun x => A *ᵥ x + b) mu B) = 0 := by
  have hY0 := PredictY_getD_zero ops (create belief) (fun x => A *ᵥ x + b) mu B
  have hY1 := PredictY_getD_odd ops (create belief) (fun x => A *ᵥ x + b) mu B
  have hY2 := PredictY_getD_even ops (create belief) (fun x => A *ᵥ x + b) mu B
  have hcd : ∀ o t : Fin N → F, (create belief).compute_delta_ o t = t - o := fun _ _ => rfl
  have hadd : ∀ s d : Fin N → F, (create belief).add_delta_ s d = s + d := fun _ _ => rfl
  simp only [hadd] at hY1 hY2
  rw [ComputeWeightedError_eq]
  simp only [hY0, hY1, hY2, hcd, affine_sub_odd, affine_sub_even, sub_self, smul_zero, zero_add]
  simp only [neg_smul, smul_neg, add_neg_cancel, Finset.sum_const_zero]

/-- With the default delta operators and an affine transition the covariance computed
from the transformed sigma points is `A * (B * Bᵀ) * Aᵀ`. -/
theorem affine_sigma (hN : 0 < N) (ops : FloatOps ℝ) (hx : ExactArithmetic ops)
    (belief : GaussianDistribution ℝ N)
    (A : Matrix (Fin N) (Fin N) ℝ) (b mu : Fin N → ℝ) (B : Matrix (Fin N) (Fin N) ℝ) :
    (create belief).PredictSigma (A *ᵥ mu + b)
      ((create belief).PredictY ops (fun x => A *ᵥ x + b) mu B) = A * (B * Bᵀ) * Aᵀ := by
  have hY0 := PredictY_getD_zero ops (create belief) (fun x => A *ᵥ x + b) mu B
  have hY1 := PredictY_getD_odd ops (create belief) (fun x => A *ᵥ x + b) mu B
  have hY2 := PredictY_getD_even ops (create belief) (fun x => A *ᵥ x + b) mu B
  have hcd : ∀ o t : Fin N → ℝ, (create belief).compute_delta_ o t = t - o := fun _ _ => rfl
  have hadd : ∀ s d : Fin N → ℝ, (create belief).add_delta_ s d = s + d := fun _ _ => rfl
  simp only [hadd] at hY1 hY2
  rw [PredictSigma_eq]
  simp only [hY0, hY1, hY2, hcd, affine_sub_odd, affine_sub_even, sub_self,
    OuterProduct_eq_vecMulVec]
  rw [sum_pair_outer hN ops hx (A * B) (A * B)]
  have h0 : Matrix.vecMulVec (0 : Fin N → ℝ) (0 : Fin N → ℝ) = 0 := by
    ext i j
    simp [Matrix.vecMulVec]
  rw [h0, smul_zero, zero_add, Matrix.transpose_mul]
  simp only [Matrix.mul_assoc]

theorem Predict_affine (hN : 0 < N) (ops : FloatOps ℝ) (hx : ExactArithmetic ops)
    (solver : Matrix (Fin N) (Fin N) ℝ → SelfAdjointEigenSolver ℝ N)
    (belief : GaussianDistribution ℝ N) (hbel : belief.GetCovariance.PosSemidef)
    (hs : SolverCorrectAt solver belief.GetCovariance)
    (A : Matrix (Fin N) (Fin N) ℝ) (b : Fin N → ℝ) (epsilon : GaussianDistribution ℝ N)
    (heps : CheckSymmetric ops epsilon.GetCovariance = .ok ()) :
    (create belief).Predict ops solver (fun x => A *ᵥ x + b) epsilon =
      .ok (create ⟨A *ᵥ belief.GetMean + b + epsilon.GetMean,
        A * belief.GetCovariance * Aᵀ + epsilon.GetCovariance⟩) := by
  obtain ⟨B, hB, hBpsd, hBB⟩ :=
    MatrixSqrt_of_posSemidef hN ops hx solver belief.GetCovariance hbel hs
  have hY0 := PredictY_getD_zero ops (create belief) (fun x => A *ᵥ x + b) belief.GetMean B
  have hlen := PredictY_length ops (create belief) (fun x => A *ᵥ x + b) belief.GetMean B
  have hmean : (create belief).ComputeMean ops
      ((create belief).PredictY ops (fun x => A *ᵥ x + b) belief.GetMean B) =
        .ok (A *ᵥ belief.GetMean + b) := by
    rw [ComputeMean_of_error_le ops _ _ hlen, hY0]
    rw [hY0, affine_weighted_error, vecNorm_zero ops hx]
    norm_num
  have hsig : (create belief).PredictSigma (A *ᵥ belief.GetMean + b)
      ((create belief).PredictY ops (fun x => A *ᵥ x + b) belief.GetMean B) =
        A * belief.GetCovariance * Aᵀ := by
    rw [affine_sigma hN ops hx, hBB]
  have hsymm : (A * belief.GetCovariance * Aᵀ).IsSymm := by
    rw [← hsig]
    exact PredictSigma_isSymm _ _ _
  unfold Predict
  rw [heps]
  simp only []
  have hB2 : MatrixSqrt ops solver (create belief).belief_.GetCovariance = .ok B := hB
  rw [hB2]
  simp only []
  have hmean2 : (create belief).ComputeMean ops
      ((create belief).PredictY ops (fun x => A *ᵥ x + b) (create belief).belief_.GetMean B) =
        .ok (A *ᵥ belief.GetMean + b) := hmean
  rw [hmean2]
  simp only []
  have hsig2 : (create belief).PredictSigma (A *ᵥ belief.GetMean + b)
      ((create belief).PredictY ops (fun x => A *ᵥ x + b) (create belief).belief_.GetMean B) =
        A * belief.GetCovariance * Aᵀ := hsig
  rw [hsig2, CheckSymmetric_of_isSymm ops hx _ hsymm]
  rfl

end UnscentedKalmanFilter

theorem inverse_eq_some (S : Matrix (Fin K) (Fin K) F) (hdet : S.det ≠ 0) :
    inverse S = some S⁻¹ := by
  unfold inverse
  rw [if_neg hdet, Matrix.inv_def, Ring.inverse_eq_inv']

theorem inverse_eq_none (S : Matrix (Fin K) (Fin K) F) (hdet : S.det = 0) :
    inverse S = none := by
  unfold inverse
  rw [if_pos hdet]

theorem inverse_eq_some_iff (S T : Matrix (Fin K) (Fin K) F) :
    inverse S = some T ↔ S.det ≠ 0 ∧ T = S⁻¹ := by
  by_cases hdet : S.det = 0
  · simp [inverse_eq_none S hdet, hdet]
  · simp [inverse_eq_some S hdet, hdet, eq_comm]

namespace UnscentedKalmanFilter

/-! ## The sigma points of `Observe` -/

section ObserveSigma

variable (ops : FloatOps F) (self : UnscentedKalmanFilter F N)
  (h : (Fin N → F) → (Fin K → F)) (mu : Fin N → F) (sqrt_sigma : Matrix (Fin N) (Fin N) F)

theorem ObserveSigma_W_zero : (self.ObserveSigma ops h mu sqrt_sigma).W.getD 0 0 = 0 := by
  rw [ObserveSigma_eq]
  rfl

theorem ObserveSigma_W_odd (i : Fin N) :
    (self.ObserveSigma ops h mu sqrt_sigma).W.getD (2 * i.val + 1) 0 =
      ops.sqrt ((N : F) + kLambda N) • fun r => sqrt_sigma r i := by
  rw [ObserveSigma_eq]
  exact (getD_cons_flatMap_pair N _ _ _ 0 i).1

theorem ObserveSigma_W_even (i : Fin N) :
    (self.ObserveSigma ops h mu sqrt_sigma).W.getD (2 * i.val + 2) 0 =
      -ops.sqrt ((N : F) + kLambda N) • fun r => sqrt_sigma r i := by
  rw [ObserveSigma_eq]
  exact (getD_cons_flatMap_pair N _ _ _ 0 i).2

theorem ObserveSigma_Z_zero : (self.ObserveSigma ops h mu sqrt_sigma).Z.getD 0 0 = h mu := by
  rw [ObserveSigma_eq]
  rfl

theorem ObserveSigma_Z_odd (i : Fin N) :
    (self.ObserveSigma ops h mu sqrt_sigma).Z.getD (2 * i.val + 1) 0 =
      h (self.add_delta_ mu (ops.sqrt ((N : F) + kLambda N) • fun r => sqrt_sigma r i)) := by
  rw [ObserveSigma_eq]
  exact (getD_cons_flatMap_pair N _ _ _ 0 i).1

theorem ObserveSigma_Z_even (i : Fin N) :
    (self.ObserveSigma ops h mu sqrt_sigma).Z.getD (2 * i.val + 2) 0 =
      h (self.add_delta_ mu (-ops.sqrt ((N : F) + kLambda N) • fun r => sqrt_sigma r i)) := by
  rw [ObserveSigma_eq]
  exact (getD_cons_flatMap_pair N _ _ _ 0 i).2

theorem ObserveSigma_z_hat :
    (self.ObserveSigma ops h mu sqrt_sigma).z_hat =
      (kMeanWeight0 N : F) • h mu +
        ∑ i : Fin N,
          ((kMeanWeightI N : F) •
              h (self.add_delta_ mu
                (ops.sqrt ((N : F) + kLambda N) • fun r => sqrt_sigma r i)) +
            (kMeanWeightI N : F) •
              h (self.add_delta_ mu
                (-ops.sqrt ((N : F) + kLambda N) • fun r => sqrt_sigma r i))) := by
  rw [ObserveSigma_eq]

end ObserveSigma

theorem ObserveS_isSymm (Z : List (Fin K → F)) (z_hat : Fin K → F) :
    (ObserveS N Z z_hat).IsSymm := by
  rw [ObserveS_eq]
  unfold Matrix.IsSymm
  simp only [Matrix.transpose_add, Matrix.transpose_smul, Matrix.transpose_sum,
    (OuterProduct_isSymm _).eq]

end UnscentedKalmanFilter

theorem vecNorm_nonneg (ops : FloatOps ℝ) (hx : ExactArithmetic ops) (v : Fin N → ℝ) :
    0 ≤ vecNorm ops v := by
  unfold vecNorm
  rw [hx.1]
  exact Real.sqrt_nonneg _

theorem vecMulVec_zero_left (v : Fin K → F) :
    Matrix.vecMulVec (0 : Fin N → F) v = 0 := by
  ext i j
  simp [Matrix.vecMulVec]

theorem PosSemidef.isSymm_real {A : Matrix (Fin N) (Fin N) ℝ} (hA : A.PosSemidef) : A.IsSymm := by
  have h := hA.1
  rwa [Matrix.IsHermitian, Matrix.conjTranspose_eq_transpose_of_trivial] at h

theorem isSymm_sub_mul_mul_transpose (A : Matrix (Fin N) (Fin N) F)
    (G : Matrix (Fin N) (Fin K) F) (S : Matrix (Fin K) (Fin K) F) (hA : A.IsSymm)
    (hS : S.IsSymm) : (A - G * S * Gᵀ).IsSymm := by
  unfold Matrix.IsSymm
  rw [Matrix.transpose_sub, Matrix.transpose_mul, Matrix.transpose_mul,
    Matrix.transpose_transpose, hA.eq, hS.eq, Matrix.mul_assoc]

namespace UnscentedKalmanFilter

/-! ## `Observe` with an affine observation function -/

theorem Observe_affine (hN : 0 < N) (ops : FloatOps ℝ) (hx : ExactArithmetic ops)
    (solver : Matrix (Fin N) (Fin N) ℝ → SelfAdjointEigenSolver ℝ N)
    (belief : GaussianDistribution ℝ N) (hbel : belief.GetCovariance.PosSemidef)
    (hs : SolverCorrectAt solver belief.GetCovariance)
    (H : Matrix (Fin K) (Fin N) ℝ) (b : Fin K → ℝ) (delta : GaussianDistribution ℝ K)
    (hR : delta.GetCovariance.IsSymm) (hmean : vecNorm ops delta.GetMean ≤ 1e-9)
    (hdet : (H * belief.GetCovariance * Hᵀ + delta.GetCovariance).det ≠ 0) :
    (create belief).Observe ops solver (fun x => H *ᵥ x + b) delta =
      .ok (create
        ⟨belief.GetMean +
            (belief.GetCovariance * Hᵀ *
              (H * belief.GetCovariance * Hᵀ + delta.GetCovariance)⁻¹) *ᵥ
              (-(H *ᵥ belief.GetMean + b)),
          belief.GetCovariance -
            (belief.GetCovariance * Hᵀ *
                (H * belief.GetCovariance * Hᵀ + delta.GetCovariance)⁻¹) *
              (H * belief.GetCovariance * Hᵀ + delta.GetCovariance) *
              (belief.GetCovariance * Hᵀ *
                (H * belief.GetCovariance * Hᵀ + delta.GetCovariance)⁻¹)ᵀ⟩) := by
  obtain ⟨B, hB, hBpsd, hBB⟩ :=
    MatrixSqrt_of_posSemidef hN ops hx solver belief.GetCovariance hbel hs
  have hsig := PosSemidef.isSymm_real hbel
  have hcd : ∀ o t : Fin N → ℝ, (create belief).compute_delta_ o t = t - o := fun _ _ => rfl
  have hadd : ∀ s d : Fin N → ℝ, (create belief).add_delta_ s d = s + d := fun _ _ => rfl
  have hW0 := ObserveSigma_W_zero ops (create belief) (fun x => H *ᵥ x + b) belief.GetMean B
  have hW1 := ObserveSigma_W_odd ops (create belief) (fun x => H *ᵥ x + b) belief.GetMean B
  have hW2 := ObserveSigma_W_even ops (create belief) (fun x => H *ᵥ x + b) belief.GetMean B
  have hZ0 := ObserveSigma_Z_zero ops (create belief) (fun x => H *ᵥ x + b) belief.GetMean B
  have hZ1 := ObserveSigma_Z_odd ops (create belief) (fun x => H *ᵥ x + b) belief.GetMean B
  have hZ2 := ObserveSigma_Z_even ops (create belief) (fun x => H *ᵥ x + b) belief.GetMean B
  have hzh := ObserveSigma_z_hat ops (create belief) (fun x => H *ᵥ x + b) belief.GetMean B
  simp only [hadd] at hZ1 hZ2 hzh
  have hN0 : (N : ℝ) ≠ 0 := by exact_mod_cast hN.ne'
  have hz : ((create belief).ObserveSigma ops (fun x => H *ᵥ x + b) belief.GetMean B).z_hat =
      H *ᵥ belief.GetMean + b := by
    rw [hzh]
    have e : ∀ i : Fin N,
        (kMeanWeightI N : ℝ) •
            (H *ᵥ (belief.GetMean + ops.sqrt ((N : ℝ) + kLambda N) • fun r => B r i) + b) +
          (kMeanWeightI N : ℝ) •
            (H *ᵥ (belief.GetMean + -ops.sqrt ((N : ℝ) + kLambda N) • fun r => B r i) + b) =
        (2 * kMeanWeightI N : ℝ) • (H *ᵥ belief.GetMean + b) := by
      intro i
      rw [Matrix.mulVec_add, Matrix.mulVec_add, Matrix.mulVec_smul, Matrix.mulVec_smul,
        two_mul, add_smul]
      simp only [neg_smul, smul_add, smul_neg]
      abel
    simp only [e, Finset.sum_const, Finset.card_univ, Fintype.card_fin]
    rw [← Nat.cast_smul_eq_nsmul ℝ, smul_smul, ← add_smul, show (kMeanWeight0 N : ℝ) + (N : ℝ) * (2 * kMeanWeightI N) =
      kMeanWeight0 N + 2 * N * kMeanWeightI N by ring, mean_weights_sum hN, one_smul]
  have hd1 := fun i : Fin N => affine_sub_odd ops H b belief.GetMean B i
  have hd2 := fun i : Fin N => affine_sub_even ops H b belief.GetMean B i
  have hS : ObserveS N
      ((create belief).ObserveSigma ops (fun x => H *ᵥ x + b) belief.GetMean B).Z
      ((create belief).ObserveSigma ops (fun x => H *ᵥ x + b) belief.GetMean B).z_hat =
        H * belief.GetCovariance * Hᵀ := by
    rw [ObserveS_eq]
    simp only [hZ0, hZ1, hZ2, hz, hd1, hd2, sub_self, OuterProduct_eq_vecMulVec]
    rw [sum_pair_outer hN ops hx (H * B) (H * B), ← hBB, vecMulVec_zero_left, smul_zero,
      zero_add, Matrix.transpose_mul]
    simp only [Matrix.mul_assoc]
  have hX : ObserveSigmaBarXZ
      ((create belief).ObserveSigma ops (fun x => H *ᵥ x + b) belief.GetMean B).W
      ((create belief).ObserveSigma ops (fun x => H *ᵥ x + b) belief.GetMean B).Z
      ((create belief).ObserveSigma ops (fun x => H *ᵥ x + b) belief.GetMean B).z_hat =
        belief.GetCovariance * Hᵀ := by
    rw [ObserveSigmaBarXZ_eq]
    simp only [hW0, hW1, hW2, hZ0, hZ1, hZ2, hz, hd1, hd2, sub_self]
    rw [sum_pair_outer hN ops hx B (H * B), ← hBB, vecMulVec_zero_left, smul_zero,
      zero_add, Matrix.transpose_mul]
    simp only [Matrix.mul_assoc]
  have hSsymm : (H * belief.GetCovariance * Hᵀ).IsSymm := by
    rw [← hS]
    exact ObserveS_isSymm _ _
  have hS2symm : (H * belief.GetCovariance * Hᵀ + delta.GetCovariance).IsSymm :=
    hSsymm.add hR
  have hnew : (belief.GetCovariance -
      (belief.GetCovariance * Hᵀ *
          (H * belief.GetCovariance * Hᵀ + delta.GetCovariance)⁻¹) *
        (H * belief.GetCovariance * Hᵀ + delta.GetCovariance) *
        (belief.GetCovariance * Hᵀ *
          (H * belief.GetCovariance * Hᵀ + delta.GetCovariance)⁻¹)ᵀ).IsSymm :=
    isSymm_sub_mul_mul_transpose _ _ _ hsig hS2symm
  unfold Observe
  rw [CheckSymmetric_of_isSymm ops hx _ hR]
  simp only []
  rw [if_pos ⟨by simpa using hmean,
    le_trans (by norm_num) (vecNorm_nonneg ops hx delta.GetMean)⟩]
  have hB2 : MatrixSqrt ops solver (create belief).belief_.GetCovariance = .ok B := hB
  rw [hB2]
  simp only []
  have hmu : (create belief).belief_.GetMean = belief.GetMean := rfl
  have hcov : (create belief).belief_.GetCovariance = belief.GetCovariance := rfl
  rw [hmu, hcov, hS, hX, hz, CheckSymmetric_of_isSymm ops hx _ hSsymm]
  simp only []
  rw [inverse_eq_some _ hdet]
  simp only []
  rw [CheckSymmetric_of_isSymm ops hx _ hnew]
  rfl

end UnscentedKalmanFilter

theorem CheckSymmetric_cases (ops : FloatOps F) (A : Matrix (Fin N) (Fin N) F) :
    CheckSymmetric ops A = .ok () ∨ CheckSymmetric ops A = .error Failure.SymmetryCheckFailed := by
  by_cases h : CheckSymmetric ops A = .ok ()
  · exact Or.inl h
  · exact Or.inr (CheckSymmetric_ne_ok ops A h)

theorem CheckSymmetric_eq_error_iff (ops : FloatOps F) (A : Matrix (Fin N) (Fin N) F) :
    CheckSymmetric ops A = .error Failure.SymmetryCheckFailed ↔
      ops.isnan (matNorm ops (A - Aᵀ)) = true ∨ 1e-5 ≤ |matNorm ops (A - Aᵀ)| := by
  unfold CheckSymmetric
  simp only []
  split_ifs with h
  · simp only [reduceCtorEq, false_iff, not_or, not_le]
    exact ⟨by simp [h.1], h.2⟩
  · simp only [true_iff]
    by_contra hc
    rw [not_or, not_le] at hc
    exact h ⟨by simpa using hc.1, hc.2⟩

theorem CheckSymmetric_of_lt_norm (ops : FloatOps F) (A : Matrix (Fin N) (Fin N) F)
    (h : 1e-5 < matNorm ops (A - Aᵀ)) :
    CheckSymmetric ops A = .error Failure.SymmetryCheckFailed :=
  (CheckSymmetric_eq_error_iff ops A).mpr (Or.inr (h.le.trans (le_abs_self _)))

theorem norm_lt_of_CheckSymmetric (ops : FloatOps F) (A : Matrix (Fin N) (Fin N) F)
    (h : CheckSymmetric ops A = .ok ()) : matNorm ops (A - Aᵀ) < 1e-5 :=
  lt_of_le_of_lt (le_abs_self _) ((CheckSymmetric_eq_ok_iff ops A).mp h).2

/-! ## Failing and successful calls -/

theorem MatrixSqrt_cases (ops : FloatOps F)
    (solver : Matrix (Fin N) (Fin N) F → SelfAdjointEigenSolver F N)
    (A : Matrix (Fin N) (Fin N) F) :
    (CheckSymmetric ops A = .error Failure.SymmetryCheckFailed ∧
        MatrixSqrt ops solver A = .error Failure.SymmetryCheckFailed) ∨
      (CheckSymmetric ops A = .ok () ∧
        minCoeff (solver ((A + Aᵀ).map fun x => x / 2)).eigenvalues ≤ -1e-5 ∧
        MatrixSqrt ops solver A = .error Failure.NegativeEigenvalues) ∨
      (CheckSymmetric ops A = .ok () ∧
        -1e-5 < minCoeff (solver ((A + Aᵀ).map fun x => x / 2)).eigenvalues ∧
        MatrixSqrt ops solver A =
          .ok ((solver ((A + Aᵀ).map fun x => x / 2)).eigenvectors *
            Matrix.diagonal (fun i => ops.sqrt
              (max ((solver ((A + Aᵀ).map fun x => x / 2)).eigenvalues i) 0)) *
            (solver ((A + Aᵀ).map fun x => x / 2)).eigenvectorsᵀ)) := by
  rcases CheckSymmetric_cases ops A with hc | hc
  · by_cases hmin : -1e-5 < minCoeff (solver ((A + Aᵀ).map fun x => x / 2)).eigenvalues
    · exact Or.inr (Or.inr ⟨hc, hmin, MatrixSqrt_eq_ok ops solver A hc hmin⟩)
    · refine Or.inr (Or.inl ⟨hc, not_lt.mp hmin, ?_⟩)
      unfold MatrixSqrt
      rw [hc]
      simp only []
      rw [if_neg hmin]
  · refine Or.inl ⟨hc, ?_⟩
    unfold MatrixSqrt
    rw [hc]

namespace UnscentedKalmanFilter

theorem Predict_ok_inv (ops : FloatOps F)
    (solver : Matrix (Fin N) (Fin N) F → SelfAdjointEigenSolver F N)
    (self self' : UnscentedKalmanFilter F N) (g : (Fin N → F) → (Fin N → F))
    (epsilon : GaussianDistribution F N)
    (h : self.Predict ops solver g epsilon = .ok self') :
    CheckSymmetric ops epsilon.GetCovariance = .ok () ∧
      ∃ sqrt_sigma new_mu,
        MatrixSqrt ops solver self.belief_.GetCovariance = .ok sqrt_sigma ∧
        self.ComputeMean ops (self.PredictY ops g self.belief_.GetMean sqrt_sigma) =
          .ok new_mu ∧
        self' = { self with
          belief_ := (GaussianDistribution.mk new_mu
            (self.PredictSigma new_mu
              (self.PredictY ops g self.belief_.GetMean sqrt_sigma))).add epsilon } := by
  unfold Predict at h
  split at h
  · exact absurd h (by simp)
  · rename_i u hc
    refine ⟨hc, ?_⟩
    simp only [] at h
    split at h
    · exact absurd h (by simp)
    · rename_i B hB
      split at h
      · exact absurd h (by simp)
      · rename_i new_mu hm
        split at h
        · exact absurd h (by simp)
        · exact ⟨B, new_mu, hB, hm, (Except.ok.inj h).symm⟩

theorem Predict_error_of_CheckSymmetric (ops : FloatOps F)
    (solver : Matrix (Fin N) (Fin N) F → SelfAdjointEigenSolver F N)
    (self : UnscentedKalmanFilter F N) (g : (Fin N → F) → (Fin N → F))
    (epsilon : GaussianDistribution F N) (e : Failure)
    (h : CheckSymmetric ops epsilon.GetCovariance = .error e) :
    self.Predict ops solver g epsilon = .error e := by
  unfold Predict
  rw [h]

theorem Predict_error_of_MatrixSqrt (ops : FloatOps F)
    (solver : Matrix (Fin N) (Fin N) F → SelfAdjointEigenSolver F N)
    (self : UnscentedKalmanFilter F N) (g : (Fin N → F) → (Fin N → F))
    (epsilon : GaussianDistribution F N) (e : Failure)
    (h : MatrixSqrt ops solver self.belief_.GetCovariance = .error e) :
    self.Predict ops solver g epsilon = .error e ∨
      self.Predict ops solver g epsilon = .error Failure.SymmetryCheckFailed := by
  unfold Predict
  rcases CheckSymmetric_cases ops epsilon.GetCovariance with hc | hc
  · rw [hc]
    simp only []
    rw [h]
    exact Or.inl rfl
  · rw [hc]
    exact Or.inr rfl

theorem Observe_ok_inv (ops : FloatOps F)
    (solver : Matrix (Fin N) (Fin N) F → SelfAdjointEigenSolver F N)
    (self self' : UnscentedKalmanFilter F N) (h : (Fin N → F) → (Fin K → F))
    (delta : GaussianDistribution F K)
    (hok : self.Observe ops solver h delta = .ok self') :
    CheckSymmetric ops delta.GetCovariance = .ok () ∧
      (vecNorm ops delta.GetMean ≤ 0 + 1e-9 ∧ 0 - 1e-9 ≤ vecNorm ops delta.GetMean) ∧
      ∃ sqrt_sigma S_inverse,
        MatrixSqrt ops solver self.belief_.GetCovariance = .ok sqrt_sigma ∧
        inverse (ObserveS N (self.ObserveSigma ops h self.belief_.GetMean sqrt_sigma).Z
            (self.ObserveSigma ops h self.belief_.GetMean sqrt_sigma).z_hat +
          delta.GetCovariance) = some S_inverse ∧
        CheckSymmetric ops self'.belief_.GetCovariance = .ok () ∧
        self' = { self with
          belief_ :=
            ⟨self.add_delta_ self.belief_.GetMean
              ((ObserveSigmaBarXZ
                  (self.ObserveSigma ops h self.belief_.GetMean sqrt_sigma).W
                  (self.ObserveSigma ops h self.belief_.GetMean sqrt_sigma).Z
                  (self.ObserveSigma ops h self.belief_.GetMean sqrt_sigma).z_hat *
                S_inverse) *ᵥ
                (-(self.ObserveSigma ops h self.belief_.GetMean sqrt_sigma).z_hat)),
            self.belief_.GetCovariance -
              (ObserveSigmaBarXZ
                  (self.ObserveSigma ops h self.belief_.GetMean sqrt_sigma).W
                  (self.ObserveSigma ops h self.belief_.GetMean sqrt_sigma).Z
                  (self.ObserveSigma ops h self.belief_.GetMean sqrt_sigma).z_hat *
                S_inverse) *
              (ObserveS N (self.ObserveSigma ops h self.belief_.GetMean sqrt_sigma).Z
                  (self.ObserveSigma ops h self.belief_.GetMean sqrt_sigma).z_hat +
                delta.GetCovariance) *
              (ObserveSigmaBarXZ
                  (self.ObserveSigma ops h self.belief_.GetMean sqrt_sigma).W
                  (self.ObserveSigma ops h self.belief_.GetMean sqrt_sigma).Z
                  (self.ObserveSigma ops h self.belief_.GetMean sqrt_sigma).z_hat *
                S_inverse)ᵀ⟩ } := by
  unfold Observe at hok
  split at hok
  · exact absurd hok (by simp)
  · rename_i u hc
    refine ⟨hc, ?_⟩
    simp only [] at hok
    split_ifs at hok with hm
    refine ⟨hm, ?_⟩
    split at hok
    · exact absurd hok (by simp)
    · rename_i B hB
      split at hok
      · exact absurd hok (by simp)
      · split at hok
        · exact absurd hok (by simp)
        · rename_i Sinv hinv
          split at hok
          · exact absurd hok (by simp)
          · rename_i u2 hnew
            have e := (Except.ok.inj hok).symm
            refine ⟨B, Sinv, hB, hinv, ?_, e⟩
            rw [e]
            exact hnew

theorem Observe_error_of_CheckSymmetric (ops : FloatOps F)
    (solver : Matrix (Fin N) (Fin N) F → SelfAdjointEigenSolver F N)
    (self : UnscentedKalmanFilter F N) (h : (Fin N → F) → (Fin K → F))
    (delta : GaussianDistribution F K) (e : Failure)
    (hc : CheckSymmetric ops delta.GetCovariance = .error e) :
    self.Observe ops solver h delta = .error e := by
  unfold Observe
  rw [hc]

theorem Observe_error_of_MatrixSqrt (ops : FloatOps F)
    (solver : Matrix (Fin N) (Fin N) F → SelfAdjointEigenSolver F N)
    (self : UnscentedKalmanFilter F N) (h : (Fin N → F) → (Fin K → F))
    (delta : GaussianDistribution F K) (e : Failure)
    (hB : MatrixSqrt ops solver self.belief_.GetCovariance = .error e) :
    self.Observe ops solver h delta = .error e ∨
      self.Observe ops solver h delta = .error Failure.SymmetryCheckFailed ∨
      self.Observe ops solver h delta = .error Failure.NonZeroMeanDelta := by
  unfold Observe
  rcases CheckSymmetric_cases ops delta.GetCovariance with hc | hc
  · rw [hc]
    simp only []
    split_ifs with hm
    · rw [hB]
      exact Or.inl rfl
    · exact Or.inr (Or.inr rfl)
  · rw [hc]
    exact Or.inr (Or.inl rfl)

end UnscentedKalmanFilter

/-! ## Concrete inputs -/

theorem exactArithmetic_real : ExactArithmetic ⟨Real.sqrt, fun _ => false⟩ :=
  ⟨rfl, fun _ => rfl⟩

theorem diagonalSolver_correct (d : Fin N → F) :
    SolverCorrectAt diagonalSolver (Matrix.diagonal d) := by
  have e : ((Matrix.diagonal d + (Matrix.diagonal d)ᵀ).map fun x => x / 2) = Matrix.diagonal d :=
    symmetrize_of_isSymm _ (Matrix.diagonal_transpose d)
  unfold SolverCorrectAt
  rw [e]
  refine ⟨by simp [diagonalSolver], ?_⟩
  simp [diagonalSolver]

theorem of_fin_one_eq_diagonal (a : F) :
    !![a] = Matrix.diagonal (fun _ : Fin 1 => a) := by
  ext i j
  fin_cases i
  fin_cases j
  simp

theorem diagonalSolver_correct_one (a : F) : SolverCorrectAt diagonalSolver !![a] := by
  rw [of_fin_one_eq_diagonal]
  exact diagonalSolver_correct _

theorem posSemidef_diagonal_real (d : Fin N → ℝ) (hd : ∀ i, 0 ≤ d i) :
    (Matrix.diagonal d).PosSemidef :=
  Matrix.PosSemidef.diagonal hd

theorem posSemidef_fin_one (a : ℝ) (ha : 0 ≤ a) : (!![a]).PosSemidef := by
  rw [of_fin_one_eq_diagonal]
  exact Matrix.PosSemidef.diagonal fun _ => ha

/-! ## Eigenvalues of the decomposed matrix -/

/-- Every eigenvalue of a matrix is among the eigenvalues of an eigendecomposition. -/
theorem IsEigenDecomposition.exists_eigenvalue {M : Matrix (Fin N) (Fin N) F}
    {d : SelfAdjointEigenSolver F N} (hd : IsEigenDecomposition M d) (v : Fin N → F) (l : F)
    (hv : v ≠ 0) (hMv : M *ᵥ v = l • v) : ∃ i, d.eigenvalues i = l := by
  have hw : d.eigenvectorsᵀ *ᵥ v ≠ 0 := by
    intro h0
    apply hv
    have h1 : (d.eigenvectors * d.eigenvectorsᵀ) *ᵥ v = 0 := by
      rw [← Matrix.mulVec_mulVec, h0, Matrix.mulVec_zero]
    rwa [hd.mul_transpose, Matrix.one_mulVec] at h1
  have hD : Matrix.diagonal d.eigenvalues *ᵥ (d.eigenvectorsᵀ *ᵥ v) =
      l • (d.eigenvectorsᵀ *ᵥ v) := by
    rw [hd.diagonal_eq, Matrix.mulVec_mulVec, Matrix.mul_assoc, Matrix.mul_assoc,
      hd.mul_transpose, Matrix.mul_one, ← Matrix.mulVec_mulVec, hMv, Matrix.mulVec_smul]
  obtain ⟨i, hi⟩ : ∃ i, (d.eigenvectorsᵀ *ᵥ v) i ≠ 0 := by
    by_contra hall
    exact hw (funext fun i => not_not.mp fun hne => hall ⟨i, hne⟩)
  refine ⟨i, ?_⟩
  have h := congrFun hD i
  rw [Matrix.mulVec_diagonal, Pi.smul_apply, smul_eq_mul] at h
  exact mul_right_cancel₀ hi h

/-- The function `MatrixSqrt` fails on a matrix that is asymmetric beyond the tolerance or whose
symmetrised form has an eigenvalue below `-1e-5`. -/
theorem MatrixSqrt_error_of_invalid (ops : FloatOps F)
    (solver : Matrix (Fin N) (Fin N) F → SelfAdjointEigenSolver F N)
    (A : Matrix (Fin N) (Fin N) F) (hs : SolverCorrectAt solver A)
    (hbad : 1e-5 < matNorm ops (A - Aᵀ) ∨
      ∃ (v : Fin N → F) (l : F),
        v ≠ 0 ∧ ((A + Aᵀ).map fun x => x / 2) *ᵥ v = l • v ∧ l < -1e-5) :
    ∃ e, MatrixSqrt ops solver A = .error e := by
  rcases MatrixSqrt_cases ops solver A with h | h | h
  · exact ⟨_, h.2⟩
  · exact ⟨_, h.2.2⟩
  · exfalso
    rcases hbad with hasym | ⟨v, l, hv, hMv, hl⟩
    · have h1 := CheckSymmetric_of_lt_norm ops A hasym
      rw [h.1] at h1
      exact absurd h1 (by simp)
    · obtain ⟨i, hi⟩ := IsEigenDecomposition.exists_eigenvalue hs v l hv hMv
      have h2 := minCoeff_le (solver ((A + Aᵀ).map fun x => x / 2)).eigenvalues i
      rw [hi] at h2
      exact absurd (lt_of_lt_of_le h.2.1 (h2.trans hl.le)) (lt_irrefl _)

/-! ## Quadratic forms of the weighted sums -/

/-- The quadratic form of the weights: with ρ the weighted sum of the numbers `a0`,
`a i`, `a' i` under the mean weights, the weighted sum of their squares under the
covariance weights is at least `-ρ² / 2`, although the central weight is negative. -/
theorem weighted_squares_lower_bound (hN : 0 < N) (a0 : ℝ) (a a' : Fin N → ℝ) :
    -((kMeanWeight0 N * a0 + ∑ i, (kMeanWeightI N * a i + kMeanWeightI N * a' i)) ^ 2 / 2) ≤
      kCovWeight0 N * a0 ^ 2 + ∑ i, (kCovWeightI N * a i ^ 2 + kCovWeightI N * a' i ^ 2) := by
  have hN0 : (0 : ℝ) < N := by exact_mod_cast hN
  have hW : (kMeanWeightI N : ℝ) = 1e6 / (2 * N) := kMeanWeightI_eq hN
  have hWpos : (0 : ℝ) < kMeanWeightI N := by
    rw [hW]
    positivity
  have hsum1 : ∑ i, (kMeanWeightI N * a i + kMeanWeightI N * a' i) =
      (kMeanWeightI N : ℝ) * ∑ i, (a i + a' i) := by
    rw [Finset.mul_sum]
    exact Finset.sum_congr rfl fun i _ => by ring
  have hsum2 : ∑ i, (kCovWeightI N * a i ^ 2 + kCovWeightI N * a' i ^ 2) =
      (kMeanWeightI N : ℝ) * ∑ i, (a i ^ 2 + a' i ^ 2) := by
    rw [Finset.mul_sum]
    exact Finset.sum_congr rfl fun i _ => by
      simp only [kCovWeightI]
      ring
  have hcs : (∑ i, (a i + a' i)) ^ 2 ≤ 2 * N * ∑ i, (a i ^ 2 + a' i ^ 2) := by
    have h1 := sq_sum_le_card_mul_sum_sq (s := (Finset.univ : Finset (Fin N)))
      (f := fun i => a i + a' i)
    rw [Finset.card_univ, Fintype.card_fin] at h1
    have h2 : ∑ i, (a i + a' i) ^ 2 ≤ ∑ i, 2 * (a i ^ 2 + a' i ^ 2) :=
      Finset.sum_le_sum fun i _ => by nlinarith [sq_nonneg (a i - a' i)]
    rw [← Finset.mul_sum] at h2
    calc (∑ i, (a i + a' i)) ^ 2 ≤ N * ∑ i, (a i + a' i) ^ 2 := h1
      _ ≤ N * (2 * ∑ i, (a i ^ 2 + a' i ^ 2)) := mul_le_mul_of_nonneg_left h2 hN0.le
      _ = 2 * N * ∑ i, (a i ^ 2 + a' i ^ 2) := by ring
  rw [hsum1, hsum2, kMeanWeight0_eq hN, kCovWeight0_eq hN]
  generalize (∑ i, (a i + a' i)) = T at hcs ⊢
  generalize (∑ i, (a i ^ 2 + a' i ^ 2)) = Q at hcs ⊢
  have h1 : 1e-6 * ((kMeanWeightI N : ℝ) * T) ^ 2 ≤ kMeanWeightI N * Q := by
    have e : 1e-6 * ((kMeanWeightI N : ℝ) * T) ^ 2 = kMeanWeightI N * (T ^ 2 / (2 * N)) := by
      rw [hW]
      field_simp
      norm_num
      ring
    rw [e]
    apply mul_le_mul_of_nonneg_left _ hWpos.le
    rw [div_le_iff₀ (by positivity)]
    linarith
  generalize (kMeanWeightI N : ℝ) * T = t at h1 ⊢
  generalize (kMeanWeightI N : ℝ) * Q = q at h1 ⊢
  norm_num at h1 ⊢
  nlinarith [sq_nonneg (t + (-999999 * 1000000 / 1000002) * a0), sq_nonneg a0]

theorem dotProduct_vecMulVec_mulVec (u a : Fin N → F) (b w : Fin K → F) :
    u ⬝ᵥ (Matrix.vecMulVec a b *ᵥ w) = (u ⬝ᵥ a) * (b ⬝ᵥ w) := by
  simp only [Matrix.dotProduct, Matrix.mulVec, Matrix.vecMulVec_apply, Finset.sum_mul_sum,
    Finset.mul_sum, Finset.sum_mul]
  rw [Finset.sum_comm]
  apply Finset.sum_congr rfl
  intro i _
  apply Finset.sum_congr rfl
  intro j _
  ring

theorem dotProduct_sum_mulVec {ι : Type} (s : Finset ι) (u : Fin N → F)
    (M : ι → Matrix (Fin N) (Fin K) F) (w : Fin K → F) :
    u ⬝ᵥ ((∑ i ∈ s, M i) *ᵥ w) = ∑ i ∈ s, u ⬝ᵥ (M i *ᵥ w) := by
  classical
  induction s using Finset.induction_on with
  | empty => simp
  | insert hi ih => rw [Finset.sum_insert hi, Finset.sum_insert hi, Matrix.add_mulVec,
      Matrix.dotProduct_add, ih]

theorem dotProduct_OuterProduct_mulVec (u a w : Fin N → F) :
    u ⬝ᵥ (OuterProduct a *ᵥ w) = (u ⬝ᵥ a) * (a ⬝ᵥ w) := by
  rw [OuterProduct_eq_vecMulVec, dotProduct_vecMulVec_mulVec]

theorem dotProduct_OuterProduct_mulVec_self (a v : Fin N → F) :
    v ⬝ᵥ (OuterProduct a *ᵥ v) = (a ⬝ᵥ v) ^ 2 := by
  rw [dotProduct_OuterProduct_mulVec, Matrix.dotProduct_comm v a, sq]

theorem dotProduct_smul_mulVec (c : F) (u : Fin N → F) (M : Matrix (Fin N) (Fin K) F)
    (w : Fin K → F) : u ⬝ᵥ ((c • M) *ᵥ w) = c * (u ⬝ᵥ (M *ᵥ w)) := by
  rw [Matrix.smul_mulVec_assoc, Matrix.dotProduct_smul, smul_eq_mul]

theorem sum_dotProduct_right {ι : Type} (s : Finset ι) (f : ι → Fin N → F) (v : Fin N → F) :
    (∑ i ∈ s, f i) ⬝ᵥ v = ∑ i ∈ s, f i ⬝ᵥ v := by
  classical
  induction s using Finset.induction_on with
  | empty => simp
  | insert hi ih => rw [Finset.sum_insert hi, Finset.sum_insert hi, Matrix.add_dotProduct, ih]

/-- Cauchy-Schwarz for the dot product. -/
theorem dotProduct_sq_le (r v : Fin N → ℝ) : (r ⬝ᵥ v) ^ 2 ≤ (r ⬝ᵥ r) * (v ⬝ᵥ v) := by
  have h := Finset.sum_mul_sq_le_sq_mul_sq (Finset.univ : Finset (Fin N)) r v
  simpa [Matrix.dotProduct, sq] using h

theorem dotProduct_self_le_of_vecNorm_le (ops : FloatOps ℝ) (hx : ExactArithmetic ops)
    (r : Fin N → ℝ) (c : ℝ) (h : vecNorm ops r ≤ c) : r ⬝ᵥ r ≤ c ^ 2 := by
  unfold vecNorm at h
  rw [hx.1] at h
  have h0 : 0 ≤ ∑ i, r i * r i := Finset.sum_nonneg fun i _ => mul_self_nonneg _
  calc r ⬝ᵥ r = Real.sqrt (∑ i, r i * r i) ^ 2 := (Real.sq_sqrt h0).symm
    _ ≤ c ^ 2 := pow_le_pow_left₀ (Real.sqrt_nonneg _) h 2

/-- A lower bound of the quadratic form bounds the eigenvalues from below. -/
theorem eigenvalue_ge_of_quadratic_form_ge (M : Matrix (Fin N) (Fin N) ℝ) (c : ℝ)
    (hq : ∀ v : Fin N → ℝ, c * (v ⬝ᵥ v) ≤ v ⬝ᵥ (M *ᵥ v)) (v : Fin N → ℝ) (l : ℝ)
    (hv : v ≠ 0) (hMv : M *ᵥ v = l • v) : c ≤ l := by
  have h := hq v
  rw [hMv, Matrix.dotProduct_smul, smul_eq_mul] at h
  have hpos : 0 < v ⬝ᵥ v :=
    lt_of_le_of_ne (Finset.sum_nonneg fun i _ => mul_self_nonneg _)
      (fun h0 => hv (Matrix.dotProduct_self_eq_zero.mp h0.symm))
  exact le_of_mul_le_mul_right h hpos

namespace UnscentedKalmanFilter

/-! ## The result of `ComputeMean` -/

theorem lineSearch_ok (ops : FloatOps F) (self : UnscentedKalmanFilter F N)
    (states : List (Fin N → F)) (current_estimate weighted_error : Fin N → F) (fuel : ℕ)
    (step_size : F) (next_estimate next_error : Fin N → F)
    (h : lineSearch ops self states current_estimate weighted_error fuel step_size =
      .ok (next_estimate, next_error)) :
    next_error = self.ComputeWeightedError next_estimate states := by
  induction fuel generalizing step_size with
  | zero => simp [lineSearch] at h
  | succ fuel ih =>
    simp only [lineSearch] at h
    split_ifs at h with h1 h2
    · have e := Except.ok.inj h
      rw [← (Prod.mk.inj e).1, ← (Prod.mk.inj e).2]
    · exact ih _ h

theorem meanLoop_ok (ops : FloatOps F) (self : UnscentedKalmanFilter F N)
    (states : List (Fin N → F)) (fuel iterations : ℕ) (current_estimate result : Fin N → F)
    (h : meanLoop ops self states fuel iterations current_estimate
      (self.ComputeWeightedError current_estimate states) = .ok result) :
    vecNorm ops (self.ComputeWeightedError result states) ≤ 1e-9 := by
  induction fuel generalizing iterations current_estimate with
  | zero => simp [meanLoop] at h
  | succ fuel ih =>
    simp only [meanLoop] at h
    by_cases h1 : vecNorm ops (self.ComputeWeightedError current_estimate states) > 1e-9
    · rw [if_pos h1] at h
      split at h
      · exact absurd h (by simp)
      · rename_i next_estimate next_error hls
        have e := lineSearch_ok ops self states _ _ _ _ _ _ hls
        split_ifs at h with h2
        rw [e] at h
        exact ih _ _ h
    · rw [if_neg h1] at h
      rw [← Except.ok.inj h]
      exact not_lt.mp h1

theorem ComputeMean_ok (ops : FloatOps F) (self : UnscentedKalmanFilter F N)
    (states : List (Fin N → F)) (result : Fin N → F)
    (h : self.ComputeMean ops states = .ok result) :
    vecNorm ops (self.ComputeWeightedError result states) ≤ 1e-9 := by
  unfold ComputeMean at h
  split_ifs at h with hlen
  exact meanLoop_ok ops self states _ _ _ _ h

/-! ## The quadratic form of the covariance of `Predict` -/

theorem PredictSigma_quadratic_form (hN : 0 < N) (ops : FloatOps ℝ) (hx : ExactArithmetic ops)
    (self : UnscentedKalmanFilter ℝ N) (new_mu : Fin N → ℝ) (Y : List (Fin N → ℝ))
    (hres : vecNorm ops (self.ComputeWeightedError new_mu Y) ≤ 1e-9) (v : Fin N → ℝ) :
    -(1e-18 / 2) * (v ⬝ᵥ v) ≤ v ⬝ᵥ (self.PredictSigma new_mu Y *ᵥ v) := by
  have hq : v ⬝ᵥ (self.PredictSigma new_mu Y *ᵥ v) =
      kCovWeight0 N * (self.compute_delta_ new_mu (Y.getD 0 0) ⬝ᵥ v) ^ 2 +
        ∑ i : Fin N,
          (kCovWeightI N * (self.compute_delta_ new_mu (Y.getD (2 * i.val + 1) 0) ⬝ᵥ v) ^ 2 +
            kCovWeightI N *
              (self.compute_delta_ new_mu (Y.getD (2 * i.val + 2) 0) ⬝ᵥ v) ^ 2) := by
    rw [PredictSigma_eq, Matrix.add_mulVec, Matrix.dotProduct_add, dotProduct_smul_mulVec,
      dotProduct_OuterProduct_mulVec_self, dotProduct_sum_mulVec]
    simp only [Matrix.add_mulVec, Matrix.dotProduct_add, dotProduct_smul_mulVec,
      dotProduct_OuterProduct_mulVec_self]
  have hr : self.ComputeWeightedError new_mu Y ⬝ᵥ v =
      kMeanWeight0 N * (self.compute_delta_ new_mu (Y.getD 0 0) ⬝ᵥ v) +
        ∑ i : Fin N,
          (kMeanWeightI N * (self.compute_delta_ new_mu (Y.getD (2 * i.val + 1) 0) ⬝ᵥ v) +
            kMeanWeightI N *
              (self.compute_delta_ new_mu (Y.getD (2 * i.val + 2) 0) ⬝ᵥ v)) := by
    rw [ComputeWeightedError_eq, Matrix.add_dotProduct, Matrix.smul_dotProduct,
      sum_dotProduct_right]
    simp only [Matrix.add_dotProduct, Matrix.smul_dotProduct, smul_eq_mul]
  have hb := weighted_squares_lower_bound hN
    (self.compute_delta_ new_mu (Y.getD 0 0) ⬝ᵥ v)
    (fun i => self.compute_delta_ new_mu (Y.getD (2 * i.val + 1) 0) ⬝ᵥ v)
    (fun i => self.compute_delta_ new_mu (Y.getD (2 * i.val + 2) 0) ⬝ᵥ v)
  simp only [] at hb
  rw [← hq, ← hr] at hb
  have hcs := dotProduct_sq_le (self.ComputeWeightedError new_mu Y) v
  have hrr := dotProduct_self_le_of_vecNorm_le ops hx _ _ hres
  have hvv : 0 ≤ v ⬝ᵥ v := Finset.sum_nonneg fun i _ => mul_self_nonneg _
  have h3 : (self.ComputeWeightedError new_mu Y ⬝ᵥ v) ^ 2 ≤ 1e-9 ^ 2 * (v ⬝ᵥ v) :=
    hcs.trans (mul_le_mul_of_nonneg_right hrr hvv)
  norm_num at h3 ⊢
  linarith

end UnscentedKalmanFilter

/-- The joint quadratic form of the sigma points of `Observe`: `p i` and `-p i` are the
components of the state offsets, `a0`, `ap i`, `am i` those of the centred observations,
whose weighted sum under the mean weights vanishes. -/
theorem joint_squares_nonneg (hN : 0 < N) (a0 : ℝ) (p ap am : Fin N → ℝ)
    (hres : kMeanWeight0 N * a0 + ∑ i, (kMeanWeightI N * ap i + kMeanWeightI N * am i) = 0) :
    0 ≤ ∑ i, (kCovWeightI N * p i ^ 2 + kCovWeightI N * (-p i) ^ 2) +
      2 * ∑ i, (kCovWeightI N * (p i * ap i) + kCovWeightI N * (-p i * am i)) +
      (kCovWeight0 N * a0 ^ 2 + ∑ i, (kCovWeightI N * ap i ^ 2 + kCovWeightI N * am i ^ 2)) := by
  have hb := weighted_squares_lower_bound hN a0 (fun i => p i + ap i) (fun i => -p i + am i)
  simp only [] at hb
  have e1 : ∑ i, (kMeanWeightI N * (p i + ap i) + kMeanWeightI N * (-p i + am i)) =
      ∑ i, ((kMeanWeightI N : ℝ) * ap i + kMeanWeightI N * am i) :=
    Finset.sum_congr rfl fun i _ => by ring
  have e2 : ∑ i, (kCovWeightI N * (p i + ap i) ^ 2 + kCovWeightI N * (-p i + am i) ^ 2) =
      ∑ i, ((kCovWeightI N : ℝ) * p i ^ 2 + kCovWeightI N * (-p i) ^ 2) +
        2 * ∑ i, ((kCovWeightI N : ℝ) * (p i * ap i) + kCovWeightI N * (-p i * am i)) +
        ∑ i, ((kCovWeightI N : ℝ) * ap i ^ 2 + kCovWeightI N * am i ^ 2) := by
    rw [Finset.mul_sum, ← Finset.sum_add_distrib, ← Finset.sum_add_distrib]
    exact Finset.sum_congr rfl fun i _ => by ring
  rw [e1, hres, e2, show -((0 : ℝ) ^ 2 / 2) = 0 by norm_num] at hb
  linarith

namespace UnscentedKalmanFilter

/-! ## The quadratic form of the covariance of `Observe` -/

/-- The centred observations of the sigma points have weighted sum zero. -/
theorem ObserveSigma_centred (hN : 0 < N) (ops : FloatOps ℝ)
    (self : UnscentedKalmanFilter ℝ N) (h : (Fin N → ℝ) → (Fin K → ℝ)) (mu : Fin N → ℝ)
    (B : Matrix (Fin N) (Fin N) ℝ) :
    (kMeanWeight0 N : ℝ) • ((self.ObserveSigma ops h mu B).Z.getD 0 0 -
          (self.ObserveSigma ops h mu B).z_hat) +
        ∑ i : Fin N,
          ((kMeanWeightI N : ℝ) • ((self.ObserveSigma ops h mu B).Z.getD (2 * i.val + 1) 0 -
              (self.ObserveSigma ops h mu B).z_hat) +
            (kMeanWeightI N : ℝ) • ((self.ObserveSigma ops h mu B).Z.getD (2 * i.val + 2) 0 -
              (self.ObserveSigma ops h mu B).z_hat)) = 0 := by
  have hz := ObserveSigma_z_hat ops self h mu B
  simp only [ObserveSigma_Z_zero, ObserveSigma_Z_odd, ObserveSigma_Z_even]
  generalize (self.ObserveSigma ops h mu B).z_hat = zh at hz ⊢
  have e : ∀ i : Fin N,
      (kMeanWeightI N : ℝ) •
          (h (self.add_delta_ mu (ops.sqrt ((N : ℝ) + kLambda N) • fun r => B r i)) - zh) +
        (kMeanWeightI N : ℝ) •
          (h (self.add_delta_ mu (-ops.sqrt ((N : ℝ) + kLambda N) • fun r => B r i)) - zh) =
      ((kMeanWeightI N : ℝ) •
          h (self.add_delta_ mu (ops.sqrt ((N : ℝ) + kLambda N) • fun r => B r i)) +
        (kMeanWeightI N : ℝ) •
          h (self.add_delta_ mu (-ops.sqrt ((N : ℝ) + kLambda N) • fun r => B r i))) -
        (2 * kMeanWeightI N : ℝ) • zh := by
    intro i
    rw [two_mul, add_smul]
    simp only [smul_sub]
    abel
  simp only [e, Finset.sum_sub_distrib, Finset.sum_const, Finset.card_univ, Fintype.card_fin]
  rw [← Nat.cast_smul_eq_nsmul ℝ, smul_smul, smul_sub]
  have hsum := mean_weights_sum (F := ℝ) hN
  have e3 : (kMeanWeight0 N : ℝ) • zh + ((N : ℝ) * (2 * kMeanWeightI N)) • zh = zh := by
    rw [← add_smul, show (kMeanWeight0 N : ℝ) + (N : ℝ) * (2 * kMeanWeightI N) =
      kMeanWeight0 N + 2 * N * kMeanWeightI N by ring, hsum, one_smul]
  calc (kMeanWeight0 N : ℝ) • h mu - (kMeanWeight0 N : ℝ) • zh +
        (∑ i : Fin N,
          ((kMeanWeightI N : ℝ) •
              h (self.add_delta_ mu (ops.sqrt ((N : ℝ) + kLambda N) • fun r => B r i)) +
            (kMeanWeightI N : ℝ) •
              h (self.add_delta_ mu (-ops.sqrt ((N : ℝ) + kLambda N) • fun r => B r i))) -
          ((N : ℝ) * (2 * kMeanWeightI N)) • zh)
      = ((kMeanWeight0 N : ℝ) • h mu +
          ∑ i : Fin N,
            ((kMeanWeightI N : ℝ) •
                h (self.add_delta_ mu (ops.sqrt ((N : ℝ) + kLambda N) • fun r => B r i)) +
              (kMeanWeightI N : ℝ) •
                h (self.add_delta_ mu (-ops.sqrt ((N : ℝ) + kLambda N) • fun r => B r i)))) -
          ((kMeanWeight0 N : ℝ) • zh + ((N : ℝ) * (2 * kMeanWeightI N)) • zh) := by abel
    _ = 0 := by rw [← hz, e3, sub_self]

/-- The joint covariance of the state offsets and the observations of the sigma points
is positive semidefinite. -/
theorem Observe_joint_form_nonneg (hN : 0 < N) (ops : FloatOps ℝ) (hx : ExactArithmetic ops)
    (self : UnscentedKalmanFilter ℝ N) (h : (Fin N → ℝ) → (Fin K → ℝ)) (mu : Fin N → ℝ)
    (B : Matrix (Fin N) (Fin N) ℝ) (u : Fin N → ℝ) (w : Fin K → ℝ) :
    0 ≤ u ⬝ᵥ ((B * Bᵀ) *ᵥ u) +
      2 * (u ⬝ᵥ (ObserveSigmaBarXZ (self.ObserveSigma ops h mu B).W
        (self.ObserveSigma ops h mu B).Z (self.ObserveSigma ops h mu B).z_hat *ᵥ w)) +
      w ⬝ᵥ (ObserveS N (self.ObserveSigma ops h mu B).Z
        (self.ObserveSigma ops h mu B).z_hat *ᵥ w) := by
  have hA : u ⬝ᵥ ((B * Bᵀ) *ᵥ u) =
      ∑ i : Fin N,
        (kCovWeightI N * (u ⬝ᵥ (ops.sqrt ((N : ℝ) + kLambda N) • fun r => B r i)) ^ 2 +
          kCovWeightI N *
            (-(u ⬝ᵥ (ops.sqrt ((N : ℝ) + kLambda N) • fun r => B r i))) ^ 2) := by
    rw [← sum_pair_outer hN ops hx B B, dotProduct_sum_mulVec]
    refine Finset.sum_congr rfl fun i _ => ?_
    rw [Matrix.add_mulVec, Matrix.dotProduct_add, dotProduct_smul_mulVec,
      dotProduct_smul_mulVec, dotProduct_vecMulVec_mulVec, dotProduct_vecMulVec_mulVec,
      Matrix.dotProduct_comm (ops.sqrt ((N : ℝ) + kLambda N) • fun r => B r i) u,
      Matrix.dotProduct_comm (-ops.sqrt ((N : ℝ) + kLambda N) • fun r => B r i) u,
      neg_smul, Matrix.dotProduct_neg]
    ring
  have hX : u ⬝ᵥ (ObserveSigmaBarXZ (self.ObserveSigma ops h mu B).W
      (self.ObserveSigma ops h mu B).Z (self.ObserveSigma ops h mu B).z_hat *ᵥ w) =
      ∑ i : Fin N,
        (kCovWeightI N * ((u ⬝ᵥ (ops.sqrt ((N : ℝ) + kLambda N) • fun r => B r i)) *
            (((self.ObserveSigma ops h mu B).Z.getD (2 * i.val + 1) 0 -
              (self.ObserveSigma ops h mu B).z_hat) ⬝ᵥ w)) +
          kCovWeightI N * (-(u ⬝ᵥ (ops.sqrt ((N : ℝ) + kLambda N) • fun r => B r i)) *
            (((self.ObserveSigma ops h mu B).Z.getD (2 * i.val + 2) 0 -
              (self.ObserveSigma ops h mu B).z_hat) ⬝ᵥ w))) := by
    rw [ObserveSigmaBarXZ_eq, ObserveSigma_W_zero, vecMulVec_zero_left, smul_zero, zero_add,
      dotProduct_sum_mulVec]
    refine Finset.sum_congr rfl fun i _ => ?_
    rw [ObserveSigma_W_odd, ObserveSigma_W_even, Matrix.add_mulVec, Matrix.dotProduct_add,
      dotProduct_smul_mulVec, dotProduct_smul_mulVec, dotProduct_vecMulVec_mulVec,
      dotProduct_vecMulVec_mulVec, neg_smul, Matrix.dotProduct_neg]
  have hS : w ⬝ᵥ (ObserveS N (self.ObserveSigma ops h mu B).Z
      (self.ObserveSigma ops h mu B).z_hat *ᵥ w) =
      kCovWeight0 N * (((self.ObserveSigma ops h mu B).Z.getD 0 0 -
          (self.ObserveSigma ops h mu B).z_hat) ⬝ᵥ w) ^ 2 +
        ∑ i : Fin N,
          (kCovWeightI N * (((self.ObserveSigma ops h mu B).Z.getD (2 * i.val + 1) 0 -
              (self.ObserveSigma ops h mu B).z_hat) ⬝ᵥ w) ^ 2 +
            kCovWeightI N * (((self.ObserveSigma ops h mu B).Z.getD (2 * i.val + 2) 0 -
              (self.ObserveSigma ops h mu B).z_hat) ⬝ᵥ w) ^ 2) := by
    rw [ObserveS_eq, Matrix.add_mulVec, Matrix.dotProduct_add, dotProduct_smul_mulVec,
      dotProduct_OuterProduct_mulVec_self, dotProduct_sum_mulVec]
    simp only [Matrix.add_mulVec, Matrix.dotProduct_add, dotProduct_smul_mulVec,
      dotProduct_OuterProduct_mulVec_self]
  have hres := congrArg (fun z => z ⬝ᵥ w) (ObserveSigma_centred hN ops self h mu B)
  simp only [Matrix.add_dotProduct, Matrix.smul_dotProduct, sum_dotProduct_right,
    Matrix.zero_dotProduct, smul_eq_mul] at hres
  rw [hA, hX, hS]
  exact joint_squares_nonneg hN _ _ _ _ hres

/-- After a successful `Observe` from a belief with a symmetric positive semidefinite
covariance, with a measurement noise of symmetric positive semidefinite covariance, the
quadratic form of the new covariance is non-negative. -/
theorem Observe_covariance_quadratic_form (hN : 0 < N) (ops : FloatOps ℝ)
    (hx : ExactArithmetic ops)
    (solver : Matrix (Fin N) (Fin N) ℝ → SelfAdjointEigenSolver ℝ N)
    (self self' : UnscentedKalmanFilter ℝ N) (hbel : self.belief_.GetCovariance.PosSemidef)
    (hs : SolverCorrectAt solver self.belief_.GetCovariance)
    (h : (Fin N → ℝ) → (Fin K → ℝ)) (delta : GaussianDistribution ℝ K)
    (hR : delta.GetCovariance.PosSemidef)
    (hok : self.Observe ops solver h delta = .ok self') (v : Fin N → ℝ) :
    0 ≤ v ⬝ᵥ (self'.belief_.GetCovariance *ᵥ v) := by
  obtain ⟨-, -, B, Sinv, hB, hinv, -, rfl⟩ := Observe_ok_inv ops solver self self' h delta hok
  obtain ⟨B', hB', -, hBB⟩ :=
    MatrixSqrt_of_posSemidef hN ops hx solver self.belief_.GetCovariance hbel hs
  have hBeq : B' = B := Except.ok.inj (hB'.symm.trans hB)
  subst hBeq
  obtain ⟨hdet, rfl⟩ := (inverse_eq_some_iff _ _).mp hinv
  have hJ := Observe_joint_form_nonneg hN ops hx self h self.belief_.GetMean B' v
    (-((ObserveSigmaBarXZ (self.ObserveSigma ops h self.belief_.GetMean B').W
        (self.ObserveSigma ops h self.belief_.GetMean B').Z
        (self.ObserveSigma ops h self.belief_.GetMean B').z_hat *
      (ObserveS N (self.ObserveSigma ops h self.belief_.GetMean B').Z
        (self.ObserveSigma ops h self.belief_.GetMean B').z_hat +
          delta.GetCovariance)⁻¹)ᵀ *ᵥ v))
  have hRw := hR.2
    (-((ObserveSigmaBarXZ (self.ObserveSigma ops h self.belief_.GetMean B').W
        (self.ObserveSigma ops h self.belief_.GetMean B').Z
        (self.ObserveSigma ops h self.belief_.GetMean B').z_hat *
      (ObserveS N (self.ObserveSigma ops h self.belief_.GetMean B').Z
        (self.ObserveSigma ops h self.belief_.GetMean B').z_hat +
          delta.GetCovariance)⁻¹)ᵀ *ᵥ v))
  rw [star_trivial] at hRw
  show 0 ≤ v ⬝ᵥ ((self.belief_.GetCovariance - _) *ᵥ v)
  generalize ObserveSigmaBarXZ (self.ObserveSigma ops h self.belief_.GetMean B').W
    (self.ObserveSigma ops h self.belief_.GetMean B').Z
    (self.ObserveSigma ops h self.belief_.GetMean B').z_hat = X at hJ hRw ⊢
  generalize ObserveS N (self.ObserveSigma ops h self.belief_.GetMean B').Z
    (self.ObserveSigma ops h self.belief_.GetMean B').z_hat = Szz at hJ hRw hdet ⊢
  rw [hBB] at hJ
  have hinvmul : (Szz + delta.GetCovariance)⁻¹ * (Szz + delta.GetCovariance) = 1 :=
    Matrix.nonsing_inv_mul _ (isUnit_iff_ne_zero.mpr hdet)
  have hKS : X * (Szz + delta.GetCovariance)⁻¹ * (Szz + delta.GetCovariance) *
      (X * (Szz + delta.GetCovariance)⁻¹)ᵀ = X * (X * (Szz + delta.GetCovariance)⁻¹)ᵀ := by
    rw [Matrix.mul_assoc X, hinvmul, Matrix.mul_one]
  generalize hG : X * (Szz + delta.GetCovariance)⁻¹ = G at hJ hRw hKS ⊢
  have e1 : v ⬝ᵥ (X *ᵥ -(Gᵀ *ᵥ v)) = -(v ⬝ᵥ ((X * Gᵀ) *ᵥ v)) := by
    rw [Matrix.mulVec_neg, Matrix.dotProduct_neg, Matrix.mulVec_mulVec]
  have e2 : ∀ M : Matrix (Fin K) (Fin K) ℝ,
      -(Gᵀ *ᵥ v) ⬝ᵥ (M *ᵥ -(Gᵀ *ᵥ v)) = v ⬝ᵥ ((G * M * Gᵀ) *ᵥ v) := by
    intro M
    rw [Matrix.mulVec_neg, Matrix.neg_dotProduct, Matrix.dotProduct_neg, neg_neg,
      Matrix.mulVec_transpose, ← Matrix.dotProduct_mulVec, Matrix.mulVec_mulVec,
      ← Matrix.mulVec_transpose, Matrix.mulVec_mulVec, Matrix.mul_assoc]
  have e3 : -(Gᵀ *ᵥ v) ⬝ᵥ (Szz *ᵥ -(Gᵀ *ᵥ v)) +
      -(Gᵀ *ᵥ v) ⬝ᵥ (delta.GetCovariance *ᵥ -(Gᵀ *ᵥ v)) =
      v ⬝ᵥ ((X * Gᵀ) *ᵥ v) := by
    rw [← Matrix.dotProduct_add, ← Matrix.add_mulVec, e2, hKS]
  rw [e1] at hJ
  rw [Matrix.sub_mulVec, Matrix.dotProduct_sub, hKS]
  linarith

/-- After a successful `Predict` with a process noise of symmetric positive semidefinite
covariance, for every transition function and pair of delta operators, the quadratic
form of the new covariance is at least `-(1e-18 / 2)` times the squared length. -/
theorem Predict_covariance_quadratic_form (hN : 0 < N) (ops : FloatOps ℝ)
    (hx : ExactArithmetic ops)
    (solver : Matrix (Fin N) (Fin N) ℝ → SelfAdjointEigenSolver ℝ N)
    (self self' : UnscentedKalmanFilter ℝ N) (g : (Fin N → ℝ) → (Fin N → ℝ))
    (epsilon : GaussianDistribution ℝ N) (heps : epsilon.GetCovariance.PosSemidef)
    (hok : self.Predict ops solver g epsilon = .ok self') (v : Fin N → ℝ) :
    -(1e-18 / 2) * (v ⬝ᵥ v) ≤ v ⬝ᵥ (self'.belief_.GetCovariance *ᵥ v) := by
  obtain ⟨-, B, new_mu, -, hmean, rfl⟩ := Predict_ok_inv ops solver self self' g epsilon hok
  have h1 := PredictSigma_quadratic_form hN ops hx self new_mu
    (self.PredictY ops g self.belief_.GetMean B) (ComputeMean_ok ops self _ _ hmean) v
  have h2 := heps.2 v
  rw [star_trivial] at h2
  show _ ≤ v ⬝ᵥ ((_ + epsilon.GetCovariance) *ᵥ v)
  rw [Matrix.add_mulVec, Matrix.dotProduct_add]
  linarith

/-! ## Calls of a one-dimensional filter with the real square root -/

theorem Predict_identity_fin_one (a q s : ℝ) (ha : 0 ≤ a) (hs : a + q = s) :
    (create ⟨![0], !![a]⟩).Predict ⟨Real.sqrt, fun _ => false⟩ diagonalSolver (fun x => x)
        ⟨![0], !![q]⟩ = .ok (create ⟨![0], !![s]⟩) := by
  have e1 : (fun x : Fin 1 → ℝ => x) = fun x => (1 : Matrix (Fin 1) (Fin 1) ℝ) *ᵥ x + 0 := by
    funext x
    simp
  have hsym : (!![q] : Matrix (Fin 1) (Fin 1) ℝ).IsSymm := by
    rw [of_fin_one_eq_diagonal]
    exact Matrix.diagonal_transpose _
  rw [e1, Predict_affine one_pos _ exactArithmetic_real diagonalSolver ⟨![0], !![a]⟩
    (posSemidef_fin_one a ha) (diagonalSolver_correct_one a) 1 0 ⟨![0], !![q]⟩
    (CheckSymmetric_of_isSymm _ exactArithmetic_real _ hsym)]
  congr 3
  · ext i
    fin_cases i
    simp
  · ext i j
    fin_cases i
    fin_cases j
    simp [hs]

theorem Observe_constant_fin_one (a : ℝ) (ha : 0 ≤ a) :
    (create ⟨![0], !![a]⟩).Observe ⟨Real.sqrt, fun _ => false⟩ diagonalSolver
        (fun _ => (0 : Fin 1 → ℝ)) (⟨0, 1⟩ : GaussianDistribution ℝ 1) =
      .ok (create ⟨![0], !![a]⟩) := by
  have e1 : (fun _ : Fin 1 → ℝ => (0 : Fin 1 → ℝ)) =
      fun x => (0 : Matrix (Fin 1) (Fin 1) ℝ) *ᵥ x + 0 := by
    funext x
    simp
  rw [e1, Observe_affine one_pos _ exactArithmetic_real diagonalSolver ⟨![0], !![a]⟩
    (posSemidef_fin_one a ha) (diagonalSolver_correct_one a) 0 0 ⟨0, 1⟩
    Matrix.isSymm_one
    (by
      show vecNorm _ (0 : Fin 1 → ℝ) ≤ 1e-9
      rw [vecNorm_zero _ exactArithmetic_real]
      norm_num)
    (by simp)]
  congr 3
  · ext i
    fin_cases i
    simp
  · simp

theorem mulVec_fin_one (a : ℝ) : (!![a] : Matrix (Fin 1) (Fin 1) ℝ) *ᵥ ![1] = a • ![1] := by
  ext i
  fin_cases i
  simp [Matrix.mulVec, Matrix.dotProduct]

theorem vec_one_ne_zero : (![1] : Fin 1 → ℝ) ≠ 0 := by
  intro h0
  have := congrFun h0 0
  simp at this

end UnscentedKalmanFilter

/-! ## The claims -/

namespace UnscentedKalmanFilter

/-- C1: in exact arithmetic, for the one-dimensional filter with the default delta
operators, `Predict` with `g(x) = x` and process noise (mean 0, covariance 1) takes the
belief (mean 0, covariance 1) to the belief (mean 0, covariance 2), and the following
`Observe` with `h(x) = x` and measurement noise (mean 0, covariance 1) takes it to the
belief (mean 0, covariance 2/3). -/
theorem scenario_predict_then_observe (ops : FloatOps ℝ) (hx : ExactArithmetic ops)
    (solver : Matrix (Fin 1) (Fin 1) ℝ → SelfAdjointEigenSolver ℝ 1)
    (hs1 : SolverCorrectAt solver !![1]) (hs2 : SolverCorrectAt solver !![2]) :
    (create ⟨![0], !![1]⟩).Predict ops solver (fun x => x) ⟨![0], !![1]⟩ =
        .ok (create ⟨![0], !![2]⟩) ∧
      (create ⟨![0], !![2]⟩).Observe ops solver (fun x => x) ⟨![0], !![1]⟩ =
        .ok (create ⟨![0], !![2 / 3]⟩) := by
  have e1 : (fun x : Fin 1 → ℝ => x) = fun x => (1 : Matrix (Fin 1) (Fin 1) ℝ) *ᵥ x + 0 := by
    funext x
    simp
  have hsym1 : (!![1] : Matrix (Fin 1) (Fin 1) ℝ).IsSymm :=
    PosSemidef.isSymm_real (posSemidef_fin_one 1 zero_le_one)
  constructor
  · rw [e1, Predict_affine one_pos ops hx solver ⟨![0], !![1]⟩
      (posSemidef_fin_one 1 zero_le_one) hs1 1 0 ⟨![0], !![1]⟩
      (CheckSymmetric_of_isSymm ops hx _ hsym1)]
    congr 3
    · ext i
      fin_cases i
      simp
    · ext i j
      fin_cases i
      fin_cases j
      simp
      norm_num
  · have hS : (1 * !![(2 : ℝ)] * (1 : Matrix (Fin 1) (Fin 1) ℝ)ᵀ + !![1]) = !![3] := by
      ext i j
      fin_cases i
      fin_cases j
      simp
      norm_num
    have hinv : (!![(3 : ℝ)])⁻¹ = !![1 / 3] := by
      rw [Matrix.inv_def]
      ext i j
      fin_cases i
      fin_cases j
      simp [Matrix.det_fin_one]
    rw [e1, Observe_affine one_pos ops hx solver ⟨![0], !![2]⟩
      (posSemidef_fin_one 2 zero_le_two) hs2 1 0 ⟨![0], !![1]⟩ hsym1
      (by
        have h0 : (![0] : Fin 1 → ℝ) = 0 := by
          ext i
          fin_cases i
          simp
        show vecNorm ops ![0] ≤ 1e-9
        rw [h0, vecNorm_zero ops hx]
        norm_num)
      (by
        show Matrix.det (1 * !![(2 : ℝ)] * (1 : Matrix (Fin 1) (Fin 1) ℝ)ᵀ + !![1]) ≠ (0 : ℝ)
        rw [hS, Matrix.det_fin_one_of]
        norm_num)]
    show Except.ok (create ⟨_, _⟩) = _
    rw [hS, hinv]
    congr 3
    · ext i
      fin_cases i
      simp
    · ext i j
      fin_cases i
      fin_cases j
      simp [Matrix.mul_apply, Matrix.vecHead]
      norm_num

/-- Witness of C1: the scenario with the real square root and the solver for diagonal
matrices. -/
theorem scenario_predict_then_observe_witness :
    ExactArithmetic ⟨Real.sqrt, fun _ => false⟩ ∧
      SolverCorrectAt diagonalSolver (!![1] : Matrix (Fin 1) (Fin 1) ℝ) ∧
      SolverCorrectAt diagonalSolver (!![2] : Matrix (Fin 1) (Fin 1) ℝ) ∧
      (create ⟨![0], !![1]⟩).Predict ⟨Real.sqrt, fun _ => false⟩ diagonalSolver (fun x => x)
          ⟨![0], !![1]⟩ = .ok (create ⟨![0], !![2]⟩) ∧
      (create ⟨![0], !![2]⟩).Observe ⟨Real.sqrt, fun _ => false⟩ diagonalSolver (fun x => x)
          ⟨![0], !![1]⟩ = .ok (create ⟨![0], !![2 / 3]⟩) :=
  ⟨exactArithmetic_real, diagonalSolver_correct_one 1, diagonalSolver_correct_one 2,
    scenario_predict_then_observe _ exactArithmetic_real diagonalSolver
      (diagonalSolver_correct_one 1) (diagonalSolver_correct_one 2)⟩

/-- C2, amended: in exact arithmetic, for every N ≥ 1 and every initial belief whose
covariance is symmetric positive semidefinite, with the default delta operators, `Predict`
with the identity transition and a process noise of zero mean and zero covariance
succeeds and leaves the mean and the covariance of the belief unchanged. -/
theorem predict_identity_zero_noise (hN : 0 < N) (ops : FloatOps ℝ) (hx : ExactArithmetic ops)
    (solver : Matrix (Fin N) (Fin N) ℝ → SelfAdjointEigenSolver ℝ N)
    (belief : GaussianDistribution ℝ N) (hbel : belief.GetCovariance.PosSemidef)
    (hs : SolverCorrectAt solver belief.GetCovariance) :
    (create belief).Predict ops solver (fun x => x) ⟨0, 0⟩ = .ok (create belief) := by
  have e1 : (fun x : Fin N → ℝ => x) = fun x => (1 : Matrix (Fin N) (Fin N) ℝ) *ᵥ x + 0 := by
    funext x
    simp
  have hzero : ((0 : Matrix (Fin N) (Fin N) ℝ)).IsSymm := Matrix.isSymm_zero
  rw [e1, Predict_affine hN ops hx solver belief hbel hs 1 0 ⟨0, 0⟩
    (CheckSymmetric_of_isSymm ops hx _ hzero)]
  congr 2
  cases belief
  simp

/-- Witness of C2: a two-dimensional belief with mean (1, 2) and covariance
diag(3, 4). -/
theorem predict_identity_zero_noise_witness :
    0 < 2 ∧ ExactArithmetic ⟨Real.sqrt, fun _ => false⟩ ∧
      (Matrix.diagonal ![(3 : ℝ), 4]).PosSemidef ∧
      SolverCorrectAt diagonalSolver (Matrix.diagonal ![(3 : ℝ), 4]) ∧
      (create ⟨![1, 2], Matrix.diagonal ![(3 : ℝ), 4]⟩).Predict ⟨Real.sqrt, fun _ => false⟩
          diagonalSolver (fun x => x) ⟨0, 0⟩ =
        .ok (create ⟨![1, 2], Matrix.diagonal ![(3 : ℝ), 4]⟩) :=
  have hpsd : (Matrix.diagonal ![(3 : ℝ), 4]).PosSemidef :=
    posSemidef_diagonal_real _ (by
      intro i
      fin_cases i
      · norm_num
      · norm_num)
  ⟨two_pos, exactArithmetic_real, hpsd, diagonalSolver_correct _,
    predict_identity_zero_noise two_pos _ exactArithmetic_real diagonalSolver
      ⟨![1, 2], Matrix.diagonal ![(3 : ℝ), 4]⟩ hpsd (diagonalSolver_correct _)⟩

/-- C3, amended: in exact arithmetic, for every N ≥ 1, mean μ and symmetric positive
semidefinite covariance Σ, `MatrixSqrt(Σ)` returns a matrix S, and the 2N+1 sigma points that `Predict`
builds with the default `add_delta` and no transition are `X₀ = μ`,
`X₂ᵢ₊₁ = μ + √(N+λ)·Sᵢ`, `X₂ᵢ₊₂ = μ − √(N+λ)·Sᵢ`; with the weights of the filter the
weighted sum of the `Xⱼ − μ` is 0 and the weighted sum of their outer products is Σ. -/
theorem sigma_points_reconstruct_moments (hN : 0 < N) (ops : FloatOps ℝ)
    (hx : ExactArithmetic ops)
    (solver : Matrix (Fin N) (Fin N) ℝ → SelfAdjointEigenSolver ℝ N)
    (mu : Fin N → ℝ) (Sigma : Matrix (Fin N) (Fin N) ℝ) (hSigma : Sigma.PosSemidef)
    (hs : SolverCorrectAt solver Sigma) :
    ∃ S, MatrixSqrt ops solver Sigma = .ok S ∧
      ∃ X, X = (create ⟨mu, Sigma⟩).PredictY ops (fun x => x) mu S ∧
        X.length = 2 * N + 1 ∧ X.getD 0 0 = mu ∧
        (∀ i : Fin N,
          X.getD (2 * i.val + 1) 0 = mu + Real.sqrt ((N : ℝ) + kLambda N) • (fun r => S r i) ∧
          X.getD (2 * i.val + 2) 0 = mu - Real.sqrt ((N : ℝ) + kLambda N) • fun r => S r i) ∧
        (kMeanWeight0 N : ℝ) • (X.getD 0 0 - mu) +
            ∑ i : Fin N,
              ((kMeanWeightI N : ℝ) • (X.getD (2 * i.val + 1) 0 - mu) +
                (kMeanWeightI N : ℝ) • (X.getD (2 * i.val + 2) 0 - mu)) = 0 ∧
        (kCovWeight0 N : ℝ) • OuterProduct (X.getD 0 0 - mu) +
            ∑ i : Fin N,
              ((kCovWeightI N : ℝ) • OuterProduct (X.getD (2 * i.val + 1) 0 - mu) +
                (kCovWeightI N : ℝ) • OuterProduct (X.getD (2 * i.val + 2) 0 - mu)) =
          Sigma := by
  obtain ⟨S, hS, -, hSS⟩ := MatrixSqrt_of_posSemidef hN ops hx solver Sigma hSigma hs
  have e1 : (fun x : Fin N → ℝ => x) = fun x => (1 : Matrix (Fin N) (Fin N) ℝ) *ᵥ x + 0 := by
    funext x
    simp
  have hmu : (1 : Matrix (Fin N) (Fin N) ℝ) *ᵥ mu + 0 = mu := by simp
  have hW := affine_weighted_error ops ⟨mu, Sigma⟩ 1 0 mu S
  have hC := affine_sigma hN ops hx ⟨mu, Sigma⟩ 1 0 mu S
  rw [ComputeWeightedError_eq, hmu, ← e1] at hW
  rw [PredictSigma_eq, hmu, ← e1, Matrix.one_mul, Matrix.transpose_one, Matrix.mul_one,
    hSS] at hC
  refine ⟨S, hS, _, rfl, PredictY_length _ _ _ _ _, PredictY_getD_zero _ _ _ _ _, ?_, hW, hC⟩
  intro i
  rw [PredictY_getD_odd, PredictY_getD_even, hx.1]
  exact ⟨rfl, by
    show mu + -Real.sqrt ((N : ℝ) + kLambda N) • (fun r => S r i) = _
    rw [neg_smul, sub_eq_add_neg]⟩

/-- Witness of C3: mean (1, 2) and covariance diag(3, 4). -/
theorem sigma_points_reconstruct_moments_witness :
    0 < 2 ∧ ExactArithmetic ⟨Real.sqrt, fun _ => false⟩ ∧
      (Matrix.diagonal ![(3 : ℝ), 4]).PosSemidef ∧
      SolverCorrectAt diagonalSolver (Matrix.diagonal ![(3 : ℝ), 4]) ∧
      ∃ S, MatrixSqrt ⟨Real.sqrt, fun _ => false⟩ diagonalSolver
            (Matrix.diagonal ![(3 : ℝ), 4]) = .ok S ∧
        ∃ X, X = (create ⟨![1, 2], Matrix.diagonal ![(3 : ℝ), 4]⟩).PredictY
              ⟨Real.sqrt, fun _ => false⟩ (fun x => x) ![1, 2] S ∧
          X.length = 2 * 2 + 1 ∧ X.getD 0 0 = ![1, 2] ∧
          (∀ i : Fin 2,
            X.getD (2 * i.val + 1) 0 =
                ![1, 2] + Real.sqrt (((2 : ℕ) : ℝ) + kLambda 2) • (fun r => S r i) ∧
              X.getD (2 * i.val + 2) 0 =
                ![1, 2] - Real.sqrt (((2 : ℕ) : ℝ) + kLambda 2) • fun r => S r i) ∧
          (kMeanWeight0 2 : ℝ) • (X.getD 0 0 - ![1, 2]) +
              ∑ i : Fin 2,
                ((kMeanWeightI 2 : ℝ) • (X.getD (2 * i.val + 1) 0 - ![1, 2]) +
                  (kMeanWeightI 2 : ℝ) • (X.getD (2 * i.val + 2) 0 - ![1, 2])) = 0 ∧
          (kCovWeight0 2 : ℝ) • OuterProduct (X.getD 0 0 - ![1, 2]) +
              ∑ i : Fin 2,
                ((kCovWeightI 2 : ℝ) • OuterProduct (X.getD (2 * i.val + 1) 0 - ![1, 2]) +
                  (kCovWeightI 2 : ℝ) • OuterProduct (X.getD (2 * i.val + 2) 0 - ![1, 2])) =
            Matrix.diagonal ![(3 : ℝ), 4] :=
  have hpsd : (Matrix.diagonal ![(3 : ℝ), 4]).PosSemidef :=
    posSemidef_diagonal_real _ (by
      intro i
      fin_cases i
      · norm_num
      · norm_num)
  ⟨two_pos, exactArithmetic_real, hpsd, diagonalSolver_correct _,
    sigma_points_reconstruct_moments two_pos _ exactArithmetic_real diagonalSolver ![1, 2]
      (Matrix.diagonal ![(3 : ℝ), 4]) hpsd (diagonalSolver_correct _)⟩

end UnscentedKalmanFilter

/-- C5: for every N ≥ 1 the constants of the filter are `λ = α²(N+κ) − N`, central mean
weight `λ/(N+λ)`, central covariance weight `λ/(N+λ) + (1 − α² + β)` and weight
`1/(2(N+λ))` for each other point, with `α = 10⁻³`, `κ = 0`, `β = 2`; hence
`N + λ = 10⁻⁶·N`, the central mean weight is `1 − 10⁶`, the central covariance weight
is `4 − 10⁶ − 10⁻⁶`, the weight of each other point is `10⁶/(2N)`, and the 2N+1 mean
weights sum to 1. -/
theorem weights_values (hN : 0 < N) :
    ((kAlpha : ℝ) = 1e-3 ∧ (kKappa : ℝ) = 0 ∧ (kBeta : ℝ) = 2) ∧
      ((kLambda N : ℝ) = kAlpha ^ 2 * ((N : ℝ) + kKappa) - N ∧
        (kMeanWeight0 N : ℝ) = kLambda N / ((N : ℝ) + kLambda N) ∧
        (kCovWeight0 N : ℝ) = kLambda N / ((N : ℝ) + kLambda N) + (1 - kAlpha ^ 2 + kBeta) ∧
        (kMeanWeightI N : ℝ) = 1 / (2 * ((N : ℝ) + kLambda N)) ∧
        (kCovWeightI N : ℝ) = 1 / (2 * ((N : ℝ) + kLambda N))) ∧
      ((N : ℝ) + kLambda N = 1e-6 * N ∧
        (kMeanWeight0 N : ℝ) = 1 - 1e6 ∧
        (kCovWeight0 N : ℝ) = 4 - 1e6 - 1e-6 ∧
        (kMeanWeightI N : ℝ) = 1e6 / (2 * N) ∧
        (kCovWeightI N : ℝ) = 1e6 / (2 * N)) ∧
      (kMeanWeight0 N : ℝ) + ∑ _j : Fin (2 * N), (kMeanWeightI N : ℝ) = 1 := by
  refine ⟨⟨rfl, rfl, rfl⟩, ⟨by simp [kLambda, sqr, sq], rfl, by simp [kCovWeight0, sqr, sq],
    rfl, rfl⟩, ⟨n_add_kLambda N, kMeanWeight0_eq hN, kCovWeight0_eq hN, kMeanWeightI_eq hN,
    kMeanWeightI_eq hN⟩, ?_⟩
  rw [Finset.sum_const, Finset.card_univ, Fintype.card_fin, nsmul_eq_mul, Nat.cast_mul,
    Nat.cast_ofNat]
  exact mean_weights_sum hN

/-- Witness of C5: the constants of the filter of dimension 3. -/
theorem weights_values_witness :
    0 < 3 ∧
      ((kAlpha : ℝ) = 1e-3 ∧ (kKappa : ℝ) = 0 ∧ (kBeta : ℝ) = 2) ∧
      ((kLambda 3 : ℝ) = kAlpha ^ 2 * (((3 : ℕ) : ℝ) + kKappa) - (3 : ℕ) ∧
        (kMeanWeight0 3 : ℝ) = kLambda 3 / (((3 : ℕ) : ℝ) + kLambda 3) ∧
        (kCovWeight0 3 : ℝ) =
          kLambda 3 / (((3 : ℕ) : ℝ) + kLambda 3) + (1 - kAlpha ^ 2 + kBeta) ∧
        (kMeanWeightI 3 : ℝ) = 1 / (2 * (((3 : ℕ) : ℝ) + kLambda 3)) ∧
        (kCovWeightI 3 : ℝ) = 1 / (2 * (((3 : ℕ) : ℝ) + kLambda 3))) ∧
      ((((3 : ℕ) : ℝ)) + kLambda 3 = 1e-6 * (3 : ℕ) ∧
        (kMeanWeight0 3 : ℝ) = 1 - 1e6 ∧
        (kCovWeight0 3 : ℝ) = 4 - 1e6 - 1e-6 ∧
        (kMeanWeightI 3 : ℝ) = 1e6 / (2 * (3 : ℕ)) ∧
        (kCovWeightI 3 : ℝ) = 1e6 / (2 * (3 : ℕ))) ∧
      (kMeanWeight0 3 : ℝ) + ∑ _j : Fin (2 * 3), (kMeanWeightI 3 : ℝ) = 1 :=
  ⟨by norm_num, weights_values (by norm_num)⟩

namespace UnscentedKalmanFilter

/-- C6, amended: in exact arithmetic, over every ordered field, after every `Predict` and
every `Observe` that completes without failure, for every transition or observation
function, noise and pair of delta operators, the covariance Σ of the new belief satisfies
`‖Σ − Σᵗ‖ < 1e-5` in the Frobenius norm. -/
theorem covariance_symmetric_after_call (ops : FloatOps F)
    (solver : Matrix (Fin N) (Fin N) F → SelfAdjointEigenSolver F N)
    (self self' : UnscentedKalmanFilter F N) (g : (Fin N → F) → (Fin N → F))
    (epsilon : GaussianDistribution F N) (h : (Fin N → F) → (Fin K → F))
    (delta : GaussianDistribution F K) :
    (self.Predict ops solver g epsilon = .ok self' →
        matNorm ops (self'.GetBelief.GetCovariance - self'.GetBelief.GetCovarianceᵀ) < 1e-5) ∧
      (self.Observe ops solver h delta = .ok self' →
        matNorm ops (self'.GetBelief.GetCovariance - self'.GetBelief.GetCovarianceᵀ) < 1e-5) := by
  constructor
  · intro hok
    obtain ⟨heps, B, new_mu, -, -, rfl⟩ := Predict_ok_inv ops solver self self' g epsilon hok
    have hsym := PredictSigma_isSymm self new_mu (self.PredictY ops g self.belief_.GetMean B)
    have e : ((GaussianDistribution.mk new_mu
        (self.PredictSigma new_mu (self.PredictY ops g self.belief_.GetMean B))).add
          epsilon).GetCovariance -
        ((GaussianDistribution.mk new_mu
          (self.PredictSigma new_mu (self.PredictY ops g self.belief_.GetMean B))).add
            epsilon).GetCovarianceᵀ =
        epsilon.GetCovariance - epsilon.GetCovarianceᵀ := by
      simp only [GaussianDistribution.add, Matrix.transpose_add, hsym.eq]
      abel
    simp only [GetBelief]
    rw [e]
    exact norm_lt_of_CheckSymmetric ops _ heps
  · intro hok
    obtain ⟨-, -, B, Sinv, -, -, hnew, -⟩ := Observe_ok_inv ops solver self self' h delta hok
    exact norm_lt_of_CheckSymmetric ops _ hnew

/-- Witness of C6, amended: a `Predict` of a two-dimensional filter whose process noise
has a covariance that is symmetric within the tolerance only, and an `Observe` of a
one-dimensional filter. -/
theorem covariance_symmetric_after_call_witness :
    matNorm ⟨Real.sqrt, fun _ => false⟩
        ((create (⟨(!![1, 1; 0, 1] : Matrix (Fin 2) (Fin 2) ℝ) *ᵥ ![1, 2] + ![1, 0] + ![0, 1],
            (!![1, 1; 0, 1] : Matrix (Fin 2) (Fin 2) ℝ) * Matrix.diagonal ![(3 : ℝ), 4] *
                (!![1, 1; 0, 1] : Matrix (Fin 2) (Fin 2) ℝ)ᵀ +
              !![1, 1e-6; 0, 2]⟩ : GaussianDistribution ℝ 2)).GetBelief.GetCovariance -
          (create (⟨(!![1, 1; 0, 1] : Matrix (Fin 2) (Fin 2) ℝ) *ᵥ ![1, 2] + ![1, 0] + ![0, 1],
            (!![1, 1; 0, 1] : Matrix (Fin 2) (Fin 2) ℝ) * Matrix.diagonal ![(3 : ℝ), 4] *
                (!![1, 1; 0, 1] : Matrix (Fin 2) (Fin 2) ℝ)ᵀ +
              !![1, 1e-6; 0, 2]⟩ : GaussianDistribution ℝ 2)).GetBelief.GetCovarianceᵀ) <
        1e-5 ∧
      matNorm ⟨Real.sqrt, fun _ => false⟩
        ((create (⟨![0], !![1]⟩ : GaussianDistribution ℝ 1)).GetBelief.GetCovariance -
          (create (⟨![0], !![1]⟩ : GaussianDistribution ℝ 1)).GetBelief.GetCovarianceᵀ) < 1e-5 := by
  have hpsd : (Matrix.diagonal ![(3 : ℝ), 4]).PosSemidef :=
    posSemidef_diagonal_real _ (by
      intro i
      fin_cases i
      · norm_num
      · norm_num)
  have hnorm : matNorm ⟨Real.sqrt, fun _ => false⟩
      ((!![1, 1e-6; 0, 2] : Matrix (Fin 2) (Fin 2) ℝ) - (!![1, 1e-6; 0, 2])ᵀ) =
      Real.sqrt 2e-12 := by
    simp only [matNorm, Fin.sum_univ_two, Matrix.sub_apply, Matrix.transpose_apply]
    simp
    norm_num
  have heps : CheckSymmetric ⟨Real.sqrt, fun _ => false⟩
      (!![1, 1e-6; 0, 2] : Matrix (Fin 2) (Fin 2) ℝ) = .ok () := by
    rw [CheckSymmetric_eq_ok_iff, hnorm, abs_of_nonneg (Real.sqrt_nonneg _)]
    refine ⟨rfl, ?_⟩
    rw [Real.sqrt_lt' (by norm_num)]
    norm_num
  exact ⟨(covariance_symmetric_after_call ⟨Real.sqrt, fun _ => false⟩ diagonalSolver
      (create ⟨![1, 2], Matrix.diagonal ![(3 : ℝ), 4]⟩) _
      (fun x => (!![1, 1; 0, 1] : Matrix (Fin 2) (Fin 2) ℝ) *ᵥ x + ![1, 0])
      ⟨![0, 1], !![1, 1e-6; 0, 2]⟩
      (fun x => x) (⟨![0, 0], 1⟩ : GaussianDistribution ℝ 2)).1
      (Predict_affine two_pos _ exactArithmetic_real diagonalSolver
        ⟨![1, 2], Matrix.diagonal ![(3 : ℝ), 4]⟩ hpsd (diagonalSolver_correct _)
        (!![1, 1; 0, 1] : Matrix (Fin 2) (Fin 2) ℝ) ![1, 0] ⟨![0, 1], !![1, 1e-6; 0, 2]⟩ heps),
    (covariance_symmetric_after_call ⟨Real.sqrt, fun _ => false⟩ diagonalSolver
      (create ⟨![0], !![1]⟩) (create ⟨![0], !![1]⟩) (fun x => x) ⟨![0], !![1]⟩
      (fun _ => (0 : Fin 1 → ℝ)) (⟨0, 1⟩ : GaussianDistribution ℝ 1)).2
      (Observe_constant_fin_one 1 zero_le_one)⟩

/-- Counterexample to C7: from the one-dimensional belief (mean 0, covariance 1), which
is symmetric positive semidefinite, `Predict` with `g(x) = x` and the process noise
(mean 0, covariance −2), which passes the symmetry check of the call, completes and
leaves the covariance −1, whose eigenvalue −1 is below `−1e-5`. -/
theorem predict_indefinite_noise_leaves_negative_covariance :
    (!![1] : Matrix (Fin 1) (Fin 1) ℝ).PosSemidef ∧
      CheckSymmetric ⟨Real.sqrt, fun _ => false⟩ (!![-2] : Matrix (Fin 1) (Fin 1) ℝ) = .ok () ∧
      (create ⟨![0], !![1]⟩).Predict ⟨Real.sqrt, fun _ => false⟩ diagonalSolver (fun x => x)
        ⟨![0], !![-2]⟩ = .ok (create ⟨![0], !![-1]⟩) ∧
      (![1] : Fin 1 → ℝ) ≠ 0 ∧
      (create (⟨![0], !![-1]⟩ : GaussianDistribution ℝ 1)).GetBelief.GetCovariance *ᵥ ![1] =
        (-1 : ℝ) • ![1] ∧
      (-1 : ℝ) < -1e-5 :=
  ⟨posSemidef_fin_one 1 zero_le_one,
    CheckSymmetric_of_isSymm _ exactArithmetic_real _ (by
      rw [of_fin_one_eq_diagonal]
      exact Matrix.diagonal_transpose _),
    Predict_identity_fin_one 1 (-2) (-1) zero_le_one (by norm_num),
    vec_one_ne_zero, mulVec_fin_one (-1), by norm_num⟩

/-- C7, amended: in exact arithmetic, starting from a belief whose covariance is
symmetric positive semidefinite, after every `Predict` or `Observe` call that completes
without failure and whose noise has a symmetric positive semidefinite covariance, for
every transition or observation function and pair of delta operators, the covariance of
the new belief has no eigenvalue below `−1e-5`. -/
theorem covariance_eigenvalues_after_call (hN : 0 < N) (ops : FloatOps ℝ)
    (hx : ExactArithmetic ops)
    (solver : Matrix (Fin N) (Fin N) ℝ → SelfAdjointEigenSolver ℝ N)
    (self self' : UnscentedKalmanFilter ℝ N) (hbel : self.belief_.GetCovariance.PosSemidef)
    (hs : SolverCorrectAt solver self.belief_.GetCovariance)
    (g : (Fin N → ℝ) → (Fin N → ℝ)) (epsilon : GaussianDistribution ℝ N)
    (heps : epsilon.GetCovariance.PosSemidef)
    (h : (Fin N → ℝ) → (Fin K → ℝ)) (delta : GaussianDistribution ℝ K)
    (hdelta : delta.GetCovariance.PosSemidef) :
    (self.Predict ops solver g epsilon = .ok self' →
        ∀ (v : Fin N → ℝ) (l : ℝ), v ≠ 0 →
          self'.GetBelief.GetCovariance *ᵥ v = l • v → -1e-5 ≤ l) ∧
      (self.Observe ops solver h delta = .ok self' →
        ∀ (v : Fin N → ℝ) (l : ℝ), v ≠ 0 →
          self'.GetBelief.GetCovariance *ᵥ v = l • v → -1e-5 ≤ l) := by
  constructor
  · intro hok v l hv hMv
    have hq := Predict_covariance_quadratic_form hN ops hx solver self self' g epsilon heps hok
    have hl := eigenvalue_ge_of_quadratic_form_ge _ _ hq v l hv hMv
    exact le_trans (by norm_num) hl
  · intro hok v l hv hMv
    have hq : ∀ v : Fin N → ℝ, 0 * (v ⬝ᵥ v) ≤ v ⬝ᵥ (self'.belief_.GetCovariance *ᵥ v) := by
      intro v
      rw [zero_mul]
      exact Observe_covariance_quadratic_form hN ops hx solver self self' hbel hs h delta
        hdelta hok v
    have hl := eigenvalue_ge_of_quadratic_form_ge _ _ hq v l hv hMv
    exact le_trans (by norm_num) hl

/-- Witness of C7, amended: a `Predict` of a one-dimensional filter, with eigenvalue 2 of
the new covariance, and an `Observe` with a constant observation function, with
eigenvalue 1. -/
theorem covariance_eigenvalues_after_call_witness :
    0 < 1 ∧ ExactArithmetic ⟨Real.sqrt, fun _ => false⟩ ∧
      (!![1] : Matrix (Fin 1) (Fin 1) ℝ).PosSemidef ∧
      SolverCorrectAt diagonalSolver (!![1] : Matrix (Fin 1) (Fin 1) ℝ) ∧
      (1 : Matrix (Fin 1) (Fin 1) ℝ).PosSemidef ∧
      (-1e-5 : ℝ) ≤ 2 ∧ (-1e-5 : ℝ) ≤ 1 :=
  ⟨one_pos, exactArithmetic_real, posSemidef_fin_one 1 zero_le_one,
    diagonalSolver_correct_one 1, Matrix.PosSemidef.one,
    (covariance_eigenvalues_after_call one_pos _ exactArithmetic_real diagonalSolver
      (create ⟨![0], !![1]⟩) (create ⟨![0], !![2]⟩) (posSemidef_fin_one 1 zero_le_one)
      (diagonalSolver_correct_one 1) (fun x => x) ⟨![0], !![1]⟩
      (posSemidef_fin_one 1 zero_le_one) (fun _ => (0 : Fin 1 → ℝ))
      (⟨0, 1⟩ : GaussianDistribution ℝ 1) Matrix.PosSemidef.one).1
      (Predict_identity_fin_one 1 1 2 zero_le_one (by norm_num)) ![1] 2 vec_one_ne_zero
      (mulVec_fin_one 2),
    (covariance_eigenvalues_after_call one_pos _ exactArithmetic_real diagonalSolver
      (create ⟨![0], !![1]⟩) (create ⟨![0], !![1]⟩) (posSemidef_fin_one 1 zero_le_one)
      (diagonalSolver_correct_one 1) (fun x => x) ⟨![0], !![1]⟩
      (posSemidef_fin_one 1 zero_le_one) (fun _ => (0 : Fin 1 → ℝ))
      (⟨0, 1⟩ : GaussianDistribution ℝ 1) Matrix.PosSemidef.one).2
      (Observe_constant_fin_one 1 zero_le_one) ![1] 1 vec_one_ne_zero (mulVec_fin_one 1)⟩

end UnscentedKalmanFilter

/-- Counterexample to C8: the 3×3 matrix A whose only non-zero coefficients are
`A₀₁ = A₀₂ = 5e-6` has `‖A − Aᵗ‖ = 1e-5`, which is neither NaN nor above `1e-5`, and
`CheckSymmetric(A)` fails. -/
theorem CheckSymmetric_rejects_norm_at_tolerance :
    matNorm ⟨Real.sqrt, fun _ => false⟩
        ((!![0, 5e-6, 5e-6; 0, 0, 0; 0, 0, 0] : Matrix (Fin 3) (Fin 3) ℝ) -
          (!![0, 5e-6, 5e-6; 0, 0, 0; 0, 0, 0] : Matrix (Fin 3) (Fin 3) ℝ)ᵀ) = 1e-5 ∧
      (⟨Real.sqrt, fun _ => false⟩ : FloatOps ℝ).isnan
        (matNorm ⟨Real.sqrt, fun _ => false⟩
          ((!![0, 5e-6, 5e-6; 0, 0, 0; 0, 0, 0] : Matrix (Fin 3) (Fin 3) ℝ) -
            (!![0, 5e-6, 5e-6; 0, 0, 0; 0, 0, 0] : Matrix (Fin 3) (Fin 3) ℝ)ᵀ)) = false ∧
      CheckSymmetric ⟨Real.sqrt, fun _ => false⟩
          (!![0, 5e-6, 5e-6; 0, 0, 0; 0, 0, 0] : Matrix (Fin 3) (Fin 3) ℝ) =
        .error Failure.SymmetryCheckFailed := by
  have hn : matNorm ⟨Real.sqrt, fun _ => false⟩
      ((!![0, 5e-6, 5e-6; 0, 0, 0; 0, 0, 0] : Matrix (Fin 3) (Fin 3) ℝ) -
        (!![0, 5e-6, 5e-6; 0, 0, 0; 0, 0, 0] : Matrix (Fin 3) (Fin 3) ℝ)ᵀ) = 1e-5 := by
    simp only [matNorm]
    rw [show (1e-5 : ℝ) = Real.sqrt (1e-5 ^ 2) from (Real.sqrt_sq (by norm_num)).symm]
    congr 1
    simp only [Fin.sum_univ_three, Matrix.sub_apply, Matrix.transpose_apply]
    simp [Matrix.vecHead, Matrix.vecTail]
    norm_num
  refine ⟨hn, rfl, ?_⟩
  rw [CheckSymmetric_eq_error_iff, hn]
  exact Or.inr (le_abs_self _)

/-- C8, amended: `CheckSymmetric(A)` fails if and only if the Frobenius norm
`‖A − Aᵗ‖` is NaN or its absolute value is at least `1e-5`; a norm of exactly `1e-5` is
rejected, and the check passes if and only if the norm is not NaN and below `1e-5`. -/
theorem CheckSymmetric_fails_iff (ops : FloatOps F) (A : Matrix (Fin N) (Fin N) F) :
    (CheckSymmetric ops A = .error Failure.SymmetryCheckFailed ↔
        ops.isnan (matNorm ops (A - Aᵀ)) = true ∨ 1e-5 ≤ |matNorm ops (A - Aᵀ)|) ∧
      (CheckSymmetric ops A = .ok () ↔
        ops.isnan (matNorm ops (A - Aᵀ)) = false ∧ |matNorm ops (A - Aᵀ)| < 1e-5) :=
  ⟨CheckSymmetric_eq_error_iff ops A, CheckSymmetric_eq_ok_iff ops A⟩

/-- Counterexample to C9: the 1×1 matrix `(−1e-5)` passes the symmetry check and the
minimum eigenvalue of its symmetrised form is `−1e-5`, which is not below `−1e-5`, and
`MatrixSqrt` fails. -/
theorem MatrixSqrt_rejects_eigenvalue_at_tolerance :
    CheckSymmetric ⟨Real.sqrt, fun _ => false⟩ (!![-1e-5] : Matrix (Fin 1) (Fin 1) ℝ) = .ok () ∧
      SolverCorrectAt diagonalSolver (!![-1e-5] : Matrix (Fin 1) (Fin 1) ℝ) ∧
      minCoeff (diagonalSolver
        (((!![-1e-5] : Matrix (Fin 1) (Fin 1) ℝ) + !![-1e-5]ᵀ).map fun x => x / 2)).eigenvalues =
        -1e-5 ∧
      MatrixSqrt ⟨Real.sqrt, fun _ => false⟩ diagonalSolver
        (!![-1e-5] : Matrix (Fin 1) (Fin 1) ℝ) = .error Failure.NegativeEigenvalues := by
  have hsym : (!![-1e-5] : Matrix (Fin 1) (Fin 1) ℝ).IsSymm := by
    rw [of_fin_one_eq_diagonal]
    exact Matrix.diagonal_transpose _
  have hc := CheckSymmetric_of_isSymm _ exactArithmetic_real _ hsym
  have hmin : minCoeff (diagonalSolver
      (((!![-1e-5] : Matrix (Fin 1) (Fin 1) ℝ) + !![-1e-5]ᵀ).map fun x => x / 2)).eigenvalues =
      -1e-5 := by
    rw [symmetrize_of_isSymm _ hsym]
    simp [minCoeff, diagonalSolver, List.ofFn_succ]
  refine ⟨hc, diagonalSolver_correct_one _, hmin, ?_⟩
  rcases MatrixSqrt_cases ⟨Real.sqrt, fun _ => false⟩ diagonalSolver
    (!![-1e-5] : Matrix (Fin 1) (Fin 1) ℝ) with h | h | h
  · rw [hc] at h
    exact absurd h.1 (by simp)
  · exact h.2.2
  · rw [hmin] at h
    exact absurd h.2.1 (lt_irrefl _)

/-- C9, amended: for every matrix A that passes the symmetry check, `MatrixSqrt(A)`
fails if and only if the minimum eigenvalue of the symmetrised input `(A+Aᵗ)/2` is at
most `−1e-5`; a minimum eigenvalue of exactly `−1e-5` is rejected, and only a minimum
eigenvalue above `−1e-5` is accepted. -/
theorem MatrixSqrt_fails_iff (ops : FloatOps F)
    (solver : Matrix (Fin N) (Fin N) F → SelfAdjointEigenSolver F N)
    (A : Matrix (Fin N) (Fin N) F) (hc : CheckSymmetric ops A = .ok ()) :
    ((∃ e, MatrixSqrt ops solver A = .error e) ↔
        minCoeff (solver ((A + Aᵀ).map fun x => x / 2)).eigenvalues ≤ -1e-5) ∧
      ((∃ B, MatrixSqrt ops solver A = .ok B) ↔
        -1e-5 < minCoeff (solver ((A + Aᵀ).map fun x => x / 2)).eigenvalues) := by
  rcases MatrixSqrt_cases ops solver A with h | h | h
  · rw [hc] at h
    exact absurd h.1 (by simp)
  · exact ⟨⟨fun _ => h.2.1, fun _ => ⟨_, h.2.2⟩⟩,
      ⟨fun ⟨B, hB⟩ => absurd (h.2.2.symm.trans hB) (by simp),
        fun hlt => absurd h.2.1 (not_le.mpr hlt)⟩⟩
  · exact ⟨⟨fun ⟨e, he⟩ => absurd (h.2.2.symm.trans he) (by simp),
        fun hle => absurd h.2.1 (not_lt.mpr hle)⟩,
      ⟨fun _ => h.2.1, fun _ => ⟨_, h.2.2⟩⟩⟩

/-- Witness of C9, amended: the 1×1 matrix `(−1e-5)`. -/
theorem MatrixSqrt_fails_iff_witness :
    CheckSymmetric ⟨Real.sqrt, fun _ => false⟩ (!![-1e-5] : Matrix (Fin 1) (Fin 1) ℝ) = .ok () ∧
      ((∃ e, MatrixSqrt ⟨Real.sqrt, fun _ => false⟩ diagonalSolver
            (!![-1e-5] : Matrix (Fin 1) (Fin 1) ℝ) = .error e) ↔
          minCoeff (diagonalSolver
            (((!![-1e-5] : Matrix (Fin 1) (Fin 1) ℝ) + !![-1e-5]ᵀ).map
              fun x => x / 2)).eigenvalues ≤ -1e-5) ∧
      ((∃ B, MatrixSqrt ⟨Real.sqrt, fun _ => false⟩ diagonalSolver
            (!![-1e-5] : Matrix (Fin 1) (Fin 1) ℝ) = .ok B) ↔
          -1e-5 < minCoeff (diagonalSolver
            (((!![-1e-5] : Matrix (Fin 1) (Fin 1) ℝ) + !![-1e-5]ᵀ).map
              fun x => x / 2)).eigenvalues) :=
  have hc : CheckSymmetric ⟨Real.sqrt, fun _ => false⟩
      (!![-1e-5] : Matrix (Fin 1) (Fin 1) ℝ) = .ok () :=
    CheckSymmetric_of_isSymm _ exactArithmetic_real _ (by
      rw [of_fin_one_eq_diagonal]
      exact Matrix.diagonal_transpose _)
  ⟨hc, MatrixSqrt_fails_iff _ diagonalSolver _ hc⟩

namespace UnscentedKalmanFilter

/-- C10: `Predict` and `Observe` each fail, and produce no new belief, whenever the
covariance of the current belief is asymmetric beyond the `1e-5` tolerance or (its
symmetrised form `(Σ+Σᵗ)/2`, which is Σ itself when Σ is symmetric) has an eigenvalue
below `−1e-5`, and whenever the covariance of the supplied noise is asymmetric beyond the
`1e-5` tolerance. -/
theorem calls_fail_on_invalid_covariance (ops : FloatOps F)
    (solver : Matrix (Fin N) (Fin N) F → SelfAdjointEigenSolver F N)
    (self : UnscentedKalmanFilter F N)
    (hs : SolverCorrectAt solver self.belief_.GetCovariance)
    (g : (Fin N → F) → (Fin N → F)) (epsilon : GaussianDistribution F N)
    (h : (Fin N → F) → (Fin K → F)) (delta : GaussianDistribution F K) :
    (((1e-5 < matNorm ops (self.belief_.GetCovariance - self.belief_.GetCovarianceᵀ) ∨
          ∃ (v : Fin N → F) (l : F), v ≠ 0 ∧
            ((self.belief_.GetCovariance + self.belief_.GetCovarianceᵀ).map
              fun x => x / 2) *ᵥ v = l • v ∧ l < -1e-5) ∨
        1e-5 < matNorm ops (epsilon.GetCovariance - epsilon.GetCovarianceᵀ)) →
        ∃ e, self.Predict ops solver g epsilon = .error e) ∧
      (((1e-5 < matNorm ops (self.belief_.GetCovariance - self.belief_.GetCovarianceᵀ) ∨
          ∃ (v : Fin N → F) (l : F), v ≠ 0 ∧
            ((self.belief_.GetCovariance + self.belief_.GetCovarianceᵀ).map
              fun x => x / 2) *ᵥ v = l • v ∧ l < -1e-5) ∨
        1e-5 < matNorm ops (delta.GetCovariance - delta.GetCovarianceᵀ)) →
        ∃ e, self.Observe ops solver h delta = .error e) := by
  constructor
  · rintro (hbad | hnoise)
    · obtain ⟨e, he⟩ := MatrixSqrt_error_of_invalid ops solver _ hs hbad
      rcases Predict_error_of_MatrixSqrt ops solver self g epsilon e he with h1 | h1
      · exact ⟨_, h1⟩
      · exact ⟨_, h1⟩
    · exact ⟨_, Predict_error_of_CheckSymmetric ops solver self g epsilon _
        (CheckSymmetric_of_lt_norm ops _ hnoise)⟩
  · rintro (hbad | hnoise)
    · obtain ⟨e, he⟩ := MatrixSqrt_error_of_invalid ops solver _ hs hbad
      rcases Observe_error_of_MatrixSqrt ops solver self h delta e he with h1 | h1 | h1
      · exact ⟨_, h1⟩
      · exact ⟨_, h1⟩
      · exact ⟨_, h1⟩
    · exact ⟨_, Observe_error_of_CheckSymmetric ops solver self h delta _
        (CheckSymmetric_of_lt_norm ops _ hnoise)⟩

/-- Witness of C10: the one-dimensional belief with covariance `−1`, whose eigenvalue
`−1` is below `−1e-5`. -/
theorem calls_fail_on_invalid_covariance_witness :
    SolverCorrectAt diagonalSolver (!![-1] : Matrix (Fin 1) (Fin 1) ℝ) ∧
      (∃ e, (create (⟨![0], !![-1]⟩ : GaussianDistribution ℝ 1)).Predict
        ⟨Real.sqrt, fun _ => false⟩ diagonalSolver (fun x => x) ⟨0, 0⟩ = .error e) ∧
      (∃ e, (create (⟨![0], !![-1]⟩ : GaussianDistribution ℝ 1)).Observe
        ⟨Real.sqrt, fun _ => false⟩ diagonalSolver (fun x => x)
        (⟨0, 0⟩ : GaussianDistribution ℝ 1) = .error e) :=
  have hbad : 1e-5 < matNorm ⟨Real.sqrt, fun _ => false⟩
        ((!![-1] : Matrix (Fin 1) (Fin 1) ℝ) - (!![-1] : Matrix (Fin 1) (Fin 1) ℝ)ᵀ) ∨
      ∃ (v : Fin 1 → ℝ) (l : ℝ), v ≠ 0 ∧
        (((!![-1] : Matrix (Fin 1) (Fin 1) ℝ) + (!![-1] : Matrix (Fin 1) (Fin 1) ℝ)ᵀ).map
          fun x => x / 2) *ᵥ v = l • v ∧ l < -1e-5 :=
    Or.inr ⟨![1], -1, by
      intro h0
      have := congrFun h0 0
      simp at this, by
      rw [symmetrize_of_isSymm _ (by
        rw [of_fin_one_eq_diagonal]
        exact Matrix.diagonal_transpose _)]
      ext i
      fin_cases i
      simp [Matrix.mulVec, Matrix.dotProduct], by norm_num⟩
  have hall := calls_fail_on_invalid_covariance ⟨Real.sqrt, fun _ => false⟩ diagonalSolver
    (create (⟨![0], !![-1]⟩ : GaussianDistribution ℝ 1)) (diagonalSolver_correct_one (-1))
    (fun x => x) ⟨0, 0⟩ (fun x => x) (⟨0, 0⟩ : GaussianDistribution ℝ 1)
  ⟨diagonalSolver_correct_one (-1), hall.1 (Or.inl hbad), hall.2 (Or.inl hbad)⟩

end UnscentedKalmanFilter

/-! ## Failures of `Observe` -/

namespace UnscentedKalmanFilter

theorem Observe_error_of_mean (ops : FloatOps F)
    (solver : Matrix (Fin N) (Fin N) F → SelfAdjointEigenSolver F N)
    (self : UnscentedKalmanFilter F N) (h : (Fin N → F) → (Fin K → F))
    (delta : GaussianDistribution F K)
    (hm : ¬(vecNorm ops delta.GetMean ≤ 0 + 1e-9 ∧ 0 - 1e-9 ≤ vecNorm ops delta.GetMean)) :
    self.Observe ops solver h delta = .error Failure.SymmetryCheckFailed ∨
      self.Observe ops solver h delta = .error Failure.NonZeroMeanDelta := by
  unfold Observe
  rcases CheckSymmetric_cases ops delta.GetCovariance with hc | hc
  · rw [hc]
    simp only []
    rw [if_neg hm]
    exact Or.inr rfl
  · rw [hc]
    exact Or.inl rfl

end UnscentedKalmanFilter

/-! ## Successful calls with a symmetric noise covariance -/

theorem CheckSymmetric_congr (ops : FloatOps F) (A A' : Matrix (Fin N) (Fin N) F)
    (h : A - Aᵀ = A' - A'ᵀ) : CheckSymmetric ops A = CheckSymmetric ops A' := by
  unfold CheckSymmetric
  rw [h]

theorem CheckSymmetric_of_MatrixSqrt (ops : FloatOps F)
    (solver : Matrix (Fin N) (Fin N) F → SelfAdjointEigenSolver F N)
    (A B : Matrix (Fin N) (Fin N) F) (h : MatrixSqrt ops solver A = .ok B) :
    CheckSymmetric ops A = .ok () := by
  rcases MatrixSqrt_cases ops solver A with h1 | h1 | h1
  · rw [h1.2] at h
    exact absurd h (by simp)
  · exact h1.1
  · exact h1.1

namespace UnscentedKalmanFilter

/-- A call of `Predict` with a process noise of exactly symmetric covariance completes as
soon as `MatrixSqrt` and `ComputeMean` succeed. -/
theorem Predict_ok_of_symmetric_noise (ops : FloatOps ℝ) (hx : ExactArithmetic ops)
    (solver : Matrix (Fin N) (Fin N) ℝ → SelfAdjointEigenSolver ℝ N)
    (self : UnscentedKalmanFilter ℝ N) (g : (Fin N → ℝ) → (Fin N → ℝ))
    (epsilon : GaussianDistribution ℝ N) (heps : epsilon.GetCovariance.IsSymm)
    (sqrt_sigma : Matrix (Fin N) (Fin N) ℝ) (new_mu : Fin N → ℝ)
    (hB : MatrixSqrt ops solver self.belief_.GetCovariance = .ok sqrt_sigma)
    (hmean : self.ComputeMean ops (self.PredictY ops g self.belief_.GetMean sqrt_sigma) =
      .ok new_mu) :
    self.Predict ops solver g epsilon =
      .ok { self with
        belief_ := (GaussianDistribution.mk new_mu
          (self.PredictSigma new_mu
            (self.PredictY ops g self.belief_.GetMean sqrt_sigma))).add epsilon } := by
  unfold Predict
  rw [CheckSymmetric_of_isSymm ops hx _ heps]
  simp only []
  rw [hB]
  simp only []
  rw [hmean]
  simp only []
  rw [CheckSymmetric_of_isSymm ops hx _ (PredictSigma_isSymm _ _ _)]

/-- A call of `Observe` with a measurement noise of exactly symmetric covariance
completes as soon as the mean of the noise passes its check, `MatrixSqrt` succeeds and
the innovation covariance `S` is not singular. -/
theorem Observe_ok_of_symmetric_noise (ops : FloatOps ℝ) (hx : ExactArithmetic ops)
    (solver : Matrix (Fin N) (Fin N) ℝ → SelfAdjointEigenSolver ℝ N)
    (self : UnscentedKalmanFilter ℝ N) (h : (Fin N → ℝ) → (Fin K → ℝ))
    (delta : GaussianDistribution ℝ K) (hR : delta.GetCovariance.IsSymm)
    (hm : vecNorm ops delta.GetMean ≤ 1e-9)
    (sqrt_sigma : Matrix (Fin N) (Fin N) ℝ)
    (hB : MatrixSqrt ops solver self.belief_.GetCovariance = .ok sqrt_sigma)
    (hdet : (ObserveS N (self.ObserveSigma ops h self.belief_.GetMean sqrt_sigma).Z
        (self.ObserveSigma ops h self.belief_.GetMean sqrt_sigma).z_hat +
      delta.GetCovariance).det ≠ 0) :
    self.Observe ops solver h delta =
      .ok { self with
        belief_ :=
          ⟨self.add_delta_ self.belief_.GetMean
            ((ObserveSigmaBarXZ
                (self.ObserveSigma ops h self.belief_.GetMean sqrt_sigma).W
                (self.ObserveSigma ops h self.belief_.GetMean sqrt_sigma).Z
                (self.ObserveSigma ops h self.belief_.GetMean sqrt_sigma).z_hat *
              (ObserveS N (self.ObserveSigma ops h self.belief_.GetMean sqrt_sigma).Z
                  (self.ObserveSigma ops h self.belief_.GetMean sqrt_sigma).z_hat +
                delta.GetCovariance)⁻¹) *ᵥ
              (-(self.ObserveSigma ops h self.belief_.GetMean sqrt_sigma).z_hat)),
          self.belief_.GetCovariance -
            (ObserveSigmaBarXZ
                (self.ObserveSigma ops h self.belief_.GetMean sqrt_sigma).W
                (self.ObserveSigma ops h self.belief_.GetMean sqrt_sigma).Z
                (self.ObserveSigma ops h self.belief_.GetMean sqrt_sigma).z_hat *
              (ObserveS N (self.ObserveSigma ops h self.belief_.GetMean sqrt_sigma).Z
                  (self.ObserveSigma ops h self.belief_.GetMean sqrt_sigma).z_hat +
                delta.GetCovariance)⁻¹) *
            (ObserveS N (self.ObserveSigma ops h self.belief_.GetMean sqrt_sigma).Z
                (self.ObserveSigma ops h self.belief_.GetMean sqrt_sigma).z_hat +
              delta.GetCovariance) *
            (ObserveSigmaBarXZ
                (self.ObserveSigma ops h self.belief_.GetMean sqrt_sigma).W
                (self.ObserveSigma ops h self.belief_.GetMean sqrt_sigma).Z
                (self.ObserveSigma ops h self.belief_.GetMean sqrt_sigma).z_hat *
              (ObserveS N (self.ObserveSigma ops h self.belief_.GetMean sqrt_sigma).Z
                  (self.ObserveSigma ops h self.belief_.GetMean sqrt_sigma).z_hat +
                delta.GetCovariance)⁻¹)ᵀ⟩ } := by
  have hSsymm := ObserveS_isSymm (N := N)
    (self.ObserveSigma ops h self.belief_.GetMean sqrt_sigma).Z
    (self.ObserveSigma ops h self.belief_.GetMean sqrt_sigma).z_hat
  have hS2symm := hSsymm.add hR
  have hcov := CheckSymmetric_of_MatrixSqrt ops solver _ _ hB
  unfold Observe
  rw [CheckSymmetric_of_isSymm ops hx _ hR]
  simp only []
  rw [if_pos ⟨by simpa using hm, le_trans (by norm_num) (vecNorm_nonneg ops hx delta.GetMean)⟩,
    hB]
  simp only []
  rw [CheckSymmetric_of_isSymm ops hx _ hSsymm]
  simp only []
  rw [inverse_eq_some _ hdet]
  simp only []
  generalize ObserveSigmaBarXZ (self.ObserveSigma ops h self.belief_.GetMean sqrt_sigma).W
    (self.ObserveSigma ops h self.belief_.GetMean sqrt_sigma).Z
    (self.ObserveSigma ops h self.belief_.GetMean sqrt_sigma).z_hat *
    (ObserveS N (self.ObserveSigma ops h self.belief_.GetMean sqrt_sigma).Z
        (self.ObserveSigma ops h self.belief_.GetMean sqrt_sigma).z_hat +
      delta.GetCovariance)⁻¹ = G
  generalize ObserveS N (self.ObserveSigma ops h self.belief_.GetMean sqrt_sigma).Z
      (self.ObserveSigma ops h self.belief_.GetMean sqrt_sigma).z_hat +
    delta.GetCovariance = S at hS2symm
  have hnew : CheckSymmetric ops (self.belief_.GetCovariance - G * S * Gᵀ) = .ok () := by
    rw [CheckSymmetric_congr ops _ self.belief_.GetCovariance, hcov]
    have e : (G * S * Gᵀ)ᵀ = G * S * Gᵀ := by
      rw [Matrix.transpose_mul, Matrix.transpose_mul, Matrix.transpose_transpose, hS2symm.eq,
        Matrix.mul_assoc]
    rw [Matrix.transpose_sub, e]
    abel
  rw [hnew]

end UnscentedKalmanFilter

/-! ## The sigma points of `Observe` under an affine observation function -/

namespace UnscentedKalmanFilter

section ObserveAffine

variable (ops : FloatOps ℝ) (belief : GaussianDistribution ℝ N)
  (H : Matrix (Fin K) (Fin N) ℝ) (b : Fin K → ℝ) (mu : Fin N → ℝ)
  (B : Matrix (Fin N) (Fin N) ℝ)

theorem ObserveSigma_z_hat_affine (hN : 0 < N) :
    ((create belief).ObserveSigma ops (fun x => H *ᵥ x + b) mu B).z_hat = H *ᵥ mu + b := by
  have hadd : ∀ s d : Fin N → ℝ, (create belief).add_delta_ s d = s + d := fun _ _ => rfl
  have hzh := ObserveSigma_z_hat ops (create belief) (fun x => H *ᵥ x + b) mu B
  simp only [hadd] at hzh
  rw [hzh]
  have e : ∀ i : Fin N,
      (kMeanWeightI N : ℝ) •
          (H *ᵥ (mu + ops.sqrt ((N : ℝ) + kLambda N) • fun r => B r i) + b) +
        (kMeanWeightI N : ℝ) •
          (H *ᵥ (mu + -ops.sqrt ((N : ℝ) + kLambda N) • fun r => B r i) + b) =
      (2 * kMeanWeightI N : ℝ) • (H *ᵥ mu + b) := by
    intro i
    rw [Matrix.mulVec_add, Matrix.mulVec_add, Matrix.mulVec_smul, Matrix.mulVec_smul,
      two_mul, add_smul]
    simp only [neg_smul, smul_add, smul_neg]
    abel
  simp only [e, Finset.sum_const, Finset.card_univ, Fintype.card_fin]
  rw [← Nat.cast_smul_eq_nsmul ℝ, smul_smul, ← add_smul,
    show (kMeanWeight0 N : ℝ) + (N : ℝ) * (2 * kMeanWeightI N) =
      kMeanWeight0 N + 2 * N * kMeanWeightI N by ring, mean_weights_sum hN, one_smul]

theorem ObserveS_affine (hN : 0 < N) (hx : ExactArithmetic ops) :
    ObserveS N ((create belief).ObserveSigma ops (fun x => H *ᵥ x + b) mu B).Z
        ((create belief).ObserveSigma ops (fun x => H *ᵥ x + b) mu B).z_hat =
      H * (B * Bᵀ) * Hᵀ := by
  have hadd : ∀ s d : Fin N → ℝ, (create belief).add_delta_ s d = s + d := fun _ _ => rfl
  have hZ0 := ObserveSigma_Z_zero ops (create belief) (fun x => H *ᵥ x + b) mu B
  have hZ1 := ObserveSigma_Z_odd ops (create belief) (fun x => H *ᵥ x + b) mu B
  have hZ2 := ObserveSigma_Z_even ops (create belief) (fun x => H *ᵥ x + b) mu B
  simp only [hadd] at hZ1 hZ2
  rw [ObserveS_eq]
  simp only [hZ0, hZ1, hZ2, ObserveSigma_z_hat_affine ops belief H b mu B hN, affine_sub_odd,
    affine_sub_even, sub_self, OuterProduct_eq_vecMulVec]
  rw [sum_pair_outer hN ops hx (H * B) (H * B), vecMulVec_zero_left, smul_zero,
    zero_add, Matrix.transpose_mul]
  simp only [Matrix.mul_assoc]

theorem ObserveSigmaBarXZ_affine (hN : 0 < N) (hx : ExactArithmetic ops) :
    ObserveSigmaBarXZ ((create belief).ObserveSigma ops (fun x => H *ᵥ x + b) mu B).W
        ((create belief).ObserveSigma ops (fun x => H *ᵥ x + b) mu B).Z
        ((create belief).ObserveSigma ops (fun x => H *ᵥ x + b) mu B).z_hat =
      (B * Bᵀ) * Hᵀ := by
  have hadd : ∀ s d : Fin N → ℝ, (create belief).add_delta_ s d = s + d := fun _ _ => rfl
  have hW0 := ObserveSigma_W_zero ops (create belief) (fun x => H *ᵥ x + b) mu B
  have hW1 := ObserveSigma_W_odd ops (create belief) (fun x => H *ᵥ x + b) mu B
  have hW2 := ObserveSigma_W_even ops (create belief) (fun x => H *ᵥ x + b) mu B
  have hZ0 := ObserveSigma_Z_zero ops (create belief) (fun x => H *ᵥ x + b) mu B
  have hZ1 := ObserveSigma_Z_odd ops (create belief) (fun x => H *ᵥ x + b) mu B
  have hZ2 := ObserveSigma_Z_even ops (create belief) (fun x => H *ᵥ x + b) mu B
  simp only [hadd] at hZ1 hZ2
  rw [ObserveSigmaBarXZ_eq]
  simp only [hW0, hW1, hW2, hZ0, hZ1, hZ2, ObserveSigma_z_hat_affine ops belief H b mu B hN,
    affine_sub_odd, affine_sub_even, sub_self]
  rw [sum_pair_outer hN ops hx B (H * B), vecMulVec_zero_left, smul_zero,
    zero_add, Matrix.transpose_mul]
  simp only [Matrix.mul_assoc]

end ObserveAffine

/-! ## Calls of a one-dimensional filter with the real square root, continued -/

theorem inv_fin_one (M : Matrix (Fin 1) (Fin 1) ℝ) :
    M⁻¹ = Matrix.of fun _ _ => (M 0 0)⁻¹ := by
  rw [Matrix.inv_def]
  ext i j
  fin_cases i
  fin_cases j
  simp [Matrix.det_fin_one]

/-- The one-dimensional filter with belief (m, a), observation function `h(x) = x` and
measurement noise (0, r). -/
theorem Observe_identity_fin_one (m a r m' s : ℝ) (ha : 0 ≤ a) (hdet : a + r ≠ 0)
    (hm : m - a / (a + r) * m = m') (hs : a - a * a / (a + r) = s) :
    (create ⟨![m], !![a]⟩).Observe ⟨Real.sqrt, fun _ => false⟩ diagonalSolver (fun x => x)
        (⟨0, !![r]⟩ : GaussianDistribution ℝ 1) = .ok (create ⟨![m'], !![s]⟩) := by
  have e1 : (fun x : Fin 1 → ℝ => x) = fun x => (1 : Matrix (Fin 1) (Fin 1) ℝ) *ᵥ x + 0 := by
    funext x
    simp
  have hsym : (!![r] : Matrix (Fin 1) (Fin 1) ℝ).IsSymm := by
    rw [of_fin_one_eq_diagonal]
    exact Matrix.diagonal_transpose _
  have hS : (1 * !![a] * (1 : Matrix (Fin 1) (Fin 1) ℝ)ᵀ + !![r]) = !![a + r] := by
    ext i j
    fin_cases i
    fin_cases j
    simp
  rw [e1, Observe_affine one_pos _ exactArithmetic_real diagonalSolver ⟨![m], !![a]⟩
    (posSemidef_fin_one a ha) (diagonalSolver_correct_one a) 1 0 ⟨0, !![r]⟩ hsym
    (by
      show vecNorm _ (0 : Fin 1 → ℝ) ≤ 1e-9
      rw [vecNorm_zero _ exactArithmetic_real]
      norm_num)
    (by
      show Matrix.det (1 * !![a] * (1 : Matrix (Fin 1) (Fin 1) ℝ)ᵀ + !![r]) ≠ (0 : ℝ)
      rw [hS, Matrix.det_fin_one_of]
      exact hdet)]
  show Except.ok (create ⟨_, _⟩) = _
  rw [hS, inv_fin_one]
  congr 3
  · ext i
    fin_cases i
    simp [Matrix.mulVec, Matrix.dotProduct, Matrix.mul_apply, Matrix.vecHead]
    rw [← hm]
    field_simp
    ring
  · ext i j
    fin_cases i
    fin_cases j
    simp [Matrix.mul_apply, Matrix.vecHead]
    rw [← hs]
    field_simp

end UnscentedKalmanFilter

namespace UnscentedKalmanFilter

/-- With the default delta operators and an affine transition `ComputeMean` returns the
image of the mean, for every square root `B`. -/
theorem ComputeMean_affine (ops : FloatOps ℝ) (hx : ExactArithmetic ops)
    (belief : GaussianDistribution ℝ N) (A : Matrix (Fin N) (Fin N) ℝ) (b mu : Fin N → ℝ)
    (B : Matrix (Fin N) (Fin N) ℝ) :
    (create belief).ComputeMean ops
      ((create belief).PredictY ops (fun x => A *ᵥ x + b) mu B) = .ok (A *ᵥ mu + b) := by
  have hY0 := PredictY_getD_zero ops (create belief) (fun x => A *ᵥ x + b) mu B
  have hlen := PredictY_length ops (create belief) (fun x => A *ᵥ x + b) mu B
  rw [ComputeMean_of_error_le ops _ _ hlen, hY0]
  rw [hY0, affine_weighted_error, vecNorm_zero ops hx]
  norm_num

/-- Counterexample to C11: the symmetric 1×1 covariances `(−2)` and `(−3)` have an
eigenvalue below `−1e-5`; `Predict` with `g(x) = x` and the process noise (0, −2)
completes and updates the belief (0, 1) to (0, −1), and `Observe` with `h(x) = x` and the
measurement noise (0, −3) completes and updates the belief (0, 1) to (0, 3/2). -/
theorem indefinite_noise_is_accepted :
    ((!![-2] : Matrix (Fin 1) (Fin 1) ℝ).IsSymm ∧
        (!![-2] : Matrix (Fin 1) (Fin 1) ℝ) *ᵥ ![1] = (-2 : ℝ) • ![1] ∧ (-2 : ℝ) < -1e-5 ∧
        (create ⟨![0], !![1]⟩).Predict ⟨Real.sqrt, fun _ => false⟩ diagonalSolver (fun x => x)
          ⟨![0], !![-2]⟩ = .ok (create ⟨![0], !![-1]⟩)) ∧
      ((!![-3] : Matrix (Fin 1) (Fin 1) ℝ).IsSymm ∧
        (!![-3] : Matrix (Fin 1) (Fin 1) ℝ) *ᵥ ![1] = (-3 : ℝ) • ![1] ∧ (-3 : ℝ) < -1e-5 ∧
        (create ⟨![0], !![1]⟩).Observe ⟨Real.sqrt, fun _ => false⟩ diagonalSolver (fun x => x)
          (⟨0, !![-3]⟩ : GaussianDistribution ℝ 1) = .ok (create ⟨![0], !![3 / 2]⟩)) := by
  have hsym : ∀ q : ℝ, (!![q] : Matrix (Fin 1) (Fin 1) ℝ).IsSymm := by
    intro q
    rw [of_fin_one_eq_diagonal]
    exact Matrix.diagonal_transpose _
  exact ⟨⟨hsym _, mulVec_fin_one (-2), by norm_num,
      Predict_identity_fin_one 1 (-2) (-1) zero_le_one (by norm_num)⟩,
    ⟨hsym _, mulVec_fin_one (-3), by norm_num,
      Observe_identity_fin_one 0 1 (-3) 0 (3 / 2) zero_le_one (by norm_num) (by norm_num)
        (by norm_num)⟩⟩

/-- C11, amended: in exact arithmetic `Predict` and `Observe` check the covariance of the
noise for symmetry only.  Given a process noise whose covariance is exactly symmetric,
indefinite or not, `Predict` completes and adds the noise to the belief whenever
`MatrixSqrt` of the covariance of the belief and `ComputeMean` succeed; given a
measurement noise whose covariance is exactly symmetric, indefinite or not, `Observe`
completes whenever the mean of the noise passes its check, `MatrixSqrt` of the covariance
of the belief succeeds and the innovation covariance `S` is not singular. -/
theorem symmetric_noise_is_accepted (ops : FloatOps ℝ) (hx : ExactArithmetic ops)
    (solver : Matrix (Fin N) (Fin N) ℝ → SelfAdjointEigenSolver ℝ N)
    (self : UnscentedKalmanFilter ℝ N) (g : (Fin N → ℝ) → (Fin N → ℝ))
    (epsilon : GaussianDistribution ℝ N) (heps : epsilon.GetCovariance.IsSymm)
    (h : (Fin N → ℝ) → (Fin K → ℝ)) (delta : GaussianDistribution ℝ K)
    (hdelta : delta.GetCovariance.IsSymm) (sqrt_sigma : Matrix (Fin N) (Fin N) ℝ)
    (hB : MatrixSqrt ops solver self.belief_.GetCovariance = .ok sqrt_sigma) :
    (∀ new_mu,
        self.ComputeMean ops (self.PredictY ops g self.belief_.GetMean sqrt_sigma) =
          .ok new_mu →
        self.Predict ops solver g epsilon =
          .ok { self with
            belief_ :=
              ⟨new_mu + epsilon.GetMean,
                self.PredictSigma new_mu
                    (self.PredictY ops g self.belief_.GetMean sqrt_sigma) +
                  epsilon.GetCovariance⟩ }) ∧
      (vecNorm ops delta.GetMean ≤ 1e-9 →
        (ObserveS N (self.ObserveSigma ops h self.belief_.GetMean sqrt_sigma).Z
            (self.ObserveSigma ops h self.belief_.GetMean sqrt_sigma).z_hat +
          delta.GetCovariance).det ≠ 0 →
        ∃ self', self.Observe ops solver h delta = .ok self') :=
  ⟨fun new_mu hmean =>
      Predict_ok_of_symmetric_noise ops hx solver self g epsilon heps sqrt_sigma new_mu hB hmean,
    fun hm hdet =>
      ⟨_, Observe_ok_of_symmetric_noise ops hx solver self h delta hdelta hm sqrt_sigma hB hdet⟩⟩

/-- Witness of C11, amended: the one-dimensional belief (0, 1) with the identity as
transition and observation function and the noise covariances `(−2)` and `(−3)`. -/
theorem symmetric_noise_is_accepted_witness :
    (!![-2] : Matrix (Fin 1) (Fin 1) ℝ).IsSymm ∧ (!![-3] : Matrix (Fin 1) (Fin 1) ℝ).IsSymm ∧
      (∃ self', (create (⟨![0], !![1]⟩ : GaussianDistribution ℝ 1)).Predict
        ⟨Real.sqrt, fun _ => false⟩ diagonalSolver
        (fun x => (1 : Matrix (Fin 1) (Fin 1) ℝ) *ᵥ x + 0) ⟨![0], !![-2]⟩ = .ok self') ∧
      (∃ self', (create (⟨![0], !![1]⟩ : GaussianDistribution ℝ 1)).Observe
        ⟨Real.sqrt, fun _ => false⟩ diagonalSolver
        (fun x => (1 : Matrix (Fin 1) (Fin 1) ℝ) *ᵥ x + 0)
        (⟨0, !![-3]⟩ : GaussianDistribution ℝ 1) = .ok self') := by
  have hsym : ∀ q : ℝ, (!![q] : Matrix (Fin 1) (Fin 1) ℝ).IsSymm := by
    intro q
    rw [of_fin_one_eq_diagonal]
    exact Matrix.diagonal_transpose _
  obtain ⟨B, hB, -, hBB⟩ := MatrixSqrt_of_posSemidef one_pos ⟨Real.sqrt, fun _ => false⟩
    exactArithmetic_real diagonalSolver (!![1] : Matrix (Fin 1) (Fin 1) ℝ)
    (posSemidef_fin_one 1 zero_le_one) (diagonalSolver_correct_one 1)
  have hall := symmetric_noise_is_accepted ⟨Real.sqrt, fun _ => false⟩ exactArithmetic_real
    diagonalSolver (create (⟨![0], !![1]⟩ : GaussianDistribution ℝ 1))
    (fun x => (1 : Matrix (Fin 1) (Fin 1) ℝ) *ᵥ x + 0) ⟨![0], !![-2]⟩ (hsym _)
    (fun x => (1 : Matrix (Fin 1) (Fin 1) ℝ) *ᵥ x + 0)
    (⟨0, !![-3]⟩ : GaussianDistribution ℝ 1) (hsym _) B hB
  refine ⟨hsym _, hsym _, ⟨_, hall.1 _ (ComputeMean_affine _ exactArithmetic_real _ _ _ _ _)⟩,
    hall.2 ?_ ?_⟩
  · show vecNorm _ (0 : Fin 1 → ℝ) ≤ 1e-9
    rw [vecNorm_zero _ exactArithmetic_real]
    norm_num
  · show Matrix.det (ObserveS 1 _ _ + !![-3]) ≠ (0 : ℝ)
    rw [ObserveS_affine _ _ _ _ _ _ one_pos exactArithmetic_real, hBB, Matrix.det_fin_one]
    simp
    norm_num

/-- C12: for every belief, observation function and pair of delta operators, `Observe`
fails, and produces no new belief, whenever the mean of the measurement noise has a
Euclidean norm above `1e-9`. -/
theorem observe_fails_on_nonzero_mean (ops : FloatOps F)
    (solver : Matrix (Fin N) (Fin N) F → SelfAdjointEigenSolver F N)
    (self : UnscentedKalmanFilter F N) (h : (Fin N → F) → (Fin K → F))
    (delta : GaussianDistribution F K) (hm : 1e-9 < vecNorm ops delta.GetMean) :
    self.Observe ops solver h delta = .error Failure.SymmetryCheckFailed ∨
      self.Observe ops solver h delta = .error Failure.NonZeroMeanDelta :=
  Observe_error_of_mean ops solver self h delta fun hc =>
    absurd (lt_of_lt_of_le hm hc.1) (by norm_num)

/-- Witness of C12: a one-dimensional filter and a measurement noise of mean 1. -/
theorem observe_fails_on_nonzero_mean_witness :
    (1e-9 : ℝ) < vecNorm ⟨Real.sqrt, fun _ => false⟩ (![1] : Fin 1 → ℝ) ∧
      ((create (⟨![0], !![1]⟩ : GaussianDistribution ℝ 1)).Observe
          ⟨Real.sqrt, fun _ => false⟩ diagonalSolver (fun x => x)
          (⟨![1], !![1]⟩ : GaussianDistribution ℝ 1) = .error Failure.SymmetryCheckFailed ∨
        (create (⟨![0], !![1]⟩ : GaussianDistribution ℝ 1)).Observe
          ⟨Real.sqrt, fun _ => false⟩ diagonalSolver (fun x => x)
          (⟨![1], !![1]⟩ : GaussianDistribution ℝ 1) = .error Failure.NonZeroMeanDelta) :=
  have hn : (1e-9 : ℝ) < vecNorm ⟨Real.sqrt, fun _ => false⟩ (![1] : Fin 1 → ℝ) := by
    simp [vecNorm]
    norm_num
  ⟨hn, observe_fails_on_nonzero_mean _ _ _ _ ⟨![1], !![1]⟩ hn⟩

end UnscentedKalmanFilter

namespace UnscentedKalmanFilter

/-! ## `Observe` of one coordinate -/

theorem coordinate_mulVec (i0 : Fin N) (x : Fin N → ℝ) :
    (Matrix.of fun (_ : Fin 1) (j : Fin N) => if j = i0 then (1 : ℝ) else 0) *ᵥ x =
      fun _ => x i0 := by
  funext k
  simp [Matrix.mulVec, Matrix.dotProduct]

theorem coordinate_mul_mul_transpose (i0 : Fin N) (A : Matrix (Fin N) (Fin N) ℝ) :
    (Matrix.of fun (_ : Fin 1) (j : Fin N) => if j = i0 then (1 : ℝ) else 0) * A *
        (Matrix.of fun (_ : Fin 1) (j : Fin N) => if j = i0 then (1 : ℝ) else 0)ᵀ =
      Matrix.of fun _ _ => A i0 i0 := by
  ext i j
  simp [Matrix.mul_apply]

theorem mul_coordinate_transpose (i0 : Fin N) (A : Matrix (Fin N) (Fin N) ℝ) :
    A * (Matrix.of fun (_ : Fin 1) (j : Fin N) => if j = i0 then (1 : ℝ) else 0)ᵀ =
      Matrix.of fun i _ => A i i0 := by
  ext i j
  simp [Matrix.mul_apply]

/-- With the default delta operators, `h(x) = x[i0]` and the measurement noise (0, r),
`Observe` completes and leaves the variance `Σ[i0,i0] · r / (Σ[i0,i0] + r)` for the
coordinate `i0`. -/
theorem Observe_coordinate (hN : 0 < N) (ops : FloatOps ℝ) (hx : ExactArithmetic ops)
    (solver : Matrix (Fin N) (Fin N) ℝ → SelfAdjointEigenSolver ℝ N)
    (belief : GaussianDistribution ℝ N) (hbel : belief.GetCovariance.PosSemidef)
    (hs : SolverCorrectAt solver belief.GetCovariance) (i0 : Fin N)
    (h00 : 0 < belief.GetCovariance i0 i0) (r : ℝ) (hr : 0 ≤ r) :
    ∃ self', (create belief).Observe ops solver (fun x _ => x i0)
        (⟨0, !![r]⟩ : GaussianDistribution ℝ 1) = .ok self' ∧
      self'.belief_.GetCovariance i0 i0 =
        belief.GetCovariance i0 i0 * r / (belief.GetCovariance i0 i0 + r) := by
  have e1 : (fun (x : Fin N → ℝ) (_ : Fin 1) => x i0) =
      fun x => (Matrix.of fun (_ : Fin 1) (j : Fin N) => if j = i0 then (1 : ℝ) else 0) *ᵥ x +
        0 := by
    funext x
    rw [add_zero, coordinate_mulVec]
  have hsym : (!![r] : Matrix (Fin 1) (Fin 1) ℝ).IsSymm := by
    rw [of_fin_one_eq_diagonal]
    exact Matrix.diagonal_transpose _
  have hS : (Matrix.of fun (_ : Fin 1) (j : Fin N) => if j = i0 then (1 : ℝ) else 0) *
        belief.GetCovariance *
        (Matrix.of fun (_ : Fin 1) (j : Fin N) => if j = i0 then (1 : ℝ) else 0)ᵀ + !![r] =
      !![belief.GetCovariance i0 i0 + r] := by
    rw [coordinate_mul_mul_transpose]
    ext i j
    fin_cases i
    fin_cases j
    simp
  have hpos : belief.GetCovariance i0 i0 + r ≠ 0 := (add_pos_of_pos_of_nonneg h00 hr).ne'
  rw [e1]
  refine ⟨_, Observe_affine hN ops hx solver belief hbel hs _ 0 ⟨0, !![r]⟩ hsym
    (by
      show vecNorm _ (0 : Fin 1 → ℝ) ≤ 1e-9
      rw [vecNorm_zero _ hx]
      norm_num)
    (by
      show Matrix.det (_ * belief.GetCovariance * _ᵀ + !![r]) ≠ (0 : ℝ)
      rw [hS, Matrix.det_fin_one_of]
      exact hpos), ?_⟩
  show (belief.GetCovariance - _ : Matrix (Fin N) (Fin N) ℝ) i0 i0 = _
  rw [hS, inv_fin_one, mul_coordinate_transpose]
  simp [Matrix.mul_apply, Matrix.vecHead]
  field_simp
  ring

/-- C14, amended: for every N ≥ 1, every belief with symmetric positive semidefinite covariance Σ
with Σ₀₀ > 0, the default delta operators, `h(x) = x[0]` and the zero-mean measurement
noise of variance `r ≥ 0`, in exact arithmetic with a correct eigensolver: `Observe`
completes and the posterior variance of coordinate 0 is `Σ₀₀ · r / (Σ₀₀ + r)`; it is 0
for `r = 0`, and it tends to 0 as `r` tends to 0. -/
theorem observe_first_coordinate_variance (hN : 0 < N) (ops : FloatOps ℝ)
    (hx : ExactArithmetic ops)
    (solver : Matrix (Fin N) (Fin N) ℝ → SelfAdjointEigenSolver ℝ N)
    (belief : GaussianDistribution ℝ N) (hbel : belief.GetCovariance.PosSemidef)
    (hs : SolverCorrectAt solver belief.GetCovariance)
    (h00 : 0 < belief.GetCovariance ⟨0, hN⟩ ⟨0, hN⟩) :
    (∀ r : ℝ, 0 ≤ r →
        ∃ self', (create belief).Observe ops solver (fun x _ => x ⟨0, hN⟩)
            (⟨0, !![r]⟩ : GaussianDistribution ℝ 1) = .ok self' ∧
          self'.belief_.GetCovariance ⟨0, hN⟩ ⟨0, hN⟩ =
            belief.GetCovariance ⟨0, hN⟩ ⟨0, hN⟩ * r /
              (belief.GetCovariance ⟨0, hN⟩ ⟨0, hN⟩ + r)) ∧
      (∃ self', (create belief).Observe ops solver (fun x _ => x ⟨0, hN⟩)
          (⟨0, !![0]⟩ : GaussianDistribution ℝ 1) = .ok self' ∧
        self'.belief_.GetCovariance ⟨0, hN⟩ ⟨0, hN⟩ = 0) ∧
      (∀ ε : ℝ, 0 < ε → ∃ d : ℝ, 0 < d ∧ ∀ r : ℝ, 0 ≤ r → r < d →
        ∃ self', (create belief).Observe ops solver (fun x _ => x ⟨0, hN⟩)
            (⟨0, !![r]⟩ : GaussianDistribution ℝ 1) = .ok self' ∧
          |self'.belief_.GetCovariance ⟨0, hN⟩ ⟨0, hN⟩| < ε) := by
  have hall := Observe_coordinate hN ops hx solver belief hbel hs ⟨0, hN⟩ h00
  refine ⟨hall, ?_, ?_⟩
  · obtain ⟨self', h1, h2⟩ := hall 0 le_rfl
    exact ⟨self', h1, by rw [h2]; simp⟩
  · intro ε hε
    refine ⟨ε, hε, fun r hr hrε => ?_⟩
    obtain ⟨self', h1, h2⟩ := hall r hr
    refine ⟨self', h1, ?_⟩
    rw [h2]
    have hpos : 0 < belief.GetCovariance ⟨0, hN⟩ ⟨0, hN⟩ + r := add_pos_of_pos_of_nonneg h00 hr
    rw [abs_of_nonneg (div_nonneg (mul_nonneg h00.le hr) hpos.le), div_lt_iff₀ hpos]
    nlinarith

/-- Witness of C14: the two-dimensional belief with covariance diag(2, 3) and the
measurement noise of variance 1. -/
theorem observe_first_coordinate_variance_witness :
    (Matrix.diagonal ![2, 3] : Matrix (Fin 2) (Fin 2) ℝ).PosSemidef ∧
      ∃ self', (create (⟨![1, 2], Matrix.diagonal ![2, 3]⟩ : GaussianDistribution ℝ 2)).Observe
          ⟨Real.sqrt, fun _ => false⟩ diagonalSolver (fun x _ => x ⟨0, Nat.zero_lt_two⟩)
          (⟨0, !![1]⟩ : GaussianDistribution ℝ 1) = .ok self' ∧
        self'.belief_.GetCovariance ⟨0, Nat.zero_lt_two⟩ ⟨0, Nat.zero_lt_two⟩ = 2 / 3 := by
  have hpsd : (Matrix.diagonal ![2, 3] : Matrix (Fin 2) (Fin 2) ℝ).PosSemidef :=
    posSemidef_diagonal_real _ (by
      intro i
      fin_cases i <;> simp)
  obtain ⟨self', h1, h2⟩ := (observe_first_coordinate_variance Nat.zero_lt_two
    ⟨Real.sqrt, fun _ => false⟩ exactArithmetic_real diagonalSolver
    (⟨![1, 2], Matrix.diagonal ![2, 3]⟩ : GaussianDistribution ℝ 2) hpsd
    (diagonalSolver_correct _) (by simp)).1 1 zero_le_one
  refine ⟨hpsd, self', h1, ?_⟩
  rw [h2]
  simp
  norm_num

end UnscentedKalmanFilter

namespace UnscentedKalmanFilter

/-! ## `Predict` followed by `Observe` with the inverse function -/

theorem posDef_fin_one (a : ℝ) (ha : 0 < a) : (!![a] : Matrix (Fin 1) (Fin 1) ℝ).PosDef := by
  rw [of_fin_one_eq_diagonal]
  exact Matrix.PosDef.diagonal fun _ => ha

/-- The one-dimensional filter with belief (m, a), transition function `g(x) = x` and
process noise (0, q). -/
theorem Predict_identity_fin_one_mean (m a q s : ℝ) (ha : 0 ≤ a) (hs : a + q = s) :
    (create ⟨![m], !![a]⟩).Predict ⟨Real.sqrt, fun _ => false⟩ diagonalSolver (fun x => x)
        ⟨![0], !![q]⟩ = .ok (create ⟨![m], !![s]⟩) := by
  have e1 : (fun x : Fin 1 → ℝ => x) = fun x => (1 : Matrix (Fin 1) (Fin 1) ℝ) *ᵥ x + 0 := by
    funext x
    simp
  have hsym : (!![q] : Matrix (Fin 1) (Fin 1) ℝ).IsSymm := by
    rw [of_fin_one_eq_diagonal]
    exact Matrix.diagonal_transpose _
  rw [e1, Predict_affine one_pos _ exactArithmetic_real diagonalSolver ⟨![m], !![a]⟩
    (posSemidef_fin_one a ha) (diagonalSolver_correct_one a) 1 0 ⟨![0], !![q]⟩
    (CheckSymmetric_of_isSymm _ exactArithmetic_real _ hsym)]
  congr 3
  · ext i
    fin_cases i
    simp
  · ext i j
    fin_cases i
    fin_cases j
    simp [hs]

theorem inv_mul_mul_transpose_inv (A M : Matrix (Fin N) (Fin N) ℝ) (hA : A.det ≠ 0) :
    A⁻¹ * (A * M * Aᵀ) * A⁻¹ᵀ = M := by
  have hu : IsUnit A.det := isUnit_iff_ne_zero.mpr hA
  have hut : IsUnit Aᵀ.det := by rwa [Matrix.det_transpose]
  rw [Matrix.transpose_nonsing_inv]
  calc A⁻¹ * (A * M * Aᵀ) * Aᵀ⁻¹ = (A⁻¹ * A) * M * (Aᵀ * Aᵀ⁻¹) := by
        simp only [Matrix.mul_assoc]
    _ = M := by rw [Matrix.nonsing_inv_mul _ hu, Matrix.mul_nonsing_inv _ hut, Matrix.one_mul,
        Matrix.mul_one]

theorem mul_mul_transpose_mul_transpose_inv (A M : Matrix (Fin N) (Fin N) ℝ) (hA : A.det ≠ 0) :
    A * M * Aᵀ * A⁻¹ᵀ = A * M := by
  have hut : IsUnit Aᵀ.det := by
    rw [Matrix.det_transpose]
    exact isUnit_iff_ne_zero.mpr hA
  rw [Matrix.transpose_nonsing_inv, Matrix.mul_assoc (A * M), Matrix.mul_nonsing_inv _ hut,
    Matrix.mul_one]

/-- With the default delta operators, the invertible affine transition `g(x) = A x + b`
and zero noise, `Predict(g)` followed by `Observe` with `h = g⁻¹` completes and leaves the
belief (b, 0). -/
theorem Predict_Observe_affine_inverse (hN : 0 < N) (ops : FloatOps ℝ)
    (hx : ExactArithmetic ops)
    (solver : Matrix (Fin N) (Fin N) ℝ → SelfAdjointEigenSolver ℝ N)
    (belief : GaussianDistribution ℝ N) (hbel : belief.GetCovariance.PosDef)
    (A : Matrix (Fin N) (Fin N) ℝ) (b : Fin N → ℝ) (hA : A.det ≠ 0)
    (hs1 : SolverCorrectAt solver belief.GetCovariance)
    (hs2 : SolverCorrectAt solver (A * belief.GetCovariance * Aᵀ)) :
    (create belief).Predict ops solver (fun x => A *ᵥ x + b) ⟨0, 0⟩ =
        .ok (create ⟨A *ᵥ belief.GetMean + b, A * belief.GetCovariance * Aᵀ⟩) ∧
      (create ⟨A *ᵥ belief.GetMean + b, A * belief.GetCovariance * Aᵀ⟩).Observe ops solver
        (fun y => A⁻¹ *ᵥ (y - b)) (⟨0, 0⟩ : GaussianDistribution ℝ N) =
        .ok (create ⟨b, 0⟩) := by
  have hu : IsUnit A.det := isUnit_iff_ne_zero.mpr hA
  have hdetS : belief.GetCovariance.det ≠ 0 := hbel.det_pos.ne'
  have huS : IsUnit belief.GetCovariance.det := isUnit_iff_ne_zero.mpr hdetS
  have hpsd : (A * belief.GetCovariance * Aᵀ).PosSemidef := by
    have h := hbel.posSemidef.mul_mul_conjTranspose_same A
    rwa [Matrix.conjTranspose_eq_transpose_of_trivial] at h
  have hv0 : vecNorm ops (0 : Fin N → ℝ) ≤ 1e-9 := by
    rw [vecNorm_zero ops hx]
    norm_num
  constructor
  · rw [Predict_affine hN ops hx solver belief hbel.posSemidef hs1 A b ⟨0, 0⟩
      (CheckSymmetric_of_isSymm ops hx _ Matrix.isSymm_zero)]
    show Except.ok (create ⟨_ + 0, _ + 0⟩) = _
    rw [add_zero, add_zero]
  · have e1 : (fun y : Fin N → ℝ => A⁻¹ *ᵥ (y - b)) = fun y => A⁻¹ *ᵥ y + -(A⁻¹ *ᵥ b) := by
      funext y
      rw [Matrix.mulVec_sub, sub_eq_add_neg]
    rw [e1, Observe_affine hN ops hx solver ⟨A *ᵥ belief.GetMean + b, A * belief.GetCovariance * Aᵀ⟩
      hpsd hs2 A⁻¹ (-(A⁻¹ *ᵥ b)) ⟨0, 0⟩ Matrix.isSymm_zero hv0
      (by
        show Matrix.det (A⁻¹ * (A * belief.GetCovariance * Aᵀ) * A⁻¹ᵀ + 0) ≠ 0
        rw [add_zero, inv_mul_mul_transpose_inv A _ hA]
        exact hdetS)]
    show Except.ok (create
      ⟨A *ᵥ belief.GetMean + b +
          (A * belief.GetCovariance * Aᵀ * A⁻¹ᵀ *
            (A⁻¹ * (A * belief.GetCovariance * Aᵀ) * A⁻¹ᵀ + 0)⁻¹) *ᵥ
            (-(A⁻¹ *ᵥ (A *ᵥ belief.GetMean + b) + -(A⁻¹ *ᵥ b))),
        A * belief.GetCovariance * Aᵀ -
          (A * belief.GetCovariance * Aᵀ * A⁻¹ᵀ *
              (A⁻¹ * (A * belief.GetCovariance * Aᵀ) * A⁻¹ᵀ + 0)⁻¹) *
            (A⁻¹ * (A * belief.GetCovariance * Aᵀ) * A⁻¹ᵀ + 0) *
            (A * belief.GetCovariance * Aᵀ * A⁻¹ᵀ *
              (A⁻¹ * (A * belief.GetCovariance * Aᵀ) * A⁻¹ᵀ + 0)⁻¹)ᵀ⟩) = _
    rw [add_zero, inv_mul_mul_transpose_inv A _ hA, mul_mul_transpose_mul_transpose_inv A _ hA,
      Matrix.mul_assoc A, Matrix.mul_nonsing_inv _ huS, Matrix.mul_one]
    congr 3
    · rw [Matrix.mulVec_add, Matrix.mulVec_mulVec, Matrix.nonsing_inv_mul _ hu, Matrix.one_mulVec,
        add_neg_cancel_right, Matrix.mulVec_neg]
      abel
    · exact sub_self _

/-- Counterexample to C15: the one-dimensional belief (1, 1), whose covariance is
positive definite, with `g(x) = x`, `h(x) = x = g⁻¹(x)` and zero noise.  `Predict(g)`
leaves the belief (1, 1), and `Observe(h)` then moves it to (0, 0): the mean after the
round trip is 0, not the mean 1 before `Predict`. -/
theorem predict_observe_inverse_moves_mean :
    (!![1] : Matrix (Fin 1) (Fin 1) ℝ).PosDef ∧
      Function.LeftInverse (fun x : Fin 1 → ℝ => x) (fun x => x) ∧
      Function.RightInverse (fun x : Fin 1 → ℝ => x) (fun x => x) ∧
      (create ⟨![1], !![1]⟩).Predict ⟨Real.sqrt, fun _ => false⟩ diagonalSolver (fun x => x)
        ⟨![0], !![0]⟩ = .ok (create ⟨![1], !![1]⟩) ∧
      (create ⟨![1], !![1]⟩).Observe ⟨Real.sqrt, fun _ => false⟩ diagonalSolver (fun x => x)
        (⟨0, !![0]⟩ : GaussianDistribution ℝ 1) = .ok (create ⟨![0], !![0]⟩) ∧
      (create (⟨![0], !![0]⟩ : GaussianDistribution ℝ 1)).GetBelief.GetMean ≠
        (create (⟨![1], !![1]⟩ : GaussianDistribution ℝ 1)).GetBelief.GetMean :=
  ⟨posDef_fin_one 1 one_pos, fun _ => rfl, fun _ => rfl,
    Predict_identity_fin_one_mean 1 1 0 1 zero_le_one (by norm_num),
    Observe_identity_fin_one 1 1 0 0 0 zero_le_one (by norm_num) (by norm_num) (by norm_num),
    fun h0 => by
      have h1 := congrFun h0 0
      simp [GetBelief, create] at h1⟩

/-- C15, amended: for every invertible affine transition function `g(x) = A x + b` on the
N-dimensional state (N ≥ 1), the default delta operators, zero process noise and zero
measurement noise, and every belief with symmetric positive definite covariance, in exact
arithmetic with a correct eigensolver: `Predict(g)` followed immediately by `Observe`
with `h = g⁻¹` completes and yields the belief of mean `g(0) = b`, the state whose
observation is zero, and of covariance 0. -/
theorem predict_observe_inverse_affine (hN : 0 < N) (ops : FloatOps ℝ)
    (hx : ExactArithmetic ops)
    (solver : Matrix (Fin N) (Fin N) ℝ → SelfAdjointEigenSolver ℝ N)
    (belief : GaussianDistribution ℝ N) (hbel : belief.GetCovariance.PosDef)
    (A : Matrix (Fin N) (Fin N) ℝ) (b : Fin N → ℝ) (hA : A.det ≠ 0)
    (hs1 : SolverCorrectAt solver belief.GetCovariance)
    (hs2 : SolverCorrectAt solver (A * belief.GetCovariance * Aᵀ)) :
    Function.LeftInverse (fun y : Fin N → ℝ => A⁻¹ *ᵥ (y - b)) (fun x => A *ᵥ x + b) ∧
      Function.RightInverse (fun y : Fin N → ℝ => A⁻¹ *ᵥ (y - b)) (fun x => A *ᵥ x + b) ∧
      ∃ self' self'',
        (create belief).Predict ops solver (fun x => A *ᵥ x + b) ⟨0, 0⟩ = .ok self' ∧
        self'.Observe ops solver (fun y => A⁻¹ *ᵥ (y - b))
          (⟨0, 0⟩ : GaussianDistribution ℝ N) = .ok self'' ∧
        self''.GetBelief.GetMean = b ∧ self''.GetBelief.GetCovariance = 0 := by
  have hu : IsUnit A.det := isUnit_iff_ne_zero.mpr hA
  refine ⟨fun x => ?_, fun y => ?_, ?_⟩
  · show A⁻¹ *ᵥ (A *ᵥ x + b - b) = x
    rw [add_sub_cancel_right, Matrix.mulVec_mulVec, Matrix.nonsing_inv_mul _ hu,
      Matrix.one_mulVec]
  · show A *ᵥ (A⁻¹ *ᵥ (y - b)) + b = y
    rw [Matrix.mulVec_mulVec, Matrix.mul_nonsing_inv _ hu, Matrix.one_mulVec,
      sub_add_cancel]
  · obtain ⟨h1, h2⟩ := Predict_Observe_affine_inverse hN ops hx solver belief hbel A b hA hs1 hs2
    exact ⟨_, _, h1, h2, rfl, rfl⟩

/-- Witness of C15, amended: the one-dimensional belief (1, 1) with `g(x) = 2 x + 3`. -/
theorem predict_observe_inverse_affine_witness :
    (!![1] : Matrix (Fin 1) (Fin 1) ℝ).PosDef ∧
      (!![2] : Matrix (Fin 1) (Fin 1) ℝ).det ≠ 0 ∧
      ∃ self' self'',
        (create (⟨![1], !![1]⟩ : GaussianDistribution ℝ 1)).Predict
          ⟨Real.sqrt, fun _ => false⟩ diagonalSolver
          (fun x => (!![2] : Matrix (Fin 1) (Fin 1) ℝ) *ᵥ x + ![3]) ⟨0, 0⟩ = .ok self' ∧
        self'.Observe ⟨Real.sqrt, fun _ => false⟩ diagonalSolver
          (fun y => (!![2] : Matrix (Fin 1) (Fin 1) ℝ)⁻¹ *ᵥ (y - ![3]))
          (⟨0, 0⟩ : GaussianDistribution ℝ 1) = .ok self'' ∧
        self''.GetBelief.GetMean = ![3] ∧ self''.GetBelief.GetCovariance = 0 := by
  have hdet : (!![2] : Matrix (Fin 1) (Fin 1) ℝ).det ≠ 0 := by
    rw [Matrix.det_fin_one_of]
    norm_num
  have e : (!![2] : Matrix (Fin 1) (Fin 1) ℝ) * !![1] * (!![2] : Matrix (Fin 1) (Fin 1) ℝ)ᵀ =
      !![4] := by
    ext i j
    fin_cases i
    fin_cases j
    simp [Matrix.mul_apply, Matrix.vecHead]
    norm_num
  exact ⟨posDef_fin_one 1 one_pos, hdet,
    (predict_observe_inverse_affine one_pos ⟨Real.sqrt, fun _ => false⟩ exactArithmetic_real
      diagonalSolver (⟨![1], !![1]⟩ : GaussianDistribution ℝ 1) (posDef_fin_one 1 one_pos)
      !![2] ![3] hdet (diagonalSolver_correct_one 1)
      (by
        show SolverCorrectAt diagonalSolver
          ((!![2] : Matrix (Fin 1) (Fin 1) ℝ) * !![1] * (!![2] : Matrix (Fin 1) (Fin 1) ℝ)ᵀ)
        rw [e]
        exact diagonalSolver_correct_one 4)).2.2⟩

end UnscentedKalmanFilter

namespace UnscentedKalmanFilter

/-! ## The candidates of the line search of `ComputeMean` -/

/-- The inner loop accepts the first candidate that is strictly better, as long as the
step sizes up to it are above `1e-3`. -/
theorem lineSearch_eq_ok_of_first (ops : FloatOps F) (self : UnscentedKalmanFilter F N)
    (states : List (Fin N → F)) (current_estimate weighted_error : Fin N → F)
    (k fuel : ℕ) (step_size : F) (hk : k < fuel)
    (hstep : ∀ j, j ≤ k → (1e-3 : F) < step_size * 0.5 ^ j)
    (hworse : ∀ j, j < k →
      ¬ vecNorm ops (self.ComputeWeightedError
        (self.add_delta_ current_estimate ((step_size * 0.5 ^ j) • weighted_error)) states) <
          vecNorm ops weighted_error)
    (hbetter : vecNorm ops (self.ComputeWeightedError
        (self.add_delta_ current_estimate ((step_size * 0.5 ^ k) • weighted_error)) states) <
          vecNorm ops weighted_error) :
    lineSearch ops self states current_estimate weighted_error fuel step_size =
      .ok (self.add_delta_ current_estimate ((step_size * 0.5 ^ k) • weighted_error),
        self.ComputeWeightedError
          (self.add_delta_ current_estimate ((step_size * 0.5 ^ k) • weighted_error))
          states) := by
  induction k generalizing fuel step_size with
  | zero =>
    obtain ⟨fuel, rfl⟩ : ∃ f, fuel = f + 1 := ⟨fuel - 1, by omega⟩
    rw [pow_zero, mul_one] at hbetter ⊢
    conv_lhs => rw [lineSearch]
    simp only []
    rw [if_pos hbetter]
  | succ k ih =>
    obtain ⟨fuel, rfl⟩ : ∃ f, fuel = f + 1 := ⟨fuel - 1, by omega⟩
    have e : ∀ j : ℕ, step_size * 0.5 * 0.5 ^ j = step_size * 0.5 ^ (j + 1) := by
      intro j
      rw [pow_succ]
      ring
    have h0 := hworse 0 (Nat.succ_pos k)
    rw [pow_zero, mul_one] at h0
    have h1 := hstep 1 (by omega)
    rw [pow_one] at h1
    conv_lhs => rw [lineSearch]
    simp only []
    rw [if_neg h0, if_pos h1, ih fuel (step_size * 0.5) (by omega)
      (fun j hj => by rw [e]; exact hstep (j + 1) (by omega))
      (fun j hj => by rw [e]; exact hworse (j + 1) (by omega))
      (by rw [e]; exact hbetter), e]

/-- The inner loop fails when none of its candidates is strictly better. -/
theorem lineSearch_eq_error_of_none (ops : FloatOps F) (self : UnscentedKalmanFilter F N)
    (states : List (Fin N → F)) (current_estimate weighted_error : Fin N → F)
    (fuel : ℕ) (step_size : F)
    (hworse : ∀ j, j < fuel →
      ¬ vecNorm ops (self.ComputeWeightedError
        (self.add_delta_ current_estimate ((step_size * 0.5 ^ j) • weighted_error)) states) <
          vecNorm ops weighted_error) :
    lineSearch ops self states current_estimate weighted_error fuel step_size =
      .error Failure.StepSizeTooSmall := by
  induction fuel generalizing step_size with
  | zero => rfl
  | succ fuel ih =>
    have e : ∀ j : ℕ, step_size * 0.5 * 0.5 ^ j = step_size * 0.5 ^ (j + 1) := by
      intro j
      rw [pow_succ]
      ring
    have h0 := hworse 0 (Nat.succ_pos fuel)
    rw [pow_zero, mul_one] at h0
    conv_lhs => rw [lineSearch]
    simp only []
    rw [if_neg h0]
    split_ifs with h1
    · exact ih (step_size * 0.5) fun j hj => by rw [e]; exact hworse (j + 1) (by omega)
    · rfl

/-- The only failure of the inner loop is the step-size failure. -/
theorem lineSearch_error (ops : FloatOps F) (self : UnscentedKalmanFilter F N)
    (states : List (Fin N → F)) (current_estimate weighted_error : Fin N → F)
    (fuel : ℕ) (step_size : F) (e : Failure)
    (h : lineSearch ops self states current_estimate weighted_error fuel step_size =
      .error e) : e = Failure.StepSizeTooSmall := by
  induction fuel generalizing step_size with
  | zero =>
    simp only [lineSearch] at h
    exact (Except.error.inj h).symm
  | succ fuel ih =>
    simp only [lineSearch] at h
    split_ifs at h with h1 h2
    · exact ih _ h
    · exact (Except.error.inj h).symm

theorem half_pow_gt (k : ℕ) (hk : k < 10) : (1e-3 : F) < 1 * 0.5 ^ k := by
  have h9 : (0.5 : F) ^ 9 ≤ 0.5 ^ k :=
    pow_le_pow_of_le_one (by norm_num) (by norm_num) (by omega)
  calc (1e-3 : F) < 0.5 ^ 9 := by norm_num
    _ ≤ 0.5 ^ k := h9
    _ = 1 * 0.5 ^ k := (one_mul _).symm

theorem half_pow_eq (k : ℕ) : (1 : F) * 0.5 ^ k = (1 / 2) ^ k := by
  rw [one_mul]
  norm_num

/-- The result of the inner loop of `ComputeMean` in terms of its ten candidates. -/
theorem lineSearch_ten_cases (ops : FloatOps F) (self : UnscentedKalmanFilter F N)
    (states : List (Fin N → F)) (current_estimate weighted_error : Fin N → F) :
    (∃ k, k < 10 ∧
        (∀ j, j < k →
          ¬ vecNorm ops (self.ComputeWeightedError
            (self.add_delta_ current_estimate (((1 / 2 : F) ^ j) • weighted_error)) states) <
              vecNorm ops weighted_error) ∧
        vecNorm ops (self.ComputeWeightedError
            (self.add_delta_ current_estimate (((1 / 2 : F) ^ k) • weighted_error)) states) <
          vecNorm ops weighted_error ∧
        lineSearch ops self states current_estimate weighted_error 10 1 =
          .ok (self.add_delta_ current_estimate (((1 / 2 : F) ^ k) • weighted_error),
            self.ComputeWeightedError
              (self.add_delta_ current_estimate (((1 / 2 : F) ^ k) • weighted_error))
              states)) ∨
      ((∀ j, j < 10 →
          ¬ vecNorm ops (self.ComputeWeightedError
            (self.add_delta_ current_estimate (((1 / 2 : F) ^ j) • weighted_error)) states) <
              vecNorm ops weighted_error) ∧
        lineSearch ops self states current_estimate weighted_error 10 1 =
          .error Failure.StepSizeTooSmall) := by
  classical
  by_cases hex : ∃ k, k < 10 ∧
      vecNorm ops (self.ComputeWeightedError
        (self.add_delta_ current_estimate (((1 / 2 : F) ^ k) • weighted_error)) states) <
          vecNorm ops weighted_error
  · left
    have hmin : ∀ j, j < Nat.find hex →
        ¬ vecNorm ops (self.ComputeWeightedError
          (self.add_delta_ current_estimate (((1 / 2 : F) ^ j) • weighted_error)) states) <
            vecNorm ops weighted_error := fun j hj hb =>
      Nat.find_min hex hj ⟨lt_trans hj (Nat.find_spec hex).1, hb⟩
    refine ⟨Nat.find hex, (Nat.find_spec hex).1, hmin, (Nat.find_spec hex).2, ?_⟩
    have h := lineSearch_eq_ok_of_first ops self states current_estimate weighted_error
      (Nat.find hex) 10 1 (Nat.find_spec hex).1
      (fun j hj => half_pow_gt j (lt_of_le_of_lt hj (Nat.find_spec hex).1))
      (fun j hj => by rw [half_pow_eq]; exact hmin j hj)
      (by rw [half_pow_eq]; exact (Nat.find_spec hex).2)
    rw [half_pow_eq] at h
    exact h
  · right
    have hnone : ∀ j, j < 10 →
        ¬ vecNorm ops (self.ComputeWeightedError
          (self.add_delta_ current_estimate (((1 / 2 : F) ^ j) • weighted_error)) states) <
            vecNorm ops weighted_error := fun j hj hb => hex ⟨j, hj, hb⟩
    exact ⟨hnone, lineSearch_eq_error_of_none ops self states current_estimate weighted_error
      10 1 fun j hj => by rw [half_pow_eq]; exact hnone j hj⟩

end UnscentedKalmanFilter

namespace UnscentedKalmanFilter

/-- C17: in each outer iteration `ComputeMean` tries the candidates
`add_delta(current, s · e)` for the step sizes `s = 1, 1/2, …, 2⁻⁹` in this order: each of
these ten step sizes is above `1e-3`; the first candidate whose weighted-error norm is
strictly smaller than the current norm is accepted; the line search fails with the
step-size error if and only if none of the ten candidates is strictly better; an accepted
pair is always the first strictly better one of the ten candidates with its weighted
error; and an eleventh candidate is never tried, however many rounds are allowed. -/
theorem line_search_tries_ten_halvings (ops : FloatOps F) (self : UnscentedKalmanFilter F N)
    (states : List (Fin N → F)) (current_estimate weighted_error : Fin N → F) :
    (∀ k, k < 10 → (1e-3 : F) < (1 / 2) ^ k) ∧
      (∀ k, k < 10 →
        (∀ j, j < k →
          ¬ vecNorm ops (self.ComputeWeightedError
            (self.add_delta_ current_estimate (((1 / 2 : F) ^ j) • weighted_error)) states) <
              vecNorm ops weighted_error) →
        vecNorm ops (self.ComputeWeightedError
            (self.add_delta_ current_estimate (((1 / 2 : F) ^ k) • weighted_error)) states) <
          vecNorm ops weighted_error →
        lineSearch ops self states current_estimate weighted_error 10 1 =
          .ok (self.add_delta_ current_estimate (((1 / 2 : F) ^ k) • weighted_error),
            self.ComputeWeightedError
              (self.add_delta_ current_estimate (((1 / 2 : F) ^ k) • weighted_error))
              states)) ∧
      (lineSearch ops self states current_estimate weighted_error 10 1 =
          .error Failure.StepSizeTooSmall ↔
        ∀ k, k < 10 →
          ¬ vecNorm ops (self.ComputeWeightedError
            (self.add_delta_ current_estimate (((1 / 2 : F) ^ k) • weighted_error)) states) <
              vecNorm ops weighted_error) ∧
      (∀ r, lineSearch ops self states current_estimate weighted_error 10 1 = .ok r →
        ∃ k, k < 10 ∧
          (∀ j, j < k →
            ¬ vecNorm ops (self.ComputeWeightedError
              (self.add_delta_ current_estimate (((1 / 2 : F) ^ j) • weighted_error))
              states) < vecNorm ops weighted_error) ∧
          vecNorm ops (self.ComputeWeightedError
              (self.add_delta_ current_estimate (((1 / 2 : F) ^ k) • weighted_error))
              states) < vecNorm ops weighted_error ∧
          r = (self.add_delta_ current_estimate (((1 / 2 : F) ^ k) • weighted_error),
            self.ComputeWeightedError
              (self.add_delta_ current_estimate (((1 / 2 : F) ^ k) • weighted_error))
              states)) ∧
      ∀ extra : ℕ,
        lineSearch ops self states current_estimate weighted_error (10 + extra) 1 =
          lineSearch ops self states current_estimate weighted_error 10 1 := by
  refine ⟨fun k hk => ?_, fun k hk hworse hbetter => ?_, ⟨fun h => ?_, fun h => ?_⟩,
    fun r h => ?_, lineSearch_ten ops self states current_estimate weighted_error⟩
  · rw [← half_pow_eq]
    exact half_pow_gt k hk
  · have h := lineSearch_eq_ok_of_first ops self states current_estimate weighted_error
      k 10 1 hk (fun j hj => half_pow_gt j (lt_of_le_of_lt hj hk))
      (fun j hj => by rw [half_pow_eq]; exact hworse j hj)
      (by rw [half_pow_eq]; exact hbetter)
    rw [half_pow_eq] at h
    exact h
  · rcases lineSearch_ten_cases ops self states current_estimate weighted_error with
      ⟨k, -, -, -, hok⟩ | ⟨hnone, -⟩
    · rw [hok] at h
      exact absurd h (by simp)
    · exact hnone
  · rcases lineSearch_ten_cases ops self states current_estimate weighted_error with
      ⟨k, hk, -, hbetter, -⟩ | ⟨-, herr⟩
    · exact absurd hbetter (h k hk)
    · exact herr
  · rcases lineSearch_ten_cases ops self states current_estimate weighted_error with
      ⟨k, hk, hworse, hbetter, hok⟩ | ⟨-, herr⟩
    · rw [hok] at h
      exact ⟨k, hk, hworse, hbetter, (Except.ok.inj h).symm⟩
    · rw [herr] at h
      exact absurd h (by simp)

/-! ## The rounds of the outer loop of `ComputeMean` -/

/-- The outer loop returns the estimate reached after `k` rounds when the norm of its
weighted error is at most `1e-9` and the counter stays below 20. -/
theorem meanLoop_eq_ok_of_run (ops : FloatOps F) (self : UnscentedKalmanFilter F N)
    (states : List (Fin N → F)) (k fuel iterations : ℕ) (xs es : ℕ → (Fin N → F))
    (hrun : ∀ j, j < k →
      vecNorm ops (es j) > 1e-9 ∧
        self.lineSearch ops states (xs j) (es j) 10 1 = .ok (xs (j + 1), es (j + 1)))
    (hit : iterations + k < 20) (hfuel : k < fuel) (hend : vecNorm ops (es k) ≤ 1e-9) :
    meanLoop ops self states fuel iterations (xs 0) (es 0) = .ok (xs k) := by
  induction k generalizing fuel iterations xs es with
  | zero =>
    obtain ⟨fuel, rfl⟩ : ∃ f, fuel = f + 1 := ⟨fuel - 1, by omega⟩
    conv_lhs => rw [meanLoop]
    rw [if_neg (not_lt.mpr hend)]
  | succ k ih =>
    obtain ⟨fuel, rfl⟩ : ∃ f, fuel = f + 1 := ⟨fuel - 1, by omega⟩
    conv_lhs => rw [meanLoop]
    rw [if_pos (hrun 0 (Nat.succ_pos k)).1, (hrun 0 (Nat.succ_pos k)).2]
    simp only []
    rw [if_pos (by omega)]
    exact ih fuel (iterations + 1) (fun j => xs (j + 1)) (fun j => es (j + 1))
      (fun j hj => hrun (j + 1) (by omega)) (by omega) (by omega) hend

/-- The outer loop fails with the iteration cap when its rounds bring the counter to
20. -/
theorem meanLoop_eq_error_of_run (ops : FloatOps F) (self : UnscentedKalmanFilter F N)
    (states : List (Fin N → F)) (k fuel iterations : ℕ) (xs es : ℕ → (Fin N → F))
    (hrun : ∀ j, j < k + 1 →
      vecNorm ops (es j) > 1e-9 ∧
        self.lineSearch ops states (xs j) (es j) 10 1 = .ok (xs (j + 1), es (j + 1)))
    (hit : iterations + (k + 1) = 20) (hfuel : k < fuel) :
    meanLoop ops self states fuel iterations (xs 0) (es 0) =
      .error Failure.TooManyIterations := by
  induction k generalizing fuel iterations xs es with
  | zero =>
    obtain ⟨fuel, rfl⟩ : ∃ f, fuel = f + 1 := ⟨fuel - 1, by omega⟩
    conv_lhs => rw [meanLoop]
    rw [if_pos (hrun 0 (by omega)).1, (hrun 0 (by omega)).2]
    simp only []
    rw [if_neg (by omega)]
  | succ k ih =>
    obtain ⟨fuel, rfl⟩ : ∃ f, fuel = f + 1 := ⟨fuel - 1, by omega⟩
    conv_lhs => rw [meanLoop]
    rw [if_pos (hrun 0 (by omega)).1, (hrun 0 (by omega)).2]
    simp only []
    rw [if_pos (by omega)]
    exact ih fuel (iterations + 1) (fun j => xs (j + 1)) (fun j => es (j + 1))
      (fun j hj => hrun (j + 1) (by omega)) (by omega) (by omega)

/-- When the outer loop fails with the iteration cap, its rounds have brought the counter
to 20. -/
theorem meanLoop_run_of_error (ops : FloatOps F) (self : UnscentedKalmanFilter F N)
    (states : List (Fin N → F)) (fuel iterations : ℕ) (x e : Fin N → F)
    (hfuel : 20 ≤ iterations + fuel)
    (h : meanLoop ops self states fuel iterations x e = .error Failure.TooManyIterations) :
    ∃ xs es : ℕ → (Fin N → F), xs 0 = x ∧ es 0 = e ∧
      ∀ j, j < 20 - iterations →
        vecNorm ops (es j) > 1e-9 ∧
          self.lineSearch ops states (xs j) (es j) 10 1 = .ok (xs (j + 1), es (j + 1)) := by
  induction fuel generalizing iterations x e with
  | zero =>
    exact ⟨fun _ => x, fun _ => e, rfl, rfl, fun j hj => absurd hj (by omega)⟩
  | succ fuel ih =>
    by_cases hit : 20 ≤ iterations
    · exact ⟨fun _ => x, fun _ => e, rfl, rfl, fun j hj => absurd hj (by omega)⟩
    rw [meanLoop] at h
    by_cases h1 : vecNorm ops e > 1e-9
    · rw [if_pos h1] at h
      cases hls : lineSearch ops self states x e 10 1 with
      | error f =>
        rw [hls] at h
        have hf := lineSearch_error ops self states x e 10 1 f hls
        rw [hf] at h
        exact absurd (Except.error.inj h) (by simp)
      | ok r =>
        obtain ⟨x1, e1⟩ := r
        rw [hls] at h
        simp only [] at h
        have hnext : ∃ xs es : ℕ → (Fin N → F), xs 0 = x1 ∧ es 0 = e1 ∧
            ∀ j, j < 20 - (iterations + 1) →
              vecNorm ops (es j) > 1e-9 ∧
                self.lineSearch ops states (xs j) (es j) 10 1 =
                  .ok (xs (j + 1), es (j + 1)) := by
          by_cases h2 : iterations + 1 < 20
          · rw [if_pos h2] at h
            exact ih (iterations + 1) x1 e1 (by omega) h
          · exact ⟨fun _ => x1, fun _ => e1, rfl, rfl, fun j hj => absurd hj (by omega)⟩
        obtain ⟨xs, es, hx0, he0, hrun⟩ := hnext
        refine ⟨fun j => if j = 0 then x else xs (j - 1), fun j => if j = 0 then e else es (j - 1),
          rfl, rfl, fun j hj => ?_⟩
        by_cases hj0 : j = 0
        · subst hj0
          simp only [if_true, zero_add, if_neg one_ne_zero, Nat.sub_self, hx0, he0]
          exact ⟨h1, hls⟩
        · obtain ⟨i, rfl⟩ : ∃ i, j = i + 1 := ⟨j - 1, by omega⟩
          simp only [if_neg (Nat.succ_ne_zero _), Nat.add_sub_cancel]
          exact hrun i (by omega)
    · rw [if_neg h1] at h
      exact absurd h (by simp)

/-- The function `ComputeMean` returns the estimate reached after at most 19 rounds. -/
theorem ComputeMean_eq_ok_of_run (ops : FloatOps F) (self : UnscentedKalmanFilter F N)
    (states : List (Fin N → F)) (hlen : states.length = 2 * N + 1)
    (xs es : ℕ → (Fin N → F)) (k : ℕ) (hrun : self.ComputeMeanRun ops states xs es k)
    (hk : k ≤ 19) (hend : vecNorm ops (es k) ≤ 1e-9) :
    self.ComputeMean ops states = .ok (xs k) := by
  unfold ComputeMean
  rw [if_pos hlen]
  simp only []
  rw [← hrun.1, ← hrun.2.1]
  exact meanLoop_eq_ok_of_run ops self states k 20 0 xs es hrun.2.2 (by omega) (by omega) hend

/-- The function `ComputeMean` fails with the iteration cap after 20 rounds. -/
theorem ComputeMean_eq_error_of_run (ops : FloatOps F) (self : UnscentedKalmanFilter F N)
    (states : List (Fin N → F)) (hlen : states.length = 2 * N + 1)
    (xs es : ℕ → (Fin N → F)) (hrun : self.ComputeMeanRun ops states xs es 20) :
    self.ComputeMean ops states = .error Failure.TooManyIterations := by
  unfold ComputeMean
  rw [if_pos hlen]
  simp only []
  rw [← hrun.1, ← hrun.2.1]
  exact meanLoop_eq_error_of_run ops self states 19 20 0 xs es hrun.2.2 (by omega) (by omega)

/-- When `ComputeMean` fails with the iteration cap, it has run 20 rounds. -/
theorem ComputeMean_run_of_error (ops : FloatOps F) (self : UnscentedKalmanFilter F N)
    (states : List (Fin N → F))
    (h : self.ComputeMean ops states = .error Failure.TooManyIterations) :
    ∃ xs es : ℕ → (Fin N → F), self.ComputeMeanRun ops states xs es 20 := by
  unfold ComputeMean at h
  split_ifs at h with hlen
  · simp only [] at h
    obtain ⟨xs, es, hx0, he0, hrun⟩ := meanLoop_run_of_error ops self states 20 0 _ _ (by omega) h
    exact ⟨xs, es, hx0, by rw [he0, hx0], hrun⟩
  · exact absurd (Except.error.inj h) (by simp)

end UnscentedKalmanFilter

namespace UnscentedKalmanFilter

/-! ## A filter whose mean iteration halves the error -/

theorem vecNorm_fin_one (y : ℝ) :
    vecNorm ⟨Real.sqrt, fun _ => false⟩ (![y] : Fin 1 → ℝ) = |y| := by
  simp [vecNorm, Real.sqrt_mul_self_eq_abs]

/-- The weighted error of the filter with `add_delta(s, d) = s + d / 2` and the default
`compute_delta` on the states `[0, 7.86432e-10, 7.86432e-10]`. -/
theorem halving_weighted_error (x : ℝ) :
    (UnscentedKalmanFilter.mk ⟨![0], !![1]⟩ (fun s d => s + (1 / 2 : ℝ) • d)
        (fun o t => t - o) : UnscentedKalmanFilter ℝ 1).ComputeWeightedError ![x]
      [![0], ![7.86432e-10], ![7.86432e-10]] = ![7.86432e-4 - x] := by
  rw [ComputeWeightedError_eq, kMeanWeight0_eq one_pos, kMeanWeightI_eq one_pos]
  ext i
  fin_cases i
  simp
  ring

/-- The line search of that filter accepts its first candidate. -/
theorem halving_lineSearch (x e : ℝ) (he : e = 7.86432e-4 - x) (hne : e ≠ 0) :
    (UnscentedKalmanFilter.mk ⟨![0], !![1]⟩ (fun s d => s + (1 / 2 : ℝ) • d)
        (fun o t => t - o) : UnscentedKalmanFilter ℝ 1).lineSearch
      ⟨Real.sqrt, fun _ => false⟩ [![0], ![7.86432e-10], ![7.86432e-10]] ![x] ![e] 10 1 =
      .ok (![x + e / 2], ![e / 2]) := by
  have hc : (UnscentedKalmanFilter.mk ⟨![0], !![1]⟩ (fun s d => s + (1 / 2 : ℝ) • d)
      (fun o t => t - o) : UnscentedKalmanFilter ℝ 1).add_delta_ ![x]
        (((1 : ℝ) * 0.5 ^ 0) • ![e]) = ![x + e / 2] := by
    ext i
    fin_cases i
    simp
    ring
  have hw := halving_weighted_error (x + e / 2)
  have he2 : (7.86432e-4 : ℝ) - (x + e / 2) = e / 2 := by
    rw [he]
    ring
  rw [he2] at hw
  rw [lineSearch_eq_ok_of_first _ _ _ _ _ 0 10 1 (by norm_num)
    (fun j hj => half_pow_gt j (by omega)) (fun j hj => absurd hj (by omega))
    (by
      rw [hc, hw, vecNorm_fin_one, vecNorm_fin_one, abs_div, abs_two]
      have := abs_pos.mpr hne
      linarith),
    hc, hw]

/-- That filter runs 20 rounds on the states `[0, 7.86432e-10, 7.86432e-10]`: the error
after `k` rounds is `7.86432e-4 / 2 ^ k`, which is `1.5e-9` for `k = 19`. -/
theorem halving_run :
    (UnscentedKalmanFilter.mk ⟨![0], !![1]⟩ (fun s d => s + (1 / 2 : ℝ) • d)
        (fun o t => t - o) : UnscentedKalmanFilter ℝ 1).ComputeMeanRun
      ⟨Real.sqrt, fun _ => false⟩ [![0], ![7.86432e-10], ![7.86432e-10]]
      (fun k => ![7.86432e-4 * (1 - (1 / 2) ^ k)]) (fun k => ![7.86432e-4 * (1 / 2) ^ k])
      20 := by
  refine ⟨?_, ?_, fun j hj => ⟨?_, ?_⟩⟩
  · show (![7.86432e-4 * (1 - (1 / 2) ^ 0)] : Fin 1 → ℝ) = ![0]
    simp
  · show (![7.86432e-4 * (1 / 2) ^ 0] : Fin 1 → ℝ) = _
    rw [halving_weighted_error]
    simp
  · show (1e-9 : ℝ) < vecNorm _ ![7.86432e-4 * (1 / 2) ^ j]
    rw [vecNorm_fin_one]
    have h19 : ((1 / 2 : ℝ)) ^ 19 ≤ (1 / 2) ^ j :=
      pow_le_pow_of_le_one (by norm_num) (by norm_num) (by omega)
    calc (1e-9 : ℝ) < 7.86432e-4 * (1 / 2) ^ 19 := by norm_num
      _ ≤ 7.86432e-4 * (1 / 2) ^ j := mul_le_mul_of_nonneg_left h19 (by norm_num)
      _ ≤ |7.86432e-4 * (1 / 2) ^ j| := le_abs_self _
  · show lineSearch _ _ _ ![7.86432e-4 * (1 - (1 / 2) ^ j)] ![7.86432e-4 * (1 / 2) ^ j] 10 1 =
      .ok (![7.86432e-4 * (1 - (1 / 2) ^ (j + 1))], ![7.86432e-4 * (1 / 2) ^ (j + 1)])
    rw [halving_lineSearch _ _ (by ring) (by positivity)]
    congr 3
    · rw [pow_succ]
      ring_nf
    · rw [pow_succ]
      ring_nf

/-- Counterexample to C16: the one-dimensional filter with `add_delta(s, d) = s + d / 2`
and the default `compute_delta`, on the states `[0, 7.86432e-10, 7.86432e-10]`.  Each
round accepts the step size 1 and halves the weighted error, from `7.86432e-4`; the norm
is `1.5e-9` after 19 rounds and `7.5e-10`, which is at most `1e-9`, after the 20th
round.  The norm has dropped to at most `1e-9` within 20 outer iterations and the loop
would not run a 21st one, yet `ComputeMean` fails with the iteration cap. -/
theorem ComputeMean_fails_after_twenty_iterations :
    (UnscentedKalmanFilter.mk ⟨![0], !![1]⟩ (fun s d => s + (1 / 2 : ℝ) • d)
        (fun o t => t - o) : UnscentedKalmanFilter ℝ 1).ComputeMeanRun
      ⟨Real.sqrt, fun _ => false⟩ [![0], ![7.86432e-10], ![7.86432e-10]]
      (fun k => ![7.86432e-4 * (1 - (1 / 2) ^ k)]) (fun k => ![7.86432e-4 * (1 / 2) ^ k])
      20 ∧
      vecNorm ⟨Real.sqrt, fun _ => false⟩ (![7.86432e-4 * (1 / 2) ^ 20] : Fin 1 → ℝ) ≤ 1e-9 ∧
      (UnscentedKalmanFilter.mk ⟨![0], !![1]⟩ (fun s d => s + (1 / 2 : ℝ) • d)
        (fun o t => t - o) : UnscentedKalmanFilter ℝ 1).ComputeMean
        ⟨Real.sqrt, fun _ => false⟩ [![0], ![7.86432e-10], ![7.86432e-10]] =
        .error Failure.TooManyIterations := by
  refine ⟨halving_run, ?_, ComputeMean_eq_error_of_run _ _ _ rfl _ _ halving_run⟩
  rw [vecNorm_fin_one, abs_of_nonneg (by positivity)]
  norm_num

/-- C16, amended: on `2N + 1` states, `ComputeMean` returns its estimate whenever the
weighted-error norm drops to at most `1e-9` after at most 19 completed outer iterations,
and it fails with the iteration-cap error exactly when the outer loop completes a 20th
iteration, whatever the norm after it. -/
theorem ComputeMean_iteration_cap (ops : FloatOps F) (self : UnscentedKalmanFilter F N)
    (states : List (Fin N → F)) (hlen : states.length = 2 * N + 1) :
    (∀ (xs es : ℕ → (Fin N → F)) (k : ℕ), self.ComputeMeanRun ops states xs es k → k ≤ 19 →
        vecNorm ops (es k) ≤ 1e-9 → self.ComputeMean ops states = .ok (xs k)) ∧
      (self.ComputeMean ops states = .error Failure.TooManyIterations ↔
        ∃ xs es : ℕ → (Fin N → F), self.ComputeMeanRun ops states xs es 20) :=
  ⟨fun xs es k hrun hk hend => ComputeMean_eq_ok_of_run ops self states hlen xs es k hrun hk hend,
    fun h => ComputeMean_run_of_error ops self states h,
    fun ⟨xs, es, hrun⟩ => ComputeMean_eq_error_of_run ops self states hlen xs es hrun⟩

/-- Witness of C16, amended: the halving filter on the states
`[0, 7.86432e-10, 7.86432e-10]`, which completes a 20th iteration. -/
theorem ComputeMean_iteration_cap_witness :
    ([![0], ![7.86432e-10], ![7.86432e-10]] : List (Fin 1 → ℝ)).length = 2 * 1 + 1 ∧
      ((UnscentedKalmanFilter.mk ⟨![0], !![1]⟩ (fun s d => s + (1 / 2 : ℝ) • d)
          (fun o t => t - o) : UnscentedKalmanFilter ℝ 1).ComputeMean
          ⟨Real.sqrt, fun _ => false⟩ [![0], ![7.86432e-10], ![7.86432e-10]] =
          .error Failure.TooManyIterations ↔
        ∃ xs es : ℕ → (Fin 1 → ℝ),
          (UnscentedKalmanFilter.mk ⟨![0], !![1]⟩ (fun s d => s + (1 / 2 : ℝ) • d)
            (fun o t => t - o) : UnscentedKalmanFilter ℝ 1).ComputeMeanRun
            ⟨Real.sqrt, fun _ => false⟩ [![0], ![7.86432e-10], ![7.86432e-10]] xs es 20) :=
  ⟨rfl, (ComputeMean_iteration_cap ⟨Real.sqrt, fun _ => false⟩ _
    [![0], ![7.86432e-10], ![7.86432e-10]] rfl).2⟩

end UnscentedKalmanFilter

end kalman_filter

namespace transform

/-! ## Rotations of the plane -/

namespace Rotation2D

theorem mulVec_add (m : MathOps ℝ) (r : Rotation2D ℝ) (u v : Fin 2 → ℝ) :
    r.mulVec m (u + v) = r.mulVec m u + r.mulVec m v :=
  Matrix.mulVec_add _ _ _

theorem mulVec_neg (m : MathOps ℝ) (r : Rotation2D ℝ) (v : Fin 2 → ℝ) :
    r.mulVec m (-v) = -r.mulVec m v :=
  Matrix.mulVec_neg _ _

end Rotation2D

theorem exactMath_real :
    ExactMath ⟨Real.sqrt, Real.cos, Real.sin, fun y x => Complex.arg ⟨x, y⟩⟩ :=
  ⟨rfl, rfl, rfl, rfl⟩

/-! ## The inverse and the composition of `Rigid2` -/

end transform


namespace transform

/-! ## Rotations of space by unit quaternions -/

namespace Quaternion

variable {F : Type} [LinearOrderedField F]

end Quaternion

/-! ## The inverse of `Rigid3` -/

end transform


namespace kalman_filter

open Matrix

namespace UnscentedKalmanFilter

variable {F : Type} [LinearOrderedField F] {N : ℕ}

/-- C30, amended: in an arithmetic without NaN, where every comparison of two norms is
decided, as in every ordered field: whenever `ComputeMean` returns a result `r`, the norm
of the weighted error
`w₀ · compute_delta(r, states[0]) + Σ wᵢ · compute_delta(r, states[i])`, with the mean
weight `kMeanWeight0` for index 0 and the shared weight `kMeanWeightI` for the other 2N
indices, is at most `1e-9`; and when `states[0]` already satisfies this bound, the result
is `states[0]` itself: a call on 2N + 1 states returns it, and no call returns anything
else. -/
theorem ComputeMean_result (ops : FloatOps F) (self : UnscentedKalmanFilter F N)
    (states : List (Fin N → F)) :
    (∀ r, self.ComputeMean ops states = .ok r →
        vecNorm ops
          ((kMeanWeight0 N : F) • self.compute_delta_ r (states.getD 0 0) +
            ∑ i : Fin N,
              ((kMeanWeightI N : F) • self.compute_delta_ r (states.getD (2 * i.val + 1) 0) +
                (kMeanWeightI N : F) •
                  self.compute_delta_ r (states.getD (2 * i.val + 2) 0))) ≤ 1e-9) ∧
      (vecNorm ops
          ((kMeanWeight0 N : F) • self.compute_delta_ (states.getD 0 0) (states.getD 0 0) +
            ∑ i : Fin N,
              ((kMeanWeightI N : F) •
                  self.compute_delta_ (states.getD 0 0) (states.getD (2 * i.val + 1) 0) +
                (kMeanWeightI N : F) •
                  self.compute_delta_ (states.getD 0 0) (states.getD (2 * i.val + 2) 0))) ≤
          1e-9 →
        (states.length = 2 * N + 1 → self.ComputeMean ops states = .ok (states.getD 0 0)) ∧
          ∀ r, self.ComputeMean ops states = .ok r → r = states.getD 0 0) := by
  refine ⟨fun r h => ?_, fun h0 => ?_⟩
  · rw [← ComputeWeightedError_eq]
    exact ComputeMean_ok ops self states r h
  · rw [← ComputeWeightedError_eq] at h0
    refine ⟨fun hlen => ComputeMean_of_error_le ops self states hlen h0, fun r h => ?_⟩
    have hlen : states.length = 2 * N + 1 := by
      by_contra hne
      unfold ComputeMean at h
      rw [if_neg hne] at h
      exact absurd h (by simp)
    rw [ComputeMean_of_error_le ops self states hlen h0] at h
    exact (Except.ok.inj h).symm

end UnscentedKalmanFilter

end kalman_filter


namespace transform

/-! ## The functions of `transform.h` in exact arithmetic -/

/-- The two-argument arctangent of a point in polar form is its angle. -/
theorem atan2_polar (m : MathOps ℝ) (hm : ExactMath m) (r θ : ℝ) (hr : 0 < r)
    (hθ : θ ∈ Set.Ioc (-Real.pi) Real.pi) :
    m.atan2 (r * Real.sin θ) (r * Real.cos θ) = θ := by
  rw [hm.2.2.2]
  show Complex.arg ⟨r * Real.cos θ, r * Real.sin θ⟩ = θ
  have e : (⟨r * Real.cos θ, r * Real.sin θ⟩ : ℂ) =
      (r : ℂ) * (Complex.cos θ + Complex.sin θ * Complex.I) := by
    apply Complex.ext
    · simp [← Complex.ofReal_cos, ← Complex.ofReal_sin]
    · simp [← Complex.ofReal_cos, ← Complex.ofReal_sin]
  rw [e]
  exact Complex.arg_mul_cos_add_sin_mul_I hr hθ

theorem squaredNorm_smul {F : Type} [LinearOrderedField F] (c : F) (v : Fin 3 → F) :
    squaredNorm (c • v) = c * c * squaredNorm v := by
  simp only [squaredNorm, Pi.smul_apply, smul_eq_mul]
  ring

theorem squaredNorm_nonneg {F : Type} [LinearOrderedField F] (v : Fin 3 → F) :
    0 ≤ squaredNorm v := by
  unfold squaredNorm
  exact add_nonneg (add_nonneg (mul_self_nonneg _) (mul_self_nonneg _)) (mul_self_nonneg _)

theorem norm_smul_of_nonneg (m : MathOps ℝ) (hm : ExactMath m) (c : ℝ) (hc : 0 ≤ c)
    (v : Fin 3 → ℝ) : norm m (c • v) = c * norm m v := by
  unfold norm
  rw [squaredNorm_smul, hm.1, Real.sqrt_mul (mul_self_nonneg c), Real.sqrt_mul_self hc]

theorem squaredNorm_eq_one_of_norm (m : MathOps ℝ) (hm : ExactMath m) (v : Fin 3 → ℝ)
    (hv : norm m v = 1) : squaredNorm v = 1 := by
  unfold norm at hv
  rw [hm.1] at hv
  have h := Real.sq_sqrt (squaredNorm_nonneg v)
  rw [hv] at h
  linarith

theorem norm_nonneg (m : MathOps ℝ) (hm : ExactMath m) (v : Fin 3 → ℝ) : 0 ≤ norm m v := by
  unfold norm
  rw [hm.1]
  exact Real.sqrt_nonneg _

theorem ofAngleAxis_zero (m : MathOps ℝ) (hm : ExactMath m) (axis : Fin 3 → ℝ) :
    Quaternion.ofAngleAxis m ⟨0, axis⟩ = Quaternion.Identity := by
  unfold Quaternion.ofAngleAxis Quaternion.Identity
  simp [hm.2.1, hm.2.2.1]

/-- C23: in exact arithmetic, for every 2D translation `(x, y)` with rotation angle 0,
`Embed3D(Rigid2((x, y), 0))` equals `Rigid3::Translation((x, y, 0))`, the transform of
translation `(x, y, 0)` with the identity rotation, so for every `Rigid3` transform `A`
with unit-quaternion rotation `A * Embed3D(Rigid2((x, y), 0))` equals
`A * Rigid3::Translation((x, y, 0))`. -/
theorem embed3D_of_translation (m : MathOps ℝ) (hm : ExactMath m) (x y : ℝ) :
    Embed3D m ⟨![x, y], ⟨0⟩⟩ = Rigid3.Translation ![x, y, 0] ∧
      (Rigid3.Translation ![x, y, 0] : Rigid3 ℝ) = ⟨![x, y, 0], ⟨1, 0, 0, 0⟩⟩ ∧
      ∀ A : Rigid3 ℝ, A.rotation_.squaredNorm = 1 →
        Rigid3.mul m A (Embed3D m ⟨![x, y], ⟨0⟩⟩) =
          Rigid3.mul m A (Rigid3.Translation ![x, y, 0]) := by
  have h : Embed3D m ⟨![x, y], ⟨0⟩⟩ = Rigid3.Translation ![x, y, 0] := by
    unfold Embed3D Rigid3.Translation
    rw [ofAngleAxis_zero m hm]
    simp
  exact ⟨h, rfl, fun A _ => by rw [h]⟩

/-- Witness of C23: the translation (1, 2), as in the test `Embed3D`. -/
theorem embed3D_of_translation_witness :
    Embed3D ⟨Real.sqrt, Real.cos, Real.sin, fun y x => Complex.arg ⟨x, y⟩⟩
        (⟨![1, 2], ⟨0⟩⟩ : Rigid2 ℝ) = Rigid3.Translation ![1, 2, 0] :=
  (embed3D_of_translation _ exactMath_real 1 2).1

end transform


namespace transform

/-! ## `GetAngle` of an angle-axis vector -/

/-- The quaternion of an angle-axis vector above the cutoff. -/
theorem AngleAxisVectorToRotationQuaternion_of_gt (m : MathOps ℝ) (v : Fin 3 → ℝ)
    (h : squaredNorm v > 1e-8) :
    AngleAxisVectorToRotationQuaternion m v =
      ⟨m.cos (norm m v / 2), m.sin (norm m v / 2) / norm m v * v 0,
        m.sin (norm m v / 2) / norm m v * v 1, m.sin (norm m v / 2) / norm m v * v 2⟩ := by
  unfold AngleAxisVectorToRotationQuaternion
  simp only [if_pos h, Pi.smul_apply, smul_eq_mul]

/-- The quaternion of an angle-axis vector at or below the cutoff. -/
theorem AngleAxisVectorToRotationQuaternion_of_le (m : MathOps ℝ) (v : Fin 3 → ℝ)
    (h : ¬ squaredNorm v > 1e-8) :
    AngleAxisVectorToRotationQuaternion m v = ⟨1, 0.5 * v 0, 0.5 * v 1, 0.5 * v 2⟩ := by
  unfold AngleAxisVectorToRotationQuaternion
  simp only [if_neg h, Pi.smul_apply, smul_eq_mul]

theorem norm_vec_mul (m : MathOps ℝ) (hm : ExactMath m) (c : ℝ) (hc : 0 ≤ c) (w : ℝ)
    (v : Fin 3 → ℝ) :
    norm m (Quaternion.vec ⟨w, c * v 0, c * v 1, c * v 2⟩) = c * norm m v := by
  rw [← norm_smul_of_nonneg m hm c hc]
  congr 1
  ext i
  fin_cases i <;> rfl

/-- The angle `arg (1 + t i)` is within `t ^ 3` below `t`, for `t ≥ 0`. -/
theorem arg_one_add_mul_I_bounds (t : ℝ) (ht : 0 ≤ t) :
    t - t ^ 3 ≤ Complex.arg ⟨1, t⟩ ∧ Complex.arg ⟨1, t⟩ ≤ t := by
  have h0 : 0 ≤ Complex.arg ⟨1, t⟩ := Complex.arg_nonneg_iff.mpr ht
  have h1 : Complex.arg ⟨1, t⟩ < Real.pi / 2 :=
    Complex.arg_lt_pi_div_two_iff.mpr (Or.inl one_pos)
  have htan : Real.tan (Complex.arg ⟨1, t⟩) = t := by
    rw [Complex.tan_arg]
    simp
  have hsin : Real.sin (Complex.arg ⟨1, t⟩) = t / Real.sqrt (1 + t * t) := by
    rw [Complex.sin_arg, Complex.abs_apply, Complex.normSq_mk]
    simp
  constructor
  · have hle := Real.sin_le h0
    rw [hsin] at hle
    have hs1 : Real.sqrt (1 + t * t) ≤ 1 + t * t := by
      rw [Real.sqrt_le_left (by positivity)]
      nlinarith [mul_self_nonneg t, mul_self_nonneg (t * t)]
    have hpos : 0 < Real.sqrt (1 + t * t) := Real.sqrt_pos.mpr (by positivity)
    have h2 : t / (1 + t * t) ≤ t / Real.sqrt (1 + t * t) :=
      div_le_div_of_nonneg_left ht hpos hs1
    have h3 : t - t ^ 3 ≤ t / (1 + t * t) := by
      rw [le_div_iff₀ (by positivity)]
      nlinarith [mul_nonneg ht (mul_self_nonneg (t * t))]
    linarith
  · have hle := Real.le_tan h0 h1
    rw [htan] at hle
    exact hle

end transform


namespace transform

/-- The value of `GetAngle` on the quaternion of the angle-axis vector `θ · a` above the
cutoff. -/
theorem GetAngle_of_gt (m : MathOps ℝ) (hm : ExactMath m) (a : Fin 3 → ℝ)
    (ha : norm m a = 1) (θ : ℝ) (h0 : 0 ≤ θ) (hpi : θ ≤ Real.pi) (hθ : θ ^ 2 > 1e-8) :
    GetAngle m (Rigid3.Rotation (AngleAxisVectorToRotationQuaternion m (θ • a))) = θ := by
  have hsn : squaredNorm (θ • a) = θ ^ 2 := by
    rw [squaredNorm_smul, squaredNorm_eq_one_of_norm m hm a ha]
    ring
  have hn : norm m (θ • a) = θ := by
    rw [norm_smul_of_nonneg m hm θ h0, ha, mul_one]
  have hpos : 0 < θ := by
    rcases h0.lt_or_eq with h | h
    · exact h
    · rw [← h] at hθ
      norm_num at hθ
  have hs : 0 ≤ Real.sin (θ / 2) :=
    Real.sin_nonneg_of_nonneg_of_le_pi (by linarith) (by linarith [Real.pi_pos])
  have hc : 0 ≤ Real.cos (θ / 2) :=
    Real.cos_nonneg_of_neg_pi_div_two_le_of_le (by linarith [Real.pi_pos]) (by linarith)
  rw [AngleAxisVectorToRotationQuaternion_of_gt m _ (by rw [hsn]; exact hθ), hn]
  unfold GetAngle Rigid3.Rotation
  simp only [Pi.smul_apply, smul_eq_mul]
  have e : ∀ i, m.sin (θ / 2) / θ * (θ * a i) = m.sin (θ / 2) * a i := by
    intro i
    field_simp
    ring
  rw [e, e, e, norm_vec_mul m hm _ (by rw [hm.2.2.1]; exact hs), ha, mul_one, hm.2.1,
    hm.2.2.1, abs_of_nonneg hc]
  have h := atan2_polar m hm 1 (θ / 2) one_pos
    ⟨by linarith [Real.pi_pos], by linarith [Real.pi_pos]⟩
  rw [one_mul, one_mul] at h
  rw [h]
  ring

/-- The value of `GetAngle` on the quaternion of the angle-axis vector `θ · a` at or
below the cutoff. -/
theorem GetAngle_of_le (m : MathOps ℝ) (hm : ExactMath m) (a : Fin 3 → ℝ)
    (ha : norm m a = 1) (θ : ℝ) (h0 : 0 ≤ θ) (hθ : ¬ θ ^ 2 > 1e-8) :
    GetAngle m (Rigid3.Rotation (AngleAxisVectorToRotationQuaternion m (θ • a))) =
      2 * Complex.arg ⟨1, θ / 2⟩ := by
  have hsn : squaredNorm (θ • a) = θ ^ 2 := by
    rw [squaredNorm_smul, squaredNorm_eq_one_of_norm m hm a ha]
    ring
  rw [AngleAxisVectorToRotationQuaternion_of_le m _ (by rw [hsn]; exact hθ)]
  unfold GetAngle Rigid3.Rotation
  simp only [Pi.smul_apply, smul_eq_mul]
  have e : ∀ i, (0.5 : ℝ) * (θ * a i) = θ / 2 * a i := by
    intro i
    norm_num
    ring
  rw [e, e, e, norm_vec_mul m hm _ (by linarith), ha, mul_one, abs_one, hm.2.2.2]

/-- C21: in exact arithmetic, for every unit axis `a` and every angle `θ` in `[0, π]`,
`GetAngle(Rigid3::Rotation(AngleAxisVectorToRotationQuaternion(θ · a)))` differs from
`θ` by at most `1e-6`, and equals `θ` exactly when `θ² > 1e-8`. -/
theorem getAngle_of_angle_axis (m : MathOps ℝ) (hm : ExactMath m) (a : Fin 3 → ℝ)
    (ha : norm m a = 1) (θ : ℝ) (h0 : 0 ≤ θ) (hpi : θ ≤ Real.pi) :
    |GetAngle m (Rigid3.Rotation (AngleAxisVectorToRotationQuaternion m (θ • a))) - θ| ≤
        1e-6 ∧
      (θ ^ 2 > 1e-8 →
        GetAngle m (Rigid3.Rotation (AngleAxisVectorToRotationQuaternion m (θ • a))) = θ) := by
  refine ⟨?_, GetAngle_of_gt m hm a ha θ h0 hpi⟩
  by_cases hθ : θ ^ 2 > 1e-8
  · rw [GetAngle_of_gt m hm a ha θ h0 hpi hθ, sub_self, abs_zero]
    norm_num
  · rw [GetAngle_of_le m hm a ha θ h0 hθ]
    obtain ⟨hlo, hhi⟩ := arg_one_add_mul_I_bounds (θ / 2) (by linarith)
    have hsmall : θ ≤ 1e-4 := by
      by_contra hc
      push_neg at hc
      apply hθ
      nlinarith
    have hcube : (θ / 2) ^ 3 ≤ 1e-12 := by
      have h1 : θ / 2 ≤ 1e-4 := by linarith
      have h2 : 0 ≤ θ / 2 := by linarith
      calc (θ / 2) ^ 3 ≤ (1e-4 : ℝ) ^ 3 := pow_le_pow_left₀ h2 h1 3
        _ = 1e-12 := by norm_num
    rw [abs_le]
    constructor <;> linarith

/-- Witness of C21: the axis (1, 0, 0) and the angle 1. -/
theorem getAngle_of_angle_axis_witness :
    norm ⟨Real.sqrt, Real.cos, Real.sin, fun y x => Complex.arg ⟨x, y⟩⟩
        (![1, 0, 0] : Fin 3 → ℝ) = 1 ∧ (0 : ℝ) ≤ 1 ∧ (1 : ℝ) ≤ Real.pi ∧
      GetAngle ⟨Real.sqrt, Real.cos, Real.sin, fun y x => Complex.arg ⟨x, y⟩⟩
        (Rigid3.Rotation (AngleAxisVectorToRotationQuaternion
          ⟨Real.sqrt, Real.cos, Real.sin, fun y x => Complex.arg ⟨x, y⟩⟩
          ((1 : ℝ) • (![1, 0, 0] : Fin 3 → ℝ)))) = 1 :=
  have ha : norm ⟨Real.sqrt, Real.cos, Real.sin, fun y x => Complex.arg ⟨x, y⟩⟩
      (![1, 0, 0] : Fin 3 → ℝ) = 1 := by
    simp [norm, squaredNorm]
  have hpi : (1 : ℝ) ≤ Real.pi := by linarith [Real.pi_gt_three]
  ⟨ha, zero_le_one, hpi,
    (getAngle_of_angle_axis _ exactMath_real ![1, 0, 0] ha 1 zero_le_one hpi).2 (by norm_num)⟩

end transform


namespace transform

/-! ## `GetYaw` -/

end transform


namespace transform

end transform


namespace transform

/-! ## Angle-axis vectors and rotation quaternions -/

end transform


namespace sensor

section VoxelFilters

variable {F : Type} [LinearOrderedField F]

/-! ## `FilterByMaxRange` -/

theorem foldl_filter_append {α : Type} (p : α → Prop) [DecidablePred p] (l acc : List α) :
    l.foldl (fun result a => if p a then result ++ [a] else result) acc =
      acc ++ l.filter fun a => decide (p a) := by
  induction l generalizing acc with
  | nil => simp
  | cons a l ih =>
    rw [List.foldl_cons, ih]
    by_cases h : p a
    · simp [h]
    · simp [h]

theorem FilterByMaxRange_eq (sqrt : F → F) (point_cloud : PointCloud F) (max_range : F) :
    FilterByMaxRange sqrt point_cloud max_range =
      point_cloud.filter fun point => decide (norm sqrt point ≤ max_range) := by
  unfold FilterByMaxRange
  rw [foldl_filter_append]
  rfl

/-- C29: for every point cloud, if the number of its points with Euclidean norm at most
`max_range`, boundary included, is at most `min_num_points`, then
`AdaptiveVoxelFilter::Filter` returns exactly those points, in input order, with no voxel
filtering applied.  The norm of a point is `sqrt(x² + y² + z²)` for the given square root. -/
theorem filter_returns_in_range_points (sqrt : F → F)
    (GetCellIndex : F → (Fin 3 → F) → (Fin 3 → ℤ)) (options : AdaptiveVoxelFilterOptions F)
    (point_cloud : PointCloud F)
    (h : (point_cloud.filter fun point =>
        decide (norm sqrt point ≤ options.max_range)).length ≤ options.min_num_points) :
    AdaptiveVoxelFilter.Filter sqrt GetCellIndex options point_cloud =
      point_cloud.filter fun point => decide (norm sqrt point ≤ options.max_range) := by
  unfold AdaptiveVoxelFilter.Filter AdaptivelyVoxelFiltered
  rw [FilterByMaxRange_eq, if_pos h]

/-- Witness of C29: three points, two of them within the range 2, and
`min_num_points = 2`. -/
theorem filter_returns_in_range_points_witness :
    AdaptiveVoxelFilter.Filter Real.sqrt (fun _ _ => 0) ⟨1, 2, 2⟩
        ([![1, 0, 0], ![3, 0, 0], ![0, 0, 2]] : PointCloud ℝ) =
      [![1, 0, 0], ![0, 0, 2]] := by
  have h1 : norm Real.sqrt (![1, 0, 0] : Fin 3 → ℝ) = 1 := by
    simp [norm]
  have h2 : norm Real.sqrt (![3, 0, 0] : Fin 3 → ℝ) = 3 := by
    have e : (3 : ℝ) * 3 = 3 ^ 2 := by norm_num
    simp [norm, e]
  have h3 : norm Real.sqrt (![0, 0, 2] : Fin 3 → ℝ) = 2 := by
    have e : (2 : ℝ) * 2 = 2 ^ 2 := by norm_num
    simp [norm, e]
  have hf : (([![1, 0, 0], ![3, 0, 0], ![0, 0, 2]] : PointCloud ℝ).filter fun point =>
      decide (norm Real.sqrt point ≤ (2 : ℝ))) = [![1, 0, 0], ![0, 0, 2]] := by
    simp only [List.filter, h1, h2, h3]
    norm_num
  have h := filter_returns_in_range_points Real.sqrt (fun _ _ => 0) ⟨1, 2, 2⟩
    ([![1, 0, 0], ![3, 0, 0], ![0, 0, 2]] : PointCloud ℝ) (by
      show (List.filter _ _).length ≤ 2
      rw [hf]
      simp)
  rw [h]
  exact hf

end VoxelFilters

end sensor


namespace sensor

section VoxelFiltered

variable {F : Type}

/-! ## `VoxelFiltered` -/

theorem VoxelFilter.InsertPointCloud_nil (GetCellIndex : F → (Fin 3 → F) → (Fin 3 → ℤ))
    (self : VoxelFilter F) : self.InsertPointCloud GetCellIndex [] = self := rfl

theorem VoxelFilter.InsertPointCloud_cons (GetCellIndex : F → (Fin 3 → F) → (Fin 3 → ℤ))
    (self : VoxelFilter F) (point : Fin 3 → F) (rest : PointCloud F) :
    self.InsertPointCloud GetCellIndex (point :: rest) =
      VoxelFilter.InsertPointCloud GetCellIndex
        (if self.voxels_ (GetCellIndex self.size point) = 0 then
          { self with
            point_cloud_ := self.point_cloud_ ++ [point]
            voxels_ := Function.update self.voxels_ (GetCellIndex self.size point) 1 }
        else self) rest := rfl

/-- The loop of `InsertPointCloud`, started from a filter whose grid marks exactly the
cells of its points: it appends a subsequence `t` of the inserted points that holds, for
each cell that was not marked, the first inserted point of the cell. -/
theorem VoxelFilter.InsertPointCloud_spec (GetCellIndex : F → (Fin 3 → F) → (Fin 3 → ℤ))
    (point_cloud : PointCloud F) (self : VoxelFilter F)
    (hmark : ∀ c, self.voxels_ c ≠ 0 ↔ c ∈ self.point_cloud_.map (GetCellIndex self.size))
    (hnodup : (self.point_cloud_.map (GetCellIndex self.size)).Nodup) :
    ∃ t : PointCloud F,
      (self.InsertPointCloud GetCellIndex point_cloud).point_cloud_ = self.point_cloud_ ++ t ∧
      t.Sublist point_cloud ∧
      ((self.point_cloud_ ++ t).map (GetCellIndex self.size)).Nodup ∧
      (∀ p ∈ point_cloud,
        GetCellIndex self.size p ∈ (self.point_cloud_ ++ t).map (GetCellIndex self.size)) ∧
      ∀ q ∈ t,
        point_cloud.find? (fun p => decide (GetCellIndex self.size p = GetCellIndex self.size q)) =
          some q := by
  induction point_cloud generalizing self with
  | nil =>
    exact ⟨[], by simp [VoxelFilter.InsertPointCloud_nil], List.Sublist.refl _, by simpa using hnodup,
      by simp, by simp⟩
  | cons point rest ih =>
    rw [VoxelFilter.InsertPointCloud_cons]
    by_cases h0 : self.voxels_ (GetCellIndex self.size point) = 0
    · rw [if_pos h0]
      have hnew : GetCellIndex self.size point ∉
          self.point_cloud_.map (GetCellIndex self.size) := fun hin =>
        (hmark _).mpr hin h0
      obtain ⟨t, ht, hsub, hnd, hall, hfirst⟩ := ih
        { self with
          point_cloud_ := self.point_cloud_ ++ [point]
          voxels_ := Function.update self.voxels_ (GetCellIndex self.size point) 1 }
        (by
          intro c
          show Function.update self.voxels_ (GetCellIndex self.size point) 1 c ≠ 0 ↔
            c ∈ (self.point_cloud_ ++ [point]).map (GetCellIndex self.size)
          by_cases hc : c = GetCellIndex self.size point
          · subst hc
            simp
          · rw [Function.update_noteq hc, hmark c]
            simp [hc])
        (by
          show ((self.point_cloud_ ++ [point]).map (GetCellIndex self.size)).Nodup
          rw [List.map_append, List.nodup_append]
          refine ⟨hnodup, by simp, ?_⟩
          intro c hc1 hc2
          simp only [List.map_cons, List.map_nil, List.mem_singleton] at hc2
          subst hc2
          exact hnew hc1)
      have ht2 : (VoxelFilter.InsertPointCloud GetCellIndex
          { self with
            point_cloud_ := self.point_cloud_ ++ [point]
            voxels_ := Function.update self.voxels_ (GetCellIndex self.size point) 1 }
          rest).point_cloud_ = self.point_cloud_ ++ (point :: t) := by
        rw [ht]
        simp
      have hnd2 : ((self.point_cloud_ ++ (point :: t)).map (GetCellIndex self.size)).Nodup := by
        have e : self.point_cloud_ ++ (point :: t) = self.point_cloud_ ++ [point] ++ t := by simp
        rw [e]
        exact hnd
      refine ⟨point :: t, ht2, hsub.cons₂ point, hnd2, ?_, ?_⟩
      · intro p hp
        rcases List.mem_cons.mp hp with rfl | hp
        · simp
        · have := hall p hp
          simpa using this
      · intro q hq
        rcases List.mem_cons.mp hq with rfl | hq
        · simp
        · have hne : GetCellIndex self.size point ≠ GetCellIndex self.size q := by
            intro heq
            rw [List.map_append, List.nodup_append] at hnd2
            have h1 : GetCellIndex self.size point ∈
                (point :: t).map (GetCellIndex self.size) := by simp
            have hnd3 := hnd2.2.1
            rw [List.map_cons, List.nodup_cons] at hnd3
            exact hnd3.1 (heq ▸ List.mem_map_of_mem _ hq)
          rw [List.find?_cons_of_neg _ (by simpa using hne)]
          exact hfirst q hq
    · rw [if_neg h0]
      obtain ⟨t, ht, hsub, hnd, hall, hfirst⟩ := ih self hmark hnodup
      have hold : GetCellIndex self.size point ∈
          self.point_cloud_.map (GetCellIndex self.size) := (hmark _).mp h0
      refine ⟨t, ht, hsub.cons point, hnd, ?_, ?_⟩
      · intro p hp
        rcases List.mem_cons.mp hp with rfl | hp
        · rw [List.map_append]
          exact List.mem_append_left _ hold
        · exact hall p hp
      · intro q hq
        have hne : GetCellIndex self.size point ≠ GetCellIndex self.size q := by
          intro heq
          rw [List.map_append, List.nodup_append] at hnd
          exact hnd.2.2 hold (heq ▸ List.mem_map_of_mem _ hq)
        rw [List.find?_cons_of_neg _ (by simpa using hne)]
        exact hfirst q hq

/-- C27: for every point cloud and voxel size, `VoxelFiltered` returns a subsequence of
the input, in input order, that contains exactly one point per occupied voxel cell: no
two returned points share a cell, the cell of every input point holds a returned point,
and each returned point is the first input point that falls into its cell; every later
point of an already occupied cell is therefore dropped.  The cell of a point is given by
the member function `GetCellIndex` of the grid. -/
theorem voxelFiltered_keeps_first_point_per_cell
    (GetCellIndex : F → (Fin 3 → F) → (Fin 3 → ℤ)) (point_cloud : PointCloud F) (size : F) :
    (VoxelFiltered GetCellIndex point_cloud size).Sublist point_cloud ∧
      ((VoxelFiltered GetCellIndex point_cloud size).map (GetCellIndex size)).Nodup ∧
      (∀ p ∈ point_cloud, ∃ q ∈ VoxelFiltered GetCellIndex point_cloud size,
        GetCellIndex size q = GetCellIndex size p) ∧
      ∀ q ∈ VoxelFiltered GetCellIndex point_cloud size,
        point_cloud.find? (fun p => decide (GetCellIndex size p = GetCellIndex size q)) =
          some q := by
  obtain ⟨t, ht, hsub, hnd, hall, hfirst⟩ := VoxelFilter.InsertPointCloud_spec GetCellIndex
    point_cloud (VoxelFilter.create size) (by simp [VoxelFilter.create])
    (by simp [VoxelFilter.create])
  have hres : VoxelFiltered GetCellIndex point_cloud size = t := by
    unfold VoxelFiltered
    rw [ht]
    simp [VoxelFilter.create]
  rw [hres]
  refine ⟨hsub, by simpa [VoxelFilter.create] using hnd, fun p hp => ?_, hfirst⟩
  have := hall p hp
  simp only [VoxelFilter.create, List.nil_append, List.mem_map] at this
  exact this

end VoxelFiltered

end sensor


namespace sensor

section AdaptiveVoxelFilters

variable {F : Type} [LinearOrderedField F]

/-! ## The loops of `AdaptivelyVoxelFiltered` -/

/-- More rounds than the halvings of the difference allow are never run: when
`high_length - low_length` is at most `0.1 · 2 ^ fuel · low_length`, further fuel does
not change the result of the binary search. -/
theorem AdaptivelyVoxelFiltered.binarySearch_add_fuel
    (GetCellIndex : F → (Fin 3 → F) → (Fin 3 → ℤ)) (options : AdaptiveVoxelFilterOptions F)
    (point_cloud : PointCloud F) (fuel extra : ℕ) (low_length high_length : F)
    (result : PointCloud F) (hlow : 0 < low_length) (hle : low_length ≤ high_length)
    (hgap : high_length - low_length ≤ 1e-1 * 2 ^ fuel * low_length) :
    AdaptivelyVoxelFiltered.binarySearch GetCellIndex options point_cloud (fuel + extra)
        low_length high_length result =
      AdaptivelyVoxelFiltered.binarySearch GetCellIndex options point_cloud fuel low_length
        high_length result := by
  induction fuel generalizing low_length high_length result with
  | zero =>
    have hstop : ¬ (high_length - low_length) / low_length > 1e-1 := by
      rw [gt_iff_lt, not_lt, div_le_iff₀ hlow]
      simpa using hgap
    cases extra with
    | zero => rfl
    | succ extra =>
      rw [Nat.zero_add]
      conv_lhs => rw [AdaptivelyVoxelFiltered.binarySearch]
      rw [if_neg hstop]
      rfl
  | succ fuel ih =>
    rw [show fuel + 1 + extra = (fuel + extra) + 1 by omega]
    conv_lhs => rw [AdaptivelyVoxelFiltered.binarySearch]
    conv_rhs => rw [AdaptivelyVoxelFiltered.binarySearch]
    have hmid1 : low_length ≤ (low_length + high_length) / 2 := by linarith
    have hmid2 : (low_length + high_length) / 2 ≤ high_length := by linarith
    have hpow : (0 : F) ≤ 1e-1 * 2 ^ fuel := by positivity
    have hgap2 : high_length - low_length ≤ 2 * (1e-1 * 2 ^ fuel * low_length) := by
      rw [pow_succ] at hgap
      linarith
    simp only []
    have hgapA : high_length - (low_length + high_length) / 2 ≤
        1e-1 * 2 ^ fuel * ((low_length + high_length) / 2) := by
      have := mul_le_mul_of_nonneg_left hmid1 hpow
      linarith
    have hgapB : (low_length + high_length) / 2 - low_length ≤
        1e-1 * 2 ^ fuel * low_length := by
      linarith
    by_cases h1 : (high_length - low_length) / low_length > 1e-1
    · rw [if_pos h1, if_pos h1]
      by_cases h2 : (VoxelFiltered GetCellIndex point_cloud
          ((low_length + high_length) / 2)).length ≥ options.min_num_points
      · rw [if_pos h2, if_pos h2]
        exact ih _ _ _ (lt_of_lt_of_le hlow hmid1) hmid2 hgapA
      · rw [if_neg h2, if_neg h2]
        exact ih _ _ _ hlow hmid1 hgapB
    · rw [if_neg h1, if_neg h1]

/-- The four rounds of the binary search started from `low_length = high_length / 2`
exhaust the rounds that its condition allows. -/
theorem AdaptivelyVoxelFiltered.binarySearch_four
    (GetCellIndex : F → (Fin 3 → F) → (Fin 3 → ℤ)) (options : AdaptiveVoxelFilterOptions F)
    (point_cloud : PointCloud F) (extra : ℕ) (high_length : F) (result : PointCloud F)
    (hhigh : 0 < high_length) :
    AdaptivelyVoxelFiltered.binarySearch GetCellIndex options point_cloud (4 + extra)
        (high_length / 2) high_length result =
      AdaptivelyVoxelFiltered.binarySearch GetCellIndex options point_cloud 4
        (high_length / 2) high_length result :=
  AdaptivelyVoxelFiltered.binarySearch_add_fuel GetCellIndex options point_cloud 4 extra _ _ _
    (by linarith) (by linarith) (by
      norm_num
      linarith)

/-- More rounds than the halvings of `high_length` allow are never run: when
`high_length / 2 ^ fuel` is not above `1e-2 · max_length`, further fuel does not change
the result of the search. -/
theorem AdaptivelyVoxelFiltered.search_add_fuel
    (GetCellIndex : F → (Fin 3 → F) → (Fin 3 → ℤ)) (options : AdaptiveVoxelFilterOptions F)
    (point_cloud : PointCloud F) (fuel extra : ℕ) (high_length : F) (result : PointCloud F)
    (hstop : high_length / 2 ^ fuel ≤ 1e-2 * options.max_length) :
    AdaptivelyVoxelFiltered.search GetCellIndex options point_cloud (fuel + extra) high_length
        result =
      AdaptivelyVoxelFiltered.search GetCellIndex options point_cloud fuel high_length
        result := by
  induction fuel generalizing high_length result with
  | zero =>
    rw [pow_zero, div_one] at hstop
    cases extra with
    | zero => rfl
    | succ extra =>
      rw [Nat.zero_add]
      conv_lhs => rw [AdaptivelyVoxelFiltered.search]
      rw [if_neg (not_lt.mpr hstop)]
      rfl
  | succ fuel ih =>
    rw [show fuel + 1 + extra = (fuel + extra) + 1 by omega]
    conv_lhs => rw [AdaptivelyVoxelFiltered.search]
    conv_rhs => rw [AdaptivelyVoxelFiltered.search]
    simp only []
    by_cases h1 : high_length > 1e-2 * options.max_length
    · rw [if_pos h1, if_pos h1]
      by_cases h2 : (VoxelFiltered GetCellIndex point_cloud (high_length / 2)).length ≥
          options.min_num_points
      · rw [if_pos h2, if_pos h2]
      · rw [if_neg h2, if_neg h2]
        exact ih _ _ (by
          rw [pow_succ] at hstop
          rw [div_div]
          calc high_length / (2 * 2 ^ fuel) = high_length / (2 ^ fuel * 2) := by ring
            _ ≤ 1e-2 * options.max_length := hstop)
    · rw [if_neg h1, if_neg h1]

/-- The seven rounds of the search started from `max_length` exhaust the rounds that its
condition allows. -/
theorem AdaptivelyVoxelFiltered.search_seven
    (GetCellIndex : F → (Fin 3 → F) → (Fin 3 → ℤ)) (options : AdaptiveVoxelFilterOptions F)
    (point_cloud : PointCloud F) (extra : ℕ) (result : PointCloud F) :
    AdaptivelyVoxelFiltered.search GetCellIndex options point_cloud (7 + extra)
        options.max_length result =
      AdaptivelyVoxelFiltered.search GetCellIndex options point_cloud 7 options.max_length
        result := by
  rcases le_or_lt 0 options.max_length with h | h
  · exact AdaptivelyVoxelFiltered.search_add_fuel GetCellIndex options point_cloud 7 extra _ _
      (by
        norm_num
        linarith)
  · have hstop : ¬ options.max_length > 1e-2 * options.max_length := by
      rw [gt_iff_lt, not_lt]
      linarith
    rw [show 7 + extra = (6 + extra) + 1 by omega]
    conv_lhs => rw [AdaptivelyVoxelFiltered.search]
    conv_rhs => rw [AdaptivelyVoxelFiltered.search]
    rw [if_neg hstop, if_neg hstop]

/-- The search when no edge length that it tries yields enough points: it returns the
point cloud filtered with the last edge length. -/
theorem AdaptivelyVoxelFiltered.search_of_none
    (GetCellIndex : F → (Fin 3 → F) → (Fin 3 → ℤ)) (options : AdaptiveVoxelFilterOptions F)
    (point_cloud : PointCloud F) (fuel : ℕ) (high_length : F) (result : PointCloud F)
    (hgo : ∀ k, k < fuel + 1 → high_length / 2 ^ k > 1e-2 * options.max_length)
    (hnone : ∀ k, k < fuel + 1 →
      ¬ (VoxelFiltered GetCellIndex point_cloud (high_length / 2 ^ (k + 1))).length ≥
        options.min_num_points) :
    AdaptivelyVoxelFiltered.search GetCellIndex options point_cloud (fuel + 1) high_length
        result =
      VoxelFiltered GetCellIndex point_cloud (high_length / 2 ^ (fuel + 1)) := by
  induction fuel generalizing high_length result with
  | zero =>
    have h0 := hgo 0 (by omega)
    have h1 := hnone 0 (by omega)
    rw [pow_zero, div_one] at h0
    rw [zero_add, pow_one] at h1
    conv_lhs => rw [AdaptivelyVoxelFiltered.search]
    simp only []
    rw [if_pos h0, if_neg h1]
    simp [AdaptivelyVoxelFiltered.search]
  | succ fuel ih =>
    have h0 := hgo 0 (by omega)
    have h1 := hnone 0 (by omega)
    rw [pow_zero, div_one] at h0
    rw [zero_add, pow_one] at h1
    have e : ∀ k : ℕ, high_length / 2 / 2 ^ k = high_length / 2 ^ (k + 1) := by
      intro k
      rw [div_div, pow_succ, mul_comm]
    conv_lhs => rw [AdaptivelyVoxelFiltered.search]
    simp only []
    rw [if_pos h0, if_neg h1, ih (high_length / 2) _
      (fun k hk => by rw [e]; exact hgo (k + 1) (by omega))
      (fun k hk => by rw [e]; exact hnone (k + 1) (by omega)), e]

end AdaptiveVoxelFilters

end sensor


namespace sensor

/-- A point cloud of three equal points is filtered to one point, whatever the cells. -/
theorem VoxelFiltered_three_equal {F : Type} (GetCellIndex : F → (Fin 3 → F) → (Fin 3 → ℤ))
    (p : Fin 3 → F) (size : F) : VoxelFiltered GetCellIndex [p, p, p] size = [p] := by
  simp [VoxelFiltered, VoxelFilter.InsertPointCloud, VoxelFilter.create]

section GivingUp

variable {F : Type} [LinearOrderedField F]

/-- C28, evaluated at a failing input: the cloud of three points at the origin with
`max_length = 1` and `min_num_points = 2`.  The cloud has more than `min_num_points`
points, and neither `max_length` nor any edge length of the search yields two points;
`AdaptivelyVoxelFiltered` then returns the one-point cloud of the last edge length tried,
`2⁻⁷`, and not the full input point cloud. -/
theorem adaptivelyVoxelFiltered_returns_last_filtered_cloud
    (GetCellIndex : F → (Fin 3 → F) → (Fin 3 → ℤ)) :
    (∀ size : F, ¬ (VoxelFiltered GetCellIndex [0, 0, 0] size).length ≥ 2) ∧
      AdaptivelyVoxelFiltered GetCellIndex ⟨1, 2, 1⟩ [0, 0, 0] =
        VoxelFiltered GetCellIndex [0, 0, 0] (1 / 2 ^ 7) ∧
      AdaptivelyVoxelFiltered GetCellIndex ⟨1, 2, 1⟩ [0, 0, 0] = [0] ∧
      AdaptivelyVoxelFiltered GetCellIndex ⟨1, 2, 1⟩ [0, 0, 0] ≠ [0, 0, 0] := by
  have hnone : ∀ size : F, ¬ (VoxelFiltered GetCellIndex [0, 0, 0] size).length ≥ 2 := by
    intro size
    rw [VoxelFiltered_three_equal]
    simp
  have hres : AdaptivelyVoxelFiltered GetCellIndex ⟨1, 2, 1⟩ [0, 0, 0] =
      VoxelFiltered GetCellIndex [0, 0, 0] (1 / 2 ^ 7) := by
    unfold AdaptivelyVoxelFiltered
    rw [if_neg (by simp)]
    simp only []
    rw [if_neg (hnone _)]
    exact AdaptivelyVoxelFiltered.search_of_none GetCellIndex ⟨1, 2, 1⟩ [0, 0, 0] 6 1 _
      (fun k hk => by
        show (1 : F) / 2 ^ k > 1e-2 * 1
        interval_cases k <;> norm_num)
      (fun k _ => hnone _)
  refine ⟨hnone, hres, ?_, ?_⟩
  · rw [hres, VoxelFiltered_three_equal]
  · rw [hres, VoxelFiltered_three_equal]
    simp

end GivingUp

end sensor


namespace sensor

namespace CompressedPointCloud

section Distribute

variable {F : Type} [LinearOrderedField F]

/-! ## The first loop of the constructor of `CompressedPointCloud` -/

theorem distribute_nil (fl : FloatArithmetic F) (RoundToInt : F → ℤ)
    (point_index : ℤ) (s : Distribution) :
    distribute fl RoundToInt [] point_index s = .ok s := rfl

theorem distribute_cons_of_inBounds (fl : FloatArithmetic F) (RoundToInt : F → ℤ)
    (point : Fin 3 → F)
    (rest : PointCloud F) (point_index : ℤ) (s : Distribution) (h : InBounds fl point) :
    distribute fl RoundToInt (point :: rest) point_index s =
      distribute fl RoundToInt rest (point_index + 1)
        ⟨Function.update s.blocks (block_coordinate fl RoundToInt point)
            (s.blocks (block_coordinate fl RoundToInt point) ++
              [⟨raster_point fl RoundToInt point, point_index⟩]),
          s.num_blocks +
            if (s.blocks (block_coordinate fl RoundToInt point)).isEmpty then 1 else 0⟩ := by
  conv_lhs => rw [distribute]
  rw [if_pos h]

theorem distribute_cons_of_not_inBounds (fl : FloatArithmetic F) (RoundToInt : F → ℤ)
    (point : Fin 3 → F)
    (rest : PointCloud F) (point_index : ℤ) (s : Distribution) (h : ¬ InBounds fl point) :
    distribute fl RoundToInt (point :: rest) point_index s =
      .error CompressionFailure.PointOutOfBounds := by
  conv_lhs => rw [distribute]
  rw [if_neg h]

/-- The first loop fails, with "Point out of bounds", exactly when a point is out of
bounds. -/
theorem distribute_eq_error_iff (fl : FloatArithmetic F) (RoundToInt : F → ℤ)
    (point_cloud : PointCloud F)
    (point_index : ℤ) (s : Distribution) (e : CompressionFailure) :
    distribute fl RoundToInt point_cloud point_index s = .error e ↔
      e = CompressionFailure.PointOutOfBounds ∧ ∃ p ∈ point_cloud, ¬ InBounds fl p := by
  induction point_cloud generalizing point_index s with
  | nil => simp [distribute_nil]
  | cons point rest ih =>
    by_cases h : InBounds fl point
    · rw [distribute_cons_of_inBounds _ _ _ _ _ _ h, ih]
      constructor
      · rintro ⟨he, p, hp, hb⟩
        exact ⟨he, p, List.mem_cons_of_mem _ hp, hb⟩
      · rintro ⟨he, p, hp, hb⟩
        rcases List.mem_cons.mp hp with rfl | hp
        · exact absurd h hb
        · exact ⟨he, p, hp, hb⟩
    · rw [distribute_cons_of_not_inBounds _ _ _ _ _ _ h]
      constructor
      · intro he
        exact ⟨(Except.error.inj he).symm, point, List.mem_cons_self _ _, h⟩
      · rintro ⟨he, -⟩
        rw [he]

/-- The grid after the first loop: each cell holds what it held before, followed by the
raster points of the points of the cell, in input order; and when `num_blocks` counted
the occupied cells before, it counts them after. -/
theorem distribute_spec (fl : FloatArithmetic F) (RoundToInt : F → ℤ)
    (point_cloud : PointCloud F)
    (hb : ∀ p ∈ point_cloud, InBounds fl p) (point_index : ℤ) (s : Distribution)
    (cells : List (Fin 3 → ℤ)) (hnodup : cells.Nodup)
    (hcells : ∀ c, c ∈ cells ↔ s.blocks c ≠ []) (hnum : s.num_blocks = cells.length) :
    ∃ s' : Distribution, distribute fl RoundToInt point_cloud point_index s = .ok s' ∧
      (∀ c, (s'.blocks c).map RasterPoint.point =
        (s.blocks c).map RasterPoint.point ++
          (point_cloud.filter fun p => decide (block_coordinate fl RoundToInt p = c)).map
            (raster_point fl RoundToInt)) ∧
      ∃ cells' : List (Fin 3 → ℤ), cells'.Nodup ∧ (∀ c, c ∈ cells' ↔ s'.blocks c ≠ []) ∧
        s'.num_blocks = cells'.length := by
  induction point_cloud generalizing point_index s cells with
  | nil =>
    exact ⟨s, rfl, by simp, cells, hnodup, hcells, hnum⟩
  | cons point rest ih =>
    have hin : InBounds fl point := hb point (List.mem_cons_self _ _)
    rw [distribute_cons_of_inBounds _ _ _ _ _ _ hin]
    have hupd : ∀ c, Function.update s.blocks (block_coordinate fl RoundToInt point)
        (s.blocks (block_coordinate fl RoundToInt point) ++
          [⟨raster_point fl RoundToInt point, point_index⟩]) c ≠ [] ↔
        c = block_coordinate fl RoundToInt point ∨ s.blocks c ≠ [] := by
      intro c
      by_cases hc : c = block_coordinate fl RoundToInt point
      · subst hc
        simp
      · rw [Function.update_noteq hc]
        simp [hc]
    have hnext : ∃ cells1 : List (Fin 3 → ℤ), cells1.Nodup ∧
        (∀ c, c ∈ cells1 ↔
          Function.update s.blocks (block_coordinate fl RoundToInt point)
            (s.blocks (block_coordinate fl RoundToInt point) ++
              [⟨raster_point fl RoundToInt point, point_index⟩]) c ≠ []) ∧
        (s.num_blocks +
          if (s.blocks (block_coordinate fl RoundToInt point)).isEmpty then 1 else 0 : ℤ) =
          cells1.length := by
      by_cases hemp : s.blocks (block_coordinate fl RoundToInt point) = []
      · have hnot : block_coordinate fl RoundToInt point ∉ cells := fun hmem =>
          (hcells _).mp hmem hemp
        refine ⟨block_coordinate fl RoundToInt point :: cells, List.nodup_cons.mpr ⟨hnot, hnodup⟩,
          fun c => ?_, ?_⟩
        · rw [hupd, List.mem_cons, hcells]
        · rw [hemp, hnum]
          simp
      · have hmem : block_coordinate fl RoundToInt point ∈ cells := (hcells _).mpr hemp
        refine ⟨cells, hnodup, fun c => ?_, ?_⟩
        · rw [hupd, hcells]
          constructor
          · exact Or.inr
          · rintro (rfl | h)
            · exact hemp
            · exact h
        · rw [hnum]
          simp [hemp]
    obtain ⟨cells1, hnd1, hc1, hn1⟩ := hnext
    obtain ⟨s', hs', hblocks, hcells'⟩ := ih (fun p hp => hb p (List.mem_cons_of_mem _ hp))
      (point_index + 1)
      ⟨Function.update s.blocks (block_coordinate fl RoundToInt point)
          (s.blocks (block_coordinate fl RoundToInt point) ++
            [⟨raster_point fl RoundToInt point, point_index⟩]),
        s.num_blocks +
          if (s.blocks (block_coordinate fl RoundToInt point)).isEmpty then 1 else 0⟩
      cells1 hnd1 hc1 hn1
    refine ⟨s', hs', fun c => ?_, hcells'⟩
    have hbc := hblocks c
    dsimp only at hbc
    rw [hbc]
    by_cases hc : block_coordinate fl RoundToInt point = c
    · subst hc
      simp [List.filter_cons]
    · rw [Function.update_noteq (Ne.symm hc)]
      simp [List.filter_cons, hc]

end Distribute

end CompressedPointCloud

end sensor


namespace sensor

namespace CompressedPointCloud

section Encode

variable {F : Type} [LinearOrderedField F]

/-! ## The second loop of the constructor of `CompressedPointCloud` -/

theorem foldl_append_singleton {α β : Type} (f : α → β) (l : List α) (init : List β) :
    l.foldl (fun acc a => acc ++ [f a]) init = init ++ l.map f := by
  induction l generalizing init with
  | nil => simp
  | cons a l ih =>
    rw [List.foldl_cons, ih]
    simp

/-- The second loop appends, for each cell, the number of its raster points, its
coordinates and its packed raster points, and it decrements `num_blocks` once per
cell. -/
theorem encode_spec (blocks : (Fin 3 → ℤ) → List RasterPoint) (cells : List (Fin 3 → ℤ))
    (hlen : ∀ c ∈ cells, (blocks c).length ≤ 2147483647) (point_data_ : List ℤ)
    (num_blocks : ℤ) :
    encode blocks cells point_data_ num_blocks =
      .ok (point_data_ ++
          cells.flatMap fun c =>
            [((blocks c).length : ℤ), c 0, c 1, c 2] ++ (blocks c).map pack,
        num_blocks - cells.length) := by
  induction cells generalizing point_data_ num_blocks with
  | nil => simp [encode]
  | cons c cells ih =>
    conv_lhs => rw [encode]
    simp only []
    rw [if_pos (hlen c (List.mem_cons_self _ _)), foldl_append_singleton,
      ih (fun c' hc' => hlen c' (List.mem_cons_of_mem _ hc'))]
    simp only [List.flatMap_cons, List.append_assoc, List.length_cons, Nat.cast_add,
      Nat.cast_one]
    congr 2
    ring

/-- Without rounding, the check of the constructor passes exactly when each coordinate
`c` of the point has `|c| / 0.001 < 2 ^ 23`. -/
theorem inBounds_iff (point : Fin 3 → F) :
    InBounds FloatArithmetic.unrounded point ↔ ∀ i, |point i| / 0.001 < 2 ^ 23 := by
  unfold InBounds kMaxBitsPerDirection FloatArithmetic.unrounded
  simp only [div_lt_iff₀ (show (0 : F) < 0.001 by norm_num), max_lt_iff]
  constructor
  · rintro ⟨⟨h0, h1⟩, h2⟩ i
    fin_cases i
    · exact h0
    · exact h1
    · exact h2
  · intro h
    exact ⟨⟨h 0, h 1⟩, h 2⟩

/-- Reading back the three coordinates of a packed raster point. -/
theorem unpack (x y z : ℤ) (hx : 0 ≤ x ∧ x < 1024) (hy : 0 ≤ y ∧ y < 1024) :
    ((z * 1024 + y) * 1024 + x) % 1024 = x ∧
      ((z * 1024 + y) * 1024 + x) / 1024 % 1024 = y ∧
      ((z * 1024 + y) * 1024 + x) / 1048576 = z := by
  omega

end Encode

section Raster

variable {F : Type}

/-- The coordinates of a raster point after the mask are below `2 ^ 10`. -/
theorem raster_point_range (fl : FloatArithmetic F) (RoundToInt : F → ℤ)
    (point : Fin 3 → F) (i : Fin 3) :
    0 ≤ raster_point fl RoundToInt point i ∧ raster_point fl RoundToInt point i < 1024 := by
  unfold raster_point kCoordinateMask kBitsPerCoordinate
  omega

/-- The coordinates of the block and of the raster point give back the coordinate on the
grid. -/
theorem block_coordinate_mul_add (fl : FloatArithmetic F) (RoundToInt : F → ℤ)
    (point : Fin 3 → F) (i : Fin 3) :
    block_coordinate fl RoundToInt point i * 1024 + raster_point fl RoundToInt point i =
      raster fl RoundToInt point i := by
  unfold block_coordinate raster_point kCoordinateMask kBitsPerCoordinate
  omega

end Raster

end CompressedPointCloud

end sensor


namespace sensor

namespace CompressedPointCloud

section Reading

variable {F : Type}

/-! ## Reading the points back -/

/-- The point that `ReadNextPoint` decodes from a packed raster point of the block
`c`. -/
theorem decoded_point (fl : FloatArithmetic F) (c : Fin 3 → ℤ) (rp : RasterPoint)
    (hrp : ∀ i, 0 ≤ rp.point i ∧ rp.point i < 1024) :
    (![fl.mul
          (fl.ofInt
            ((![c 0 * 2 ^ kBitsPerCoordinate, c 1 * 2 ^ kBitsPerCoordinate,
              c 2 * 2 ^ kBitsPerCoordinate] : Fin 3 → ℤ) 0 +
            pack rp % (2 ^ kBitsPerCoordinate - 1 + 1)))
          fl.kPrecision,
        fl.mul
          (fl.ofInt
            ((![c 0 * 2 ^ kBitsPerCoordinate, c 1 * 2 ^ kBitsPerCoordinate,
              c 2 * 2 ^ kBitsPerCoordinate] : Fin 3 → ℤ) 1 +
            pack rp / 2 ^ kBitsPerCoordinate % (2 ^ kBitsPerCoordinate - 1 + 1)))
          fl.kPrecision,
        fl.mul
          (fl.ofInt
            ((![c 0 * 2 ^ kBitsPerCoordinate, c 1 * 2 ^ kBitsPerCoordinate,
              c 2 * 2 ^ kBitsPerCoordinate] : Fin 3 → ℤ) 2 +
            pack rp / 2 ^ (2 * kBitsPerCoordinate)))
          fl.kPrecision] : Fin 3 → F) =
      fun i => fl.mul (fl.ofInt (c i * 1024 + rp.point i)) fl.kPrecision := by
  obtain ⟨h0, h1, h2⟩ := unpack (rp.point 0) (rp.point 1) (rp.point 2) (hrp 0) (hrp 1)
  have e0 : pack rp % (2 ^ kBitsPerCoordinate - 1 + 1) = rp.point 0 := by
    unfold pack kBitsPerCoordinate
    norm_num
    exact h0
  have e1 : pack rp / 2 ^ kBitsPerCoordinate % (2 ^ kBitsPerCoordinate - 1 + 1) =
      rp.point 1 := by
    unfold pack kBitsPerCoordinate
    norm_num
    exact h1
  have e2 : pack rp / 2 ^ (2 * kBitsPerCoordinate) = rp.point 2 := by
    unfold pack kBitsPerCoordinate
    norm_num
    exact h2
  rw [e0, e1, e2]
  ext i
  fin_cases i
  · simp [kBitsPerCoordinate]
  · simp [kBitsPerCoordinate]
  · simp [kBitsPerCoordinate]

/-- The function `ReadNextPoint` inside a block. -/
theorem ReadNextPoint_point (fl : FloatArithmetic F) (it : ConstIterator F) (point : ℤ)
    (input_ : List ℤ) (hrem : it.remaining_points_in_current_block_ ≠ 0)
    (hin : it.input_ = point :: input_) :
    it.ReadNextPoint fl =
      some ⟨it.remaining_points_in_current_block_ - 1,
        ![fl.mul
            (fl.ofInt
              (it.current_block_coordinates_ 0 + point % (2 ^ kBitsPerCoordinate - 1 + 1)))
            fl.kPrecision,
          fl.mul
            (fl.ofInt
              (it.current_block_coordinates_ 1 +
                point / 2 ^ kBitsPerCoordinate % (2 ^ kBitsPerCoordinate - 1 + 1)))
            fl.kPrecision,
          fl.mul
            (fl.ofInt
              (it.current_block_coordinates_ 2 + point / 2 ^ (2 * kBitsPerCoordinate)))
            fl.kPrecision],
        it.current_block_coordinates_, input_⟩ := by
  unfold ConstIterator.ReadNextPoint
  simp only [if_neg hrem, hin]

/-- The function `ReadNextPoint` at the start of a block. -/
theorem ReadNextPoint_header (fl : FloatArithmetic F) (it : ConstIterator F)
    (n x y z point : ℤ) (input_ : List ℤ)
    (hrem : it.remaining_points_in_current_block_ = 0)
    (hin : it.input_ = n :: x :: y :: z :: point :: input_) :
    it.ReadNextPoint fl =
      some ⟨n - 1,
        ![fl.mul
            (fl.ofInt
              ((![x * 2 ^ kBitsPerCoordinate, y * 2 ^ kBitsPerCoordinate,
                z * 2 ^ kBitsPerCoordinate] : Fin 3 → ℤ) 0 +
              point % (2 ^ kBitsPerCoordinate - 1 + 1)))
            fl.kPrecision,
          fl.mul
            (fl.ofInt
              ((![x * 2 ^ kBitsPerCoordinate, y * 2 ^ kBitsPerCoordinate,
                z * 2 ^ kBitsPerCoordinate] : Fin 3 → ℤ) 1 +
              point / 2 ^ kBitsPerCoordinate % (2 ^ kBitsPerCoordinate - 1 + 1)))
            fl.kPrecision,
          fl.mul
            (fl.ofInt
              ((![x * 2 ^ kBitsPerCoordinate, y * 2 ^ kBitsPerCoordinate,
                z * 2 ^ kBitsPerCoordinate] : Fin 3 → ℤ) 2 +
              point / 2 ^ (2 * kBitsPerCoordinate)))
            fl.kPrecision],
        ![x * 2 ^ kBitsPerCoordinate, y * 2 ^ kBitsPerCoordinate, z * 2 ^ kBitsPerCoordinate],
        input_⟩ := by
  unfold ConstIterator.ReadNextPoint
  simp only [if_pos hrem, hin]

end Reading

end CompressedPointCloud

end sensor


namespace sensor

namespace CompressedPointCloud

section Loop

variable {F : Type}

theorem Decompress.loop_succ (fl : FloatArithmetic F) (remaining_points_ : ℕ)
    (it : ConstIterator F)
    (decompressed : PointCloud F) :
    Decompress.loop fl (remaining_points_ + 1) it decompressed =
      if remaining_points_ > 0 then
        match it.ReadNextPoint fl with
        | none => none
        | some it' =>
          Decompress.loop fl remaining_points_ it' (decompressed ++ [it.current_point_])
      else Decompress.loop fl remaining_points_ it (decompressed ++ [it.current_point_]) :=
  rfl

/-- The loop of `Decompress` on the encoding of a grid: from an iterator that stands on
a point of the block `c`, with the raster points `rps` of the block and the cells `cells`
still to read, it appends the current point, the points of `rps` and the points of the
cells, each decoded with the coordinates of its block. -/
theorem Decompress.loop_spec (fl : FloatArithmetic F)
    (blocks : (Fin 3 → ℤ) → List RasterPoint)
    (hr : ∀ c, ∀ rp ∈ blocks c, ∀ i, 0 ≤ rp.point i ∧ rp.point i < 1024)
    (n : ℕ) (it : ConstIterator F) (decompressed : PointCloud F) (rps : List RasterPoint)
    (c : Fin 3 → ℤ) (cells : List (Fin 3 → ℤ))
    (hrps : ∀ rp ∈ rps, ∀ i, 0 ≤ rp.point i ∧ rp.point i < 1024)
    (hrem : it.remaining_points_in_current_block_ = rps.length)
    (hblk : it.current_block_coordinates_ =
      ![c 0 * 2 ^ kBitsPerCoordinate, c 1 * 2 ^ kBitsPerCoordinate,
        c 2 * 2 ^ kBitsPerCoordinate])
    (hin : it.input_ =
      rps.map pack ++
        cells.flatMap fun c' =>
          [((blocks c').length : ℤ), c' 0, c' 1, c' 2] ++ (blocks c').map pack)
    (hne : ∀ c' ∈ cells, blocks c' ≠ [])
    (hn : n = rps.length + (cells.map fun c' => (blocks c').length).sum) :
    Decompress.loop fl (n + 1) it decompressed =
      some (decompressed ++
        it.current_point_ ::
          (rps.map (fun rp i => fl.mul (fl.ofInt (c i * 1024 + rp.point i)) fl.kPrecision) ++
            cells.flatMap fun c' =>
              (blocks c').map fun rp i =>
                fl.mul (fl.ofInt (c' i * 1024 + rp.point i)) fl.kPrecision)) := by
  induction n generalizing it decompressed rps c cells with
  | zero =>
    have hrps0 : rps = [] := List.length_eq_zero.mp (by omega)
    have hcells0 : cells = [] := by
      cases cells with
      | nil => rfl
      | cons c' cs =>
        have hpos : 0 < (blocks c').length :=
          List.length_pos.mpr (hne c' (List.mem_cons_self _ _))
        simp only [List.map_cons, List.sum_cons] at hn
        omega
    subst hrps0 hcells0
    rw [Decompress.loop_succ, if_neg (by omega)]
    simp [Decompress.loop]
  | succ n ih =>
    rw [Decompress.loop_succ, if_pos (by omega)]
    cases rps with
    | cons rp rps' =>
      have hrem' : it.remaining_points_in_current_block_ ≠ 0 := by
        rw [hrem]
        simp only [List.length_cons]
        omega
      rw [ReadNextPoint_point fl it (pack rp) _ hrem' (by rw [hin]; rfl)]
      simp only []
      refine Eq.trans (ih _ _ rps' c cells ?_ ?_ ?_ ?_ hne ?_) ?_
      · exact fun rp' h => hrps rp' (List.mem_cons_of_mem _ h)
      · show it.remaining_points_in_current_block_ - 1 = _
        rw [hrem]
        simp
      · exact hblk
      · rfl
      · simp only [List.length_cons] at hn
        omega
      · simp only []
        rw [hblk, decoded_point fl c rp (hrps rp (List.mem_cons_self _ _))]
        simp
    | nil =>
      cases cells with
      | nil =>
        simp at hn
      | cons c' cs =>
        have hne' := hne c' (List.mem_cons_self _ _)
        obtain ⟨rp, rps', hb⟩ := List.exists_cons_of_ne_nil hne'
        have hrem0 : it.remaining_points_in_current_block_ = 0 := by
          rw [hrem]
          rfl
        have hin' : it.input_ =
            ((blocks c').length : ℤ) :: c' 0 :: c' 1 :: c' 2 :: pack rp ::
              (rps'.map pack ++
                cs.flatMap fun c'' =>
                  [((blocks c'').length : ℤ), c'' 0, c'' 1, c'' 2] ++
                    (blocks c'').map pack) := by
          rw [hin]
          simp [hb]
        rw [ReadNextPoint_header fl it _ _ _ _ _ _ hrem0 hin']
        simp only []
        refine Eq.trans (ih _ _ rps' c' cs ?_ ?_ ?_ ?_ ?_ ?_) ?_
        · exact fun rp' h => hr c' rp' (by rw [hb]; exact List.mem_cons_of_mem _ h)
        · show ((blocks c').length : ℤ) - 1 = _
          rw [hb]
          simp
        · rfl
        · rfl
        · exact fun c'' h => hne c'' (List.mem_cons_of_mem _ h)
        · simp only [List.map_cons, List.sum_cons, List.length_nil, hb,
            List.length_cons] at hn
          omega
        · simp only []
          rw [decoded_point fl c' rp (hr c' rp (by rw [hb]; exact List.mem_cons_self _ _))]
          simp [hb]

end Loop

end CompressedPointCloud

end sensor


namespace sensor

/-! ## Grouping a list by a key -/

/-- The groups of a list by key, taken over keys without repetition, are a permutation of
the elements whose key is among them. -/
theorem flatMap_filter_perm {α κ : Type} [DecidableEq κ] (key : α → κ) (l : List α)
    (cells : List κ) (hnd : cells.Nodup) :
    (cells.flatMap fun c => l.filter fun a => decide (key a = c)).Perm
      (l.filter fun a => decide (key a ∈ cells)) := by
  induction cells with
  | nil => simp
  | cons c cs ih =>
    obtain ⟨hc, hcs⟩ := List.nodup_cons.mp hnd
    rw [List.flatMap_cons]
    have h1 : (l.filter fun a => decide (key a ∈ c :: cs)).filter
        (fun a => decide (key a = c)) = l.filter fun a => decide (key a = c) := by
      rw [List.filter_filter]
      congr 1
      funext a
      by_cases h : key a = c <;> simp [h]
    have h2 : (l.filter fun a => decide (key a ∈ c :: cs)).filter
        (fun a => !decide (key a = c)) = l.filter fun a => decide (key a ∈ cs) := by
      rw [List.filter_filter]
      congr 1
      funext a
      by_cases h : key a = c
      · simp [h, hc]
      · simp [h]
    have h3 := List.filter_append_perm (fun a => decide (key a = c))
      (l.filter fun a => decide (key a ∈ c :: cs))
    rw [h1, h2] at h3
    exact (List.Perm.append_left _ (ih hcs)).trans h3

/-- The groups of a list by key, taken over keys without repetition that include every
key of the list, are a permutation of the list. -/
theorem flatMap_filter_perm_self {α κ : Type} [DecidableEq κ] (key : α → κ) (l : List α)
    (cells : List κ) (hnd : cells.Nodup) (hall : ∀ a ∈ l, key a ∈ cells) :
    (cells.flatMap fun c => l.filter fun a => decide (key a = c)).Perm l := by
  have h := flatMap_filter_perm key l cells hnd
  rwa [List.filter_eq_self.mpr fun a ha => by simpa using hall a ha] at h

theorem length_flatMap_eq_sum {α β : Type} (f : α → List β) (l : List α) :
    (l.flatMap f).length = (l.map fun a => (f a).length).sum := by
  induction l with
  | nil => rfl
  | cons a l ih => simp [ih]

namespace CompressedPointCloud

section Create

variable {F : Type} [LinearOrderedField F]

/-! ## The constructor and `Decompress` -/

/-- The constructor on a point cloud of at most `2³¹ − 1` points that are all in bounds,
with a correct iterator: it succeeds, with the encoding of the cells in the order of the
iterator, and each cell of the grid holds the raster points of the points of the cell, in
input order. -/
theorem create_spec (fl : FloatArithmetic F) (RoundToInt : F → ℤ)
    (iterate : ((Fin 3 → ℤ) → List RasterPoint) → List (Fin 3 → ℤ))
    (point_cloud : PointCloud F) (hsize : point_cloud.length ≤ 2147483647)
    (hb : ∀ p ∈ point_cloud, InBounds fl p)
    (hit : ∀ s, distribute fl RoundToInt point_cloud 0 ⟨fun _ => [], 0⟩ = .ok s →
      IteratorCorrectAt iterate s.blocks) :
    ∃ s : Distribution, distribute fl RoundToInt point_cloud 0 ⟨fun _ => [], 0⟩ = .ok s ∧
      create fl RoundToInt iterate point_cloud =
        .ok ⟨(iterate s.blocks).flatMap fun c =>
            [((s.blocks c).length : ℤ), c 0, c 1, c 2] ++ (s.blocks c).map pack,
          point_cloud.length⟩ ∧
      ∀ c, (s.blocks c).map RasterPoint.point =
        (point_cloud.filter fun p => decide (block_coordinate fl RoundToInt p = c)).map
          (raster_point fl RoundToInt) := by
  obtain ⟨s, hs, hblocks, cells, hnd, hcells, hnum⟩ :=
    distribute_spec fl RoundToInt point_cloud hb 0
    ⟨fun _ => [], 0⟩ [] List.nodup_nil (by simp) (by simp)
  have hblocks' : ∀ c, (s.blocks c).map RasterPoint.point =
      (point_cloud.filter fun p => decide (block_coordinate fl RoundToInt p = c)).map
        (raster_point fl RoundToInt) := by
    intro c
    have := hblocks c
    simpa using this
  obtain ⟨hind, himem⟩ := hit s hs
  have hperm : cells.Perm (iterate s.blocks) :=
    (List.perm_ext_iff_of_nodup hnd hind).mpr fun c => by rw [hcells, himem]
  have hlen : ∀ c ∈ iterate s.blocks, (s.blocks c).length ≤ 2147483647 := by
    intro c _
    have h1 : (s.blocks c).length =
        ((point_cloud.filter fun p => decide (block_coordinate fl RoundToInt p = c)).map
          (raster_point fl RoundToInt)).length := by
      rw [← hblocks' c, List.length_map]
    rw [h1, List.length_map]
    exact le_trans (List.length_filter_le _ _) hsize
  refine ⟨s, hs, ?_, hblocks'⟩
  unfold create
  simp only []
  rw [if_pos hsize, hs]
  simp only []
  rw [encode_spec s.blocks _ hlen]
  simp only [List.nil_append]
  rw [if_pos (by rw [hnum, List.Perm.length_eq hperm]; simp)]

/-- The function `Decompress` on the encoding of a grid with `num_points_` raster
points. -/
theorem Decompress_spec (fl : FloatArithmetic F) (blocks : (Fin 3 → ℤ) → List RasterPoint)
    (hr : ∀ c, ∀ rp ∈ blocks c, ∀ i, 0 ≤ rp.point i ∧ rp.point i < 1024)
    (cells : List (Fin 3 → ℤ)) (hne : ∀ c ∈ cells, blocks c ≠ []) (num_points_ : ℕ)
    (hn : num_points_ = (cells.map fun c => (blocks c).length).sum) :
    Decompress fl
        ⟨cells.flatMap fun c => [((blocks c).length : ℤ), c 0, c 1, c 2] ++ (blocks c).map pack,
          num_points_⟩ =
      some (cells.flatMap fun c =>
        (blocks c).map fun rp i => fl.mul (fl.ofInt (c i * 1024 + rp.point i)) fl.kPrecision) := by
  cases cells with
  | nil =>
    simp only [List.map_nil, List.sum_nil] at hn
    subst hn
    simp [Decompress, CompressedPointCloud.begin, Decompress.loop]
  | cons c cs =>
    have hne' := hne c (List.mem_cons_self _ _)
    obtain ⟨rp, rps, hb⟩ := List.exists_cons_of_ne_nil hne'
    simp only [List.map_cons, List.sum_cons, hb, List.length_cons] at hn
    obtain ⟨n, rfl⟩ : ∃ n, num_points_ = n + 1 := ⟨num_points_ - 1, by omega⟩
    unfold Decompress CompressedPointCloud.begin
    simp only []
    rw [if_pos (by omega),
      ReadNextPoint_header fl _ ((blocks c).length) (c 0) (c 1) (c 2) (pack rp)
        (rps.map pack ++
          cs.flatMap fun c' => [((blocks c').length : ℤ), c' 0, c' 1, c' 2] ++
            (blocks c').map pack)
        rfl (by simp [hb])]
    simp only []
    refine Eq.trans (Decompress.loop_spec fl blocks hr n _ _ rps c cs ?_ ?_ ?_ ?_ ?_ ?_) ?_
    · exact fun rp' h => hr c rp' (by rw [hb]; exact List.mem_cons_of_mem _ h)
    · show ((blocks c).length : ℤ) - 1 = _
      rw [hb]
      simp
    · rfl
    · rfl
    · exact fun c' h => hne c' (List.mem_cons_of_mem _ h)
    · omega
    · simp only []
      rw [decoded_point fl c rp (hr c rp (by rw [hb]; exact List.mem_cons_self _ _))]
      simp [hb]

end Create

end CompressedPointCloud

end sensor


namespace sensor

namespace CompressedPointCloud

section Claims

variable {F : Type} [LinearOrderedField F]

/-- The only failure of the second loop is the check of the size of a block. -/
theorem encode_error (blocks : (Fin 3 → ℤ) → List RasterPoint) (cells : List (Fin 3 → ℤ))
    (point_data_ : List ℤ) (num_blocks : ℤ) (e : CompressionFailure)
    (h : encode blocks cells point_data_ num_blocks = .error e) :
    e = CompressionFailure.TooManyPointsInBlock := by
  induction cells generalizing point_data_ num_blocks with
  | nil => simp [encode] at h
  | cons c cells ih =>
    rw [encode] at h
    simp only [] at h
    split_ifs at h with h1
    · exact ih _ _ h
    · exact (Except.error.inj h).symm

/-- The constructor fails with "Point out of bounds" exactly when it is given at most
`2³¹ − 1` points of which one is out of bounds. -/
theorem create_eq_error_pointOutOfBounds_iff (fl : FloatArithmetic F) (RoundToInt : F → ℤ)
    (iterate : ((Fin 3 → ℤ) → List RasterPoint) → List (Fin 3 → ℤ))
    (point_cloud : PointCloud F) (hsize : point_cloud.length ≤ 2147483647) :
    create fl RoundToInt iterate point_cloud = .error CompressionFailure.PointOutOfBounds ↔
      ∃ p ∈ point_cloud, ¬ InBounds fl p := by
  unfold create
  simp only []
  rw [if_pos hsize]
  cases hd : distribute fl RoundToInt point_cloud 0 ⟨fun _ => [], 0⟩ with
  | error e =>
    have he := (distribute_eq_error_iff fl RoundToInt point_cloud 0 _ e).mp hd
    simp only []
    rw [he.1]
    exact ⟨fun _ => he.2, fun _ => rfl⟩
  | ok s =>
    simp only []
    constructor
    · intro h
      exfalso
      cases he : encode s.blocks (iterate s.blocks) [] s.num_blocks with
      | error e =>
        rw [he] at h
        have := encode_error _ _ _ _ _ he
        rw [this] at h
        exact absurd (Except.error.inj h) (by decide)
      | ok r =>
        rw [he] at h
        simp only [] at h
        split_ifs at h
        exact absurd (Except.error.inj h) (by decide)
    · rintro ⟨p, hp, hbad⟩
      have := (distribute_eq_error_iff fl RoundToInt point_cloud 0 ⟨fun _ => [], 0⟩
        CompressionFailure.PointOutOfBounds).mpr ⟨rfl, p, hp, hbad⟩
      rw [this] at hd
      exact absurd hd (by simp)

/-- The constructor fails on more than `2³¹ − 1` points, with the check of the size. -/
theorem create_of_too_many_points (fl : FloatArithmetic F) (RoundToInt : F → ℤ)
    (iterate : ((Fin 3 → ℤ) → List RasterPoint) → List (Fin 3 → ℤ))
    (point_cloud : PointCloud F) (hsize : ¬ point_cloud.length ≤ 2147483647) :
    create fl RoundToInt iterate point_cloud = .error CompressionFailure.TooManyPoints := by
  unfold create
  simp only []
  rw [if_neg hsize]

/-- An iterator that filters a list of candidate cells without repetition is correct on
the grid of every point cloud whose blocks are all candidates. -/
theorem iterator_of_candidates (fl : FloatArithmetic F) (RoundToInt : F → ℤ)
    (point_cloud : PointCloud F)
    (candidates : List (Fin 3 → ℤ)) (hnd : candidates.Nodup)
    (hall : ∀ p ∈ point_cloud, block_coordinate fl RoundToInt p ∈ candidates)
    (s : Distribution)
    (hs : distribute fl RoundToInt point_cloud 0 ⟨fun _ => [], 0⟩ = .ok s) :
    IteratorCorrectAt (fun blocks => candidates.filter fun c => !(blocks c).isEmpty)
      s.blocks := by
  have hb : ∀ p ∈ point_cloud, InBounds fl p := by
    intro p hp
    by_contra hbad
    have := (distribute_eq_error_iff fl RoundToInt point_cloud 0 ⟨fun _ => [], 0⟩
      CompressionFailure.PointOutOfBounds).mpr ⟨rfl, p, hp, hbad⟩
    rw [this] at hs
    exact absurd hs (by simp)
  obtain ⟨s', hs', hblocks, -⟩ := distribute_spec fl RoundToInt point_cloud hb 0
    ⟨fun _ => [], 0⟩ [] List.nodup_nil (by simp) (by simp)
  rw [hs] at hs'
  have hss : s = s' := Except.ok.inj hs'
  subst hss
  refine ⟨hnd.filter _, fun c => ?_⟩
  simp only [List.mem_filter, Bool.not_eq_true', List.isEmpty_eq_false]
  constructor
  · exact fun h => h.2
  · intro hne
    refine ⟨?_, hne⟩
    have h1 := hblocks c
    simp only [List.map_nil, List.nil_append] at h1
    have h2 : (point_cloud.filter fun p => decide (block_coordinate fl RoundToInt p = c)) ≠ [] := by
      intro h0
      rw [h0, List.map_nil, List.map_eq_nil_iff] at h1
      exact hne h1
    obtain ⟨p, hp⟩ := List.exists_mem_of_ne_nil _ h2
    rw [List.mem_filter] at hp
    rw [← of_decide_eq_true hp.2]
    exact hall p hp.1

end Claims

end CompressedPointCloud

end sensor


namespace sensor

namespace CompressedPointCloud

section DecodedBlock

variable {F : Type}

/-- The points that `Decompress` reads from a cell are the points of the cell on the
grid, in input order. -/
theorem decoded_block (fl : FloatArithmetic F) (RoundToInt : F → ℤ) (point_cloud : PointCloud F)
    (block : List RasterPoint) (c : Fin 3 → ℤ)
    (hblock : block.map RasterPoint.point =
      (point_cloud.filter fun p => decide (block_coordinate fl RoundToInt p = c)).map
        (raster_point fl RoundToInt)) :
    (block.map fun rp i => fl.mul (fl.ofInt (c i * 1024 + rp.point i)) fl.kPrecision) =
      (point_cloud.filter fun p => decide (block_coordinate fl RoundToInt p = c)).map
        fun p i => fl.mul (fl.ofInt (RoundToInt (fl.div (p i) fl.kPrecision))) fl.kPrecision := by
  have e1 : (block.map fun rp i => fl.mul (fl.ofInt (c i * 1024 + rp.point i)) fl.kPrecision) =
      (block.map RasterPoint.point).map fun pt i =>
        fl.mul (fl.ofInt (c i * 1024 + pt i)) fl.kPrecision := by
    rw [List.map_map]
    rfl
  rw [e1, hblock, List.map_map]
  apply List.map_congr_left
  intro p hp
  have hc : block_coordinate fl RoundToInt p = c := of_decide_eq_true (List.mem_filter.mp hp).2
  funext i
  show fl.mul (fl.ofInt (c i * 1024 + raster_point fl RoundToInt p i)) fl.kPrecision =
    fl.mul (fl.ofInt (raster fl RoundToInt p i)) fl.kPrecision
  rw [← hc, block_coordinate_mul_add]

end DecodedBlock

section RoundTrip

variable {F : Type} [LinearOrderedField F]

/-- C25, amended: for every arithmetic of `float` and every point cloud of at most
`2³¹ − 1` points each of which passes the bounds check of the constructor,
`max(|x|, |y|, |z|) / kPrecision < 2²³` as `float` computes it, with an iterator of the
grid that visits each occupied block once: the constructor succeeds, `size()` is the
number of input points, and `Decompress()` returns the concatenation, over the blocks in
the order of the iterator, of the input points of the block snapped to the grid, in input
order.  A coordinate `c` is snapped to `float(RoundToInt(c / kPrecision)) · kPrecision`,
with the division and the multiplication of `float` and `kPrecision = 0.001f`.  The result
is a permutation of the snapped input points, and the points of one block keep their
relative input order. -/
theorem compress_then_decompress (fl : FloatArithmetic F) (RoundToInt : F → ℤ)
    (iterate : ((Fin 3 → ℤ) → List RasterPoint) → List (Fin 3 → ℤ))
    (point_cloud : PointCloud F) (hsize : point_cloud.length ≤ 2147483647)
    (hb : ∀ p ∈ point_cloud,
      fl.div (max (max |p 0| |p 1|) |p 2|) fl.kPrecision < 2 ^ 23)
    (hit : ∀ s, distribute fl RoundToInt point_cloud 0 ⟨fun _ => [], 0⟩ = .ok s →
      IteratorCorrectAt iterate s.blocks) :
    ∃ (compressed : CompressedPointCloud) (cells : List (Fin 3 → ℤ)),
      create fl RoundToInt iterate point_cloud = .ok compressed ∧
      compressed.size = point_cloud.length ∧ cells.Nodup ∧
      compressed.Decompress fl =
        some (cells.flatMap fun c =>
          (point_cloud.filter fun p => decide (block_coordinate fl RoundToInt p = c)).map
            fun p i =>
              fl.mul (fl.ofInt (RoundToInt (fl.div (p i) fl.kPrecision))) fl.kPrecision) ∧
      (cells.flatMap fun c =>
          (point_cloud.filter fun p => decide (block_coordinate fl RoundToInt p = c)).map
            fun p i =>
              fl.mul (fl.ofInt (RoundToInt (fl.div (p i) fl.kPrecision))) fl.kPrecision).Perm
        (point_cloud.map fun p i =>
          fl.mul (fl.ofInt (RoundToInt (fl.div (p i) fl.kPrecision))) fl.kPrecision) := by
  have hb' : ∀ p ∈ point_cloud, InBounds fl p := fun p hp => hb p hp
  obtain ⟨s, hs, hcreate, hblocks⟩ :=
    create_spec fl RoundToInt iterate point_cloud hsize hb' hit
  obtain ⟨hnd, hmem⟩ := hit s hs
  have hne : ∀ c ∈ iterate s.blocks, s.blocks c ≠ [] := fun c hc => (hmem c).mp hc
  have hall : ∀ p ∈ point_cloud, block_coordinate fl RoundToInt p ∈ iterate s.blocks := by
    intro p hp
    rw [hmem]
    intro h0
    have h1 := hblocks (block_coordinate fl RoundToInt p)
    rw [h0, List.map_nil] at h1
    have h2 : p ∈ point_cloud.filter fun q =>
        decide (block_coordinate fl RoundToInt q = block_coordinate fl RoundToInt p) := by
      rw [List.mem_filter]
      exact ⟨hp, by simp⟩
    have h3 := List.map_eq_nil_iff.mp h1.symm
    rw [h3] at h2
    exact absurd h2 (List.not_mem_nil _)
  have hperm := flatMap_filter_perm_self (block_coordinate fl RoundToInt) point_cloud
    (iterate s.blocks) hnd hall
  have hr : ∀ c, ∀ rp ∈ s.blocks c, ∀ i, 0 ≤ rp.point i ∧ rp.point i < 1024 := by
    intro c rp hrp i
    have h1 : rp.point ∈ (s.blocks c).map RasterPoint.point := List.mem_map_of_mem _ hrp
    rw [hblocks c, List.mem_map] at h1
    obtain ⟨p, -, hp⟩ := h1
    rw [← hp]
    exact raster_point_range fl RoundToInt p i
  have hlen : ∀ c, (s.blocks c).length =
      (point_cloud.filter fun p => decide (block_coordinate fl RoundToInt p = c)).length := by
    intro c
    have := congrArg List.length (hblocks c)
    simpa using this
  have hn : point_cloud.length = ((iterate s.blocks).map fun c => (s.blocks c).length).sum := by
    rw [← hperm.length_eq, length_flatMap_eq_sum]
    congr 1
    exact List.map_congr_left fun c _ => (hlen c).symm
  have hdec := Decompress_spec fl s.blocks hr (iterate s.blocks) hne point_cloud.length hn
  have hblk : ((iterate s.blocks).flatMap fun c =>
      (s.blocks c).map fun rp i => fl.mul (fl.ofInt (c i * 1024 + rp.point i)) fl.kPrecision) =
      (iterate s.blocks).flatMap fun c =>
        (point_cloud.filter fun p => decide (block_coordinate fl RoundToInt p = c)).map
          fun p i => fl.mul (fl.ofInt (RoundToInt (fl.div (p i) fl.kPrecision))) fl.kPrecision := by
    congr 1
    funext c
    exact decoded_block fl RoundToInt point_cloud (s.blocks c) c (hblocks c)
  refine ⟨_, iterate s.blocks, hcreate, rfl, hnd, ?_, ?_⟩
  · rw [hdec, hblk]
  · have e : ((iterate s.blocks).flatMap fun c =>
        (point_cloud.filter fun p => decide (block_coordinate fl RoundToInt p = c)).map
          fun p i => fl.mul (fl.ofInt (RoundToInt (fl.div (p i) fl.kPrecision))) fl.kPrecision) =
        ((iterate s.blocks).flatMap fun c =>
          point_cloud.filter fun p => decide (block_coordinate fl RoundToInt p = c)).map
          fun p i => fl.mul (fl.ofInt (RoundToInt (fl.div (p i) fl.kPrecision))) fl.kPrecision := by
      rw [List.map_flatMap]
    rw [e]
    exact hperm.map _

/-- C26, amended: for every point cloud of at most `2³¹ − 1` points, constructing a
`CompressedPointCloud` fails with "Point out of bounds" if and only if some input point
has a coordinate `c` with `|c| / 0.001 ≥ 2²³`; otherwise, with an iterator of the grid
that visits each occupied block once, construction succeeds.  The quotient of the check
is taken without rounding. -/
theorem compress_fails_iff_out_of_bounds (RoundToInt : F → ℤ)
    (iterate : ((Fin 3 → ℤ) → List RasterPoint) → List (Fin 3 → ℤ))
    (point_cloud : PointCloud F) (hsize : point_cloud.length ≤ 2147483647) :
    (create FloatArithmetic.unrounded RoundToInt iterate point_cloud =
          .error CompressionFailure.PointOutOfBounds ↔
        ∃ p ∈ point_cloud, ∃ i, 2 ^ 23 ≤ |p i| / 0.001) ∧
      ((∀ s,
          distribute FloatArithmetic.unrounded RoundToInt point_cloud 0 ⟨fun _ => [], 0⟩ =
            .ok s →
          IteratorCorrectAt iterate s.blocks) →
        (¬ ∃ p ∈ point_cloud, ∃ i, 2 ^ 23 ≤ |p i| / 0.001) →
        ∃ compressed,
          create FloatArithmetic.unrounded RoundToInt iterate point_cloud = .ok compressed) := by
  have hbad : (∃ p ∈ point_cloud, ¬ InBounds FloatArithmetic.unrounded p) ↔
      ∃ p ∈ point_cloud, ∃ i, 2 ^ 23 ≤ |p i| / 0.001 := by
    constructor
    · rintro ⟨p, hp, h⟩
      rw [inBounds_iff] at h
      push_neg at h
      exact ⟨p, hp, h⟩
    · rintro ⟨p, hp, i, h⟩
      refine ⟨p, hp, fun hin => ?_⟩
      exact absurd ((inBounds_iff p).mp hin i) (not_lt.mpr h)
  refine ⟨(create_eq_error_pointOutOfBounds_iff FloatArithmetic.unrounded RoundToInt iterate
    point_cloud hsize).trans hbad,
    fun hit hgood => ?_⟩
  have hb : ∀ p ∈ point_cloud, InBounds FloatArithmetic.unrounded p := by
    intro p hp
    by_contra h
    exact hgood (hbad.mp ⟨p, hp, h⟩)
  obtain ⟨s, -, hcreate, -⟩ :=
    create_spec FloatArithmetic.unrounded RoundToInt iterate point_cloud hsize hb hit
  exact ⟨_, hcreate⟩

end RoundTrip

end CompressedPointCloud

end sensor


namespace sensor

namespace CompressedPointCloud

/-! ## Concrete point clouds -/

theorem block_coordinate_origin :
    block_coordinate FloatArithmetic.unrounded (round : ℝ → ℤ) (0 : Fin 3 → ℝ) = 0 := by
  funext i
  simp [block_coordinate, raster, FloatArithmetic.unrounded]

theorem replicate_origin_in_bounds (n : ℕ) :
    ∀ p ∈ List.replicate n (0 : Fin 3 → ℝ), ∀ i, |p i| / 0.001 < 2 ^ 23 := by
  intro p hp i
  rw [List.eq_of_mem_replicate hp]
  simp

theorem replicate_origin_iterator (n : ℕ) (s : Distribution)
    (hs : distribute FloatArithmetic.unrounded (round : ℝ → ℤ)
      (List.replicate n (0 : Fin 3 → ℝ)) 0 ⟨fun _ => [], 0⟩ = .ok s) :
    IteratorCorrectAt
      (fun blocks => ([0] : List (Fin 3 → ℤ)).filter fun c => !(blocks c).isEmpty)
      s.blocks :=
  iterator_of_candidates FloatArithmetic.unrounded round _ [0] (List.nodup_singleton _)
    (fun p hp => by
      rw [List.eq_of_mem_replicate hp, block_coordinate_origin]
      exact List.mem_singleton_self _)
    s hs

/-- Counterexample to C25: the cloud of `2³¹` points at the origin.  All of its
coordinates `c` satisfy `|c| / 0.001 < 2²³` and the iterator visits each occupied block
once, but the constructor fails its check of the number of points, so that there is no
compressed point cloud to take the size of or to decompress. -/
theorem compress_rejects_cloud_of_too_many_points :
    (∀ p ∈ List.replicate 2147483648 (0 : Fin 3 → ℝ), ∀ i, |p i| / 0.001 < 2 ^ 23) ∧
      (∀ s,
        distribute FloatArithmetic.unrounded (round : ℝ → ℤ)
            (List.replicate 2147483648 (0 : Fin 3 → ℝ)) 0 ⟨fun _ => [], 0⟩ = .ok s →
        IteratorCorrectAt
          (fun blocks => ([0] : List (Fin 3 → ℤ)).filter fun c => !(blocks c).isEmpty)
          s.blocks) ∧
      create FloatArithmetic.unrounded (round : ℝ → ℤ)
        (fun blocks => ([0] : List (Fin 3 → ℤ)).filter fun c => !(blocks c).isEmpty)
        (List.replicate 2147483648 (0 : Fin 3 → ℝ)) =
        .error CompressionFailure.TooManyPoints :=
  ⟨replicate_origin_in_bounds _, replicate_origin_iterator _,
    create_of_too_many_points _ _ _ _ (by
      rw [List.length_replicate]
      omega)⟩

/-- Counterexample to C26: the cloud of `2³¹` points at the origin.  No point has a
coordinate `c` with `|c| / 0.001 ≥ 2²³` and the iterator visits each occupied block once,
but construction does not succeed: it fails its check of the number of points. -/
theorem compress_fails_without_point_out_of_bounds :
    (¬ ∃ p ∈ List.replicate 2147483648 (0 : Fin 3 → ℝ), ∃ i,
        (2 : ℝ) ^ 23 ≤ |p i| / 0.001) ∧
      (∀ s,
        distribute FloatArithmetic.unrounded (round : ℝ → ℤ)
            (List.replicate 2147483648 (0 : Fin 3 → ℝ)) 0 ⟨fun _ => [], 0⟩ = .ok s →
        IteratorCorrectAt
          (fun blocks => ([0] : List (Fin 3 → ℤ)).filter fun c => !(blocks c).isEmpty)
          s.blocks) ∧
      ∀ compressed,
        create FloatArithmetic.unrounded (round : ℝ → ℤ)
          (fun blocks => ([0] : List (Fin 3 → ℤ)).filter fun c => !(blocks c).isEmpty)
          (List.replicate 2147483648 (0 : Fin 3 → ℝ)) ≠ .ok compressed := by
  refine ⟨?_, replicate_origin_iterator _, fun compressed h => ?_⟩
  · rintro ⟨p, hp, i, h⟩
    exact absurd (replicate_origin_in_bounds _ p hp i) (not_lt.mpr h)
  · rw [create_of_too_many_points _ _ _ _ (by
      rw [List.length_replicate]
      omega)] at h
    exact absurd h (by simp)

theorem block_coordinate_two :
    block_coordinate FloatArithmetic.unrounded (round : ℝ → ℤ) (![2, 0, 0] : Fin 3 → ℝ) =
      ![1, 0, 0] := by
  have e : (2 : ℝ) / 0.001 = 2000 := by
    norm_num
  funext i
  fin_cases i
  · simp [block_coordinate, raster, FloatArithmetic.unrounded, e, kBitsPerCoordinate]
  · simp [block_coordinate, raster, FloatArithmetic.unrounded]
  · simp [block_coordinate, raster, FloatArithmetic.unrounded]

/-- Witness of C25, amended: the points (0, 0, 0) and (2, 0, 0), which lie in different
blocks, with the arithmetic without rounding and rounding to the nearest integer. -/
theorem compress_then_decompress_witness :
    ([0, ![2, 0, 0]] : PointCloud ℝ).length ≤ 2147483647 ∧
      (∀ p ∈ ([0, ![2, 0, 0]] : PointCloud ℝ),
        (FloatArithmetic.unrounded : FloatArithmetic ℝ).div (max (max |p 0| |p 1|) |p 2|)
          (FloatArithmetic.unrounded : FloatArithmetic ℝ).kPrecision < 2 ^ 23) ∧
      ∃ (compressed : CompressedPointCloud) (decompressed : PointCloud ℝ),
        create FloatArithmetic.unrounded (round : ℝ → ℤ)
          (fun blocks =>
            ([0, ![1, 0, 0]] : List (Fin 3 → ℤ)).filter fun c => !(blocks c).isEmpty)
          ([0, ![2, 0, 0]] : PointCloud ℝ) = .ok compressed ∧
        compressed.size = 2 ∧
        compressed.Decompress FloatArithmetic.unrounded = some decompressed ∧
        decompressed.Perm
          (([0, ![2, 0, 0]] : PointCloud ℝ).map fun p i =>
            ((round (p i / 0.001) : ℤ) : ℝ) * 0.001) := by
  have hsize : ([0, ![2, 0, 0]] : PointCloud ℝ).length ≤ 2147483647 := by
    simp
  have hb : ∀ p ∈ ([0, ![2, 0, 0]] : PointCloud ℝ),
      (FloatArithmetic.unrounded : FloatArithmetic ℝ).div (max (max |p 0| |p 1|) |p 2|)
        (FloatArithmetic.unrounded : FloatArithmetic ℝ).kPrecision < 2 ^ 23 := by
    intro p hp
    refine (inBounds_iff p).mpr fun i => ?_
    simp only [List.mem_cons, List.mem_singleton, List.not_mem_nil, or_false] at hp
    rcases hp with rfl | rfl
    · simp
    · fin_cases i
      · simp
        norm_num
      · simp
      · simp
  obtain ⟨compressed, cells, h1, h2, -, h3, h4⟩ := compress_then_decompress
    FloatArithmetic.unrounded (round : ℝ → ℤ)
    (fun blocks => ([0, ![1, 0, 0]] : List (Fin 3 → ℤ)).filter fun c => !(blocks c).isEmpty)
    ([0, ![2, 0, 0]] : PointCloud ℝ) hsize hb
    (iterator_of_candidates FloatArithmetic.unrounded round _ [0, ![1, 0, 0]]
      (by
        rw [List.nodup_cons]
        refine ⟨?_, List.nodup_singleton _⟩
        simp only [List.mem_singleton]
        intro h
        have := congrFun h 0
        simp at this)
      (fun p hp => by
        simp only [List.mem_cons, List.mem_singleton, List.not_mem_nil, or_false] at hp
        rcases hp with rfl | rfl
        · rw [block_coordinate_origin]
          simp
        · rw [block_coordinate_two]
          simp))
  exact ⟨hsize, hb, compressed, _, h1, h2, h3, h4⟩

/-- Witness of C26, amended: the point (10000, 0, 0), for which
`|10000| / 0.001 = 10⁷ ≥ 2²³`. -/
theorem compress_fails_iff_out_of_bounds_witness :
    ([![10000, 0, 0]] : PointCloud ℝ).length ≤ 2147483647 ∧
      create FloatArithmetic.unrounded (round : ℝ → ℤ) (fun _ => [])
          ([![10000, 0, 0]] : PointCloud ℝ) =
        .error CompressionFailure.PointOutOfBounds := by
  have hsize : ([![10000, 0, 0]] : PointCloud ℝ).length ≤ 2147483647 := by
    simp
  refine ⟨hsize, (compress_fails_iff_out_of_bounds (round : ℝ → ℤ) (fun _ => [])
    ([![10000, 0, 0]] : PointCloud ℝ) hsize).1.mpr
      ⟨![10000, 0, 0], List.mem_singleton_self _, 0, ?_⟩⟩
  norm_num

end CompressedPointCloud

end sensor

/-! ## `Predict` with an affine transition is the linear Kalman prediction -/

namespace kalman_filter

open Matrix

namespace UnscentedKalmanFilter

/-- C34, amended: in exact arithmetic, for every N ≥ 1, with the default delta operators,
an affine transition `g(x) = A·x + b`, a belief `(μ, Σ)` whose covariance is symmetric positive
semidefinite and a process noise with mean `m_ε` and symmetric covariance `Q`, `Predict`
succeeds and the new belief has the mean `A·μ + b + m_ε` and the covariance
`A·Σ·Aᵀ + Q`. -/
theorem predict_affine_is_linear_kalman_prediction {N : ℕ} (hN : 0 < N) (ops : FloatOps ℝ)
    (hx : ExactArithmetic ops)
    (solver : Matrix (Fin N) (Fin N) ℝ → SelfAdjointEigenSolver ℝ N)
    (mu : Fin N → ℝ) (Sigma : Matrix (Fin N) (Fin N) ℝ) (hSigma : Sigma.PosSemidef)
    (hs : SolverCorrectAt solver Sigma)
    (A : Matrix (Fin N) (Fin N) ℝ) (b m_eps : Fin N → ℝ) (Q : Matrix (Fin N) (Fin N) ℝ)
    (hQ : Q.IsSymm) :
    ∃ next : UnscentedKalmanFilter ℝ N,
      (create ⟨mu, Sigma⟩).Predict ops solver (fun x => A *ᵥ x + b) ⟨m_eps, Q⟩ = .ok next ∧
        next.GetBelief.GetMean = A *ᵥ mu + b + m_eps ∧
        next.GetBelief.GetCovariance = A * Sigma * Aᵀ + Q :=
  ⟨_, Predict_affine hN ops hx solver ⟨mu, Sigma⟩ hSigma hs A b ⟨m_eps, Q⟩
    (CheckSymmetric_of_isSymm ops hx Q hQ), rfl, rfl⟩

/-- Witness of C34: the belief with mean (1, 2) and covariance diag(3, 4), the transition
`g(x, y) = (x + y + 1, y)` and the noise with mean (0, 1) and covariance diag(1, 2). -/
theorem predict_affine_is_linear_kalman_prediction_witness :
    0 < 2 ∧ ExactArithmetic ⟨Real.sqrt, fun _ => false⟩ ∧
      (Matrix.diagonal ![(3 : ℝ), 4]).PosSemidef ∧
      SolverCorrectAt diagonalSolver (Matrix.diagonal ![(3 : ℝ), 4]) ∧
      (Matrix.diagonal ![(1 : ℝ), 2]).IsSymm ∧
      ∃ next : UnscentedKalmanFilter ℝ 2,
        (create ⟨![1, 2], Matrix.diagonal ![(3 : ℝ), 4]⟩).Predict ⟨Real.sqrt, fun _ => false⟩
            diagonalSolver (fun x => (!![1, 1; 0, 1] : Matrix (Fin 2) (Fin 2) ℝ) *ᵥ x + ![1, 0])
            ⟨![0, 1], Matrix.diagonal ![(1 : ℝ), 2]⟩ = .ok next ∧
          next.GetBelief.GetMean =
            (!![1, 1; 0, 1] : Matrix (Fin 2) (Fin 2) ℝ) *ᵥ ![1, 2] + ![1, 0] + ![0, 1] ∧
          next.GetBelief.GetCovariance =
            (!![1, 1; 0, 1] : Matrix (Fin 2) (Fin 2) ℝ) * Matrix.diagonal ![(3 : ℝ), 4] *
                (!![1, 1; 0, 1] : Matrix (Fin 2) (Fin 2) ℝ)ᵀ +
              Matrix.diagonal ![(1 : ℝ), 2] :=
  have hpsd : (Matrix.diagonal ![(3 : ℝ), 4]).PosSemidef :=
    posSemidef_diagonal_real _ (by
      intro i
      fin_cases i
      · norm_num
      · norm_num)
  ⟨two_pos, exactArithmetic_real, hpsd, diagonalSolver_correct _, Matrix.diagonal_transpose _,
    predict_affine_is_linear_kalman_prediction two_pos _ exactArithmetic_real diagonalSolver
      ![1, 2] (Matrix.diagonal ![(3 : ℝ), 4]) hpsd (diagonalSolver_correct _)
      (!![1, 1; 0, 1] : Matrix (Fin 2) (Fin 2) ℝ) ![1, 0] ![0, 1]
      (Matrix.diagonal ![(1 : ℝ), 2]) (Matrix.diagonal_transpose _)⟩

end UnscentedKalmanFilter

end kalman_filter

/-! ## `ComputeMean` with the default delta operators -/

namespace kalman_filter

open Matrix

namespace UnscentedKalmanFilter

variable {F : Type} [LinearOrderedField F] {N : ℕ}

/-- With the default `compute_delta` the weighted error at an estimate is the weighted sum
of the states minus the estimate, because the weights sum to 1. -/
theorem ComputeWeightedError_create (hN : 0 < N) (belief : GaussianDistribution F N)
    (mean_estimate : Fin N → F) (states : List (Fin N → F)) :
    (create belief).ComputeWeightedError mean_estimate states =
      ((kMeanWeight0 N : F) • states.getD 0 0 +
        ∑ i : Fin N,
          ((kMeanWeightI N : F) • states.getD (2 * i.val + 1) 0 +
            (kMeanWeightI N : F) • states.getD (2 * i.val + 2) 0)) - mean_estimate := by
  have hcd : ∀ o t : Fin N → F, (create belief).compute_delta_ o t = t - o := fun _ _ => rfl
  have hw : (kMeanWeight0 N : F) + 2 * N * kMeanWeightI N = 1 := mean_weights_sum hN
  rw [ComputeWeightedError_eq]
  funext j
  simp only [hcd, Pi.add_apply, Pi.sub_apply, Pi.smul_apply, Finset.sum_apply, smul_eq_mul,
    mul_sub, Finset.sum_add_distrib, Finset.sum_sub_distrib, Finset.sum_const,
    Finset.card_univ, Fintype.card_fin, nsmul_eq_mul]
  linear_combination (-(mean_estimate j)) * hw

/-- With the default delta operators the first candidate of the line search from
`states[0]`, the one of step size 1, is the weighted sum `m` of the states; its weighted
error is 0 and it is accepted. -/
theorem lineSearch_create (hN : 0 < N) (ops : FloatOps F) (hsqrt : ops.sqrt 0 = 0)
    (belief : GaussianDistribution F N) (states : List (Fin N → F)) (m : Fin N → F)
    (hm : m = (kMeanWeight0 N : F) • states.getD 0 0 +
      ∑ i : Fin N,
        ((kMeanWeightI N : F) • states.getD (2 * i.val + 1) 0 +
          (kMeanWeightI N : F) • states.getD (2 * i.val + 2) 0))
    (h : vecNorm ops (m - states.getD 0 0) > 1e-9) (fuel : ℕ) :
    (create belief).lineSearch ops states (states.getD 0 0) (m - states.getD 0 0)
      (fuel + 1) 1 = .ok (m, 0) := by
  have hadd : (create belief).add_delta_ (states.getD 0 0)
      ((1 : F) • (m - states.getD 0 0)) = m := by
    show states.getD 0 0 + (1 : F) • (m - states.getD 0 0) = m
    rw [one_smul, add_sub_cancel]
  have herr : (create belief).ComputeWeightedError m states = 0 := by
    rw [ComputeWeightedError_create hN, ← hm, sub_self]
  have hzero : vecNorm ops (0 : Fin N → F) = 0 := by
    simp [vecNorm, hsqrt]
  conv_lhs => rw [lineSearch]
  simp only []
  rw [hadd, herr, hzero, if_pos (lt_trans (by norm_num) h)]

/-- C32, amended: in exact arithmetic, for every N ≥ 1, every scalar field and every norm
with `sqrt 0 = 0`, with the default delta operators and every list of 2N+1 states, let
`m = w₀·states₀ + Σᵢ wᵢ·statesᵢ`.  The weighted error at `states₀` is `m − states₀`.  When
`‖m − states₀‖ ≤ 1e-9`, `ComputeMean` returns `states₀` without an iteration.  When
`‖m − states₀‖ > 1e-9`, the line search accepts its first candidate, of step size 1,
which is `m` with the weighted error 0, and `ComputeMean` returns `m` after this one
outer iteration.  In both cases `ComputeMean` does not fail. -/
theorem ComputeMean_default_delta (hN : 0 < N) (ops : FloatOps F) (hsqrt : ops.sqrt 0 = 0)
    (belief : GaussianDistribution F N) (states : List (Fin N → F))
    (hlen : states.length = 2 * N + 1) (m : Fin N → F)
    (hm : m = (kMeanWeight0 N : F) • states.getD 0 0 +
      ∑ i : Fin N,
        ((kMeanWeightI N : F) • states.getD (2 * i.val + 1) 0 +
          (kMeanWeightI N : F) • states.getD (2 * i.val + 2) 0)) :
    (create belief).ComputeWeightedError (states.getD 0 0) states = m - states.getD 0 0 ∧
      (vecNorm ops (m - states.getD 0 0) ≤ 1e-9 →
        (create belief).ComputeMean ops states = .ok (states.getD 0 0)) ∧
      (vecNorm ops (m - states.getD 0 0) > 1e-9 →
        (create belief).add_delta_ (states.getD 0 0) ((1 : F) • (m - states.getD 0 0)) = m ∧
          (create belief).lineSearch ops states (states.getD 0 0) (m - states.getD 0 0) 1 1 =
            .ok (m, 0) ∧
          (create belief).lineSearch ops states (states.getD 0 0) (m - states.getD 0 0) 10 1 =
            .ok (m, 0) ∧
          vecNorm ops (0 : Fin N → F) ≤ 1e-9 ∧
          (∃ xs es : ℕ → (Fin N → F),
            (create belief).ComputeMeanRun ops states xs es 1 ∧ xs 1 = m ∧ es 1 = 0) ∧
          (create belief).ComputeMean ops states = .ok m) ∧
      ∃ r, (create belief).ComputeMean ops states = .ok r := by
  have he0 : (create belief).ComputeWeightedError (states.getD 0 0) states =
      m - states.getD 0 0 := by
    rw [ComputeWeightedError_create hN, ← hm]
  have hzero : vecNorm ops (0 : Fin N → F) ≤ 1e-9 := by
    have e : vecNorm ops (0 : Fin N → F) = 0 := by simp [vecNorm, hsqrt]
    rw [e]
    norm_num
  have hsmall : vecNorm ops (m - states.getD 0 0) ≤ 1e-9 →
      (create belief).ComputeMean ops states = .ok (states.getD 0 0) := by
    intro h
    apply ComputeMean_of_error_le ops _ _ hlen
    rw [he0]
    exact h
  have hrun : vecNorm ops (m - states.getD 0 0) > 1e-9 →
      (create belief).ComputeMeanRun ops states
        (fun j => if j = 0 then states.getD 0 0 else m)
        (fun j => if j = 0 then m - states.getD 0 0 else 0) 1 := by
    intro h
    refine ⟨rfl, ?_, fun j hj => ?_⟩
    · simp only [if_true]
      exact he0.symm
    · obtain rfl : j = 0 := by omega
      simp only [if_true, zero_add, if_neg one_ne_zero]
      exact ⟨h, lineSearch_create hN ops hsqrt belief states m hm h 9⟩
  have hlarge : vecNorm ops (m - states.getD 0 0) > 1e-9 →
      (create belief).ComputeMean ops states = .ok m := by
    intro h
    have hr := ComputeMean_eq_ok_of_run ops (create belief) states hlen _ _ 1 (hrun h)
      (by norm_num) (by simpa using hzero)
    simpa using hr
  refine ⟨he0, hsmall, fun h => ⟨?_, lineSearch_create hN ops hsqrt belief states m hm h 0,
    lineSearch_create hN ops hsqrt belief states m hm h 9, hzero,
    ⟨_, _, hrun h, by simp, by simp⟩, hlarge h⟩, ?_⟩
  · show states.getD 0 0 + (1 : F) • (m - states.getD 0 0) = m
    rw [one_smul, add_sub_cancel]
  · by_cases h : vecNorm ops (m - states.getD 0 0) > 1e-9
    · exact ⟨_, hlarge h⟩
    · exact ⟨_, hsmall (not_lt.mp h)⟩

/-- Witness of C32: the one-dimensional filter on the states `[1, 2, 4]`. -/
theorem ComputeMean_default_delta_witness :
    0 < 1 ∧ Real.sqrt 0 = 0 ∧ ([![1], ![2], ![4]] : List (Fin 1 → ℝ)).length = 2 * 1 + 1 ∧
      ((create ⟨![0], !![1]⟩ : UnscentedKalmanFilter ℝ 1).ComputeWeightedError
          (([![1], ![2], ![4]] : List (Fin 1 → ℝ)).getD 0 0) [![1], ![2], ![4]] =
          ((kMeanWeight0 1 : ℝ) • ([![1], ![2], ![4]] : List (Fin 1 → ℝ)).getD 0 0 +
            ∑ i : Fin 1,
              ((kMeanWeightI 1 : ℝ) •
                  ([![1], ![2], ![4]] : List (Fin 1 → ℝ)).getD (2 * i.val + 1) 0 +
                (kMeanWeightI 1 : ℝ) •
                  ([![1], ![2], ![4]] : List (Fin 1 → ℝ)).getD (2 * i.val + 2) 0)) -
            ([![1], ![2], ![4]] : List (Fin 1 → ℝ)).getD 0 0) ∧
      ∃ r, (create ⟨![0], !![1]⟩ : UnscentedKalmanFilter ℝ 1).ComputeMean
        ⟨Real.sqrt, fun _ => false⟩ [![1], ![2], ![4]] = .ok r :=
  have h := ComputeMean_default_delta one_pos (⟨Real.sqrt, fun _ => false⟩ : FloatOps ℝ)
    Real.sqrt_zero ⟨![0], !![1]⟩ ([![1], ![2], ![4]] : List (Fin 1 → ℝ)) rfl _ rfl
  ⟨one_pos, Real.sqrt_zero, rfl, h.1, h.2.2.2⟩

end UnscentedKalmanFilter

end kalman_filter

/-! ## Termination of `ComputeMean` -/

namespace kalman_filter

open Matrix

namespace UnscentedKalmanFilter

variable {F : Type} [LinearOrderedField F] {N : ℕ}

/-- Every run of the outer loop entered with `iterations < 20` ends in one of three ways
after `k` accepted line searches: it returns with `iterations + k < 20`, it fails in the
line search of the next round with `iterations + k < 20`, or the `k`-th accepted line
search raises the counter to 20 and the loop fails with the iteration cap. -/
theorem meanLoop_classify (ops : FloatOps F) (self : UnscentedKalmanFilter F N)
    (states : List (Fin N → F)) (fuel iterations : ℕ) (x e : Fin N → F)
    (hfuel : 20 ≤ iterations + fuel) (hit : iterations < 20) :
    ∃ (xs es : ℕ → (Fin N → F)) (k : ℕ), xs 0 = x ∧ es 0 = e ∧
      (∀ j, j < k →
        vecNorm ops (es j) > 1e-9 ∧
          self.lineSearch ops states (xs j) (es j) 10 1 = .ok (xs (j + 1), es (j + 1))) ∧
      ((iterations + k < 20 ∧ vecNorm ops (es k) ≤ 1e-9 ∧
          meanLoop ops self states fuel iterations x e = .ok (xs k)) ∨
        (iterations + k < 20 ∧ vecNorm ops (es k) > 1e-9 ∧
          self.lineSearch ops states (xs k) (es k) 10 1 = .error Failure.StepSizeTooSmall ∧
          meanLoop ops self states fuel iterations x e = .error Failure.StepSizeTooSmall) ∨
        (iterations + k = 20 ∧
          meanLoop ops self states fuel iterations x e = .error Failure.TooManyIterations)) := by
  induction fuel generalizing iterations x e with
  | zero => exact absurd hfuel (by omega)
  | succ fuel ih =>
    by_cases h1 : vecNorm ops e > 1e-9
    · cases hls : lineSearch ops self states x e 10 1 with
      | error f =>
        have hf := lineSearch_error ops self states x e 10 1 f hls
        subst hf
        refine ⟨fun _ => x, fun _ => e, 0, rfl, rfl, fun j hj => absurd hj (by omega),
          Or.inr (Or.inl ⟨by omega, h1, hls, ?_⟩)⟩
        conv_lhs => rw [meanLoop]
        rw [if_pos h1, hls]
      | ok r =>
        obtain ⟨x1, e1⟩ := r
        by_cases h2 : iterations + 1 < 20
        · have hml : meanLoop ops self states (fuel + 1) iterations x e =
              meanLoop ops self states fuel (iterations + 1) x1 e1 := by
            conv_lhs => rw [meanLoop]
            rw [if_pos h1, hls]
            simp only []
            rw [if_pos h2]
          obtain ⟨xs, es, k, hx0, he0, hrun, hend⟩ := ih (iterations + 1) x1 e1 (by omega) h2
          refine ⟨fun j => if j = 0 then x else xs (j - 1),
            fun j => if j = 0 then e else es (j - 1), k + 1, rfl, rfl, fun j hj => ?_, ?_⟩
          · by_cases hj0 : j = 0
            · subst hj0
              simp only [if_true, zero_add, if_neg one_ne_zero, Nat.sub_self, hx0, he0]
              exact ⟨h1, hls⟩
            · obtain ⟨i, rfl⟩ : ∃ i, j = i + 1 := ⟨j - 1, by omega⟩
              simp only [if_neg (Nat.succ_ne_zero _), Nat.add_sub_cancel]
              exact hrun i (by omega)
          · simp only [if_neg (Nat.succ_ne_zero _), Nat.add_sub_cancel]
            rw [hml]
            rcases hend with h | h | h
            · exact Or.inl ⟨by omega, h.2.1, h.2.2⟩
            · exact Or.inr (Or.inl ⟨by omega, h.2.1, h.2.2.1, h.2.2.2⟩)
            · exact Or.inr (Or.inr ⟨by omega, h.2⟩)
        · refine ⟨fun j => if j = 0 then x else x1, fun j => if j = 0 then e else e1, 1,
            rfl, rfl, fun j hj => ?_, Or.inr (Or.inr ⟨by omega, ?_⟩)⟩
          · obtain rfl : j = 0 := by omega
            simp only [if_true, zero_add, if_neg one_ne_zero]
            exact ⟨h1, hls⟩
          · conv_lhs => rw [meanLoop]
            rw [if_pos h1, hls]
            simp only []
            rw [if_neg h2]
    · refine ⟨fun _ => x, fun _ => e, 0, rfl, rfl, fun j hj => absurd hj (by omega),
        Or.inl ⟨by omega, not_lt.mp h1, ?_⟩⟩
      conv_lhs => rw [meanLoop]
      rw [if_neg h1]

/-- C33: for every scalar field, norm, pair of delta operators and list of 2N+1 states,
`ComputeMean` ends after finitely many steps.  The bounds 20 and 10 on the rounds of the
two loops are never the reason of a result: allowing more rounds changes neither the
outer loop nor any line search.  The run completes `k` outer iterations, each with a
line search of at most 10 candidates that accepts one, and then either returns
(`k ≤ 19`), or fails in the line search of the next iteration after 10 candidates
(`k ≤ 19`), or fails with the iteration cap in a 20th iteration, whose line search has
accepted a candidate. -/
theorem ComputeMean_terminates (ops : FloatOps F) (self : UnscentedKalmanFilter F N)
    (states : List (Fin N → F)) (hlen : states.length = 2 * N + 1) :
    (∀ (extra : ℕ) (x e : Fin N → F),
        meanLoop ops self states (20 + extra) 0 x e = meanLoop ops self states 20 0 x e) ∧
      (∀ (extra : ℕ) (x e : Fin N → F),
        lineSearch ops self states x e (10 + extra) 1 = lineSearch ops self states x e 10 1) ∧
      ∃ (xs es : ℕ → (Fin N → F)) (k : ℕ), self.ComputeMeanRun ops states xs es k ∧
        ((k ≤ 19 ∧ vecNorm ops (es k) ≤ 1e-9 ∧ self.ComputeMean ops states = .ok (xs k)) ∨
          (k ≤ 19 ∧ vecNorm ops (es k) > 1e-9 ∧
            self.lineSearch ops states (xs k) (es k) 10 1 =
              .error Failure.StepSizeTooSmall ∧
            self.ComputeMean ops states = .error Failure.StepSizeTooSmall) ∨
          (k = 20 ∧ self.ComputeMean ops states = .error Failure.TooManyIterations)) := by
  refine ⟨fun extra x e => meanLoop_twenty ops self states extra x e,
    fun extra x e => lineSearch_ten ops self states x e extra, ?_⟩
  obtain ⟨xs, es, k, hx0, he0, hrun, hend⟩ := meanLoop_classify ops self states 20 0
    (states.getD 0 0) (self.ComputeWeightedError (states.getD 0 0) states) (by omega)
    (by omega)
  have hcm : self.ComputeMean ops states = meanLoop ops self states 20 0 (states.getD 0 0)
      (self.ComputeWeightedError (states.getD 0 0) states) := by
    unfold ComputeMean
    rw [if_pos hlen]
  refine ⟨xs, es, k, ⟨hx0, by rw [he0, hx0], hrun⟩, ?_⟩
  rw [hcm]
  rcases hend with h | h | h
  · exact Or.inl ⟨by omega, h.2.1, h.2.2⟩
  · exact Or.inr (Or.inl ⟨by omega, h.2.1, h.2.2.1, h.2.2.2⟩)
  · exact Or.inr (Or.inr ⟨by omega, h.2⟩)

/-- Witness of C33: the one-dimensional filter with the default delta operators on the
states `[1, 2, 4]`. -/
theorem ComputeMean_terminates_witness :
    ([![1], ![2], ![4]] : List (Fin 1 → ℝ)).length = 2 * 1 + 1 ∧
      ∃ (xs es : ℕ → (Fin 1 → ℝ)) (k : ℕ),
        (create ⟨![0], !![1]⟩ : UnscentedKalmanFilter ℝ 1).ComputeMeanRun
          ⟨Real.sqrt, fun _ => false⟩ [![1], ![2], ![4]] xs es k ∧
        ((k ≤ 19 ∧ vecNorm ⟨Real.sqrt, fun _ => false⟩ (es k) ≤ 1e-9 ∧
            (create ⟨![0], !![1]⟩ : UnscentedKalmanFilter ℝ 1).ComputeMean
              ⟨Real.sqrt, fun _ => false⟩ [![1], ![2], ![4]] = .ok (xs k)) ∨
          (k ≤ 19 ∧ vecNorm ⟨Real.sqrt, fun _ => false⟩ (es k) > 1e-9 ∧
            (create ⟨![0], !![1]⟩ : UnscentedKalmanFilter ℝ 1).lineSearch
                ⟨Real.sqrt, fun _ => false⟩ [![1], ![2], ![4]] (xs k) (es k) 10 1 =
              .error Failure.StepSizeTooSmall ∧
            (create ⟨![0], !![1]⟩ : UnscentedKalmanFilter ℝ 1).ComputeMean
              ⟨Real.sqrt, fun _ => false⟩ [![1], ![2], ![4]] =
                .error Failure.StepSizeTooSmall) ∨
          (k = 20 ∧
            (create ⟨![0], !![1]⟩ : UnscentedKalmanFilter ℝ 1).ComputeMean
              ⟨Real.sqrt, fun _ => false⟩ [![1], ![2], ![4]] =
                .error Failure.TooManyIterations)) :=
  ⟨rfl, (ComputeMean_terminates (⟨Real.sqrt, fun _ => false⟩ : FloatOps ℝ)
    (create ⟨![0], !![1]⟩ : UnscentedKalmanFilter ℝ 1) [![1], ![2], ![4]] rfl).2.2⟩

end UnscentedKalmanFilter

end kalman_filter

/-! ## `MatrixSqrt` on a matrix with a small negative eigenvalue -/

namespace kalman_filter

open Matrix

/-- Two diagonal matrices with the same conjugate by a matrix of orthonormal columns are
equal. -/
theorem diagonal_eq_of_conj_eq {F : Type} [LinearOrderedField F] {N : ℕ}
    (V : Matrix (Fin N) (Fin N) F) (hV : Vᵀ * V = 1) (d1 d2 : Fin N → F)
    (h : V * Matrix.diagonal d1 * Vᵀ = V * Matrix.diagonal d2 * Vᵀ) : d1 = d2 := by
  have e : ∀ d : Fin N → F, Vᵀ * (V * Matrix.diagonal d * Vᵀ) * V = Matrix.diagonal d := by
    intro d
    calc Vᵀ * (V * Matrix.diagonal d * Vᵀ) * V
        = (Vᵀ * V) * Matrix.diagonal d * (Vᵀ * V) := by simp only [Matrix.mul_assoc]
      _ = Matrix.diagonal d := by rw [hV, Matrix.one_mul, Matrix.mul_one]
  have hd : Matrix.diagonal d1 = Matrix.diagonal d2 := by
    rw [← e d1, ← e d2, h]
  exact Matrix.diagonal_injective hd

/-- C31: in exact arithmetic, for every N ≥ 1 and every symmetric matrix `A` with the
eigendecomposition `A = V·diag(λ)·Vᵀ` of the solver whose minimum eigenvalue lies strictly
between `−1e-5` and 0, `MatrixSqrt(A)` succeeds and returns
`B = V·diag(√max(λᵢ, 0))·Vᵀ`; `B·Bᵀ = V·diag(max(λᵢ, 0))·Vᵀ`, which is `A` with every
negative eigenvalue replaced by 0, and `B·Bᵀ ≠ A`. -/
theorem MatrixSqrt_clamps_small_negative_eigenvalues {N : ℕ} (hN : 0 < N) (ops : FloatOps ℝ)
    (hx : ExactArithmetic ops)
    (solver : Matrix (Fin N) (Fin N) ℝ → SelfAdjointEigenSolver ℝ N)
    (A : Matrix (Fin N) (Fin N) ℝ) (hA : A.IsSymm) (hs : SolverCorrectAt solver A)
    (hlo : -1e-5 < minCoeff (solver A).eigenvalues)
    (hhi : minCoeff (solver A).eigenvalues < 0) :
    A = (solver A).eigenvectors * Matrix.diagonal (solver A).eigenvalues *
        (solver A).eigenvectorsᵀ ∧
      ∃ B, MatrixSqrt ops solver A = .ok B ∧
        B = (solver A).eigenvectors *
            Matrix.diagonal (fun i => Real.sqrt (max ((solver A).eigenvalues i) 0)) *
            (solver A).eigenvectorsᵀ ∧
        B * Bᵀ = (solver A).eigenvectors *
            Matrix.diagonal (fun i => max ((solver A).eigenvalues i) 0) *
            (solver A).eigenvectorsᵀ ∧
        B * Bᵀ ≠ A := by
  have hsymm : ((A + Aᵀ).map fun x => x / 2) = A := symmetrize_of_isSymm A hA
  have hd : IsEigenDecomposition A (solver A) := by
    have h := hs
    unfold SolverCorrectAt at h
    rwa [hsymm] at h
  have hok := MatrixSqrt_eq_ok ops solver A (CheckSymmetric_of_isSymm ops hx A hA)
    (by rw [hsymm]; exact hlo)
  rw [hsymm, hx.1] at hok
  have hBB := (sqrt_factor_spec (solver A).eigenvectors (solver A).eigenvalues hd.1).2
  refine ⟨hd.2, _, hok, rfl, hBB, fun hne => ?_⟩
  rw [hBB] at hne
  have hev := diagonal_eq_of_conj_eq (solver A).eigenvectors hd.1 _ _
    (hne.trans hd.2)
  obtain ⟨i, hi⟩ := exists_minCoeff_eq hN (solver A).eigenvalues
  have hi0 : (solver A).eigenvalues i < 0 := hi ▸ hhi
  have hmax := congrFun hev i
  simp only [] at hmax
  exact absurd (hmax ▸ le_max_right ((solver A).eigenvalues i) 0) (not_le.mpr hi0)

/-- Witness of C31: the matrix diag(−1e-6, 1). -/
theorem MatrixSqrt_clamps_small_negative_eigenvalues_witness :
    0 < 2 ∧ ExactArithmetic ⟨Real.sqrt, fun _ => false⟩ ∧
      (Matrix.diagonal ![(-1e-6 : ℝ), 1]).IsSymm ∧
      SolverCorrectAt diagonalSolver (Matrix.diagonal ![(-1e-6 : ℝ), 1]) ∧
      -1e-5 < minCoeff (diagonalSolver (Matrix.diagonal ![(-1e-6 : ℝ), 1])).eigenvalues ∧
      minCoeff (diagonalSolver (Matrix.diagonal ![(-1e-6 : ℝ), 1])).eigenvalues < 0 ∧
      ∃ B, MatrixSqrt ⟨Real.sqrt, fun _ => false⟩ diagonalSolver
            (Matrix.diagonal ![(-1e-6 : ℝ), 1]) = .ok B ∧
        B * Bᵀ ≠ Matrix.diagonal ![(-1e-6 : ℝ), 1] :=
  have hmin : minCoeff (diagonalSolver (Matrix.diagonal ![(-1e-6 : ℝ), 1])).eigenvalues =
      -1e-6 := by
    simp [minCoeff, diagonalSolver, List.ofFn_succ]
    norm_num
  have hlo : -1e-5 < minCoeff (diagonalSolver (Matrix.diagonal ![(-1e-6 : ℝ), 1])).eigenvalues := by
    rw [hmin]
    norm_num
  have hhi : minCoeff (diagonalSolver (Matrix.diagonal ![(-1e-6 : ℝ), 1])).eigenvalues < 0 := by
    rw [hmin]
    norm_num
  have h := MatrixSqrt_clamps_small_negative_eigenvalues two_pos _ exactArithmetic_real
    diagonalSolver (Matrix.diagonal ![(-1e-6 : ℝ), 1]) (Matrix.diagonal_transpose _)
    (diagonalSolver_correct _) hlo hhi
  ⟨two_pos, exactArithmetic_real, Matrix.diagonal_transpose _, diagonalSolver_correct _, hlo, hhi,
    h.2.elim fun B hB => ⟨B, hB.1, hB.2.2.2⟩⟩

end kalman_filter

/-! ## The filter in binary64 arithmetic -/

namespace kalman_filter

namespace binary64

/-- The bisection of `leadingBit` computes `Nat.log2`. -/
theorem leadingBit_eq (n : ℕ) (hn : n ≠ 0) : leadingBit n = Nat.log2 n := by
  unfold leadingBit
  simp only []
  split_ifs with h
  · rw [Nat.log2_eq_log_two]
    exact ((Nat.log_eq_iff (Or.inr ⟨one_lt_two, hn⟩)).mpr h).symm
  · rfl

/-- Newton's iteration of `isqrt` computes `Nat.sqrt`. -/
theorem isqrt_eq (n : ℕ) : isqrt n = Nat.sqrt n := by
  unfold isqrt
  simp only []
  split_ifs with h
  · exact Nat.eq_sqrt.mpr h
  · rfl

namespace UnscentedKalmanFilter

open Double

/-- In binary64 arithmetic the scenario of a prediction followed by an observation stays
within rounding of the exact one: from the belief (0, 1), `Predict` with the identity
transition and the process noise (0, 1) gives the belief (0, 2), and then `Observe` with
`h(x) = x` and the measurement noise (0, 1) gives the mean 0 and the covariance
0.6666666666666656, next to `2 / 3`. -/
theorem scenario_in_binary64 :
    Except.map GetBelief
        ((create ⟨0, 1⟩).Predict oneByOneSolver (fun x => x) ⟨0, 1⟩) = .ok ⟨0, 2⟩ ∧
      Except.map GetBelief
        ((create ⟨0, 2⟩).Observe oneByOneSolver (fun x => x) ⟨0, 1⟩) =
        .ok ⟨0, 0.6666666666666656⟩ := by
  decide!

/-- In binary64 arithmetic, for `N = K = 1`, `Observe` with the constant observation
function 0 and the measurement noise of mean 0 and covariance 0 has the innovation
covariance `S = 0`: `1 / S` is infinite, `new_sigma` is NaN and `CheckSymmetric(new_sigma)`
fails. -/
theorem Observe_fails_on_zero_innovation :
    Except.map GetBelief
        ((create ⟨3, 1⟩).Observe oneByOneSolver (fun _ => 0) ⟨0, 0⟩) =
      .error Failure.SymmetryCheckFailed := by
  decide!

/-- Counterexample to C2: in binary64 arithmetic, for `N = 1`, from the belief with mean
`1e13` and covariance 1, which is symmetric positive semidefinite, `Predict` with the
identity transition, the default delta operators and the process noise of zero mean and
zero covariance completes, keeps the mean and replaces the covariance 1 by
3.814697265515306: the sigma points `1e13 ± √(N+λ)·1` are rounded to `1e13 ± 2⁻⁹`. -/
theorem predict_identity_changes_covariance :
    Except.map GetBelief
        ((create ⟨1e13, 1⟩).Predict oneByOneSolver (fun x => x) ⟨0, 0⟩) =
      .ok ⟨1e13, 3.814697265515306⟩ := by
  decide!

/-- Counterexample to C3: in binary64 arithmetic, for `N = 1`, mean `μ = 1e13` and
covariance `Σ = 1` with `MatrixSqrt(Σ) = 1`, the sigma points that `Predict` builds with
the default `add_delta` and no transition are `1e13`, `1e13 + 2⁻⁹` and `1e13 − 2⁻⁹`; the
weighted sum of the `Xⱼ − μ` is 0, but the weighted sum of their outer products is
3.814697265515306, not `Σ = 1`. -/
theorem sigma_points_miss_covariance :
    MatrixSqrt oneByOneSolver 1 = .ok 1 ∧
      (create ⟨1e13, 1⟩).PredictY (fun x => x) 1e13 1 =
        [1e13, 10000000000000.001953125, 9999999999999.998046875] ∧
      kMeanWeight0 * ((1e13 : Double) - 1e13) +
          kMeanWeightI * ((10000000000000.001953125 : Double) - 1e13) +
          kMeanWeightI * ((9999999999999.998046875 : Double) - 1e13) = 0 ∧
      kCovWeight0 * OuterProduct ((1e13 : Double) - 1e13) +
          kCovWeightI * OuterProduct ((10000000000000.001953125 : Double) - 1e13) +
          kCovWeightI * OuterProduct ((9999999999999.998046875 : Double) - 1e13) =
        3.814697265515306 := by
  decide!

/-- Counterexample to C6: in binary64 arithmetic, for `N = 1`, from the belief with mean
0 and covariance `4e307`, `Predict` with the identity transition, the default delta
operators and the process noise of mean 0 and covariance `1.5e308` completes: the checked
`new_sigma` is `4e307`, and the sum `new_sigma + 1.5e308`, which is stored without a
check, overflows.  The new covariance Σ is `+∞`, `‖Σ − Σᵗ‖` is NaN, which is not below
`1e-5`, and `CheckSymmetric(Σ)` fails. -/
theorem predict_stores_unchecked_covariance :
    Except.map GetBelief
        ((create ⟨0, 4e307⟩).Predict oneByOneSolver (fun x => x) ⟨0, 1.5e308⟩) =
      .ok ⟨0, infinite false⟩ ∧
      norm (infinite false - infinite false) = nan ∧
      ¬ norm (infinite false - infinite false) < 1e-5 ∧
      CheckSymmetric (infinite false) = .error Failure.SymmetryCheckFailed := by
  decide!

/-- Counterexample to C14: in binary64 arithmetic, for `N = 1`, from the belief with
mean `1e13` and covariance `Σ₀₀ = 1`, `Observe` with `h(x) = x[0]`, the default delta
operators and the measurement noise of mean 0 and variance `r = 0.25` completes with the
posterior variance 0.06150519550889744, not `Σ₀₀·r/(Σ₀₀ + r) = 0.2`. -/
theorem observe_variance_off_the_formula :
    Except.map GetBelief
        ((create ⟨1e13, 1⟩).Observe oneByOneSolver (fun x => x) ⟨0, 0.25⟩) =
      .ok ⟨5194906600936.469, 0.06150519550889744⟩ ∧
      (1 : Double) * 0.25 / (1 + 0.25) = 0.2 := by
  decide!

/-- Counterexample to C30: in binary64 arithmetic, for `N = 1` and the default delta
operators, on the states `[0, 1e303, -1.7e303]` the weighted error at `states[0]` is
`(+∞) + (−∞)`, a NaN; the loop condition `NaN > 1e-9` is false and `ComputeMean` returns
`states[0] = 0`, whose weighted error has the norm NaN, which is not at most `1e-9`. -/
theorem ComputeMean_returns_with_nan_error :
    (create ⟨0, 1⟩).ComputeMean [0, 1e303, -1.7e303] = .ok 0 ∧
      (create ⟨0, 1⟩).ComputeWeightedError 0 [0, 1e303, -1.7e303] = nan ∧
      norm ((create ⟨0, 1⟩).ComputeWeightedError 0 [0, 1e303, -1.7e303]) = nan ∧
      ¬ norm ((create ⟨0, 1⟩).ComputeWeightedError 0 [0, 1e303, -1.7e303]) ≤ 1e-9 := by
  decide!

/-- Counterexample to C32: in binary64 arithmetic, for `N = 1` and the default delta
operators, on the states `[0, 0.1, -0.8]` the weights do not sum to 1 and `ComputeMean`
fails.  The first outer iteration accepts the candidate of step size 1, the weighted sum
`m = -349999.99998993555`, whose weighted error is `-2⁻¹⁵` and not 0; in the second outer
iteration none of the ten candidates has a smaller error, and the line search fails with
the step-size error. -/
theorem ComputeMean_default_delta_fails :
    (create ⟨0, 1⟩).ComputeWeightedError 0 [0, 0.1, -0.8] = -349999.99998993555 ∧
      (create ⟨0, 1⟩).lineSearch [0, 0.1, -0.8] 0 (-349999.99998993555) 10 1 =
        .ok (-349999.99998993555, -3.0517578125e-05) ∧
      norm (-3.0517578125e-05) > 1e-9 ∧
      (create ⟨0, 1⟩).lineSearch [0, 0.1, -0.8] (-349999.99998993555)
        (-3.0517578125e-05) 10 1 = .error Failure.StepSizeTooSmall ∧
      (create ⟨0, 1⟩).ComputeMean [0, 0.1, -0.8] = .error Failure.StepSizeTooSmall := by
  decide!

/-- Counterexample to C34: in binary64 arithmetic, for `N = 1`, the affine transition
`g(x) = 1·x + 0`, the default delta operators, the belief `(μ, Σ) = (1e13, 1)` and the
process noise with `m_ε = 0` and `Q = 0`, `Predict` completes with the mean `1e13` and
the covariance 3.814697265515306, not `A·Σ·Aᵗ + Q = 1`. -/
theorem predict_affine_off_the_linear_prediction :
    Except.map GetBelief
        ((create ⟨1e13, 1⟩).Predict oneByOneSolver (fun x => 1 * x + 0) ⟨0, 0⟩) =
      .ok ⟨1e13, 3.814697265515306⟩ ∧
      (1 : Double) * 1 * 1 + 0 = 1 := by
  decide!

end UnscentedKalmanFilter

end binary64

end kalman_filter

end cartographer
